import Mathlib

/-!
# Sample kernels and real-time poll loop of the audio server

A shallow embedding of `polyp/sample-util.c` (silence, mix, in-place volume)
and of `pulsecore/rtpoll.c` (the priority-ordered poll loop), with the
properties of the specification stated and proved over it.

Conventions of the embedding
* memory is a total map from addresses to bytes; a pointer is an address;
* a C `assert` that fails, and `abort()`, make the function return `none`;
* `int32_t` arithmetic is carried out in `Int` and wrapped to 32 bits after
  every operation that can leave the range;
* constants and switches that live in headers which are not among the sources
  are parameters (`Build`).
-/

namespace PA

/-! ## Bytes and memory -/

/-- One octet of memory. -/
abbrev Byte := Fin 256

/-- Memory seen through a pointer: address to byte. -/
abbrev Mem := Nat → Byte

/-- The C conversion to `uint8_t`. -/
def toByte (x : Int) : Byte := ⟨(x % 256).toNat, by omega⟩

/-- A single byte store `p[a] = b`. -/
def Mem.write (m : Mem) (a : Nat) (b : Byte) : Mem :=
  fun x => if x = a then b else m x

/-- The effect of `memset(p + off, c, len)`. -/
def memset (m : Mem) (off : Nat) (c : Byte) (len : Nat) : Mem :=
  fun x => if off ≤ x ∧ x < off + len then c else m x

/-! ## Data model of `sample.h`, `volume.h`, `memblock.h`, `memchunk.h` -/

/-- Modelled from the spec: the sample format enumeration of `sample.h`, a
header that is not among the sources. These are the formats the kernels name;
`PA_SAMPLE_FLOAT32` is the native-endian float format. -/
inductive pa_sample_format
  | U8
  | ALAW
  | ULAW
  | S16LE
  | S16BE
  | FLOAT32
  deriving DecidableEq, Repr

/-- Constants and build switches taken from headers that are not among the
sources: the unit volume `PA_VOLUME_NORM` (a plain `int` constant, so that
dividing by it is C's signed division) and the byte order of the target. -/
structure Build where
  PA_VOLUME_NORM : Nat
  WORDS_BIGENDIAN : Bool

/-- Modelled from the spec: `MUTED = 0` (the macro lives in `volume.h`). -/
def PA_VOLUME_MUTED : Nat := 0

/-- The macro `PA_SAMPLE_S16NE`: native endian resolved at build time. -/
def PA_SAMPLE_S16NE (B : Build) : pa_sample_format :=
  if B.WORDS_BIGENDIAN then .S16BE else .S16LE

/-- The macro `PA_SAMPLE_FLOAT32NE`. -/
def PA_SAMPLE_FLOAT32NE : pa_sample_format := .FLOAT32

/-- The `struct pa_sample_spec`. -/
structure pa_sample_spec where
  format : pa_sample_format
  rate : Nat
  channels : Nat

/-- The `struct pa_cvolume`: a channel count and the array `values[]`. -/
structure pa_cvolume where
  channels : Nat
  values : Nat → Nat

/-- The `struct pa_memblock` as far as the kernels look at it. -/
structure pa_memblock where
  data : Mem
  length : Nat

/-- The `struct pa_memchunk`: a window `[index, index + length)` of a block. -/
structure pa_memchunk where
  memblock : pa_memblock
  index : Nat
  length : Nat

/-- The `struct pa_mix_info`: one input stream of a mix. -/
structure pa_mix_info where
  chunk : pa_memchunk
  volume : pa_cvolume

/-- Modelled from the spec: `pa_sample_size` of `sample.c` (not among the
sources), the fixed byte size of one sample of a format. -/
def pa_sample_size (f : pa_sample_format) : Nat :=
  match f with
  | .U8 => 1
  | .ALAW => 1
  | .ULAW => 1
  | .S16LE => 2
  | .S16BE => 2
  | .FLOAT32 => 4

/-- Modelled from the spec: `pa_frame_size` of `sample.c` (not among the
sources): frame size = format size × channels. -/
def pa_frame_size (spec : pa_sample_spec) : Nat :=
  pa_sample_size spec.format * spec.channels

/-- Modelled from the spec: `pa_cvolume_channels_equal_to` of `volume.c` (not
among the sources): every one of the first `channels` entries equals `v`. -/
def pa_cvolume_channels_equal_to (a : pa_cvolume) (channels : Nat) (v : Nat) : Bool :=
  (List.range channels).all (fun c => a.values c == v)

/-! ## Silence -/

/-- The `switch` of `pa_silence_memory`: the fill byte of a format. Every
format of the enumeration has a case, so `default: assert(0)` is not reached. -/
def silence_byte (f : pa_sample_format) : Byte :=
  match f with
  | .U8 => 0x80
  | .S16LE => 0
  | .S16BE => 0
  | .FLOAT32 => 0
  | .ALAW => 80
  | .ULAW => 80

/-- The function `pa_silence_memory(p, length, spec)`; `p` is address `off`
of `m`. -/
def pa_silence_memory (m : Mem) (off : Nat) (length : Nat) (spec : pa_sample_spec) :
    Option Mem :=
  if length = 0 then none
  else some (memset m off (silence_byte spec.format) length)

/-- The function `pa_silence_memchunk(c, spec)`; the result is the chunk with
the new contents of its block. -/
def pa_silence_memchunk (c : pa_memchunk) (spec : pa_sample_spec) : Option pa_memchunk :=
  if c.length = 0 then none
  else
    match pa_silence_memory c.memblock.data c.index c.length spec with
    | none => none
    | some m => some { c with memblock := { c.memblock with data := m } }

/-- The function `pa_silence_memblock(b, spec)`. -/
def pa_silence_memblock (b : pa_memblock) (spec : pa_sample_spec) : Option pa_memblock :=
  match pa_silence_memory b.data 0 b.length spec with
  | none => none
  | some m => some { b with data := m }

/-! ## Machine integers -/

/-- The value of an `int32_t` after an operation whose exact result is `x`
(two's complement wrap). -/
def wrap32 (x : Int) : Int := (x + 2147483648) % 4294967296 - 2147483648

/-- The exact result `x` is representable in an `int32_t`. -/
def fits32 (x : Int) : Prop := -2147483648 ≤ x ∧ x ≤ 2147483647

instance (x : Int) : Decidable (fits32 x) := by unfold fits32; infer_instance

/-- The value of the 16-bit pattern `u` read as an `int16_t`. -/
def toS16 (u : Nat) : Int := if u < 32768 then (u : Int) else (u : Int) - 65536

/-- The load `*((int16_t*) (p + a))` in the byte order of the build. -/
def load_s16 (be : Bool) (m : Mem) (a : Nat) : Int :=
  if be then toS16 ((m a).val * 256 + (m (a + 1)).val)
  else toS16 ((m a).val + (m (a + 1)).val * 256)

/-- The store `*((int16_t*) (p + a)) = v` in the byte order of the build. -/
def store_s16 (be : Bool) (m : Mem) (a : Nat) (v : Int) : Mem :=
  let u : Int := v % 65536
  if be then (m.write a (toByte (u / 256))).write (a + 1) (toByte u)
  else (m.write a (toByte u)).write (a + 1) (toByte (u / 256))

/-! ## IEEE-754 binary32

A `float` is represented by its 32-bit pattern. Finite magnitudes are counted
in units of `2^-149`, which makes every finite `float` an integer; results are
rounded to nearest, ties to even. `float_t` is `float` (`FLT_EVAL_METHOD` 0);
an invalid operation yields the default quiet NaN, a NaN operand is returned
quieted. -/

namespace F32

/-- The sign bit. -/
def sign (x : Nat) : Bool := decide (x / 2147483648 % 2 = 1)

/-- The biased exponent field. -/
def expo (x : Nat) : Nat := x / 8388608 % 256

/-- The fraction field. -/
def frac (x : Nat) : Nat := x % 8388608

/-- Not a number. -/
def isNaN (x : Nat) : Bool := expo x == 255 && frac x != 0

/-- Plus or minus infinity. -/
def isInf (x : Nat) : Bool := expo x == 255 && frac x == 0

/-- Plus or minus zero. -/
def isZero (x : Nat) : Bool := expo x == 0 && frac x == 0

/-- The magnitude in units of `2^-149` (for an infinity: a value above every
finite magnitude). -/
def mag (x : Nat) : Nat :=
  if expo x = 0 then frac x else (8388608 + frac x) * 2 ^ (expo x - 1)

/-- The signed value in units of `2^-149`. -/
def val (x : Nat) : Int := if sign x then - (mag x : Int) else (mag x : Int)

/-- Rounding of the non-negative rational `n / d` (in units of `2^-149`) to
the magnitude bits of the nearest `float`, searching the binade from `k`
upwards; beyond the last binade the result is infinity. -/
def roundAt (n d : Nat) : Nat → Nat → Nat
  | 0, _ => 0x7F800000
  | fuel + 1, k =>
    if n < 2 ^ (24 + k) * d then
      let D := d * 2 ^ k
      let q := n / D
      let r := n % D
      let q' := if 2 * r > D ∨ (2 * r = D ∧ q % 2 = 1) then q + 1 else q
      min (k * 8388608 + q') 0x7F800000
    else roundAt n d fuel (k + 1)

/-- Round to nearest even over all 254 binades. -/
def roundMag (n d : Nat) : Nat := roundAt n d 254 0

/-- Sign and magnitude bits put together. -/
def pack (s : Bool) (m : Nat) : Nat := (if s then 2147483648 else 0) + m

/-- The NaN `x` with its quiet bit set. -/
def quiet (x : Nat) : Nat := if x / 4194304 % 2 = 1 then x else x + 4194304

/-- The NaN produced by an invalid operation. -/
def defaultNaN : Nat := 0xFFC00000

/-- The sum `x + y`. -/
def add (x y : Nat) : Nat :=
  if isNaN x then quiet x
  else if isNaN y then quiet y
  else if isInf x && isInf y && (sign x != sign y) then defaultNaN
  else if isInf x then x
  else if isInf y then y
  else
    let s := val x + val y
    if s = 0 then pack (sign x && sign y) 0
    else pack (decide (s < 0)) (roundMag s.natAbs 1)

/-- The product `x * y`. -/
def mul (x y : Nat) : Nat :=
  if isNaN x then quiet x
  else if isNaN y then quiet y
  else if (isInf x && isZero y) || (isZero x && isInf y) then defaultNaN
  else if isInf x || isInf y then pack (sign x != sign y) 0x7F800000
  else pack (sign x != sign y) (roundMag (mag x * mag y) (2 ^ 149))

/-- The quotient `x / y`. -/
def div (x y : Nat) : Nat :=
  if isNaN x then quiet x
  else if isNaN y then quiet y
  else if (isInf x && isInf y) || (isZero x && isZero y) then defaultNaN
  else if isInf x || isZero y then pack (sign x != sign y) 0x7F800000
  else if isInf y then pack (sign x != sign y) 0
  else pack (sign x != sign y) (roundMag (mag x * 2 ^ 149) (mag y))

/-- The conversion of an unsigned integer to `float`. -/
def ofNat (n : Nat) : Nat := roundMag (n * 2 ^ 149) 1

/-- The comparison `x < y`. -/
def lt (x y : Nat) : Bool := !isNaN x && !isNaN y && decide (val x < val y)

/-- The constant `1`. -/
def one : Nat := 0x3F800000

/-- The constant `-1`. -/
def negOne : Nat := 0xBF800000

end F32

/-- The load `*((float*) (p + a))` in the byte order of the build. -/
def load_f32 (be : Bool) (m : Mem) (a : Nat) : Nat :=
  if be then
    (m a).val * 16777216 + (m (a + 1)).val * 65536 + (m (a + 2)).val * 256 + (m (a + 3)).val
  else
    (m a).val + (m (a + 1)).val * 256 + (m (a + 2)).val * 65536 + (m (a + 3)).val * 16777216

/-- The store `*((float*) (p + a)) = x` in the byte order of the build. -/
def store_f32 (be : Bool) (m : Mem) (a : Nat) (x : Nat) : Mem :=
  let b0 : Byte := toByte (x : Int)
  let b1 : Byte := toByte ((x / 256 : Nat) : Int)
  let b2 : Byte := toByte ((x / 65536 : Nat) : Int)
  let b3 : Byte := toByte ((x / 16777216 : Nat) : Int)
  if be then (((m.write a b3).write (a + 1) b2).write (a + 2) b1).write (a + 3) b0
  else (((m.write a b0).write (a + 1) b1).write (a + 2) b2).write (a + 3) b3

/-! ## The per-format operations of the kernels

`pa_mix` and `pa_volume_memchunk` repeat one loop for each of S16NE, U8 and
FLOAT32NE; the copies differ only in the sample size, in how a sample is
loaded and stored, in the arithmetic and in the saturation bounds. The
embedding states the loop once over these operations. -/

/-- What distinguishes the per-format copies of a kernel loop. -/
structure SampleOps (α : Type) where
  /-- the step `sizeof(sample)` -/
  size : Nat
  /-- the literal `0` -/
  zero : α
  /-- the load of the sample at an address -/
  load : Mem → Nat → α
  /-- `v *= cvolume; v /= PA_VOLUME_NORM` -/
  scale : α → Nat → α
  /-- `sum += v` -/
  add : α → α → α
  /-- the two saturation tests -/
  clamp : α → α
  /-- the store of a sample at an address -/
  store : Mem → Nat → α → Mem

/-- The S16NE branch: `int32_t` arithmetic on `int16_t` samples. -/
def s16ne_ops (B : Build) : SampleOps Int where
  size := 2
  zero := 0
  load := load_s16 B.WORDS_BIGENDIAN
  scale := fun v cvolume => (wrap32 (v * (cvolume : Int))).tdiv (B.PA_VOLUME_NORM : Int)
  add := fun sum v => wrap32 (sum + v)
  clamp := fun sum =>
    let sum := if sum < -0x8000 then -0x8000 else sum
    if sum > 0x7FFF then 0x7FFF else sum
  store := store_s16 B.WORDS_BIGENDIAN

/-- The U8 branch: `int32_t` arithmetic on samples biased by `0x80`. -/
def u8_ops (B : Build) : SampleOps Int where
  size := 1
  zero := 0
  load := fun m a => ((m a).val : Int) - 0x80
  scale := fun v cvolume => (wrap32 (v * (cvolume : Int))).tdiv (B.PA_VOLUME_NORM : Int)
  add := fun sum v => wrap32 (sum + v)
  clamp := fun sum =>
    let sum := if sum < -0x80 then -0x80 else sum
    if sum > 0x7F then 0x7F else sum
  store := fun m a sum => m.write a (toByte (sum + 0x80))

/-- The FLOAT32NE branch: `float` arithmetic. -/
def float32ne_ops (B : Build) : SampleOps Nat where
  size := 4
  zero := 0
  load := load_f32 B.WORDS_BIGENDIAN
  scale := fun v cvolume => F32.div (F32.mul v (F32.ofNat cvolume)) (F32.ofNat B.PA_VOLUME_NORM)
  add := F32.add
  clamp := fun sum =>
    let sum := if F32.lt sum F32.negOne then F32.negOne else sum
    if F32.lt F32.one sum then F32.one else sum
  store := store_f32 B.WORDS_BIGENDIAN

/-! ## Mixing -/

/-- The body of the inner loop of `pa_mix` past the length test: the
contribution of stream `s` to the sample at byte offset `d`. -/
def mix_stream_value {α : Type} (K : SampleOps α) (NORM : Nat) (d channel : Nat)
    (s : pa_mix_info) : α :=
  let cvolume := s.volume.values channel
  if cvolume = PA_VOLUME_MUTED then K.zero
  else
    let v := K.load s.chunk.memblock.data (s.chunk.index + d)
    if cvolume ≠ NORM then K.scale v cvolume else v

/-- The inner `for (i = 0; i < nstreams; i++)` of `pa_mix` at byte offset `d`:
`none` is the `return d` taken when a stream has no sample left at `d`,
`some sum` the accumulated sum. -/
def mix_streams {α : Type} (K : SampleOps α) (NORM : Nat) (d channel : Nat) :
    List pa_mix_info → α → Option α
  | [], sum => some sum
  | s :: rest, sum =>
    if d ≥ s.chunk.length then none
    else mix_streams K NORM d channel rest (K.add sum (mix_stream_value K NORM d channel s))

/-- The master volume applied to the sum of one sample. In the source the
parameter `volume` is declared as a pointer to `pa_cvolume`, but every branch
compares it with the volume constants and multiplies by it as one
`pa_volume_t` (`volume == PA_VOLUME_MUTED`, `sum *= volume`) and never reads
`volume->values[channel]`; the embedding follows the body, so the master
volume is one value for all channels. -/
def mix_master {α : Type} (K : SampleOps α) (NORM : Nat) (volume : Nat) (sum : α) : α :=
  if volume = PA_VOLUME_MUTED then K.zero
  else if volume ≠ NORM then K.scale sum volume
  else sum

/-- The outer `for (d = 0;; d += sizeof(sample))` of `pa_mix`. The destination
pointer `data` advances in step with `d`, so the sample is stored at address
`d` of the destination. The result is the returned offset and the destination
memory; `none` only when the iteration budget `fuel` is used up. -/
def pa_mix_loop {α : Type} (K : SampleOps α) (NORM : Nat) (streams : List pa_mix_info)
    (length channels volume : Nat) : Nat → Nat → Nat → Mem → Option (Nat × Mem)
  | 0, _, _, _ => none
  | fuel + 1, d, channel, data =>
    if d ≥ length then some (d, data)
    else
      match mix_streams K NORM d channel streams K.zero with
      | none => some (d, data)
      | some sum =>
        let sum := mix_master K NORM volume sum
        let sum := K.clamp sum
        let data := K.store data d sum
        let channel := if channel + 1 ≥ channels then 0 else channel + 1
        pa_mix_loop K NORM streams length channels volume fuel (d + K.size) channel data

/-- The function `pa_mix(streams, nstreams, data, length, spec, volume)`:
the returned byte count and the destination memory. -/
def pa_mix (B : Build) (streams : List pa_mix_info) (data : Mem) (length : Nat)
    (spec : pa_sample_spec) (volume : Nat) : Option (Nat × Mem) :=
  if length = 0 then none
  else if spec.format = PA_SAMPLE_S16NE B then
    pa_mix_loop (s16ne_ops B) B.PA_VOLUME_NORM streams length spec.channels volume
      (length + 1) 0 0 data
  else if spec.format = .U8 then
    pa_mix_loop (u8_ops B) B.PA_VOLUME_NORM streams length spec.channels volume
      (length + 1) 0 0 data
  else if spec.format = PA_SAMPLE_FLOAT32NE then
    pa_mix_loop (float32ne_ops B) B.PA_VOLUME_NORM streams length spec.channels volume
      (length + 1) 0 0 data
  else none

/-! ## In-place volume -/

/-- The sample loop of the format blocks of `pa_volume_memchunk`, `n` samples
from address `d` on, with the channel counter under the name `channel`. In the
source the counter is declared as `unsigned c = 0;`, which hides the chunk
parameter `c` inside the block: the loop header (`c->memblock->data`,
`c->index`, `c->length`) then names the counter, is ill-typed, and the source
cannot be built as it stands. This definition is the loop as the design notes
of the specification give it to be intended (the counter renamed, the channel
rotating once per sample); it is not a behaviour of the source as written. -/
def volume_loop {α : Type} (K : SampleOps α) (volume : pa_cvolume) (channels : Nat) :
    Nat → Nat → Nat → Mem → Mem
  | 0, _, _, m => m
  | n + 1, d, channel, m =>
    let t := K.load m d
    let t := K.scale t (volume.values channel)
    let t := K.clamp t
    let m := K.store m d t
    let channel := if channel + 1 ≥ channels then 0 else channel + 1
    volume_loop K volume channels n (d + K.size) channel m

/-- The function `pa_volume_memchunk(c, spec, volume)`; the result is the
chunk with the new contents of its block. A frame size of zero makes the
asserted remainder a division by zero. The assertion and the two fast paths
are those of the source; the three format blocks are given by `volume_loop`,
which is the intended loop and not the source as written (see there). -/
def pa_volume_memchunk (B : Build) (c : pa_memchunk) (spec : pa_sample_spec)
    (volume : pa_cvolume) : Option pa_memchunk :=
  if pa_frame_size spec = 0 then none
  else if c.length % pa_frame_size spec ≠ 0 then none
  else if pa_cvolume_channels_equal_to volume spec.channels B.PA_VOLUME_NORM then some c
  else if pa_cvolume_channels_equal_to volume spec.channels PA_VOLUME_MUTED then
    pa_silence_memchunk c spec
  else if spec.format = PA_SAMPLE_S16NE B then
    some { c with memblock := { c.memblock with
      data := volume_loop (s16ne_ops B) volume spec.channels (c.length / 2) c.index 0
        c.memblock.data } }
  else if spec.format = .U8 then
    some { c with memblock := { c.memblock with
      data := volume_loop (u8_ops B) volume spec.channels c.length c.index 0
        c.memblock.data } }
  else if spec.format = PA_SAMPLE_FLOAT32NE then
    some { c with memblock := { c.memblock with
      data := volume_loop (float32ne_ops B) volume spec.channels (c.length / 4) c.index 0
        c.memblock.data } }
  else none

/-! ## Closed forms and concrete inputs used by the statements -/

/-- What the kernel loops need of a store and a load: the store touches the
`size` bytes of the sample and nothing else, what it leaves there does not
depend on the old contents, and the load looks at these bytes only. -/
structure SampleOps.Lawful {α : Type} (K : SampleOps α) : Prop where
  size_pos : 0 < K.size
  store_frame : ∀ (m : Mem) (a : Nat) (v : α) (x : Nat),
    x < a ∨ a + K.size ≤ x → K.store m a v x = m x
  store_own : ∀ (m m' : Mem) (a : Nat) (v : α) (x : Nat),
    a ≤ x → x < a + K.size → K.store m a v x = K.store m' a v x
  load_local : ∀ (m m' : Mem) (a : Nat),
    (∀ x, a ≤ x → x < a + K.size → m x = m' x) → K.load m a = K.load m' a

/-- The value min(length, min over the streams of chunk.length). -/
def mix_length (streams : List pa_mix_info) (length : Nat) : Nat :=
  streams.foldr (fun s m => min s.chunk.length m) length

/-- The channel counter of the kernel loops after `k` samples. -/
def channel_at (channels : Nat) : Nat → Nat
  | 0 => 0
  | k + 1 => if channel_at channels k + 1 ≥ channels then 0 else channel_at channels k + 1

/-- The accumulated sum of the inner loop when no stream has run out. -/
def mix_sum {α : Type} (K : SampleOps α) (NORM : Nat) (d channel : Nat)
    (streams : List pa_mix_info) (sum : α) : α :=
  streams.foldl (fun acc s => K.add acc (mix_stream_value K NORM d channel s)) sum

/-- The sample that the `k`-th iteration of the outer loop stores. -/
def mix_out {α : Type} (K : SampleOps α) (NORM : Nat) (streams : List pa_mix_info)
    (channels volume : Nat) (k : Nat) : α :=
  K.clamp (mix_master K NORM volume
    (mix_sum K NORM (k * K.size) (channel_at channels k) streams K.zero))

/-- The destination after the iterations `j, …, n - 1` of the outer loop. -/
def mix_image {α : Type} (K : SampleOps α) (NORM : Nat) (streams : List pa_mix_info)
    (channels volume : Nat) (j n : Nat) (data : Mem) : Mem :=
  fun a =>
    if j * K.size ≤ a ∧ a < n * K.size then
      K.store data (a / K.size * K.size) (mix_out K NORM streams channels volume (a / K.size)) a
    else data a


/-- The number of sample positions that start below byte `M`. -/
def mix_count (size M : Nat) : Nat := (M + size - 1) / size

/-- A build with unit volume `0x10000` on a little-endian target. -/
def ex_build : Build := ⟨0x10000, false⟩

/-- The memory that holds the listed bytes from address 0 and zero beyond. -/
def ex_mem (l : List Nat) : Mem := fun a => toByte ((l.getD a 0 : Nat) : Int)

/-- A stream over the listed bytes with the listed channel volumes. -/
def ex_stream (bytes : List Nat) (vols : List Nat) : pa_mix_info :=
  { chunk := { memblock := { data := ex_mem bytes, length := bytes.length },
               index := 0, length := bytes.length },
    volume := { channels := vols.length, values := fun c => vols.getD c 0 } }

/-- Saturation of `x` to the range `[lo, hi]`. -/
def saturate (lo hi x : Int) : Int := if x < lo then lo else if x > hi then hi else x

/-- The volume rule of the specification: MUTED gives 0, NORM gives the
value itself, any other volume `x * v / NORM` truncated toward zero. -/
def vol_scale (NORM v : Nat) (x : Int) : Int :=
  if v = PA_VOLUME_MUTED then 0
  else if v = NORM then x
  else (x * (v : Int)).tdiv (NORM : Int)

/-- Sample `k` of the chunk of a stream, read as S16NE. -/
def stream_sample_s16 (B : Build) (s : pa_mix_info) (k : Nat) : Int :=
  load_s16 B.WORDS_BIGENDIAN s.chunk.memblock.data (s.chunk.index + 2 * k)

/-- Sample `k` of the chunk of a stream, read as U8 with the bias removed. -/
def stream_sample_u8 (s : pa_mix_info) (k : Nat) : Int :=
  ((s.chunk.memblock.data (s.chunk.index + k)).val : Int) - 0x80

/-- What meets at output sample `k` of an S16NE mix: for every stream its
volume on channel `k mod channels` and its sample `k`. -/
def s16_inputs (B : Build) (streams : List pa_mix_info) (channels k : Nat) :
    List (Nat × Int) :=
  streams.map (fun s => (s.volume.values (k % channels), stream_sample_s16 B s k))

/-- The sum over the streams of the scaled samples. -/
def scaled_sum (NORM : Nat) (inputs : List (Nat × Int)) : Int :=
  (inputs.map (fun p => vol_scale NORM p.1 p.2)).sum

/-- No intermediate result of the computation of one output sample leaves the
range of `int32_t`: neither a product of a sample with a stream volume, nor a
partial sum, nor the product of the sum with the master volume. -/
def mix_fits32 (NORM volume : Nat) (inputs : List (Nat × Int)) : Prop :=
  (∀ p ∈ inputs, p.1 ≠ PA_VOLUME_MUTED → p.1 ≠ NORM → fits32 (p.2 * (p.1 : Int))) ∧
  (∀ n, n ≤ inputs.length → fits32 (scaled_sum NORM (inputs.take n))) ∧
  (volume ≠ PA_VOLUME_MUTED → volume ≠ NORM →
    fits32 (scaled_sum NORM inputs * (volume : Int)))

/-- The output sample of the specification: the scaled sum, scaled by the
master volume and saturated to 16 bits. -/
def mix_exact (NORM volume : Nat) (inputs : List (Nat × Int)) : Int :=
  saturate (-0x8000) 0x7FFF (vol_scale NORM volume (scaled_sum NORM inputs))

/-- The sample that iteration `i` of the loop of `pa_volume_memchunk` stores
when the loop starts at address `d` with the channel counter of sample `j`. -/
def volume_out {α : Type} (K : SampleOps α) (volume : pa_cvolume) (channels : Nat)
    (m : Mem) (d j i : Nat) : α :=
  K.clamp (K.scale (K.load m (d + i * K.size)) (volume.values (channel_at channels (j + i))))

/-- The memory after `n` iterations of the loop of `pa_volume_memchunk`. -/
def volume_image {α : Type} (K : SampleOps α) (volume : pa_cvolume) (channels : Nat)
    (n d j : Nat) (m : Mem) : Mem :=
  fun a =>
    if d ≤ a ∧ a < d + n * K.size then
      K.store m (d + (a - d) / K.size * K.size)
        (volume_out K volume channels m d j ((a - d) / K.size)) a
    else m a

instance (NORM volume : Nat) (inputs : List (Nat × Int)) :
    Decidable (mix_fits32 NORM volume inputs) := by
  unfold mix_fits32; infer_instance

/-! ## The real-time poll loop (`pulsecore/rtpoll.c`)

The items of an rtpoll form a list; the `next`/`prev` links of an item are its
position in that list. An item is identified by its address `id`. A callback
is a function pointer, called through the environment `Env`, which also holds
the clock and the `poll` system call. What a callback does to the rtpoll it
does through the API, so a callback returns, besides its `int`, the API calls
it made (`Action`). The events of a run are recorded in a trace. -/

/-- The `struct pollfd`. -/
structure pollfd where
  fd : Int
  events : Int
  revents : Int
  deriving DecidableEq, Repr

/-- The `struct pa_rtpoll_item`. The field `pollfd` is the offset of the slice
of the item inside the active array `p->pollfd`, `none` for `NULL`; a
callback is `none` for `NULL`. -/
structure pa_rtpoll_item where
  id : Nat
  dead : Bool
  priority : Int
  pollfd : Option Nat
  n_pollfd : Nat
  work_cb : Option Nat
  before_cb : Option Nat
  after_cb : Option Nat
  userdata : Nat
  deriving DecidableEq, Repr

/-- The `struct pa_rtpoll`. Modelled from the spec: `struct timeval` and the
`pa_timeval_*` helpers of `pulse/timeval.c` (not among the sources); a time is
a count of microseconds. The `unsigned` counts are natural numbers. -/
structure pa_rtpoll where
  pollfd : Nat → PA.pollfd
  pollfd2 : Nat → PA.pollfd
  n_pollfd_alloc : Nat
  n_pollfd_used : Nat
  next_elapse : Nat
  timer_enabled : Bool
  scan_for_dead : Bool
  running : Bool
  rebuild_needed : Bool
  quit : Bool
  timer_elapsed : Bool
  items : List pa_rtpoll_item

/-- The function `pa_rtpoll_new`. -/
def pa_rtpoll_new : pa_rtpoll :=
  { pollfd := fun _ => ⟨0, 0, 0⟩
    pollfd2 := fun _ => ⟨0, 0, 0⟩
    n_pollfd_alloc := 32
    n_pollfd_used := 0
    next_elapse := 0
    timer_enabled := false
    scan_for_dead := false
    running := false
    rebuild_needed := false
    quit := false
    timer_elapsed := false
    items := [] }

/-- The item loop of `rtpoll_rebuild`: every item gets its slice at the
running offset `e` of the scratch array `buf`, copied from its old slice in
`old` or zeroed; an item without descriptors gets `NULL`. -/
def rebuild_items (old : Nat → pollfd) :
    List pa_rtpoll_item → (Nat → pollfd) → Nat → List pa_rtpoll_item × (Nat → pollfd) × Nat
  | [], buf, e => ([], buf, e)
  | i :: rest, buf, e =>
    let buf' : Nat → pollfd :=
      if i.n_pollfd > 0 then
        match i.pollfd with
        | some off => fun x => if e ≤ x ∧ x < e + i.n_pollfd then old (off + (x - e)) else buf x
        | none => fun x => if e ≤ x ∧ x < e + i.n_pollfd then ⟨0, 0, 0⟩ else buf x
      else buf
    let i' : pa_rtpoll_item :=
      if i.n_pollfd > 0 then { i with pollfd := some e } else { i with pollfd := none }
    let r := rebuild_items old rest buf' (e + i.n_pollfd)
    (i' :: r.1, r.2.1, r.2.2)

/-- The function `rtpoll_rebuild`; `none` when its assertion fails. -/
def rtpoll_rebuild (p : pa_rtpoll) : Option pa_rtpoll :=
  let p := { p with rebuild_needed := false }
  let p :=
    if p.n_pollfd_used > p.n_pollfd_alloc then { p with n_pollfd_alloc := p.n_pollfd_used * 2 }
    else p
  let r := rebuild_items p.pollfd p.items p.pollfd2 0
  if r.2.2 = p.n_pollfd_used then
    some { p with items := r.1, pollfd := r.2.1, pollfd2 := p.pollfd }
  else none

/-- The function `rtpoll_item_destroy`. -/
def rtpoll_item_destroy (p : pa_rtpoll) (i : pa_rtpoll_item) : pa_rtpoll :=
  { p with
    items := p.items.erase i
    n_pollfd_used := p.n_pollfd_used - i.n_pollfd
    rebuild_needed := true }

/-- The search of `pa_rtpoll_item_new` for the place of a new item, and the
insertion: in front of the first item whose priority is not below `prio`. -/
def llist_insert (i : pa_rtpoll_item) : List pa_rtpoll_item → List pa_rtpoll_item
  | [] => [i]
  | j :: rest => if i.priority ≤ j.priority then i :: j :: rest else j :: llist_insert i rest

/-- The function `pa_rtpoll_item_new(p, prio, n_fds)`; `id` is the address
that the allocator hands out. -/
def pa_rtpoll_item_new (p : pa_rtpoll) (id : Nat) (prio : Int) (n_fds : Nat) : pa_rtpoll :=
  let i : pa_rtpoll_item :=
    { id := id, dead := false, priority := prio, pollfd := none, n_pollfd := n_fds,
      work_cb := none, before_cb := none, after_cb := none, userdata := 0 }
  let p := { p with items := llist_insert i p.items }
  if n_fds > 0 then { p with rebuild_needed := true, n_pollfd_used := p.n_pollfd_used + n_fds }
  else p

/-- The function `pa_rtpoll_item_free(i)` for the item at address `id`. -/
def pa_rtpoll_item_free (p : pa_rtpoll) (id : Nat) : pa_rtpoll :=
  if p.running then
    { p with
      items := p.items.map (fun i => if i.id = id then { i with dead := true } else i)
      scan_for_dead := true }
  else
    match p.items.find? (fun i => i.id = id) with
    | some i => rtpoll_item_destroy p i
    | none => p

/-- The function `pa_rtpoll_item_get_pollfd(i, n_fds)`: the rtpoll, the slice
of the item and its length. -/
def pa_rtpoll_item_get_pollfd (p : pa_rtpoll) (id : Nat) : Option (pa_rtpoll × Option Nat × Nat) :=
  match p.items.find? (fun i => i.id = id) with
  | none => none
  | some i =>
    let p' := if i.n_pollfd > 0 ∧ p.rebuild_needed then rtpoll_rebuild p else some p
    match p' with
    | none => none
    | some p' =>
      match p'.items.find? (fun j => j.id = id) with
      | none => none
      | some j => some (p', j.pollfd, j.n_pollfd)

/-- The setters of the three callbacks and of the user data; each callback
setter asserts that the priority is below `PA_RTPOLL_NEVER`. -/
def pa_rtpoll_item_set_callback (NEVER : Int) (p : pa_rtpoll) (id : Nat)
    (set : pa_rtpoll_item → pa_rtpoll_item) : Option pa_rtpoll :=
  match p.items.find? (fun i => i.id = id) with
  | none => none
  | some i =>
    if i.priority < NEVER then
      some { p with items := p.items.map (fun j => if j.id = id then set j else j) }
    else none

/-- The function `pa_rtpoll_item_set_work_callback`. -/
def pa_rtpoll_item_set_work_callback (NEVER : Int) (p : pa_rtpoll) (id : Nat)
    (work_cb : Option Nat) : Option pa_rtpoll :=
  pa_rtpoll_item_set_callback NEVER p id (fun j => { j with work_cb := work_cb })

/-- The function `pa_rtpoll_item_set_before_callback`. -/
def pa_rtpoll_item_set_before_callback (NEVER : Int) (p : pa_rtpoll) (id : Nat)
    (before_cb : Option Nat) : Option pa_rtpoll :=
  pa_rtpoll_item_set_callback NEVER p id (fun j => { j with before_cb := before_cb })

/-- The function `pa_rtpoll_item_set_after_callback`. -/
def pa_rtpoll_item_set_after_callback (NEVER : Int) (p : pa_rtpoll) (id : Nat)
    (after_cb : Option Nat) : Option pa_rtpoll :=
  pa_rtpoll_item_set_callback NEVER p id (fun j => { j with after_cb := after_cb })

/-- The function `pa_rtpoll_item_set_userdata`. -/
def pa_rtpoll_item_set_userdata (p : pa_rtpoll) (id : Nat) (userdata : Nat) : pa_rtpoll :=
  { p with items := p.items.map (fun j => if j.id = id then { j with userdata := userdata } else j) }

/-- The function `pa_rtpoll_set_timer_absolute`. -/
def pa_rtpoll_set_timer_absolute (p : pa_rtpoll) (usec : Nat) : pa_rtpoll :=
  { p with next_elapse := usec, timer_enabled := true }

/-- The function `pa_rtpoll_set_timer_relative`; `now` is what the clock
returns, and the assertion bounds `usec` by one hour. -/
def pa_rtpoll_set_timer_relative (p : pa_rtpoll) (now usec : Nat) : Option pa_rtpoll :=
  if usec ≤ 1000000 * 60 * 60 then
    some { p with next_elapse := now + usec, timer_enabled := true }
  else none

/-- The function `pa_rtpoll_set_timer_disabled`. -/
def pa_rtpoll_set_timer_disabled (p : pa_rtpoll) : pa_rtpoll :=
  { p with next_elapse := 0, timer_enabled := false }

/-- The function `pa_rtpoll_quit`. -/
def pa_rtpoll_quit (p : pa_rtpoll) : pa_rtpoll := { p with quit := true }

/-- The function `pa_rtpoll_timer_elapsed`. -/
def pa_rtpoll_timer_elapsed (p : pa_rtpoll) : Bool := p.timer_elapsed

/-- A call into the rtpoll API made by a callback while it runs. -/
inductive Action
  | item_free (id : Nat)
  | quit
  | set_timer_absolute (usec : Nat)
  | set_timer_relative (usec : Nat)
  | set_timer_disabled
  deriving DecidableEq, Repr

/-- What `poll` reports: its return value, `errno`, and the `revents` it
wrote into the entries of the array. -/
structure PollResult where
  r : Int
  errno : Int
  revents : Nat → Int

/-- What surrounds the rtpoll, over a state `σ` of the rest of the world: the
constants of headers that are not among the sources, the code behind the
function pointers (called with the function, the item and the rtpoll), the
monotonic clock in microseconds, and the system call (array entries, timeout in
microseconds or `none` for an unbounded wait). -/
structure Env (σ : Type) where
  PA_RTPOLL_NEVER : Int
  HAVE_PPOLL : Bool
  EAGAIN : Int
  EINTR : Int
  callback : Nat → Nat → pa_rtpoll → σ → (Int × List Action) × σ
  pa_rtclock_get : σ → Nat
  poll : List pollfd → Option Nat → σ → PollResult × σ

/-- One entry of the trace of a run. -/
inductive Event
  | work (item : Nat) (ret : Int)
  | before (item : Nat) (ret : Int)
  | after (item : Nat)
  | poll (nfds : Nat) (timeout : Option Nat)
  deriving DecidableEq, Repr

/-- The state threaded through a run: the rtpoll, the world, the trace. -/
structure RunState (σ : Type) where
  p : pa_rtpoll
  w : σ
  trace : List Event

/-- How a phase of a run ends: go on with the next phase, `goto finish` with
the value of `r`, or an assertion failed. -/
inductive Outcome (σ : Type)
  | proceed (s : RunState σ)
  | finish (r : Int) (s : RunState σ)
  | fail

/-- One API call of a callback applied to the rtpoll. -/
def perform {σ : Type} (E : Env σ) (w : σ) (p : pa_rtpoll) : Action → Option pa_rtpoll
  | .item_free id => some (pa_rtpoll_item_free p id)
  | .quit => some (pa_rtpoll_quit p)
  | .set_timer_absolute usec => some (pa_rtpoll_set_timer_absolute p usec)
  | .set_timer_relative usec => pa_rtpoll_set_timer_relative p (E.pa_rtclock_get w) usec
  | .set_timer_disabled => some (pa_rtpoll_set_timer_disabled p)

/-- The API calls of a callback applied in order. -/
def perform_all {σ : Type} (E : Env σ) (w : σ) : pa_rtpoll → List Action → Option pa_rtpoll
  | p, [] => some p
  | p, a :: rest =>
    match perform E w p a with
    | none => none
    | some p' => perform_all E w p' rest

/-- The call `fn(i)` of a callback on the item at address `item`: its return
value and the state afterwards; `none` when an assertion fails in it. -/
def invoke {σ : Type} (E : Env σ) (fn item : Nat) (s : RunState σ) :
    Option (Int × RunState σ) :=
  let res := E.callback fn item s.p s.w
  match perform_all E res.2 s.p res.1.2 with
  | none => none
  | some p' => some (res.1.1, { p := p', w := res.2, trace := s.trace })

/-- The backward loop `for (i = i->prev; i; i = i->prev)` that follows a
refusing `before_cb`: the items at the positions below `j`, last first. -/
def unwind {σ : Type} (E : Env σ) : Nat → RunState σ → Option (RunState σ)
  | 0, s => some s
  | j + 1, s =>
    match s.p.items[j]? with
    | none => unwind E j s
    | some i =>
      if i.dead then unwind E j s
      else
        match i.after_cb with
        | none => unwind E j s
        | some fn =>
          match invoke E fn i.id s with
          | none => none
          | some (_, s') => unwind E j { s' with trace := s'.trace ++ [Event.after i.id] }

/-- The first loop of `pa_rtpoll_run` ("let's do some work"), from position
`idx` with `n` list cells left. No cell is unlinked while the rtpoll is
running, so the walk along `next` visits the positions in order. -/
def work_loop {σ : Type} (E : Env σ) : Nat → Nat → RunState σ → Outcome σ
  | 0, _, s => .proceed s
  | n + 1, idx, s =>
    match s.p.items[idx]? with
    | none => .proceed s
    | some i =>
      if ¬ i.priority < E.PA_RTPOLL_NEVER then .proceed s
      else if i.dead then work_loop E n (idx + 1) s
      else
        match i.work_cb with
        | none => work_loop E n (idx + 1) s
        | some fn =>
          if s.p.quit then .finish 0 s
          else
            match invoke E fn i.id s with
            | none => .fail
            | some (k, s') =>
              let s'' := { s' with trace := s'.trace ++ [Event.work i.id k] }
              if k ≠ 0 then .finish (if k < 0 then k else 0) s''
              else work_loop E n (idx + 1) s''

/-- The second loop of `pa_rtpoll_run` ("prepare for entering the sleep"). -/
def before_loop {σ : Type} (E : Env σ) : Nat → Nat → RunState σ → Outcome σ
  | 0, _, s => .proceed s
  | n + 1, idx, s =>
    match s.p.items[idx]? with
    | none => .proceed s
    | some i =>
      if ¬ i.priority < E.PA_RTPOLL_NEVER then .proceed s
      else if i.dead then before_loop E n (idx + 1) s
      else
        match i.before_cb with
        | none => before_loop E n (idx + 1) s
        | some fn =>
          if s.p.quit then
            match unwind E idx s with
            | none => .fail
            | some s' => .finish 0 s'
          else
            match invoke E fn i.id s with
            | none => .fail
            | some (k, s') =>
              let s'' := { s' with trace := s'.trace ++ [Event.before i.id k] }
              if k ≠ 0 then
                match unwind E idx s'' with
                | none => .fail
                | some s3 => .finish (if k < 0 then k else 0) s3
              else before_loop E n (idx + 1) s''

/-- The third loop of `pa_rtpoll_run` ("tell everyone that we left the
sleep"); `none` when an assertion fails in a callback. -/
def after_loop {σ : Type} (E : Env σ) : Nat → Nat → RunState σ → Option (RunState σ)
  | 0, _, s => some s
  | n + 1, idx, s =>
    match s.p.items[idx]? with
    | none => some s
    | some i =>
      if ¬ i.priority < E.PA_RTPOLL_NEVER then some s
      else if i.dead then after_loop E n (idx + 1) s
      else
        match i.after_cb with
        | none => after_loop E n (idx + 1) s
        | some fn =>
          match invoke E fn i.id s with
          | none => none
          | some (_, s') =>
            after_loop E n (idx + 1) { s' with trace := s'.trace ++ [Event.after i.id] }

/-- The timeout handed to the system call, in microseconds; `none` is the
`NULL` timespec, respectively `-1`. Without `ppoll` the value is cut to whole
milliseconds. -/
def poll_timeout {σ : Type} (E : Env σ) (wait_op : Bool) (p : pa_rtpoll) (w : σ) : Option Nat :=
  let timeout : Nat :=
    if wait_op ∧ ¬ p.quit ∧ p.timer_enabled then
      if p.next_elapse > E.pa_rtclock_get w then p.next_elapse - E.pa_rtclock_get w else 0
    else 0
  if ¬ wait_op ∨ p.quit ∨ p.timer_enabled then
    some (if E.HAVE_PPOLL then timeout else timeout / 1000 * 1000)
  else none

/-- The function `reset_revents` on the slice of one item. -/
def reset_revents (p : pa_rtpoll) (id : Nat) : Option pa_rtpoll :=
  match pa_rtpoll_item_get_pollfd p id with
  | none => none
  | some (p', none, _) => some p'
  | some (p', some off, n) =>
    some { p' with pollfd := fun x =>
      if off ≤ x ∧ x < off + n then { p'.pollfd x with revents := 0 } else p'.pollfd x }

/-- The function `reset_all_revents`, from position `idx` with `n` cells
left. -/
def reset_all_revents : Nat → Nat → pa_rtpoll → Option pa_rtpoll
  | 0, _, p => some p
  | n + 1, idx, p =>
    match p.items[idx]? with
    | none => some p
    | some i =>
      if i.dead then reset_all_revents n (idx + 1) p
      else
        match reset_revents p i.id with
        | none => none
        | some p' => reset_all_revents n (idx + 1) p'

/-- The sweep at `finish`: every dead item is destroyed. -/
def sweep_dead (p : pa_rtpoll) : pa_rtpoll :=
  p.items.foldl (fun q i => if i.dead then rtpoll_item_destroy q i else q) p

/-- The label `finish` of `pa_rtpoll_run` with the value of `r`. -/
def run_finish {σ : Type} (r : Int) (s : RunState σ) : Int × pa_rtpoll × σ × List Event :=
  let p := { s.p with running := false }
  let p := if p.scan_for_dead then sweep_dead { p with scan_for_dead := false } else p
  (if r < 0 then r else if p.quit then 0 else 1, p, s.w, s.trace)

/-- The sleep of `pa_rtpoll_run`: rebuild, timeout, system call, error
handling. -/
def run_poll {σ : Type} (E : Env σ) (wait_op : Bool) (s : RunState σ) :
    Option (Int × RunState σ) :=
  match (if s.p.rebuild_needed then rtpoll_rebuild s.p else some s.p) with
  | none => none
  | some p =>
    let timeout := poll_timeout E wait_op p s.w
    let res := E.poll ((List.range p.n_pollfd_used).map p.pollfd) timeout s.w
    let p : pa_rtpoll :=
      { p with
        pollfd := fun x =>
          if x < p.n_pollfd_used then { p.pollfd x with revents := res.1.revents x }
          else p.pollfd x
        timer_elapsed := decide (res.1.r = 0) }
    let trace := s.trace ++ [Event.poll p.n_pollfd_used timeout]
    if res.1.r < 0 then
      let r := if res.1.errno = E.EAGAIN ∨ res.1.errno = E.EINTR then 0 else res.1.r
      match reset_all_revents p.items.length 0 p with
      | none => none
      | some p' => some (r, { p := p', w := res.2, trace := trace })
    else some (res.1.r, { p := p, w := res.2, trace := trace })

/-- The function `pa_rtpoll_run(p, wait_op)`: the returned value, the rtpoll
and the world afterwards, and the trace of the run; `none` when an assertion
fails. -/
def pa_rtpoll_run {σ : Type} (E : Env σ) (p : pa_rtpoll) (w : σ) (wait_op : Bool) :
    Option (Int × pa_rtpoll × σ × List Event) :=
  if p.running then none
  else
    let s : RunState σ :=
      { p := { p with running := true, timer_elapsed := false }, w := w, trace := [] }
    match work_loop E s.p.items.length 0 s with
    | .fail => none
    | .finish r s => some (run_finish r s)
    | .proceed s =>
      match before_loop E s.p.items.length 0 s with
      | .fail => none
      | .finish r s => some (run_finish r s)
      | .proceed s =>
        match run_poll E wait_op s with
        | none => none
        | some (r, s) =>
          match after_loop E s.p.items.length 0 s with
          | none => none
          | some s => some (run_finish r s)

/-! ## Vocabulary of the statements about a run -/

/-- The API call only sets or disables the timer, and passes the assertion
of `pa_rtpoll_set_timer_relative`. -/
def Action.timer_only : Action → Bool
  | .set_timer_absolute _ => true
  | .set_timer_relative usec => decide (usec ≤ 1000000 * 60 * 60)
  | .set_timer_disabled => true
  | .item_free _ => false
  | .quit => false

/-- The callback `fn` on the item `id` neither frees an item nor requests
quit, whatever the state it is called in. -/
def calls_tame {σ : Type} (E : Env σ) (fn id : Nat) : Prop :=
  ∀ p w, ∀ a ∈ (E.callback fn id p w).1.2, a.timer_only = true

/-- The callback `fn` on the item `id` returns 0. -/
def returns_zero {σ : Type} (E : Env σ) (fn id : Nat) : Prop :=
  ∀ p w, (E.callback fn id p w).1.1 = 0

/-- The callback `fn` on the item `id` returns a value other than 0. -/
def returns_nonzero {σ : Type} (E : Env σ) (fn id : Nat) : Prop :=
  ∀ p w, (E.callback fn id p w).1.1 ≠ 0

/-- The item a trace entry belongs to; the system call belongs to none. -/
def Event.item : Event → Option Nat
  | .work id _ => some id
  | .before id _ => some id
  | .after id => some id
  | .poll _ _ => none

/-- The entry is the system call. -/
def Event.is_poll : Event → Bool
  | .poll _ _ => true
  | _ => false

/-- The items a loop of a run visits and does not skip as dead: the live
items with a priority below `PA_RTPOLL_NEVER`. -/
def visited (NEVER : Int) (items : List pa_rtpoll_item) : List pa_rtpoll_item :=
  items.filter (fun i => decide (i.priority < NEVER) && !i.dead)

/-- The `work_cb` calls of the given items, each returning 0. -/
def work_calls (items : List pa_rtpoll_item) : List Event :=
  items.filterMap (fun i => i.work_cb.map (fun _ => Event.work i.id 0))

/-- The `before_cb` calls of the given items, each returning 0. -/
def before_calls (items : List pa_rtpoll_item) : List Event :=
  items.filterMap (fun i => i.before_cb.map (fun _ => Event.before i.id 0))

/-- The `after_cb` calls of the given items. -/
def after_calls (items : List pa_rtpoll_item) : List Event :=
  items.filterMap (fun i => i.after_cb.map (fun _ => Event.after i.id))

/-- An environment in which every callback returns 0 and does nothing, and
the system call reports no event. -/
def ex_env : Env Unit :=
  { PA_RTPOLL_NEVER := 2147483647, HAVE_PPOLL := true, EAGAIN := 11, EINTR := 4,
    callback := fun _ _ _ w => ((0, []), w),
    pa_rtclock_get := fun _ => 0,
    poll := fun _ _ w => (⟨0, 0, fun _ => 0⟩, w) }

/-- The three callbacks 100, 200, 300 installed on the item `id`. -/
def ex_install (p : pa_rtpoll) (id : Nat) : pa_rtpoll :=
  ((pa_rtpoll_item_set_work_callback 2147483647 p id (some 100)).bind
    (fun p => (pa_rtpoll_item_set_before_callback 2147483647 p id (some 200)).bind
      (fun p => pa_rtpoll_item_set_after_callback 2147483647 p id (some 300)))).getD p

/-- Four items created in this order with the priorities 3, 1, 2, 1, all
callbacks installed, and a fifth item of priority `PA_RTPOLL_NEVER`. -/
def ex_rtpoll : pa_rtpoll :=
  pa_rtpoll_item_new
    (ex_install (pa_rtpoll_item_new
      (ex_install (pa_rtpoll_item_new
        (ex_install (pa_rtpoll_item_new
          (ex_install (pa_rtpoll_item_new pa_rtpoll_new 1 3 1) 1) 2 1 0) 2) 3 2 2) 3) 4 1 1) 4)
    5 2147483647 1

/-- The priority of the item of a trace entry, looked up in a list of items. -/
def Event.priority (items : List pa_rtpoll_item) (e : Event) : Option Int :=
  match e.item with
  | none => none
  | some id => (items.find? (fun i => i.id = id)).map (fun i => i.priority)

/-- The part of the rtpoll that a callback which only touches the timer
leaves as it is. -/
def core_eq (p p' : pa_rtpoll) : Prop :=
  p'.items = p.items ∧ p'.quit = p.quit ∧ p'.rebuild_needed = p.rebuild_needed ∧
  p'.n_pollfd_used = p.n_pollfd_used ∧ p'.running = p.running ∧
  p'.scan_for_dead = p.scan_for_dead

/-- The items that a forward loop of a run calls, read off the list as the
loop walks it: up to the first priority not below `PA_RTPOLL_NEVER`, the dead
ones left out. -/
def loop_items (NEVER : Int) (items : List pa_rtpoll_item) : List pa_rtpoll_item :=
  (items.takeWhile (fun i => decide (i.priority < NEVER))).filter (fun i => !i.dead)

/-- Two items that differ at most in where their slice of the array is. -/
def same_hooks (i i' : pa_rtpoll_item) : Prop :=
  i'.id = i.id ∧ i'.dead = i.dead ∧ i'.priority = i.priority ∧ i'.work_cb = i.work_cb ∧
  i'.before_cb = i.before_cb ∧ i'.after_cb = i.after_cb ∧ i'.n_pollfd = i.n_pollfd

/-- Two bytes per sample, two channels, native little endian. -/
def ex_spec : pa_sample_spec := ⟨pa_sample_format.S16LE, 44100, 2⟩

/-- Four samples `+0x2000`, heard on the first channel only. -/
def ex_a : pa_mix_info := ex_stream [0x00, 0x20, 0x00, 0x20, 0x00, 0x20, 0x00, 0x20] [0x10000, 0]

/-- Four samples `-0x1000`, heard on the second channel only. -/
def ex_b : pa_mix_info := ex_stream [0x00, 0xF0, 0x00, 0xF0, 0x00, 0xF0, 0x00, 0xF0] [0, 0x10000]

/-- Two samples `0x7FFF` at unit volume on both channels. -/
def ex_loud : pa_mix_info := ex_stream [0xFF, 0x7F, 0xFF, 0x7F] [0x10000, 0x10000]

/-- A chunk of eight bytes at index 2 of a block of twelve. -/
def ex_chunk : pa_memchunk :=
  { memblock := { data := ex_mem [9, 9, 0x00, 0x20, 0x00, 0x20, 0x00, 0x20, 0x00, 0x20, 9, 9],
                  length := 12 },
    index := 2, length := 8 }

/-- Half volume on the first channel, double volume on the second. -/
def ex_volume : pa_cvolume := { channels := 2, values := fun c => [0x8000, 0x20000].getD c 0 }

/-- Both channels muted. -/
def ex_muted : pa_cvolume := { channels := 2, values := fun _ => PA_VOLUME_MUTED }

/-- The four items of `ex_rtpoll` without the one of priority
`PA_RTPOLL_NEVER`. -/
def ex_rtpoll4 : pa_rtpoll :=
  ex_install (pa_rtpoll_item_new
    (ex_install (pa_rtpoll_item_new
      (ex_install (pa_rtpoll_item_new
        (ex_install (pa_rtpoll_item_new pa_rtpoll_new 1 3 1) 1) 2 1 0) 2) 3 2 2) 3) 4 1 1) 4

/-- An environment in which the `before_cb` (callback 200) of item 3 returns
1 and every other callback returns 0. -/
def ex_env_refuse : Env Unit :=
  { ex_env with
    callback := fun fn item _ w => if fn = 200 ∧ item = 3 then ((1, []), w) else ((0, []), w) }

/-! ## Vocabulary of the statements about whole runs and sequences of calls

The counts `n_pollfd_alloc`, `n_pollfd_used` and `n_pollfd` are natural
numbers: the statements are about the states in which the `unsigned` counters
of the source hold them without wrapping around, and about timeouts whose
count of milliseconds fits the `int` of `pa_poll`. -/

/-- The API call passes the assertion of the function it calls; only
`pa_rtpoll_set_timer_relative` has one. -/
def Action.asserts_hold : Action → Bool
  | .set_timer_relative usec => decide (usec ≤ 1000000 * 60 * 60)
  | _ => true

/-- No callback makes an API call that fails an assertion. -/
def calls_safe {σ : Type} (E : Env σ) : Prop :=
  ∀ fn id p w, ∀ a ∈ (E.callback fn id p w).1.2, a.asserts_hold = true

/-- A cell of the list at two moments of a run: the same item, which in
between may have been marked dead and may have been given another slice. -/
def same_cell (i i' : pa_rtpoll_item) : Prop :=
  i'.id = i.id ∧ i'.priority = i.priority ∧ i'.n_pollfd = i.n_pollfd ∧
  i'.work_cb = i.work_cb ∧ i'.before_cb = i.before_cb ∧ i'.after_cb = i.after_cb ∧
  (i.dead = true → i'.dead = true)

/-- Every item that is marked dead is known to the sweep at `finish`. -/
def dead_scanned (p : pa_rtpoll) : Prop :=
  (∃ i ∈ p.items, i.dead = true) → p.scan_for_dead = true

/-- The rtpoll `p` at a later moment of the run that was entered in `p0`:
the list has the same cells, the descriptor count is the same, the rtpoll is
running, and the sweep still knows of every dead item if it did. -/
def during (p0 p : pa_rtpoll) : Prop :=
  List.Forall₂ same_cell p0.items p.items ∧ p.n_pollfd_used = p0.n_pollfd_used ∧
  p.running = true ∧ (dead_scanned p0 → dead_scanned p)

/-- The entries of the trace are calls of `work_cb` that returned 0. -/
def work_zero (ev : List Event) : Prop := ∀ e ∈ ev, ∃ id, e = Event.work id 0

/-- The entries of the trace are calls of `before_cb` that returned 0. -/
def before_zero (ev : List Event) : Prop := ∀ e ∈ ev, ∃ id, e = Event.before id 0

/-- The entries of the trace are calls of `after_cb`. -/
def after_only (ev : List Event) : Prop := ∀ e ∈ ev, ∃ id, e = Event.after id

/-- The state in which `pa_rtpoll_run` enters a run. -/
def run_entry {σ : Type} (p : pa_rtpoll) (w : σ) : RunState σ :=
  { p := { p with running := true, timer_elapsed := false }, w := w, trace := [] }

/-- The state in which a run makes the system call, if it gets there: the
first two loops have run to their end and a pending rebuild is done. -/
def sleep_state {σ : Type} (E : Env σ) (p : pa_rtpoll) (w : σ) : Option (RunState σ) :=
  if p.running then none
  else
    match work_loop E p.items.length 0 (run_entry p w) with
    | .proceed s =>
      match before_loop E s.p.items.length 0 s with
      | .proceed s =>
        match (if s.p.rebuild_needed then rtpoll_rebuild s.p else some s.p) with
        | some q => some { s with p := q }
        | none => none
      | _ => none
    | _ => none

/-- The array `p->pollfd` with its `p->n_pollfd_used` entries, as
`pa_rtpoll_run` hands it to the system call. -/
def sleep_array (p : pa_rtpoll) : List pollfd := (List.range p.n_pollfd_used).map p.pollfd

/-- What the system call of a run reports, if the run makes it. -/
def poll_report {σ : Type} (E : Env σ) (p : pa_rtpoll) (w : σ) (wait_op : Bool) :
    Option PollResult :=
  (sleep_state E p w).map
    (fun s => (E.poll (sleep_array s.p) (poll_timeout E wait_op s.p s.w) s.w).1)

/-- The timeout as the specification gives it from the wait flag, the quit
flag, the timer and the clock, in microseconds; `none` is no timeout. -/
def timeout_spec (wait_op quit timer_enabled : Bool) (next_elapse now : Nat) : Option Nat :=
  if wait_op = false ∨ quit = true ∨ (timer_enabled = true ∧ next_elapse ≤ now) then some 0
  else if timer_enabled = true then some (next_elapse - now)
  else none

/-- The offset of the slice of the item at position `j`: the descriptors of
the items in front of it. -/
def slice_offset (items : List pa_rtpoll_item) (j : Nat) : Nat :=
  ((items.take j).map (fun i => i.n_pollfd)).sum

/-- The entry `k` of an item in the array `arr`; an item without a slice has
all-zero entries. -/
def item_entry (arr : Nat → pollfd) (i : pa_rtpoll_item) (k : Nat) : pollfd :=
  match i.pollfd with
  | some off => arr (off + k)
  | none => ⟨0, 0, 0⟩

/-- The entries of an item in the array `arr`. -/
def item_slice (arr : Nat → pollfd) (i : pa_rtpoll_item) : List pollfd :=
  (List.range i.n_pollfd).map (item_entry arr i)

/-- The function `pa_rtpoll_item_new_fdsem(p, prio, f)`: an item with one
descriptor, that of the semaphore (`fd` is what `pa_fdsem_get(f)` returns), and
the two callbacks `fdsem_before` and `fdsem_after`, given as function
pointers; `POLLIN` is the constant of `poll.h`. -/
def pa_rtpoll_item_new_fdsem (POLLIN : Int) (fdsem_before fdsem_after : Nat) (p : pa_rtpoll)
    (id : Nat) (prio : Int) (f : Nat) (fd : Int) : Option pa_rtpoll :=
  match pa_rtpoll_item_get_pollfd (pa_rtpoll_item_new p id prio 1) id with
  | none => none
  | some (_, none, _) => none
  | some (p, some off, _) =>
    some { p with
      pollfd := fun x => if x = off then { p.pollfd x with fd := fd, events := POLLIN } else p.pollfd x
      items := p.items.map (fun j =>
        if j.id = id then
          { j with before_cb := some fdsem_before, after_cb := some fdsem_after, userdata := f }
        else j) }

/-- A call of the API by the thread that owns the rtpoll, between two runs
or a run itself. -/
inductive Op
  | item_new (id : Nat) (prio : Int) (n_fds : Nat)
  | item_free (id : Nat)
  | item_get_pollfd (id : Nat)
  | item_set_work_callback (id : Nat) (work_cb : Option Nat)
  | item_set_before_callback (id : Nat) (before_cb : Option Nat)
  | item_set_after_callback (id : Nat) (after_cb : Option Nat)
  | item_set_userdata (id : Nat) (userdata : Nat)
  | set_timer_absolute (usec : Nat)
  | set_timer_relative (usec : Nat)
  | set_timer_disabled
  | quit
  | run (wait_op : Bool)
  deriving DecidableEq, Repr

/-- One call applied to the rtpoll and the world; `none` when an assertion
fails. The allocator never hands out the address of an item that is in the
list. -/
def apply_op {σ : Type} (E : Env σ) (p : pa_rtpoll) (w : σ) : Op → Option (pa_rtpoll × σ)
  | .item_new id prio n_fds =>
    if id ∈ p.items.map (fun i => i.id) then none
    else some (pa_rtpoll_item_new p id prio n_fds, w)
  | .item_free id => some (pa_rtpoll_item_free p id, w)
  | .item_get_pollfd id => (pa_rtpoll_item_get_pollfd p id).map (fun r => (r.1, w))
  | .item_set_work_callback id cb =>
    (pa_rtpoll_item_set_work_callback E.PA_RTPOLL_NEVER p id cb).map (fun q => (q, w))
  | .item_set_before_callback id cb =>
    (pa_rtpoll_item_set_before_callback E.PA_RTPOLL_NEVER p id cb).map (fun q => (q, w))
  | .item_set_after_callback id cb =>
    (pa_rtpoll_item_set_after_callback E.PA_RTPOLL_NEVER p id cb).map (fun q => (q, w))
  | .item_set_userdata id userdata => some (pa_rtpoll_item_set_userdata p id userdata, w)
  | .set_timer_absolute usec => some (pa_rtpoll_set_timer_absolute p usec, w)
  | .set_timer_relative usec =>
    (pa_rtpoll_set_timer_relative p (E.pa_rtclock_get w) usec).map (fun q => (q, w))
  | .set_timer_disabled => some (pa_rtpoll_set_timer_disabled p, w)
  | .quit => some (pa_rtpoll_quit p, w)
  | .run wait_op => (pa_rtpoll_run E p w wait_op).map (fun r => (r.2.1, r.2.2.1))

/-- A sequence of calls applied in order. -/
def run_ops {σ : Type} (E : Env σ) : List Op → pa_rtpoll × σ → Option (pa_rtpoll × σ)
  | [], s => some s
  | op :: rest, s =>
    match apply_op E s.1 s.2 op with
    | none => none
    | some s' => run_ops E rest s'

/-- The value of `r` after the error handling that follows the system call:
a transient error counts as a wake-up without events. -/
def poll_value {σ : Type} (E : Env σ) (res : PollResult) : Int :=
  if res.r < 0 then (if res.errno = E.EAGAIN ∨ res.errno = E.EINTR then 0 else res.r)
  else res.r

/-- What holds of the way the first loop ends, started with the trace `t` in
a run entered in `p0`: an assertion fails only in a callback; the loop runs to
its end after calls that returned 0; or it leaves for `finish` because quit
was requested or because the last call returned `k ≠ 0`. -/
def work_outcome {σ : Type} (E : Env σ) (p0 : pa_rtpoll) (t : List Event) : Outcome σ → Prop
  | .fail => ¬ calls_safe E
  | .proceed s => during p0 s.p ∧ ∃ ev, s.trace = t ++ ev ∧ work_zero ev
  | .finish r s => during p0 s.p ∧ ∃ ev tail, s.trace = t ++ ev ++ tail ∧ work_zero ev ∧
      ((tail = [] ∧ r = 0) ∨
        ∃ id k, tail = [Event.work id k] ∧ k ≠ 0 ∧ r = if k < 0 then k else 0)

/-- What holds of the way the backward loop and the third loop end. -/
def after_outcome {σ : Type} (E : Env σ) (p0 : pa_rtpoll) (t : List Event) :
    Option (RunState σ) → Prop
  | none => ¬ calls_safe E
  | some s => during p0 s.p ∧ ∃ aev, s.trace = t ++ aev ∧ after_only aev

/-- What holds of the way the second loop ends; on the way to `finish` the
backward loop has called `after_cb`s. -/
def before_outcome {σ : Type} (E : Env σ) (p0 : pa_rtpoll) (t : List Event) : Outcome σ → Prop
  | .fail => ¬ calls_safe E
  | .proceed s => during p0 s.p ∧ ∃ ev, s.trace = t ++ ev ∧ before_zero ev
  | .finish r s => during p0 s.p ∧ ∃ ev mid aev, s.trace = t ++ ev ++ mid ++ aev ∧
      before_zero ev ∧ after_only aev ∧
      ((mid = [] ∧ r = 0) ∨
        ∃ id k, mid = [Event.before id k] ∧ k ≠ 0 ∧ r = if k < 0 then k else 0)

/-- The descriptors of the dead items of a list. -/
def dead_fds (items : List pa_rtpoll_item) : Nat :=
  ((items.filter (fun i => i.dead)).map (fun i => i.n_pollfd)).sum

/-- What holds of a run that returned `out`, over the value `r0` of `r` and
the state `s` at the label `finish`: the run left by the first loop, or by the
second loop, or it made the system call in the state `sl`. -/
def run_shape {σ : Type} (E : Env σ) (p : pa_rtpoll) (w : σ) (wait_op : Bool)
    (out : Int × pa_rtpoll × σ × List Event) : Prop :=
  ∃ r0 s, out = run_finish r0 s ∧ during (run_entry p w).p s.p ∧
    ((sleep_state E p w = none ∧ ∃ ev tail, s.trace = ev ++ tail ∧ work_zero ev ∧
        ((tail = [] ∧ r0 = 0) ∨
          ∃ id k, tail = [Event.work id k] ∧ k ≠ 0 ∧ r0 = if k < 0 then k else 0)) ∨
     (sleep_state E p w = none ∧ ∃ wev bev mid aev, s.trace = wev ++ bev ++ mid ++ aev ∧
        work_zero wev ∧ before_zero bev ∧ after_only aev ∧
        ((mid = [] ∧ r0 = 0) ∨
          ∃ id k, mid = [Event.before id k] ∧ k ≠ 0 ∧ r0 = if k < 0 then k else 0)) ∨
     (∃ sl wev bev aev, sleep_state E p w = some sl ∧ during (run_entry p w).p sl.p ∧
        sl.trace = wev ++ bev ∧
        s.trace = wev ++ bev ++
          [Event.poll sl.p.n_pollfd_used (poll_timeout E wait_op sl.p sl.w)] ++ aev ∧
        work_zero wev ∧ before_zero bev ∧ after_only aev ∧
        r0 = poll_value E
          (E.poll (sleep_array sl.p) (poll_timeout E wait_op sl.p sl.w) sl.w).1))

/-- Whenever the callback `fn` on the item `id` returns, its API calls have
left the timer enabled or disabled as `en` says, with the deadline `ne`. -/
def sets_timer {σ : Type} (E : Env σ) (fn id : Nat) (en : Bool) (ne : Nat) : Prop :=
  ∀ p w p', perform_all E (E.callback fn id p w).2 p (E.callback fn id p w).1.2 = some p' →
    p'.timer_enabled = en ∧ p'.next_elapse = ne

/-- The API calls of the callback `fn` on the item `id` leave the timer as
it is. -/
def keeps_timer {σ : Type} (E : Env σ) (fn id : Nat) : Prop :=
  ∀ p w p', perform_all E (E.callback fn id p w).2 p (E.callback fn id p w).1.2 = some p' →
    p'.timer_enabled = p.timer_enabled ∧ p'.next_elapse = p.next_elapse

/-- The unit of the timeout of the system call: `ppoll` takes the
microseconds as they are, `pa_poll` whole milliseconds. -/
def timeout_unit {σ : Type} (E : Env σ) (usec : Nat) : Nat :=
  if E.HAVE_PPOLL then usec else usec / 1000 * 1000

/-- The rtpoll as its owner sees it between two calls: it is not running, no
item is marked dead, the list is sorted by priority, and the descriptor count
is that of the items. -/
def between_calls (p : pa_rtpoll) : Prop :=
  p.running = false ∧ (∀ i ∈ p.items, i.dead = false) ∧
  p.items.Pairwise (fun a b => a.priority ≤ b.priority) ∧
  p.n_pollfd_used = (p.items.map (fun i => i.n_pollfd)).sum

/-- The function `fn0` was called in the run as the `work_cb` or as the
`before_cb` of the item at the address `id0`, and returned 0. -/
def hook_ran (items : List pa_rtpoll_item) (fn0 id0 : Nat) (trace : List Event) : Prop :=
  ∃ i ∈ items, i.id = id0 ∧
    ((i.work_cb = some fn0 ∧ Event.work id0 0 ∈ trace) ∨
     (i.before_cb = some fn0 ∧ Event.before id0 0 ∈ trace))

/-- An item that has only an `after_cb` (callback 300), and behind it an
item that has only a `before_cb` (callback 200). -/
def ex_rtpoll_unwind : pa_rtpoll :=
  ((pa_rtpoll_item_set_after_callback 2147483647
      (pa_rtpoll_item_new pa_rtpoll_new 1 1 0) 1 (some 300)).bind
    (fun p => pa_rtpoll_item_set_before_callback 2147483647
      (pa_rtpoll_item_new p 3 2 0) 3 (some 200))).getD pa_rtpoll_new

/-- An environment in which the `work_cb` (callback 100) of item 2 returns 1
and every other callback returns 0. -/
def ex_env_restart : Env Unit :=
  { ex_env with
    callback := fun fn item _ w => if fn = 100 ∧ item = 2 then ((1, []), w) else ((0, []), w) }

/-- An environment in which the system call fails with the errno 5. -/
def ex_env_pollfail : Env Unit :=
  { ex_env with poll := fun _ _ w => (⟨-1, 5, fun _ => 0⟩, w) }

/-- A build without `ppoll`. -/
def ex_env_poll : Env Unit := { ex_env with HAVE_PPOLL := false }

/-- An environment in which the `work_cb` (callback 100) of item 3 frees its
own item. -/
def ex_env_free : Env Unit :=
  { ex_env with
    callback := fun fn item _ w =>
      if fn = 100 ∧ item = 3 then ((0, [Action.item_free 3]), w) else ((0, []), w) }

/-- An environment whose world is the array that the system call was last
given. -/
def ex_env_record : Env (List pollfd) :=
  { PA_RTPOLL_NEVER := 2147483647, HAVE_PPOLL := true, EAGAIN := 11, EINTR := 4,
    callback := fun _ _ _ w => ((0, []), w),
    pa_rtclock_get := fun _ => 0,
    poll := fun fds _ _ => (⟨0, 0, fun _ => 0⟩, fds) }

/-- One item of priority `PA_RTPOLL_NEVER`, made by
`pa_rtpoll_item_new_fdsem` for a semaphore with the descriptor 9. -/
def ex_rtpoll_never : pa_rtpoll :=
  (pa_rtpoll_item_new_fdsem 1 200 300 pa_rtpoll_new 1 2147483647 77 9).getD pa_rtpoll_new

/-- An environment in which the clock stands at 2000 and the `work_cb`
(callback 100) of item 3 calls `pa_rtpoll_set_timer_absolute(5000)`. -/
def ex_env_timer : Env Unit :=
  { ex_env with
    callback := fun fn item _ w =>
      if fn = 100 ∧ item = 3 then ((0, [Action.set_timer_absolute 5000]), w) else ((0, []), w)
    pa_rtclock_get := fun _ => 2000 }

/-- A sequence of calls: items are made with the priorities 3, 1, 2, 1, one
gets a `work_cb`, one is asked for its slice, one is freed, the loop runs, an
item of priority 0 with three descriptors is made, and the loop runs again. -/
def ex_ops : List Op :=
  [Op.item_new 1 3 1, Op.item_set_work_callback 1 (some 100), Op.item_new 2 1 0,
   Op.item_new 3 2 2, Op.item_get_pollfd 3, Op.item_new 4 1 1, Op.item_free 2, Op.run true,
   Op.item_new 5 0 3, Op.run false]

/-! ## What a mix reads of its streams -/

/-- Two streams that differ at most in the bytes of the samples that the
volume of the stream mutes: the same window, the same volumes, and the same
bytes in every sample `k` (of `size` bytes) whose channel, the channel counter
of the loop after `k` samples, is not muted. -/
def same_unmuted (size channels : Nat) (s s' : pa_mix_info) : Prop :=
  s'.chunk.index = s.chunk.index ∧ s'.chunk.length = s.chunk.length ∧
  s'.volume.values = s.volume.values ∧
  ∀ k, s.volume.values (channel_at channels k) ≠ PA_VOLUME_MUTED → ∀ j, j < size →
    s'.chunk.memblock.data (s.chunk.index + k * size + j) =
      s.chunk.memblock.data (s.chunk.index + k * size + j)

/-- The first `n` bytes of a memory. -/
def bytes_of (m : Mem) (n : Nat) : List Nat := (List.range n).map (fun a => (m a).val)

/-- One sample `0x7FFF` at twice the unit volume of `ex_build`. -/
def ex_boost : pa_mix_info := ex_stream [0xFF, 0x7F] [0x20000]

/-- A build with unit volume `0x100` on a little-endian target. -/
def ex_build_256 : Build := ⟨0x100, false⟩

/-- Two S16 samples `0x2000`, one per channel, at unit volume on both
channels. -/
def ex_flat : pa_mix_info := ex_stream [0x00, 0x20, 0x00, 0x20] [0x10000, 0x10000]

/-- A master volume vector that passes channel 0 and mutes channel 1. -/
def ex_master : pa_cvolume := { channels := 2, values := fun c => [0x10000, 0].getD c 0 }

/-- What `pa_asyncmsgq_get` hands out: the target object (`none` for `NULL`),
the code, the data pointer, the offset and the chunk. -/
structure pa_message where
  object : Option Nat
  code : Int
  data : Nat
  offset : Int
  chunk : Option pa_memchunk

/-- A call of the hook into the queue or into a message object. -/
inductive MsgCall
  | get (q : Nat)
  | dispatch (m : pa_message)
  | done (q : Nat) (ret : Int)

/-- The queue functions that `asyncmsgq_read_work` calls, over a state `σ` of
the rest of the world, and the constant `PA_MESSAGE_SHUTDOWN`. The handler of
a message object, reached through `pa_asyncmsgq_dispatch`, may call the API of
the rtpoll. -/
structure MsgEnv (σ : Type) where
  PA_MESSAGE_SHUTDOWN : Int
  pa_asyncmsgq_get : Nat → σ → (Int × pa_message) × σ
  pa_asyncmsgq_dispatch : pa_message → σ → (Int × List Action) × σ
  pa_asyncmsgq_done : Nat → Int → σ → σ

/-- The entry is a call of `pa_asyncmsgq_done`. -/
def MsgCall.is_done : MsgCall → Bool
  | .done _ _ => true
  | _ => false

/-- The entry is a call of `pa_asyncmsgq_dispatch`. -/
def MsgCall.is_dispatch : MsgCall → Bool
  | .dispatch _ => true
  | _ => false

/-- The function `asyncmsgq_read_work(i)`: the returned value with the calls
made into the rtpoll (`pa_rtpoll_quit(i->rtpoll)`, and what the handler of a
dispatched message calls), the world afterwards, and the calls made into the
queue. -/
def asyncmsgq_read_work {σ : Type} (M : MsgEnv σ) (i : pa_rtpoll_item) (w : σ) :
    (Int × List Action) × σ × List MsgCall :=
  let g := M.pa_asyncmsgq_get i.userdata w
  if g.1.1 = 0 then
    if g.1.2.object = none ∧ g.1.2.code = M.PA_MESSAGE_SHUTDOWN then
      let w := M.pa_asyncmsgq_done i.userdata 0 g.2
      ((1, [Action.quit]), w, [MsgCall.get i.userdata, MsgCall.done i.userdata 0])
    else
      let d := M.pa_asyncmsgq_dispatch g.1.2 g.2
      let w := M.pa_asyncmsgq_done i.userdata d.1.1 d.2
      ((1, d.1.2), w,
        [MsgCall.get i.userdata, MsgCall.dispatch g.1.2, MsgCall.done i.userdata d.1.1])
  else ((0, []), g.2, [MsgCall.get i.userdata])

/-- The function pointer `fn` of the environment is `asyncmsgq_read_work`
when it is called on the item `i`. -/
def is_read_work {σ : Type} (E : Env σ) (M : MsgEnv σ) (fn : Nat) (i : pa_rtpoll_item) : Prop :=
  ∀ p w, E.callback fn i.id p w = ((asyncmsgq_read_work M i w).1, (asyncmsgq_read_work M i w).2.1)

/-- The message at the head of the queue `q` is the request to shut down:
`pa_asyncmsgq_get` succeeds with a message without target whose code is
`PA_MESSAGE_SHUTDOWN`. -/
def shutdown_next {σ : Type} (M : MsgEnv σ) (q : Nat) (w : σ) : Prop :=
  (M.pa_asyncmsgq_get q w).1.1 = 0 ∧ (M.pa_asyncmsgq_get q w).1.2.object = none ∧
  (M.pa_asyncmsgq_get q w).1.2.code = M.PA_MESSAGE_SHUTDOWN

/-- A queue world for the examples: the pending messages and the replies
given so far. `pa_asyncmsgq_get` takes the first message, or fails with -1;
a dispatched message is answered with its code plus 1000. -/
def ex_msg_env : MsgEnv (List pa_message × List Int) :=
  { PA_MESSAGE_SHUTDOWN := 7,
    pa_asyncmsgq_get := fun _ w =>
      match w.1 with
      | [] => ((-1, ⟨none, 0, 0, 0, none⟩), w)
      | m :: rest => ((0, m), (rest, w.2)),
    pa_asyncmsgq_dispatch := fun m w => ((m.code + 1000, []), w),
    pa_asyncmsgq_done := fun _ r w => (w.1, w.2 ++ [r]) }

/-- An environment in which the callback 100 is `asyncmsgq_read_work` on the
queue of `ex_msg_env`, the item's user data being the queue 5. -/
def ex_env_msgq : Env (List pa_message × List Int) :=
  { PA_RTPOLL_NEVER := 2147483647, HAVE_PPOLL := true, EAGAIN := 11, EINTR := 4,
    callback := fun fn id _ w =>
      if fn = 100 then
        ((asyncmsgq_read_work ex_msg_env ⟨id, false, 0, none, 1, some 100, none, none, 5⟩ w).1,
         (asyncmsgq_read_work ex_msg_env ⟨id, false, 0, none, 1, some 100, none, none, 5⟩ w).2.1)
      else ((0, []), w),
    pa_rtclock_get := fun _ => 0,
    poll := fun _ _ w => (⟨0, 0, fun _ => 0⟩, w) }

/-- The read item of the examples: address 1, one descriptor, the hook 100
as `work_cb`, the queue 5 as user data. -/
def ex_read_item : pa_rtpoll_item := ⟨1, false, 0, none, 1, some 100, none, none, 5⟩

/-- An rtpoll that holds the read item of the examples. -/
def ex_rtpoll_msgq : pa_rtpoll :=
  { pa_rtpoll_new with items := [ex_read_item], n_pollfd_used := 1, rebuild_needed := true }

/-- The request to shut down, as `pa__done` of the null sink sends it. -/
def ex_shutdown : pa_message := ⟨none, 7, 0, 0, none⟩

/-! ## Freed items -/

/-- The call that the trace entry `e` records freed the item at the address
`id`: the hook of the entry's item, as installed in `items`, calls
`pa_rtpoll_item_free` on `id` whenever it returns the value of the entry (an
`after_cb` returns no value). -/
def frees {σ : Type} (E : Env σ) (items : List pa_rtpoll_item) (id : Nat) : Event → Prop
  | .work j k => ∀ i ∈ items, i.id = j → ∀ fn, i.work_cb = some fn →
      ∀ p w, (E.callback fn j p w).1.1 = k → Action.item_free id ∈ (E.callback fn j p w).1.2
  | .before j k => ∀ i ∈ items, i.id = j → ∀ fn, i.before_cb = some fn →
      ∀ p w, (E.callback fn j p w).1.1 = k → Action.item_free id ∈ (E.callback fn j p w).1.2
  | .after j => ∀ i ∈ items, i.id = j → ∀ fn, i.after_cb = some fn →
      ∀ p w, Action.item_free id ∈ (E.callback fn j p w).1.2
  | .poll _ _ => False

/-- No item of the rtpoll lives at the address `id`. -/
def item_gone (p : pa_rtpoll) (id : Nat) : Prop := ∀ i ∈ p.items, i.id ≠ id

/-- The call is not the creation of an item at the address `id`. -/
def Op.keeps_gone (id : Nat) : Op → Bool
  | .item_new id' _ _ => decide (id' ≠ id)
  | _ => true

/-- An environment in which the `before_cb` (callback 200) of item 2 frees
item 3 and the `before_cb` of item 1 refuses. -/
def ex_env_free_refuse : Env Unit :=
  { ex_env with
    callback := fun fn item _ w =>
      if fn = 200 ∧ item = 2 then ((0, [Action.item_free 3]), w)
      else if fn = 200 ∧ item = 1 then ((1, []), w)
      else ((0, []), w) }

/-! ## The clocked null sink (`modules/module-null-sink.c`)

The sink object, the clock and the memory blocks are not among the sources:
their functions are operations on the state `σ` of the rest of the world, and
the calls that the module makes into them are recorded. A `pa_usec_t` is a
`uint64_t`; a `size_t` byte count is a natural number. -/

/-- The value of a `pa_usec_t` after an operation whose exact result is `x`. -/
def wrap64 (x : Int) : Nat := (x % 18446744073709551616).toNat

/-- The fields of `struct pa_sink` that the module reads and writes itself:
the sample spec and `thread_info.rewind_nbytes`. -/
structure pa_sink where
  sample_spec : pa_sample_spec
  rewind_nbytes : Nat

/-- The `struct userdata` of the module as far as the rendering and the
message handler use it. -/
structure userdata where
  sink : pa_sink
  block_size : Nat
  block_usec : Nat
  timestamp : Nat

/-- A call of the module into the sink object or the memory blocks. -/
inductive SinkCall
  | process_rewind (nbytes : Nat)
  | render (length : Nat) (chunk : pa_memchunk)
  | unref (b : pa_memblock)
  | process_msg (code : Int) (data : Nat) (offset : Int)

/-- What surrounds the module: the message codes and the state constant of
`sink.h`, the clock `pa_rtclock_usec`, the conversions `pa_usec_to_bytes` and
`pa_bytes_to_usec` of `sample.c`, and the functions of the sink object and of
the memory blocks that the module calls. -/
structure SinkEnv (σ : Type) where
  PA_SINK_MESSAGE_SET_STATE : Int
  PA_SINK_MESSAGE_GET_LATENCY : Int
  PA_SINK_RUNNING : Nat
  pa_rtclock_usec : σ → Nat
  pa_usec_to_bytes : Nat → pa_sample_spec → Nat
  pa_bytes_to_usec : Nat → pa_sample_spec → Nat
  pa_sink_process_rewind : Nat → σ → σ
  pa_sink_render : Nat → σ → pa_memchunk × σ
  pa_memblock_unref : pa_memblock → σ → σ
  pa_sink_process_msg : Int → Nat → Int → Option pa_memchunk → σ → Int × σ

/-- What `sink_process_msg` leaves: the returned value, the user data, what
it stored through the pointer `data` (`none` when it stored nothing), the
world, and the calls made into the sink object. -/
structure MsgResult (σ : Type) where
  ret : Int
  u : userdata
  stored : Option Nat
  w : σ
  calls : List SinkCall

/-- The tail `return pa_sink_process_msg(o, code, data, offset, chunk)` of
`sink_process_msg`. -/
def sink_process_msg_generic {σ : Type} (S : SinkEnv σ) (u : userdata) (code : Int) (data : Nat)
    (offset : Int) (chunk : Option pa_memchunk) (w : σ) : MsgResult σ :=
  let g := S.pa_sink_process_msg code data offset chunk w
  { ret := g.1, u := u, stored := none, w := g.2,
    calls := [SinkCall.process_msg code data offset] }

/-- The function `sink_process_msg(o, code, data, offset, chunk)`; for
`PA_SINK_MESSAGE_SET_STATE` the pointer `data` carries the new state. The case
labels of the `switch` are distinct constants. -/
def sink_process_msg {σ : Type} (S : SinkEnv σ) (u : userdata) (code : Int) (data : Nat)
    (offset : Int) (chunk : Option pa_memchunk) (w : σ) : MsgResult σ :=
  if code = S.PA_SINK_MESSAGE_SET_STATE then
    let u := if data = S.PA_SINK_RUNNING then { u with timestamp := S.pa_rtclock_usec w } else u
    sink_process_msg_generic S u code data offset chunk w
  else if code = S.PA_SINK_MESSAGE_GET_LATENCY then
    let now := S.pa_rtclock_usec w
    { ret := 0, u := u, stored := some (if u.timestamp > now then u.timestamp - now else 0),
      w := w, calls := [] }
  else sink_process_msg_generic S u code data offset chunk w

/-- The function `process_rewind(u, now)`: the user data and the world
afterwards and the calls made into the sink object; `none` when the assertion
`rewind_nbytes > 0` fails. -/
def process_rewind {σ : Type} (S : SinkEnv σ) (u : userdata) (now : Nat) (w : σ) :
    Option (userdata × σ × List SinkCall) :=
  let rewind_nbytes := u.sink.rewind_nbytes
  let u := { u with sink := { u.sink with rewind_nbytes := 0 } }
  if ¬ rewind_nbytes > 0 then none
  else if u.timestamp ≤ now then some (u, w, [])
  else
    let delay := u.timestamp - now
    let in_buffer := S.pa_usec_to_bytes delay u.sink.sample_spec
    if in_buffer ≤ 0 then some (u, w, [])
    else
      let rewind_nbytes := if rewind_nbytes > in_buffer then in_buffer else rewind_nbytes
      let w := S.pa_sink_process_rewind rewind_nbytes w
      let usec := S.pa_bytes_to_usec rewind_nbytes u.sink.sample_spec
      let u := { u with timestamp := wrap64 ((u.timestamp : Int) - (usec : Int)) }
      some (u, w, [SinkCall.process_rewind rewind_nbytes])

/-- The `while` loop of `process_render` with the local `ate`; `none` only
when the iteration budget `fuel` is used up. -/
def render_loop {σ : Type} (S : SinkEnv σ) (now nbytes : Nat) :
    Nat → userdata → Nat → σ → List SinkCall → Option (userdata × Nat × σ × List SinkCall)
  | 0, _, _, _, _ => none
  | fuel + 1, u, ate, w, calls =>
    if u.timestamp < wrap64 ((now : Int) + (u.block_usec : Int)) then
      let r := S.pa_sink_render nbytes w
      let w := S.pa_memblock_unref r.1.memblock r.2
      let usec := S.pa_bytes_to_usec r.1.length u.sink.sample_spec
      let u := { u with timestamp := wrap64 ((u.timestamp : Int) + (usec : Int)) }
      let ate := ate + r.1.length
      let calls := calls ++ [SinkCall.render nbytes r.1, SinkCall.unref r.1.memblock]
      if ate ≥ nbytes then some (u, ate, w, calls)
      else render_loop S now nbytes fuel u ate w calls
    else some (u, ate, w, calls)

/-- The function `process_render(u, now)`, run for at most `fuel` passes of
its loop: the user data, the value of `ate`, the world, and the calls made
into the sink object and the memory blocks. -/
def process_render {σ : Type} (S : SinkEnv σ) (fuel : Nat) (u : userdata) (now : Nat) (w : σ) :
    Option (userdata × Nat × σ × List SinkCall) :=
  render_loop S now (S.pa_usec_to_bytes u.block_usec u.sink.sample_spec) fuel u 0 w []

/-- The chunks that the calls into the sink object rendered, in order. -/
def rendered : List SinkCall → List pa_memchunk
  | [] => []
  | .render _ c :: rest => c :: rendered rest
  | _ :: rest => rendered rest

/-- The blocks that the calls released, in order. -/
def released : List SinkCall → List pa_memblock
  | [] => []
  | .unref b :: rest => b :: released rest
  | _ :: rest => released rest

/-- The calls of a rendering that got the chunks `chunks`: each chunk is
rendered with the request `nbytes` and its block is released at once. -/
def render_calls (nbytes : Nat) (chunks : List pa_memchunk) : List SinkCall :=
  chunks.flatMap (fun c => [SinkCall.render nbytes c, SinkCall.unref c.memblock])

/-- The durations of the chunks added up. -/
def chunks_usec {σ : Type} (S : SinkEnv σ) (spec : pa_sample_spec) (chunks : List pa_memchunk) :
    Nat :=
  (chunks.map (fun c => S.pa_bytes_to_usec c.length spec)).sum

/-- The lengths of the chunks added up. -/
def chunks_bytes (chunks : List pa_memchunk) : Nat := (chunks.map (fun c => c.length)).sum

/-- Modelled from the spec: `pa_usec_to_bytes` of `sample.c` (not among the
sources), the whole frames that fit into the duration, in bytes. -/
def pa_usec_to_bytes (t : Nat) (spec : pa_sample_spec) : Nat :=
  t * spec.rate / 1000000 * pa_frame_size spec

/-- Modelled from the spec: `pa_bytes_to_usec` of `sample.c` (not among the
sources), the duration of the whole frames of the byte count. -/
def pa_bytes_to_usec (length : Nat) (spec : pa_sample_spec) : Nat :=
  length / pa_frame_size spec * 1000000 / spec.rate

/-- A world for the examples of the null sink: the clock stands at 1000000,
the sink renders chunks of 4096 bytes of one empty block, and the codes of
`PA_SINK_MESSAGE_SET_STATE` and `PA_SINK_MESSAGE_GET_LATENCY` are 9 and 7. -/
def ex_sink_env : SinkEnv Unit :=
  { PA_SINK_MESSAGE_SET_STATE := 9, PA_SINK_MESSAGE_GET_LATENCY := 7, PA_SINK_RUNNING := 2,
    pa_rtclock_usec := fun _ => 1000000,
    pa_usec_to_bytes := pa_usec_to_bytes,
    pa_bytes_to_usec := pa_bytes_to_usec,
    pa_sink_process_rewind := fun _ w => w,
    pa_sink_render := fun _ w => (⟨⟨ex_mem [], 4096⟩, 0, 4096⟩, w),
    pa_memblock_unref := fun _ w => w,
    pa_sink_process_msg := fun _ _ _ _ w => (0, w) }

/-- The user data of a sink of two channels of S16 at 44100 Hz with 100 ms
rendered ahead of the clock of `ex_sink_env`, a block duration of 50 ms, and
a rewind request of `r` bytes. -/
def ex_userdata (r : Nat) : userdata :=
  { sink := { sample_spec := ex_spec, rewind_nbytes := r },
    block_size := 8820, block_usec := 50000, timestamp := 1100000 }

/-! ## What every phase of a run keeps -/

/-- The state in which a phase of a run ends, if no assertion failed,
satisfies `I`. -/
def Outcome.ends_in {σ : Type} (I : RunState σ → Prop) : Outcome σ → Prop
  | .fail => True
  | .proceed s => I s
  | .finish _ s => I s

/-- The state that a loop of `after_cb` calls leaves, if no assertion
failed, satisfies `I`. -/
def ends_in_state {σ : Type} (I : RunState σ → Prop) : Option (RunState σ) → Prop
  | none => True
  | some s => I s

/-- The entry is the system call or belongs to an item of the list. -/
def Event.of_items (items : List pa_rtpoll_item) (e : Event) : Prop :=
  ∀ j, e.item = some j → ∃ i ∈ items, i.id = j

/-- A stream whose volumes are all MUTED over the listed bytes. -/
def ex_silenced (bytes : List Nat) : pa_mix_info :=
  { chunk := { memblock := { data := ex_mem bytes, length := bytes.length },
               index := 0, length := bytes.length },
    volume := ex_muted }

/-- An environment whose system call is interrupted: it returns -1 with the
errno `EINTR`. -/
def ex_env_eintr : Env Unit :=
  { ex_env with poll := fun _ _ w => (⟨-1, 4, fun _ => 0⟩, w) }

/-- Every entry of the trace that records a call which freed the item at the
address `id` finds that item marked dead and is followed by no entry of it. -/
def freed_stays {σ : Type} (E : Env σ) (items : List pa_rtpoll_item) (id : Nat)
    (s : RunState σ) : Prop :=
  ∀ T1 e T2, s.trace = T1 ++ e :: T2 → frees E items id e →
    (∀ i ∈ s.p.items, i.id = id → i.dead = true) ∧ ∀ e' ∈ T2, e'.item ≠ some id

/-- An rtpoll with three items: item 3 with an `after_cb` (callback 300), then
item 2 and item 1 with a `before_cb` (callback 200). -/
def ex_rtpoll_free : pa_rtpoll :=
  { pa_rtpoll_new with
    items := [⟨3, false, 1, none, 0, none, none, some 300, 0⟩,
              ⟨2, false, 2, none, 0, none, some 200, none, 0⟩,
              ⟨1, false, 3, none, 0, none, some 200, none, 0⟩] }

/-! # Theorems about the sample kernels -/


/-! ## Facts about stores -/

theorem Mem.write_same (m : Mem) (a : Nat) (b : Byte) : (m.write a b) a = b := by
  simp [Mem.write]

theorem Mem.write_other (m : Mem) (a x : Nat) (b : Byte) (h : x ≠ a) :
    (m.write a b) x = m x := by
  simp [Mem.write, h]

theorem s16ne_ops_lawful (B : Build) : (s16ne_ops B).Lawful where
  size_pos := by simp [s16ne_ops]
  store_frame := by
    intro m a v x h
    have h1 : x ≠ a := by simp [s16ne_ops] at h; omega
    have h2 : x ≠ a + 1 := by simp [s16ne_ops] at h; omega
    simp only [s16ne_ops, store_s16]
    split <;> simp [Mem.write, h1, h2]
  store_own := by
    intro m m' a v x h1 h2
    have h3 : x = a ∨ x = a + 1 := by simp [s16ne_ops] at h2; omega
    simp only [s16ne_ops, store_s16]
    rcases h3 with rfl | rfl <;> split <;> simp [Mem.write]
  load_local := by
    intro m m' a h
    have h0 := h a (Nat.le_refl _) (by simp [s16ne_ops])
    have h1 := h (a + 1) (by omega) (by simp [s16ne_ops])
    simp only [s16ne_ops, load_s16, h0, h1]

theorem u8_ops_lawful (B : Build) : (u8_ops B).Lawful where
  size_pos := by simp [u8_ops]
  store_frame := by
    intro m a v x h
    have h1 : x ≠ a := by simp [u8_ops] at h; omega
    simp [u8_ops, Mem.write, h1]
  store_own := by
    intro m m' a v x h1 h2
    have h3 : x = a := by simp [u8_ops] at h2; omega
    subst h3
    simp [u8_ops, Mem.write]
  load_local := by
    intro m m' a h
    have h0 := h a (Nat.le_refl _) (by simp [u8_ops])
    simp only [u8_ops, h0]

theorem float32ne_ops_lawful (B : Build) : (float32ne_ops B).Lawful where
  size_pos := by simp [float32ne_ops]
  store_frame := by
    intro m a v x h
    have h1 : x ≠ a ∧ x ≠ a + 1 ∧ x ≠ a + 2 ∧ x ≠ a + 3 := by
      simp [float32ne_ops] at h; omega
    simp only [float32ne_ops, store_f32]
    split <;> simp [Mem.write, h1]
  store_own := by
    intro m m' a v x h1 h2
    have h3 : x = a ∨ x = a + 1 ∨ x = a + 2 ∨ x = a + 3 := by
      simp [float32ne_ops] at h2; omega
    simp only [float32ne_ops, store_f32]
    rcases h3 with rfl | rfl | rfl | rfl <;> split <;> simp [Mem.write]
  load_local := by
    intro m m' a h
    have h0 := h a (Nat.le_refl _) (by simp [float32ne_ops])
    have h1 := h (a + 1) (by omega) (by simp [float32ne_ops])
    have h2 := h (a + 2) (by omega) (by simp [float32ne_ops])
    have h3 := h (a + 3) (by omega) (by simp [float32ne_ops])
    simp only [float32ne_ops, load_f32, h0, h1, h2, h3]


/-! ## The mix as a closed form -/

theorem channel_at_eq_mod {channels : Nat} (h : 0 < channels) (k : Nat) :
    channel_at channels k = k % channels := by
  induction k with
  | zero => simp [channel_at]
  | succ k ih =>
    simp only [channel_at, ih]
    have hlt : k % channels < channels := Nat.mod_lt _ h
    have hm : (k + 1) % channels = (k % channels + 1) % channels :=
      (Nat.mod_add_mod k channels 1).symm
    by_cases hc : k % channels + 1 ≥ channels
    · have he : k % channels + 1 = channels := by omega
      rw [if_pos hc, hm, he, Nat.mod_self]
    · have hlt2 : k % channels + 1 < channels := by omega
      rw [if_neg hc, hm, Nat.mod_eq_of_lt hlt2]

theorem lt_mix_length {streams : List pa_mix_info} {length d : Nat} :
    d < mix_length streams length ↔ d < length ∧ ∀ s ∈ streams, d < s.chunk.length := by
  induction streams with
  | nil => simp [mix_length]
  | cons s rest ih =>
    have : mix_length (s :: rest) length = min s.chunk.length (mix_length rest length) := rfl
    rw [this, lt_min_iff, ih]
    simp only [List.mem_cons, forall_eq_or_imp]
    tauto

theorem mix_length_le (streams : List pa_mix_info) (length : Nat) :
    mix_length streams length ≤ length := by
  by_contra h
  have := (@lt_mix_length streams length length).1 (by omega)
  omega

theorem mix_streams_some {α : Type} (K : SampleOps α) (NORM d channel : Nat)
    (streams : List pa_mix_info) (sum : α) (h : ∀ s ∈ streams, d < s.chunk.length) :
    mix_streams K NORM d channel streams sum = some (mix_sum K NORM d channel streams sum) := by
  induction streams generalizing sum with
  | nil => rfl
  | cons s rest ih =>
    have hs : ¬ d ≥ s.chunk.length := by
      have := h s (by simp); omega
    simp only [mix_streams, if_neg hs]
    rw [ih _ (fun t ht => h t (by simp [ht]))]
    rfl

theorem mix_streams_none {α : Type} (K : SampleOps α) (NORM d channel : Nat)
    (streams : List pa_mix_info) (sum : α) (h : ∃ s ∈ streams, s.chunk.length ≤ d) :
    mix_streams K NORM d channel streams sum = none := by
  induction streams generalizing sum with
  | nil => simp at h
  | cons s rest ih =>
    by_cases hs : d ≥ s.chunk.length
    · simp [mix_streams, hs]
    · simp only [mix_streams, if_neg hs]
      apply ih
      obtain ⟨t, ht, hle⟩ := h
      rcases List.mem_cons.1 ht with rfl | ht'
      · omega
      · exact ⟨t, ht', hle⟩

theorem mix_image_self {α : Type} (K : SampleOps α) (NORM : Nat) (streams : List pa_mix_info)
    (channels volume n : Nat) (data : Mem) :
    mix_image K NORM streams channels volume n n data = data := by
  funext a
  have : ¬ (n * K.size ≤ a ∧ a < n * K.size) := by omega
  simp [mix_image, this]

theorem mix_image_step {α : Type} (K : SampleOps α) (hK : K.Lawful) (NORM : Nat)
    (streams : List pa_mix_info) (channels volume j n : Nat) (data : Mem) (hj : j < n) :
    mix_image K NORM streams channels volume (j + 1) n
        (K.store data (j * K.size) (mix_out K NORM streams channels volume j)) =
      mix_image K NORM streams channels volume j n data := by
  funext a
  have hs := hK.size_pos
  have hmul : (j + 1) * K.size = j * K.size + K.size := Nat.succ_mul _ _
  have hn : (j + 1) * K.size ≤ n * K.size := Nat.mul_le_mul_right _ hj
  have hdm : a / K.size * K.size ≤ a := Nat.div_mul_le_self _ _
  have hdm2 : a < a / K.size * K.size + K.size := by
    have := Nat.lt_succ_iff.2 (Nat.le_refl (a / K.size))
    have h2 := (Nat.div_lt_iff_lt_mul hs).1 this
    rw [Nat.succ_mul] at h2
    exact h2
  simp only [mix_image]
  by_cases h1 : a < j * K.size
  · have c1 : ¬ ((j + 1) * K.size ≤ a ∧ a < n * K.size) := by omega
    have c2 : ¬ (j * K.size ≤ a ∧ a < n * K.size) := by omega
    rw [if_neg c1, if_neg c2]
    exact hK.store_frame _ _ _ _ (Or.inl h1)
  · by_cases h2 : a < (j + 1) * K.size
    · have c1 : ¬ ((j + 1) * K.size ≤ a ∧ a < n * K.size) := by omega
      have c2 : j * K.size ≤ a ∧ a < n * K.size := by omega
      have hq : a / K.size = j := by
        apply Nat.div_eq_of_lt_le
        · omega
        · rw [Nat.succ_mul]; omega
      rw [if_neg c1, if_pos c2, hq]
    · by_cases h3 : a < n * K.size
      · have c1 : (j + 1) * K.size ≤ a ∧ a < n * K.size := by omega
        have c2 : j * K.size ≤ a ∧ a < n * K.size := by omega
        rw [if_pos c1, if_pos c2]
        exact hK.store_own _ _ _ _ _ hdm hdm2
      · have c1 : ¬ ((j + 1) * K.size ≤ a ∧ a < n * K.size) := by omega
        have c2 : ¬ (j * K.size ≤ a ∧ a < n * K.size) := by omega
        rw [if_neg c1, if_neg c2]
        exact hK.store_frame _ _ _ _ (Or.inr (by omega))

/-- The outer loop of `pa_mix` in closed form: started at sample `j` with
enough iterations left it returns `n * size`, where `n` is the number of
sample positions below min(length, chunk lengths), and leaves `mix_image`. -/
theorem pa_mix_loop_eq {α : Type} (K : SampleOps α) (hK : K.Lawful) (NORM : Nat)
    (streams : List pa_mix_info) (length channels volume n : Nat)
    (hlt : ∀ k, k < n → k * K.size < mix_length streams length)
    (hge : mix_length streams length ≤ n * K.size) :
    ∀ (fuel j : Nat) (data : Mem), j ≤ n → n - j < fuel →
      pa_mix_loop K NORM streams length channels volume fuel (j * K.size)
          (channel_at channels j) data =
        some (n * K.size, mix_image K NORM streams channels volume j n data) := by
  intro fuel
  induction fuel with
  | zero => intro j data _ h; omega
  | succ fuel ih =>
    intro j data hjn hfuel
    by_cases hj : j = n
    · subst hj
      rw [mix_image_self]
      have hnot : ¬ j * K.size < mix_length streams length := by omega
      rw [lt_mix_length] at hnot
      unfold pa_mix_loop
      by_cases hl : j * K.size ≥ length
      · rw [if_pos hl]
      · rw [if_neg hl]
        have hex : ∃ s ∈ streams, s.chunk.length ≤ j * K.size := by
          by_contra hne
          apply hnot
          refine ⟨by omega, fun s hs => ?_⟩
          by_contra hc
          exact hne ⟨s, hs, by omega⟩
        rw [mix_streams_none K NORM _ _ streams _ hex]
    · have hjlt : j < n := by omega
      have hd := hlt j hjlt
      rw [lt_mix_length] at hd
      unfold pa_mix_loop
      have hl : ¬ j * K.size ≥ length := by omega
      rw [if_neg hl, mix_streams_some K NORM _ _ streams _ hd.2]
      simp only []
      have hstep := ih (j + 1) (K.store data (j * K.size)
        (mix_out K NORM streams channels volume j)) (by omega) (by omega)
      rw [Nat.succ_mul] at hstep
      have hch : channel_at channels (j + 1) =
          (if channel_at channels j + 1 ≥ channels then 0 else channel_at channels j + 1) := rfl
      rw [hch] at hstep
      rw [← mix_image_step K hK NORM streams channels volume j n data hjlt]
      exact hstep

theorem lt_mix_count {size M k : Nat} (hs : 0 < size) :
    k < mix_count size M ↔ k * size < M := by
  unfold mix_count
  rw [Nat.lt_iff_add_one_le, Nat.le_div_iff_mul_le hs, Nat.succ_mul]
  omega

theorem le_mix_count_mul {size M : Nat} (hs : 0 < size) : M ≤ mix_count size M * size := by
  by_contra h
  have h1 : mix_count size M * size < M := by omega
  have := (@lt_mix_count size M (mix_count size M) hs).2 h1
  omega

theorem mix_count_le {size M : Nat} (hs : 0 < size) : mix_count size M ≤ M := by
  by_contra h
  have h1 : M < mix_count size M := by omega
  have h2 := (lt_mix_count hs).1 h1
  have h3 : M ≤ M * size := Nat.le_mul_of_pos_right _ hs
  omega

theorem mix_count_mul_of_dvd {size M : Nat} (hs : 0 < size) (hd : size ∣ M) :
    mix_count size M * size = M := by
  obtain ⟨q, rfl⟩ := hd
  have h1 : ¬ q < mix_count size (size * q) := by
    intro h
    have := (lt_mix_count hs).1 h
    rw [Nat.mul_comm] at this
    omega
  have h2 : ¬ mix_count size (size * q) < q := by
    intro h
    have h3 : ¬ mix_count size (size * q) < mix_count size (size * q) := by omega
    apply h3
    rw [lt_mix_count hs]
    calc mix_count size (size * q) * size < q * size := Nat.mul_lt_mul_of_pos_right h hs
      _ = size * q := Nat.mul_comm _ _
  have h4 : mix_count size (size * q) = q := by omega
  rw [h4, Nat.mul_comm]

/-- The function `pa_mix` on one format in closed form. -/
theorem pa_mix_loop_result {α : Type} (K : SampleOps α) (hK : K.Lawful) (NORM : Nat)
    (streams : List pa_mix_info) (length channels volume : Nat) (data : Mem) :
    pa_mix_loop K NORM streams length channels volume (length + 1) 0 0 data =
      some (mix_count K.size (mix_length streams length) * K.size,
        mix_image K NORM streams channels volume 0
          (mix_count K.size (mix_length streams length)) data) := by
  have hs := hK.size_pos
  have h := pa_mix_loop_eq K hK NORM streams length channels volume
    (mix_count K.size (mix_length streams length))
    (fun k hk => (lt_mix_count hs).1 hk) (le_mix_count_mul hs) (length + 1) 0 data
    (Nat.zero_le _)
    (by
      have := mix_count_le (M := mix_length streams length) hs
      have := mix_length_le streams length
      omega)
  simpa [channel_at] using h

theorem dvd_mix_length {size : Nat} (streams : List pa_mix_info) (length : Nat)
    (hl : size ∣ length) (hc : ∀ s ∈ streams, size ∣ s.chunk.length) :
    size ∣ mix_length streams length := by
  induction streams with
  | nil => exact hl
  | cons s rest ih =>
    have e : mix_length (s :: rest) length = min s.chunk.length (mix_length rest length) := rfl
    rw [e]
    rcases Nat.le_total s.chunk.length (mix_length rest length) with h | h
    · rw [Nat.min_eq_left h]; exact hc s (by simp)
    · rw [Nat.min_eq_right h]; exact ih (fun t ht => hc t (by simp [ht]))

/-- With whole samples everywhere the loop returns min(length, chunk lengths),
leaves the bytes from there on alone, and what it leaves below does not depend
on what the destination held. -/
theorem pa_mix_loop_length {α : Type} (K : SampleOps α) (hK : K.Lawful) (NORM : Nat)
    (streams : List pa_mix_info) (length channels volume : Nat) (data : Mem)
    (hl : K.size ∣ length) (hc : ∀ s ∈ streams, K.size ∣ s.chunk.length) :
    ∃ data', pa_mix_loop K NORM streams length channels volume (length + 1) 0 0 data =
        some (mix_length streams length, data') ∧
      (∀ a, mix_length streams length ≤ a → data' a = data a) ∧
      (∀ data₂ : Mem, ∃ data₂',
        pa_mix_loop K NORM streams length channels volume (length + 1) 0 0 data₂ =
          some (mix_length streams length, data₂') ∧
        ∀ a, a < mix_length streams length → data₂' a = data' a) := by
  have hs := hK.size_pos
  have hM := mix_count_mul_of_dvd hs (dvd_mix_length streams length hl hc)
  refine ⟨mix_image K NORM streams channels volume 0
    (mix_count K.size (mix_length streams length)) data, ?_, ?_, ?_⟩
  · rw [pa_mix_loop_result K hK, hM]
  · intro a ha
    have : ¬ (0 * K.size ≤ a ∧ a < mix_count K.size (mix_length streams length) * K.size) := by
      rw [hM]; omega
    simp only [mix_image, if_neg this]
  · intro data₂
    refine ⟨mix_image K NORM streams channels volume 0
      (mix_count K.size (mix_length streams length)) data₂, ?_, ?_⟩
    · rw [pa_mix_loop_result K hK, hM]
    · intro a ha
      have c : 0 * K.size ≤ a ∧ a < mix_count K.size (mix_length streams length) * K.size := by
        rw [hM]; omega
      simp only [mix_image, if_pos c]
      apply hK.store_own
      · exact Nat.div_mul_le_self _ _
      · have := Nat.lt_succ_iff.2 (Nat.le_refl (a / K.size))
        have h2 := (Nat.div_lt_iff_lt_mul hs).1 this
        rw [Nat.succ_mul] at h2
        exact h2

/-- The S16NE branch of `pa_mix` in closed form. -/
theorem pa_mix_s16ne (B : Build) (streams : List pa_mix_info) (data : Mem) (length : Nat)
    (spec : pa_sample_spec) (volume : Nat) (hlen : 0 < length)
    (h : spec.format = PA_SAMPLE_S16NE B) :
    pa_mix B streams data length spec volume =
      some (mix_count 2 (mix_length streams length) * 2,
        mix_image (s16ne_ops B) B.PA_VOLUME_NORM streams spec.channels volume 0
          (mix_count 2 (mix_length streams length)) data) := by
  have hne : ¬ length = 0 := by omega
  simp only [pa_mix, if_neg hne, if_pos h]
  exact pa_mix_loop_result (s16ne_ops B) (s16ne_ops_lawful B) _ _ _ _ _ _

theorem S16NE_ne_U8 (B : Build) : ¬ pa_sample_format.U8 = PA_SAMPLE_S16NE B := by
  unfold PA_SAMPLE_S16NE; split <;> simp

theorem S16NE_ne_FLOAT32NE (B : Build) : ¬ PA_SAMPLE_FLOAT32NE = PA_SAMPLE_S16NE B := by
  unfold PA_SAMPLE_S16NE PA_SAMPLE_FLOAT32NE; split <;> simp

/-- The U8 branch of `pa_mix` in closed form. -/
theorem pa_mix_u8 (B : Build) (streams : List pa_mix_info) (data : Mem) (length : Nat)
    (spec : pa_sample_spec) (volume : Nat) (hlen : 0 < length)
    (h : spec.format = pa_sample_format.U8) :
    pa_mix B streams data length spec volume =
      some (mix_count 1 (mix_length streams length) * 1,
        mix_image (u8_ops B) B.PA_VOLUME_NORM streams spec.channels volume 0
          (mix_count 1 (mix_length streams length)) data) := by
  have hne : ¬ length = 0 := by omega
  have h1 : ¬ spec.format = PA_SAMPLE_S16NE B := by rw [h]; exact S16NE_ne_U8 B
  simp only [pa_mix, if_neg hne, if_neg h1, if_pos h]
  exact pa_mix_loop_result (u8_ops B) (u8_ops_lawful B) _ _ _ _ _ _

/-- The FLOAT32NE branch of `pa_mix` in closed form. -/
theorem pa_mix_float32ne (B : Build) (streams : List pa_mix_info) (data : Mem) (length : Nat)
    (spec : pa_sample_spec) (volume : Nat) (hlen : 0 < length)
    (h : spec.format = PA_SAMPLE_FLOAT32NE) :
    pa_mix B streams data length spec volume =
      some (mix_count 4 (mix_length streams length) * 4,
        mix_image (float32ne_ops B) B.PA_VOLUME_NORM streams spec.channels volume 0
          (mix_count 4 (mix_length streams length)) data) := by
  have hne : ¬ length = 0 := by omega
  have h1 : ¬ spec.format = PA_SAMPLE_S16NE B := by rw [h]; exact S16NE_ne_FLOAT32NE B
  have h2 : ¬ spec.format = pa_sample_format.U8 := by rw [h]; simp [PA_SAMPLE_FLOAT32NE]
  simp only [pa_mix, if_neg hne, if_neg h1, if_neg h2, if_pos h]
  exact pa_mix_loop_result (float32ne_ops B) (float32ne_ops_lawful B) _ _ _ _ _ _

/-- C1. For each supported format (S16NE, U8, FLOAT32NE), every list of
streams and every length > 0 such that length and every chunk length are
multiples of the sample size, `pa_mix` returns exactly
min(length, min over the streams of chunk.length), which is length when there
are no streams, and writes exactly that many destination bytes: the bytes from
the returned offset on keep their contents, and each byte below it receives a
value that does not depend on what the destination held before. -/
theorem pa_mix_returns_min_length (B : Build) (streams : List pa_mix_info) (data : Mem)
    (length : Nat) (spec : pa_sample_spec) (volume : Nat)
    (hfmt : spec.format = PA_SAMPLE_S16NE B ∨ spec.format = pa_sample_format.U8 ∨
      spec.format = PA_SAMPLE_FLOAT32NE)
    (hlen : 0 < length)
    (hl : pa_sample_size spec.format ∣ length)
    (hc : ∀ s ∈ streams, pa_sample_size spec.format ∣ s.chunk.length) :
    mix_length [] length = length ∧
    ∃ data', pa_mix B streams data length spec volume =
        some (mix_length streams length, data') ∧
      (∀ a, mix_length streams length ≤ a → data' a = data a) ∧
      (∀ data₂ : Mem, ∃ data₂',
        pa_mix B streams data₂ length spec volume = some (mix_length streams length, data₂') ∧
        ∀ a, a < mix_length streams length → data₂' a = data' a) := by
  refine ⟨rfl, ?_⟩
  have hne : ¬ length = 0 := by omega
  have hsz16 : pa_sample_size (PA_SAMPLE_S16NE B) = 2 := by
    unfold PA_SAMPLE_S16NE; split <;> rfl
  by_cases h1 : spec.format = PA_SAMPLE_S16NE B
  · rw [h1, hsz16] at hl hc
    simp only [pa_mix, if_neg hne, if_pos h1]
    exact pa_mix_loop_length (s16ne_ops B) (s16ne_ops_lawful B) _ streams length _ volume data hl hc
  · by_cases h2 : spec.format = pa_sample_format.U8
    · rw [h2] at hl hc
      simp only [pa_mix, if_neg hne, if_neg h1, if_pos h2]
      exact pa_mix_loop_length (u8_ops B) (u8_ops_lawful B) _ streams length _ volume data hl hc
    · have h3 : spec.format = PA_SAMPLE_FLOAT32NE := by tauto
      rw [h3] at hl hc
      simp only [pa_mix, if_neg hne, if_neg h1, if_neg h2, if_pos h3]
      exact pa_mix_loop_length (float32ne_ops B) (float32ne_ops_lawful B) _ streams length _
        volume data hl hc



/-- The mix length on one S16NE stream of two samples. -/
theorem pa_mix_returns_min_length_witness :
    (0 < 4 ∧ pa_sample_size pa_sample_format.S16LE ∣ 4) ∧
    (mix_length [] 4 = 4 ∧
     ∃ data', pa_mix ex_build [ex_stream [0, 0x20, 0, 0x20] [0x10000, 0x10000]] (ex_mem []) 4
        ⟨.S16LE, 44100, 2⟩ 0x10000 =
        some (mix_length [ex_stream [0, 0x20, 0, 0x20] [0x10000, 0x10000]] 4, data') ∧
      (∀ a, mix_length [ex_stream [0, 0x20, 0, 0x20] [0x10000, 0x10000]] 4 ≤ a →
        data' a = ex_mem [] a) ∧
      (∀ data₂ : Mem, ∃ data₂',
        pa_mix ex_build [ex_stream [0, 0x20, 0, 0x20] [0x10000, 0x10000]] data₂ 4
          ⟨.S16LE, 44100, 2⟩ 0x10000 =
          some (mix_length [ex_stream [0, 0x20, 0, 0x20] [0x10000, 0x10000]] 4, data₂') ∧
        ∀ a, a < mix_length [ex_stream [0, 0x20, 0, 0x20] [0x10000, 0x10000]] 4 →
          data₂' a = data' a)) :=
  ⟨⟨by decide, by decide⟩,
   pa_mix_returns_min_length ex_build [ex_stream [0, 0x20, 0, 0x20] [0x10000, 0x10000]]
     (ex_mem []) 4 ⟨.S16LE, 44100, 2⟩ 0x10000 (Or.inl rfl) (by decide) (by decide)
     (by decide)⟩

/-! ## Silence constants -/

/-- C6. At the A-law and µ-law formats `pa_silence_memory` does not fill with
`0x80`: on a one-byte buffer it leaves the byte 80 (decimal, `0x50`), while
for U8 it leaves `0x80` and for S16LE, S16BE and FLOAT32 it leaves 0. -/
theorem pa_silence_memory_bytes (m : Mem) :
    (pa_silence_memory m 0 1 ⟨.ALAW, 8000, 1⟩).map (fun m' => (m' 0).val) = some 80 ∧
    (pa_silence_memory m 0 1 ⟨.ULAW, 8000, 1⟩).map (fun m' => (m' 0).val) = some 80 ∧
    (pa_silence_memory m 0 1 ⟨.U8, 8000, 1⟩).map (fun m' => (m' 0).val) = some 0x80 ∧
    (pa_silence_memory m 0 1 ⟨.S16LE, 8000, 1⟩).map (fun m' => (m' 0).val) = some 0 ∧
    (pa_silence_memory m 0 1 ⟨.S16BE, 8000, 1⟩).map (fun m' => (m' 0).val) = some 0 ∧
    (pa_silence_memory m 0 1 ⟨.FLOAT32, 8000, 1⟩).map (fun m' => (m' 0).val) = some 0 :=
  ⟨rfl, rfl, rfl, rfl, rfl, rfl⟩

/-! ## Mixing under a muted master volume -/

theorem pa_silence_memory_eq (m : Mem) (off length : Nat) (spec : pa_sample_spec)
    (h : 0 < length) :
    pa_silence_memory m off length spec = some (memset m off (silence_byte spec.format) length) := by
  have : ¬ length = 0 := by omega
  simp [pa_silence_memory, this]

theorem mix_image_muted {α : Type} (K : SampleOps α) (hK : K.Lawful) (NORM : Nat)
    (streams : List pa_mix_info) (channels n : Nat) (data : Mem) (c : Byte)
    (hc : ∀ (m : Mem) (a x : Nat), a ≤ x → x < a + K.size →
      K.store m a (K.clamp K.zero) x = c)
    (a : Nat) (ha : a < n * K.size) :
    mix_image K NORM streams channels PA_VOLUME_MUTED 0 n data a = c := by
  have hs := hK.size_pos
  have c1 : 0 * K.size ≤ a ∧ a < n * K.size := by omega
  simp only [mix_image, if_pos c1, mix_out, mix_master, if_pos]
  apply hc
  · exact Nat.div_mul_le_self _ _
  · have := Nat.lt_succ_iff.2 (Nat.le_refl (a / K.size))
    have h2 := (Nat.div_lt_iff_lt_mul hs).1 this
    rw [Nat.succ_mul] at h2
    exact h2

theorem toByte_zero : toByte 0 = (0 : Byte) := by decide

theorem s16ne_store_zero (B : Build) (m : Mem) (a x : Nat) (h1 : a ≤ x)
    (h2 : x < a + (s16ne_ops B).size) :
    (s16ne_ops B).store m a ((s16ne_ops B).clamp (s16ne_ops B).zero) x = 0 := by
  have h3 : x = a ∨ x = a + 1 := by simp [s16ne_ops] at h2; omega
  simp only [s16ne_ops, store_s16]
  rcases h3 with rfl | rfl <;> split <;> simp [Mem.write, toByte_zero]

theorem u8_store_zero (B : Build) (m : Mem) (a x : Nat) (h1 : a ≤ x)
    (h2 : x < a + (u8_ops B).size) :
    (u8_ops B).store m a ((u8_ops B).clamp (u8_ops B).zero) x = 0x80 := by
  have h3 : x = a := by simp [u8_ops] at h2; omega
  subst h3
  have e : toByte (((if (if (0 : Int) < -0x80 then -0x80 else 0) > 0x7F then 0x7F
      else if (0 : Int) < -0x80 then -0x80 else 0) : Int) + 0x80) = (0x80 : Byte) := by decide
  simp only [u8_ops, Mem.write, if_pos, e]

theorem float32ne_clamp_zero (B : Build) :
    (float32ne_ops B).clamp (float32ne_ops B).zero = 0 := by
  simp only [float32ne_ops]
  decide

theorem float32ne_store_zero (B : Build) (m : Mem) (a x : Nat) (h1 : a ≤ x)
    (h2 : x < a + (float32ne_ops B).size) :
    (float32ne_ops B).store m a ((float32ne_ops B).clamp (float32ne_ops B).zero) x = 0 := by
  rw [float32ne_clamp_zero]
  have h3 : x = a ∨ x = a + 1 ∨ x = a + 2 ∨ x = a + 3 := by
    simp [float32ne_ops] at h2; omega
  simp only [float32ne_ops, store_f32]
  rcases h3 with rfl | rfl | rfl | rfl <;> split <;> simp [Mem.write, toByte_zero]

/-- C5. For each supported format, every list of streams, every stream
content and every stream volume, `pa_mix` with master volume MUTED returns
and writes only silence: every byte below the returned offset equals the byte
that `pa_silence_memory` writes for that format, which is 0 for S16NE and
FLOAT32NE and `0x80` for U8. -/
theorem pa_mix_master_muted_is_silence (B : Build) (streams : List pa_mix_info) (data : Mem)
    (length : Nat) (spec : pa_sample_spec)
    (hfmt : spec.format = PA_SAMPLE_S16NE B ∨ spec.format = pa_sample_format.U8 ∨
      spec.format = PA_SAMPLE_FLOAT32NE)
    (hlen : 0 < length) :
    ∃ d data', pa_mix B streams data length spec PA_VOLUME_MUTED = some (d, data') ∧
      ∀ a, a < d →
        (∃ m, pa_silence_memory data 0 d spec = some m ∧ data' a = m a) ∧
        data' a = (if spec.format = pa_sample_format.U8 then 0x80 else 0) := by
  have hne : ¬ length = 0 := by omega
  have key : ∀ (d : Nat) (data' : Mem),
      (∀ a, a < d → data' a = silence_byte spec.format) →
      ∀ a, a < d →
        (∃ m, pa_silence_memory data 0 d spec = some m ∧ data' a = m a) ∧
        data' a = (if spec.format = pa_sample_format.U8 then 0x80 else 0) := by
    intro d data' h a ha
    refine ⟨⟨_, pa_silence_memory_eq data 0 d spec (by omega), ?_⟩, ?_⟩
    · simp [memset, ha, h a ha]
    · rw [h a ha]
      rcases hfmt with h1 | h1 | h1 <;> rw [h1]
      · unfold PA_SAMPLE_S16NE; split <;> simp [silence_byte]
      · simp [silence_byte]
      · simp [silence_byte, PA_SAMPLE_FLOAT32NE]
  by_cases h1 : spec.format = PA_SAMPLE_S16NE B
  · have hres := pa_mix_s16ne B streams data length spec PA_VOLUME_MUTED hlen h1
    refine ⟨_, _, hres, key _ _ ?_⟩
    intro a ha
    rw [mix_image_muted (s16ne_ops B) (s16ne_ops_lawful B) _ _ _ _ _ 0
      (s16ne_store_zero B) a ha, h1]
    unfold PA_SAMPLE_S16NE; split <;> simp [silence_byte]
  · by_cases h2 : spec.format = pa_sample_format.U8
    · have hres := pa_mix_u8 B streams data length spec PA_VOLUME_MUTED hlen h2
      refine ⟨_, _, hres, key _ _ ?_⟩
      intro a ha
      rw [mix_image_muted (u8_ops B) (u8_ops_lawful B) _ _ _ _ _ 0x80
        (u8_store_zero B) a ha, h2]
      simp [silence_byte]
    · have h3 : spec.format = PA_SAMPLE_FLOAT32NE := by tauto
      have hres := pa_mix_float32ne B streams data length spec PA_VOLUME_MUTED hlen h3
      refine ⟨_, _, hres, key _ _ ?_⟩
      intro a ha
      rw [mix_image_muted (float32ne_ops B) (float32ne_ops_lawful B) _ _ _ _ _ 0
        (float32ne_store_zero B) a ha, h3]
      simp [silence_byte, PA_SAMPLE_FLOAT32NE]

/-! ## Loads and stores of samples -/

theorem toByte_val (x : Int) : (((toByte x).val : Nat) : Int) = x % 256 := by
  simp only [toByte]
  omega

theorem load_s16_range (be : Bool) (m : Mem) (a : Nat) :
    -32768 ≤ load_s16 be m a ∧ load_s16 be m a ≤ 32767 := by
  have h0 := (m a).isLt
  have h1 := (m (a + 1)).isLt
  unfold load_s16 toS16
  split <;> split <;> omega

/-- Reading back a stored sample that is in the range of `int16_t`. -/
theorem load_s16_of_store (be : Bool) (m m' : Mem) (a : Nat) (v : Int)
    (hv : -32768 ≤ v ∧ v ≤ 32767)
    (h0 : m' a = store_s16 be m a v a) (h1 : m' (a + 1) = store_s16 be m a v (a + 1)) :
    load_s16 be m' a = v := by
  have e0 := toByte_val (v % 65536)
  have e1 := toByte_val (v % 65536 / 256)
  unfold load_s16 toS16
  rw [h0, h1]
  unfold store_s16
  cases be <;> simp [Mem.write] <;> split <;> omega

theorem store_s16_at0 (be : Bool) (m : Mem) (a : Nat) (v : Int) :
    store_s16 be m a v a = toByte (if be then v % 65536 / 256 else v % 65536) := by
  unfold store_s16
  cases be <;> simp [Mem.write]

theorem store_s16_at1 (be : Bool) (m : Mem) (a : Nat) (v : Int) :
    store_s16 be m a v (a + 1) = toByte (if be then v % 65536 else v % 65536 / 256) := by
  unfold store_s16
  cases be <;> simp [Mem.write]

/-- Storing a loaded sample reproduces its two bytes. -/
theorem store_s16_of_load (be : Bool) (m m' : Mem) (a a' : Nat) :
    store_s16 be m a (load_s16 be m' a') a = m' a' ∧
    store_s16 be m a (load_s16 be m' a') (a + 1) = m' (a' + 1) := by
  have h0 := (m' a').isLt
  have h1 := (m' (a' + 1)).isLt
  rw [store_s16_at0, store_s16_at1]
  constructor <;> apply Fin.ext <;> apply Int.ofNat_inj.1 <;> rw [toByte_val] <;>
    unfold load_s16 toS16 <;> cases be <;> simp only [Bool.false_eq_true, if_false, if_true] <;>
    split <;> omega

/-! ## Exact arithmetic of the integer kernels -/

theorem wrap32_of_fits {x : Int} (h : fits32 x) : wrap32 x = x := by
  unfold fits32 at h
  unfold wrap32
  omega

theorem s16ne_clamp_eq (B : Build) (x : Int) :
    (s16ne_ops B).clamp x = saturate (-0x8000) 0x7FFF x := by
  simp only [s16ne_ops, saturate]
  split <;> split <;> first | rfl | omega

theorem u8_clamp_eq (B : Build) (x : Int) :
    (u8_ops B).clamp x = saturate (-0x80) 0x7F x := by
  simp only [u8_ops, saturate]
  split <;> split <;> first | rfl | omega

theorem saturate_range {lo hi : Int} (h : lo ≤ hi) (x : Int) :
    lo ≤ saturate lo hi x ∧ saturate lo hi x ≤ hi := by
  unfold saturate
  split
  · omega
  · split <;> omega

theorem saturate_of_range {lo hi x : Int} (h1 : lo ≤ x) (h2 : x ≤ hi) :
    saturate lo hi x = x := by
  unfold saturate
  rw [if_neg (by omega), if_neg (by omega)]

/-- The accumulated sum of an integer kernel is the exact sum as long as every
partial sum fits in 32 bits. -/
theorem mix_sum_int_exact (K : SampleOps Int) (hadd : ∀ a b, K.add a b = wrap32 (a + b))
    (NORM d channel : Nat) (streams : List pa_mix_info) (acc : Int)
    (h : ∀ n, n ≤ streams.length →
      fits32 (acc + ((streams.take n).map (mix_stream_value K NORM d channel)).sum)) :
    mix_sum K NORM d channel streams acc =
      acc + (streams.map (mix_stream_value K NORM d channel)).sum := by
  induction streams generalizing acc with
  | nil => simp [mix_sum]
  | cons s rest ih =>
    have h1 := h 1 (by simp)
    simp only [List.take_succ_cons, List.take_zero, List.map_cons, List.map_nil,
      List.sum_cons, List.sum_nil, add_zero] at h1
    have e : mix_sum K NORM d channel (s :: rest) acc =
        mix_sum K NORM d channel rest (K.add acc (mix_stream_value K NORM d channel s)) := rfl
    rw [e, hadd, wrap32_of_fits h1, ih]
    · simp only [List.map_cons, List.sum_cons]
      omega
    · intro n hn
      have h2 := h (n + 1) (by simp; omega)
      simp only [List.take_succ_cons, List.map_cons, List.sum_cons] at h2
      rw [add_assoc]
      exact h2

theorem list_sum_bound (l : List Int) (h : ∀ x ∈ l, -32768 ≤ x ∧ x ≤ 32767) :
    -32768 * (l.length : Int) ≤ l.sum ∧ l.sum ≤ 32768 * (l.length : Int) := by
  induction l with
  | nil => simp
  | cons x rest ih =>
    have hx := h x (by simp)
    have hr := ih (fun y hy => h y (by simp [hy]))
    simp only [List.sum_cons, List.length_cons, Nat.cast_add, Nat.cast_one]
    omega

/-- Fewer than 65536 values of 16 bits never overflow a 32-bit sum. -/
theorem running_sums_fit (l : List Int) (h : ∀ x ∈ l, -32768 ≤ x ∧ x ≤ 32767)
    (hlen : l.length < 65536) (n : Nat) : fits32 (0 + (l.take n).sum) := by
  have hb := list_sum_bound (l.take n) (fun x hx => h x (List.mem_of_mem_take hx))
  have hl : (l.take n).length ≤ l.length := by simp
  unfold fits32
  omega

/-! ## Output samples of the mix -/

/-- The S16NE sample at position `k` of the destination is what iteration `k`
stored. -/
theorem s16ne_image_sample (B : Build) (streams : List pa_mix_info)
    (channels volume n : Nat) (data : Mem) (k : Nat) (hk : k < n) :
    load_s16 B.WORDS_BIGENDIAN
        (mix_image (s16ne_ops B) B.PA_VOLUME_NORM streams channels volume 0 n data) (2 * k) =
      mix_out (s16ne_ops B) B.PA_VOLUME_NORM streams channels volume k := by
  have hsz : (s16ne_ops B).size = 2 := rfl
  have e1 : 2 * k / 2 = k := by omega
  have e2 : (2 * k + 1) / 2 = k := by omega
  have e3 : k * 2 = 2 * k := by omega
  have c1 : 0 * 2 ≤ 2 * k ∧ 2 * k < n * 2 := by omega
  have c2 : 0 * 2 ≤ 2 * k + 1 ∧ 2 * k + 1 < n * 2 := by omega
  apply load_s16_of_store B.WORDS_BIGENDIAN data
  · have := @saturate_range (-0x8000) 0x7FFF (by omega)
      (mix_master (s16ne_ops B) B.PA_VOLUME_NORM volume
        (mix_sum (s16ne_ops B) B.PA_VOLUME_NORM (k * (s16ne_ops B).size)
          (channel_at channels k) streams (s16ne_ops B).zero))
    unfold mix_out
    rw [s16ne_clamp_eq]
    simpa using this
  · simp only [mix_image, hsz, if_pos c1, e1, e3]
    rfl
  · simp only [mix_image, hsz, if_pos c2, e2, e3]
    rfl

/-- The U8 byte at position `k` of the destination is what iteration `k`
stored. -/
theorem u8_image_sample (B : Build) (streams : List pa_mix_info)
    (channels volume n : Nat) (data : Mem) (k : Nat) (hk : k < n) :
    mix_image (u8_ops B) B.PA_VOLUME_NORM streams channels volume 0 n data k =
      toByte (mix_out (u8_ops B) B.PA_VOLUME_NORM streams channels volume k + 0x80) := by
  have hsz : (u8_ops B).size = 1 := rfl
  have c1 : 0 * (u8_ops B).size ≤ k ∧ k < n * (u8_ops B).size := by rw [hsz]; omega
  simp only [mix_image, if_pos c1]
  rw [hsz, Nat.div_one, Nat.mul_one]
  exact Mem.write_same _ _ _

/-! ## Unit volumes -/

theorem channel_at_lt {channels : Nat} (h : 0 < channels) (k : Nat) :
    channel_at channels k < channels := by
  rw [channel_at_eq_mod h]
  exact Nat.mod_lt _ h

theorem mix_stream_value_norm {α : Type} (K : SampleOps α) (NORM d channel : Nat)
    (s : pa_mix_info) (hn : NORM ≠ PA_VOLUME_MUTED) (hv : s.volume.values channel = NORM) :
    mix_stream_value K NORM d channel s = K.load s.chunk.memblock.data (s.chunk.index + d) := by
  simp [mix_stream_value, hv, hn]

theorem mix_master_norm {α : Type} (K : SampleOps α) (NORM : Nat) (sum : α)
    (hn : NORM ≠ PA_VOLUME_MUTED) : mix_master K NORM NORM sum = sum := by
  simp [mix_master, hn]

/-- With unit volumes an integer kernel stores the saturated exact sum of the
loaded samples. -/
theorem mix_out_unit_int (K : SampleOps Int) (hadd : ∀ a b, K.add a b = wrap32 (a + b))
    (hzero : K.zero = 0)
    (hload : ∀ m a, -32768 ≤ K.load m a ∧ K.load m a ≤ 32767)
    (NORM : Nat) (streams : List pa_mix_info) (channels k : Nat)
    (hN : streams.length < 65536) (hn : NORM ≠ PA_VOLUME_MUTED) (hch : 0 < channels)
    (hvol : ∀ s ∈ streams, ∀ c, c < channels → s.volume.values c = NORM) :
    mix_out K NORM streams channels NORM k =
      K.clamp (streams.map
        (fun s => K.load s.chunk.memblock.data (s.chunk.index + k * K.size))).sum := by
  have hmap : streams.map (mix_stream_value K NORM (k * K.size) (channel_at channels k)) =
      streams.map (fun s => K.load s.chunk.memblock.data (s.chunk.index + k * K.size)) := by
    apply List.map_congr_left
    intro s hs
    exact mix_stream_value_norm K NORM _ _ s hn (hvol s hs _ (channel_at_lt hch k))
  unfold mix_out
  rw [mix_master_norm K NORM _ hn, hzero, mix_sum_int_exact K hadd, hmap, zero_add]
  intro n _
  rw [List.map_take, hmap]
  apply running_sums_fit
  · intro x hx
    obtain ⟨s, _, rfl⟩ := List.mem_map.1 hx
    exact hload _ _
  · simpa using hN

/-- C3. For S16NE and for U8, for every number N < 65536 of streams that all
have channel volume NORM, and master volume NORM, every output sample of
`pa_mix` equals the exact integer sum of the corresponding input samples
(U8: with the bias `0x80` removed) saturated to `[-0x8000, 0x7FFF]` (U8:
saturated to `[-0x80, 0x7F]` and then biased by `0x80` again); so two S16
samples of `0x7FFF` give `0x7FFF` and two of `-0x8000` give `-0x8000`. -/
theorem pa_mix_unit_volumes_saturated_sum (B : Build) (streams : List pa_mix_info)
    (data : Mem) (length : Nat) (spec : pa_sample_spec)
    (hN : streams.length < 65536)
    (hnorm : B.PA_VOLUME_NORM ≠ PA_VOLUME_MUTED)
    (hch : 0 < spec.channels)
    (hvol : ∀ s ∈ streams, ∀ c, c < spec.channels → s.volume.values c = B.PA_VOLUME_NORM)
    (hlen : 0 < length) :
    (spec.format = PA_SAMPLE_S16NE B →
      ∃ d data', pa_mix B streams data length spec B.PA_VOLUME_NORM = some (d, data') ∧
        ∀ k, 2 * k < d →
          load_s16 B.WORDS_BIGENDIAN data' (2 * k) =
            saturate (-0x8000) 0x7FFF (streams.map (fun s => stream_sample_s16 B s k)).sum) ∧
    (spec.format = pa_sample_format.U8 →
      ∃ d data', pa_mix B streams data length spec B.PA_VOLUME_NORM = some (d, data') ∧
        ∀ k, k < d →
          data' k =
            toByte (saturate (-0x80) 0x7F (streams.map (fun s => stream_sample_u8 s k)).sum
              + 0x80)) ∧
    saturate (-0x8000) 0x7FFF (0x7FFF + 0x7FFF) = 0x7FFF ∧
    saturate (-0x8000) 0x7FFF (-0x8000 + -0x8000) = -0x8000 := by
  refine ⟨?_, ?_, by decide, by decide⟩
  · intro hf
    refine ⟨_, _, pa_mix_s16ne B streams data length spec _ hlen hf, ?_⟩
    intro k hk
    rw [s16ne_image_sample B streams _ _ _ data k (by omega),
      mix_out_unit_int (s16ne_ops B) (fun _ _ => rfl) rfl
        (fun m a => load_s16_range _ m a) _ streams _ k hN hnorm hch hvol,
      s16ne_clamp_eq]
    have e : ∀ s : pa_mix_info,
        (s16ne_ops B).load s.chunk.memblock.data (s.chunk.index + k * (s16ne_ops B).size) =
          stream_sample_s16 B s k := by
      intro s
      show load_s16 _ _ (s.chunk.index + k * 2) = load_s16 _ _ (s.chunk.index + 2 * k)
      rw [Nat.mul_comm]
    simp only [e]
  · intro hf
    refine ⟨_, _, pa_mix_u8 B streams data length spec _ hlen hf, ?_⟩
    intro k hk
    rw [u8_image_sample B streams _ _ _ data k (by omega),
      mix_out_unit_int (u8_ops B) (fun _ _ => rfl) rfl
        (fun m a => by
          have := (m a).isLt
          show -32768 ≤ ((m a).val : Int) - 0x80 ∧ ((m a).val : Int) - 0x80 ≤ 32767
          omega) _ streams _ k hN hnorm hch hvol,
      u8_clamp_eq]
    have e : ∀ s : pa_mix_info,
        (u8_ops B).load s.chunk.memblock.data (s.chunk.index + k * (u8_ops B).size) =
          stream_sample_u8 s k := by
      intro s
      show ((s.chunk.memblock.data (s.chunk.index + k * 1)).val : Int) - 0x80 = _
      rw [Nat.mul_one]
      rfl
    simp only [e]

/-! ## The mix formula for S16NE -/

theorem int_scale_eq (NORM v : Nat) (x : Int)
    (h : v ≠ PA_VOLUME_MUTED → v ≠ NORM → fits32 (x * (v : Int))) :
    (if v = PA_VOLUME_MUTED then (0 : Int)
      else if v ≠ NORM then (wrap32 (x * (v : Int))).tdiv (NORM : Int) else x) =
      vol_scale NORM v x := by
  unfold vol_scale
  by_cases h1 : v = PA_VOLUME_MUTED
  · simp [h1]
  · by_cases h2 : v = NORM
    · simp [h1, h2]
    · rw [if_neg h1, if_neg h1, if_pos h2, if_neg h2, wrap32_of_fits (h h1 h2)]

theorem s16ne_mix_out_exact (B : Build) (streams : List pa_mix_info) (channels volume k : Nat)
    (hch : 0 < channels)
    (hfit : mix_fits32 B.PA_VOLUME_NORM volume (s16_inputs B streams channels k)) :
    mix_out (s16ne_ops B) B.PA_VOLUME_NORM streams channels volume k =
      mix_exact B.PA_VOLUME_NORM volume (s16_inputs B streams channels k) := by
  obtain ⟨hprod, hsum, hmaster⟩ := hfit
  have hval : ∀ s ∈ streams,
      mix_stream_value (s16ne_ops B) B.PA_VOLUME_NORM (k * (s16ne_ops B).size)
          (channel_at channels k) s =
        vol_scale B.PA_VOLUME_NORM (s.volume.values (k % channels))
          (stream_sample_s16 B s k) := by
    intro s hs
    rw [channel_at_eq_mod hch]
    have e : (s16ne_ops B).load s.chunk.memblock.data
        (s.chunk.index + k * (s16ne_ops B).size) = stream_sample_s16 B s k := by
      show load_s16 _ _ (s.chunk.index + k * 2) = load_s16 _ _ (s.chunk.index + 2 * k)
      rw [Nat.mul_comm]
    unfold mix_stream_value
    simp only [e]
    apply int_scale_eq
    exact hprod (s.volume.values (k % channels), stream_sample_s16 B s k)
      (List.mem_map.2 ⟨s, hs, rfl⟩)
  have hmap : streams.map (mix_stream_value (s16ne_ops B) B.PA_VOLUME_NORM
        (k * (s16ne_ops B).size) (channel_at channels k)) =
      (s16_inputs B streams channels k).map (fun p => vol_scale B.PA_VOLUME_NORM p.1 p.2) := by
    unfold s16_inputs
    rw [List.map_map]
    apply List.map_congr_left
    intro s hs
    exact hval s hs
  have hsumeq : mix_sum (s16ne_ops B) B.PA_VOLUME_NORM (k * (s16ne_ops B).size)
      (channel_at channels k) streams (s16ne_ops B).zero =
      scaled_sum B.PA_VOLUME_NORM (s16_inputs B streams channels k) := by
    rw [mix_sum_int_exact (s16ne_ops B) (fun _ _ => rfl), hmap]
    · show (0 : Int) + _ = _
      rw [zero_add]
      rfl
    · intro n hn
      rw [List.map_take, hmap, ← List.map_take]
      show fits32 ((0 : Int) + _)
      rw [zero_add]
      apply hsum n
      have : (s16_inputs B streams channels k).length = streams.length := by
        simp [s16_inputs]
      omega
  unfold mix_out mix_exact
  rw [hsumeq, s16ne_clamp_eq]
  congr 1
  unfold mix_master
  exact int_scale_eq _ _ _ hmaster

/-- The S16NE formula for the one master value that the body of `pa_mix`
applies on every channel: with `ch` channels, whenever no intermediate result
overflows signed 32 bits, every output sample `k` equals
clamp(scale(master value, sum over the streams `i` of
scale(volume_i[k mod ch], sample_i[k])), -0x8000, 0x7FFF), where
scale(MUTED, x) = 0, scale(NORM, x) = x and otherwise scale(v, x) = x*v/NORM
truncated toward zero. In particular two constant streams, `+0x2000` with
volumes [NORM, MUTED] and `-0x1000` with volumes [MUTED, NORM], on 2 channels
at the master value NORM give the alternating output `+0x2000`, `-0x1000`, … -/
theorem pa_mix_s16ne_formula (B : Build) (streams : List pa_mix_info) (data : Mem)
    (length : Nat) (spec : pa_sample_spec) (volume : Nat)
    (hfmt : spec.format = PA_SAMPLE_S16NE B)
    (hch : 0 < spec.channels)
    (hlen : 0 < length) :
    ∃ d data', pa_mix B streams data length spec volume = some (d, data') ∧
      (∀ k, 2 * k < d →
        mix_fits32 B.PA_VOLUME_NORM volume (s16_inputs B streams spec.channels k) →
        load_s16 B.WORDS_BIGENDIAN data' (2 * k) =
          mix_exact B.PA_VOLUME_NORM volume (s16_inputs B streams spec.channels k)) ∧
      (∀ a b : pa_mix_info, streams = [a, b] → spec.channels = 2 →
        volume = B.PA_VOLUME_NORM → B.PA_VOLUME_NORM ≠ PA_VOLUME_MUTED →
        a.volume.values 0 = B.PA_VOLUME_NORM → a.volume.values 1 = PA_VOLUME_MUTED →
        b.volume.values 0 = PA_VOLUME_MUTED → b.volume.values 1 = B.PA_VOLUME_NORM →
        (∀ k, stream_sample_s16 B a k = 0x2000) →
        (∀ k, stream_sample_s16 B b k = -0x1000) →
        ∀ k, 2 * k < d →
          load_s16 B.WORDS_BIGENDIAN data' (2 * k) = if k % 2 = 0 then 0x2000 else -0x1000) := by
  refine ⟨_, _, pa_mix_s16ne B streams data length spec volume hlen hfmt, ?_, ?_⟩
  · intro k hk hfit
    rw [s16ne_image_sample B streams _ _ _ data k (by omega)]
    exact s16ne_mix_out_exact B streams _ volume k hch hfit
  · intro a b hs hc2 hv hn ha0 ha1 hb0 hb1 hsa hsb k hk
    rw [s16ne_image_sample B streams _ _ _ data k (by omega)]
    have hmod : k % 2 = 0 ∨ k % 2 = 1 := by omega
    have hinp : s16_inputs B streams spec.channels k =
        [(a.volume.values (k % 2), 0x2000), (b.volume.values (k % 2), -0x1000)] := by
      simp [s16_inputs, hs, hc2, hsa, hsb]
    have hn' : ¬ B.PA_VOLUME_NORM = PA_VOLUME_MUTED := hn
    have hn'' : ¬ PA_VOLUME_MUTED = B.PA_VOLUME_NORM := fun h => hn h.symm
    rw [s16ne_mix_out_exact B streams _ volume k hch]
    · rw [hinp, hv]
      rcases hmod with h | h <;> rw [h] <;>
        simp [mix_exact, scaled_sum, vol_scale, ha0, ha1, hb0, hb1, hn', saturate]
    · rw [hinp, hv]
      refine ⟨?_, ?_, ?_⟩
      · intro p hp h1 h2
        simp only [List.mem_cons, List.mem_singleton, List.not_mem_nil, or_false] at hp
        rcases hmod with h | h <;> rw [h] at hp <;> rcases hp with rfl | rfl <;>
          simp_all
      · intro n hn2
        have hn3 : n = 0 ∨ n = 1 ∨ n = 2 := by simp at hn2; omega
        rcases hn3 with rfl | rfl | rfl <;> rcases hmod with h | h <;> rw [h] <;>
          simp [scaled_sum, vol_scale, ha0, ha1, hb0, hb1, hn', fits32]
      · intro h1 h2
        exact absurd rfl h2

/-! ## Adding zero to a `float` -/

namespace F32

theorem roundAt_skip (n d : Nat) (j : Nat) : ∀ (fuel k : Nat),
    (∀ i, i < j → ¬ n < 2 ^ (24 + (k + i)) * d) →
    roundAt n d (fuel + j) k = roundAt n d fuel (k + j) := by
  induction j with
  | zero => intro fuel k _; rfl
  | succ j ih =>
    intro fuel k h
    have h0 := h 0 (by omega)
    rw [Nat.add_zero] at h0
    have e : fuel + (j + 1) = (fuel + j) + 1 := by omega
    rw [e]
    show (if n < 2 ^ (24 + k) * d then _ else roundAt n d (fuel + j) (k + 1)) = _
    rw [if_neg h0, ih fuel (k + 1)]
    · congr 1; omega
    · intro i hi
      have := h (i + 1) (by omega)
      have e2 : k + (i + 1) = k + 1 + i := by omega
      rw [e2] at this
      exact this

/-- Rounding is the identity on a value that is a `float`. -/
theorem roundMag_exact (e f : Nat) (he : e < 255) (hf : f < 8388608) :
    roundMag (if e = 0 then f else (8388608 + f) * 2 ^ (e - 1)) 1 = e * 8388608 + f := by
  unfold roundMag
  by_cases h1 : e ≤ 1
  · have hn : (if e = 0 then f else (8388608 + f) * 2 ^ (e - 1)) = e * 8388608 + f := by
      have : e = 0 ∨ e = 1 := by omega
      rcases this with rfl | rfl <;> simp
    rw [hn]
    have hlt : e * 8388608 + f < 2 ^ (24 + 0) * 1 := by
      have : (2 : Nat) ^ (24 + 0) * 1 = 16777216 := by norm_num
      rw [this]; omega
    show (if e * 8388608 + f < 2 ^ (24 + 0) * 1 then _ else _) = _
    rw [if_pos hlt]
    simp only [Nat.pow_zero, Nat.mul_one, Nat.div_one, Nat.mod_one, Nat.zero_mul, Nat.zero_add]
    have hc : ¬ (2 * 0 > 1 ∨ 2 * 0 = 1 ∧ (e * 8388608 + f) % 2 = 1) := by omega
    rw [if_neg hc]
    omega
  · have hne : ¬ e = 0 := by omega
    rw [if_neg hne]
    have hp : 0 < 2 ^ (e - 1) := Nat.pos_pow_of_pos _ (by omega)
    have hskip := roundAt_skip ((8388608 + f) * 2 ^ (e - 1)) 1 (e - 1) (254 - (e - 1)) 0
      (by
        intro i hi
        rw [Nat.mul_one, Nat.zero_add]
        have h2 : 2 ^ (24 + i) ≤ 2 ^ (23 + (e - 1)) :=
          Nat.pow_le_pow_right (by omega) (by omega)
        have h3 : 2 ^ (23 + (e - 1)) = 8388608 * 2 ^ (e - 1) := by
          rw [Nat.pow_add]
        have h4 : 8388608 * 2 ^ (e - 1) ≤ (8388608 + f) * 2 ^ (e - 1) :=
          Nat.mul_le_mul_right _ (by omega)
        omega)
    have e1 : 254 - (e - 1) + (e - 1) = 254 := by omega
    rw [e1, Nat.zero_add] at hskip
    rw [hskip]
    obtain ⟨g, hg⟩ : ∃ g, 254 - (e - 1) = g + 1 := ⟨254 - e, by omega⟩
    rw [hg]
    have hlt : (8388608 + f) * 2 ^ (e - 1) < 2 ^ (24 + (e - 1)) * 1 := by
      rw [Nat.mul_one, Nat.pow_add]
      exact Nat.mul_lt_mul_of_pos_right (by norm_num; omega) hp
    show (if (8388608 + f) * 2 ^ (e - 1) < 2 ^ (24 + (e - 1)) * 1 then _ else _) = _
    rw [if_pos hlt]
    simp only [Nat.one_mul]
    rw [Nat.mul_div_cancel _ hp, Nat.mul_mod_left]
    have hc : ¬ (2 * 0 > 2 ^ (e - 1) ∨ 2 * 0 = 2 ^ (e - 1) ∧ (8388608 + f) % 2 = 1) := by
      omega
    rw [if_neg hc]
    have e2 : (e - 1) * 8388608 + (8388608 + f) = e * 8388608 + f := by
      have : e = (e - 1) + 1 := by omega
      omega
    rw [e2]
    omega

/-- Adding `0` leaves every `float` but a NaN and negative zero as it is. -/
theorem zero_add (x : Nat) (hx : x < 4294967296) (hnan : isNaN x = false)
    (hnz : x ≠ 2147483648) : add 0 x = x := by
  have hn0 : isNaN 0 = false := by decide
  have hi0 : isInf 0 = false := by decide
  have hv0 : val 0 = 0 := by decide
  have hs0 : sign 0 = false := by decide
  unfold add
  rw [hn0, hnan, hi0]
  simp only [Bool.false_eq_true, if_false, Bool.false_and]
  by_cases hinf : isInf x = true
  · rw [if_pos hinf]
  · rw [if_neg hinf, hv0, hs0]
    simp only [Bool.false_and, Int.zero_add]
    have he : expo x < 255 := by
      have h1 : expo x < 256 := Nat.mod_lt _ (by norm_num)
      by_contra hc
      have h2 : expo x = 255 := by omega
      simp [isNaN, isInf, h2] at hnan hinf
      exact hinf hnan
    have hf : frac x < 8388608 := Nat.mod_lt _ (by norm_num)
    have hmag := roundMag_exact (expo x) (frac x) he hf
    have hdec : x = (if sign x then 2147483648 else 0) + (expo x * 8388608 + frac x) := by
      unfold sign expo frac
      by_cases hsx : x / 2147483648 % 2 = 1
      · simp only [hsx, decide_True, if_true]; omega
      · simp only [hsx, decide_False, Bool.false_eq_true, if_false]; omega
    have hmagdef : mag x = if expo x = 0 then frac x
        else (8388608 + frac x) * 2 ^ (expo x - 1) := rfl
    by_cases hz : val x = 0
    · rw [if_pos hz]
      have hm0 : mag x = 0 := by
        unfold val at hz
        split at hz <;> omega
      have hex : expo x = 0 ∧ frac x = 0 := by
        rw [hmagdef] at hm0
        by_cases h0 : expo x = 0
        · rw [if_pos h0] at hm0; exact ⟨h0, hm0⟩
        · rw [if_neg h0] at hm0
          have hp : 0 < 2 ^ (expo x - 1) := Nat.pos_pow_of_pos _ (by omega)
          have : 0 < (8388608 + frac x) * 2 ^ (expo x - 1) := Nat.mul_pos (by omega) hp
          omega
      unfold pack
      simp only [Bool.false_eq_true, if_false]
      rw [hex.1, hex.2] at hdec
      by_cases hsx : sign x = true
      · rw [hsx] at hdec; simp at hdec; omega
      · simp only [hsx, Bool.false_eq_true, if_false] at hdec; omega
    · rw [if_neg hz]
      have hmpos : mag x ≠ 0 := by
        intro h
        apply hz
        unfold val
        rw [h]
        split <;> simp
      have hsgn : decide (val x < 0) = sign x := by
        unfold val
        by_cases hsx : sign x = true
        · rw [hsx]; simp; omega
        · have : sign x = false := by simpa using hsx
          rw [this]; simp
      have habs : (val x).natAbs = mag x := by
        unfold val
        split <;> simp
      rw [hsgn, habs, hmagdef, hmag]
      unfold pack
      exact hdec.symm

end F32

/-! ## One stream at unit volumes -/

theorem load_f32_lt (be : Bool) (m : Mem) (a : Nat) : load_f32 be m a < 4294967296 := by
  have h0 := (m a).isLt
  have h1 := (m (a + 1)).isLt
  have h2 := (m (a + 2)).isLt
  have h3 := (m (a + 3)).isLt
  unfold load_f32
  split <;> omega

theorem store_f32_at (be : Bool) (m : Mem) (a : Nat) (x : Nat) :
    store_f32 be m a x a = toByte (((if be then x / 16777216 else x : Nat)) : Int) ∧
    store_f32 be m a x (a + 1) = toByte (((if be then x / 65536 else x / 256 : Nat)) : Int) ∧
    store_f32 be m a x (a + 2) = toByte (((if be then x / 256 else x / 65536 : Nat)) : Int) ∧
    store_f32 be m a x (a + 3) = toByte (((if be then x else x / 16777216 : Nat)) : Int) := by
  unfold store_f32
  cases be <;> simp [Mem.write]

/-- Storing a loaded `float` reproduces its four bytes. -/
theorem store_f32_of_load (be : Bool) (m m' : Mem) (a a' : Nat) (j : Nat) (hj : j < 4) :
    store_f32 be m a (load_f32 be m' a') (a + j) = m' (a' + j) := by
  have h0 := (m' a').isLt
  have h1 := (m' (a' + 1)).isLt
  have h2 := (m' (a' + 2)).isLt
  have h3 := (m' (a' + 3)).isLt
  obtain ⟨s0, s1, s2, s3⟩ := store_f32_at be m a (load_f32 be m' a')
  have hj4 : j = 0 ∨ j = 1 ∨ j = 2 ∨ j = 3 := by omega
  rcases hj4 with rfl | rfl | rfl | rfl
  · rw [Nat.add_zero, Nat.add_zero, s0]
    apply Fin.ext; apply Int.ofNat_inj.1; rw [toByte_val]
    unfold load_f32; cases be <;> simp only [Bool.false_eq_true, if_false, if_true] <;> omega
  · rw [s1]
    apply Fin.ext; apply Int.ofNat_inj.1; rw [toByte_val]
    unfold load_f32; cases be <;> simp only [Bool.false_eq_true, if_false, if_true] <;> omega
  · rw [s2]
    apply Fin.ext; apply Int.ofNat_inj.1; rw [toByte_val]
    unfold load_f32; cases be <;> simp only [Bool.false_eq_true, if_false, if_true] <;> omega
  · rw [s3]
    apply Fin.ext; apply Int.ofNat_inj.1; rw [toByte_val]
    unfold load_f32; cases be <;> simp only [Bool.false_eq_true, if_false, if_true] <;> omega

/-- Reading back a stored `float`. -/
theorem load_f32_of_store (be : Bool) (m m' : Mem) (a : Nat) (x : Nat) (hx : x < 4294967296)
    (h : ∀ j, j < 4 → m' (a + j) = store_f32 be m a x (a + j)) :
    load_f32 be m' a = x := by
  obtain ⟨s0, s1, s2, s3⟩ := store_f32_at be m a x
  have g0 := h 0 (by omega)
  rw [Nat.add_zero] at g0
  have g1 := h 1 (by omega)
  have g2 := h 2 (by omega)
  have g3 := h 3 (by omega)
  have e0 := toByte_val (((if be then x / 16777216 else x : Nat)) : Int)
  have e1 := toByte_val (((if be then x / 65536 else x / 256 : Nat)) : Int)
  have e2 := toByte_val (((if be then x / 256 else x / 65536 : Nat)) : Int)
  have e3 := toByte_val (((if be then x else x / 16777216 : Nat)) : Int)
  unfold load_f32
  rw [g0, g1, g2, g3, s0, s1, s2, s3]
  cases be <;> simp only [Bool.false_eq_true, if_false, if_true] at e0 e1 e2 e3 ⊢ <;> omega

/-- With one stream at unit volumes the stored sample is the clamped sum of
zero and the loaded sample. -/
theorem mix_out_single {α : Type} (K : SampleOps α) (NORM : Nat) (s : pa_mix_info)
    (channels k : Nat) (hn : NORM ≠ PA_VOLUME_MUTED) (hch : 0 < channels)
    (hvol : ∀ c, c < channels → s.volume.values c = NORM) :
    mix_out K NORM [s] channels NORM k =
      K.clamp (K.add K.zero (K.load s.chunk.memblock.data (s.chunk.index + k * K.size))) := by
  unfold mix_out
  rw [mix_master_norm K NORM _ hn]
  show K.clamp (K.add K.zero (mix_stream_value K NORM _ _ s)) = _
  rw [mix_stream_value_norm K NORM _ _ s hn (hvol _ (channel_at_lt hch k))]

theorem mix_length_single (s : pa_mix_info) :
    mix_length [s] s.chunk.length = s.chunk.length := by
  show min s.chunk.length s.chunk.length = s.chunk.length
  exact Nat.min_self _

theorem s16ne_identity_sample (B : Build) (x : Int) (h : -32768 ≤ x ∧ x ≤ 32767) :
    (s16ne_ops B).clamp ((s16ne_ops B).add (s16ne_ops B).zero x) = x := by
  rw [s16ne_clamp_eq]
  show saturate _ _ (wrap32 (0 + x)) = x
  rw [Int.zero_add, wrap32_of_fits (by unfold fits32; omega), saturate_of_range] <;> omega

theorem u8_identity_sample (B : Build) (b : Byte) :
    toByte ((u8_ops B).clamp ((u8_ops B).add (u8_ops B).zero ((b.val : Int) - 0x80)) + 0x80)
      = b := by
  have hb := b.isLt
  rw [u8_clamp_eq]
  show toByte (saturate _ _ (wrap32 (0 + ((b.val : Int) - 0x80))) + 0x80) = b
  rw [Int.zero_add, wrap32_of_fits (by unfold fits32; omega),
    saturate_of_range (by omega) (by omega)]
  apply Fin.ext; apply Int.ofNat_inj.1; rw [toByte_val]
  omega

theorem float32ne_clamp_add (B : Build) (x : Nat) :
    (float32ne_ops B).clamp ((float32ne_ops B).add (float32ne_ops B).zero x) =
      (if F32.lt F32.one (if F32.lt (F32.add 0 x) F32.negOne then F32.negOne else F32.add 0 x)
        then F32.one
        else (if F32.lt (F32.add 0 x) F32.negOne then F32.negOne else F32.add 0 x)) := by
  simp only [float32ne_ops]

theorem float32ne_sample_in_range (B : Build) (x : Nat) (hx : x < 4294967296)
    (hnan : F32.isNaN x = false) (hnz : x ≠ 0x80000000)
    (hlo : F32.lt x F32.negOne = false) (hhi : F32.lt F32.one x = false) :
    (float32ne_ops B).clamp ((float32ne_ops B).add (float32ne_ops B).zero x) = x := by
  rw [float32ne_clamp_add, F32.zero_add x hx hnan hnz]
  simp [hlo, hhi]

theorem F32.lt_val {x y : Nat} (h : F32.lt x y = true) :
    F32.isNaN x = false ∧ F32.val x < F32.val y := by
  unfold F32.lt at h
  simp at h
  exact ⟨h.1.1, h.2⟩

theorem float32ne_sample_above (B : Build) (x : Nat) (hx : x < 4294967296)
    (hhi : F32.lt F32.one x = true) :
    (float32ne_ops B).clamp ((float32ne_ops B).add (float32ne_ops B).zero x) = F32.one := by
  have hone : 0 < F32.val F32.one := by decide
  have hneg : F32.val F32.negOne < 0 := by decide
  have hz : F32.val 0x80000000 = 0 := by decide
  have hnan : F32.isNaN x = false := by
    unfold F32.lt at hhi
    simp at hhi
    exact hhi.1.2
  have hval : F32.val F32.one < F32.val x := by
    unfold F32.lt at hhi
    simp at hhi
    exact hhi.2
  have hnz : x ≠ 0x80000000 := by
    intro h
    rw [h, hz] at hval
    omega
  have hlo : F32.lt x F32.negOne = false := by
    cases h : F32.lt x F32.negOne
    · rfl
    · have := (F32.lt_val h).2
      omega
  rw [float32ne_clamp_add, F32.zero_add x hx hnan hnz]
  simp [hlo, hhi]

theorem float32ne_sample_below (B : Build) (x : Nat) (hx : x < 4294967296)
    (hlo : F32.lt x F32.negOne = true) :
    (float32ne_ops B).clamp ((float32ne_ops B).add (float32ne_ops B).zero x) = F32.negOne := by
  have hneg : F32.val F32.negOne < 0 := by decide
  have hz : F32.val 0x80000000 = 0 := by decide
  have hnan : F32.isNaN x = false := (F32.lt_val hlo).1
  have hval : F32.val x < F32.val F32.negOne := (F32.lt_val hlo).2
  have hnz : x ≠ 0x80000000 := by
    intro h
    rw [h, hz] at hval
    omega
  have h11 : F32.lt F32.one F32.negOne = false := by decide
  rw [float32ne_clamp_add, F32.zero_add x hx hnan hnz]
  simp [hlo, h11]

theorem mix_image_at {α : Type} (K : SampleOps α) (NORM : Nat) (streams : List pa_mix_info)
    (channels volume n : Nat) (data : Mem) (a : Nat) (ha : a < n * K.size) :
    mix_image K NORM streams channels volume 0 n data a =
      K.store data (a / K.size * K.size) (mix_out K NORM streams channels volume (a / K.size))
        a := by
  have c : 0 * K.size ≤ a ∧ a < n * K.size := by omega
  simp only [mix_image, if_pos c]

/-- C4. With exactly one stream whose channel volumes are all NORM and with
master volume NORM, on a chunk whose length is a multiple of the sample size
and equals the length argument, `pa_mix` returns the chunk length and, for
S16NE and U8, writes a destination that is byte for byte the input chunk. For
FLOAT32NE the four bytes of a sample are reproduced when the sample is a
number in [-1, 1] other than negative zero; a sample above 1 is written as
1.0 and a sample below -1 as -1.0. -/
theorem pa_mix_identity (B : Build) (s : pa_mix_info) (data : Mem) (spec : pa_sample_spec)
    (hfmt : spec.format = PA_SAMPLE_S16NE B ∨ spec.format = pa_sample_format.U8 ∨
      spec.format = PA_SAMPLE_FLOAT32NE)
    (hnorm : B.PA_VOLUME_NORM ≠ PA_VOLUME_MUTED)
    (hch : 0 < spec.channels)
    (hvol : ∀ c, c < spec.channels → s.volume.values c = B.PA_VOLUME_NORM)
    (hlen : 0 < s.chunk.length)
    (hmul : pa_sample_size spec.format ∣ s.chunk.length) :
    ∃ data', pa_mix B [s] data s.chunk.length spec B.PA_VOLUME_NORM =
        some (s.chunk.length, data') ∧
      (spec.format ≠ PA_SAMPLE_FLOAT32NE →
        ∀ a, a < s.chunk.length → data' a = s.chunk.memblock.data (s.chunk.index + a)) ∧
      (spec.format = PA_SAMPLE_FLOAT32NE →
        ∀ k, 4 * k < s.chunk.length →
          (F32.isNaN (load_f32 B.WORDS_BIGENDIAN s.chunk.memblock.data (s.chunk.index + 4 * k))
              = false →
            load_f32 B.WORDS_BIGENDIAN s.chunk.memblock.data (s.chunk.index + 4 * k)
              ≠ 0x80000000 →
            F32.lt (load_f32 B.WORDS_BIGENDIAN s.chunk.memblock.data (s.chunk.index + 4 * k))
              F32.negOne = false →
            F32.lt F32.one
              (load_f32 B.WORDS_BIGENDIAN s.chunk.memblock.data (s.chunk.index + 4 * k))
              = false →
            ∀ j, j < 4 →
              data' (4 * k + j) = s.chunk.memblock.data (s.chunk.index + 4 * k + j)) ∧
          (F32.lt F32.one
              (load_f32 B.WORDS_BIGENDIAN s.chunk.memblock.data (s.chunk.index + 4 * k))
              = true →
            load_f32 B.WORDS_BIGENDIAN data' (4 * k) = F32.one) ∧
          (F32.lt (load_f32 B.WORDS_BIGENDIAN s.chunk.memblock.data (s.chunk.index + 4 * k))
              F32.negOne = true →
            load_f32 B.WORDS_BIGENDIAN data' (4 * k) = F32.negOne)) := by
  have hsz16 : pa_sample_size (PA_SAMPLE_S16NE B) = 2 := by
    unfold PA_SAMPLE_S16NE; split <;> rfl
  have hM := mix_length_single s
  by_cases h1 : spec.format = PA_SAMPLE_S16NE B
  · rw [h1, hsz16] at hmul
    have hcnt : mix_count 2 (mix_length [s] s.chunk.length) * 2 = s.chunk.length := by
      rw [hM]; exact mix_count_mul_of_dvd (by omega) hmul
    have hres := pa_mix_s16ne B [s] data s.chunk.length spec B.PA_VOLUME_NORM hlen h1
    rw [hcnt] at hres
    refine ⟨_, hres, ?_, ?_⟩
    · intro _ a ha
      have hsz : (s16ne_ops B).size = 2 := rfl
      rw [mix_image_at _ _ _ _ _ _ _ a (by rw [← hcnt] at ha; exact ha),
        mix_out_single _ _ s _ _ hnorm hch hvol, hsz,
        s16ne_identity_sample B
          ((s16ne_ops B).load s.chunk.memblock.data (s.chunk.index + a / 2 * 2))
          (load_s16_range B.WORDS_BIGENDIAN _ _)]
      show store_s16 B.WORDS_BIGENDIAN data (a / 2 * 2)
        (load_s16 B.WORDS_BIGENDIAN s.chunk.memblock.data (s.chunk.index + a / 2 * 2)) a = _
      obtain ⟨g0, g1⟩ := store_s16_of_load B.WORDS_BIGENDIAN data s.chunk.memblock.data
        (a / 2 * 2) (s.chunk.index + a / 2 * 2)
      have hcase : a = a / 2 * 2 ∨ a = a / 2 * 2 + 1 := by omega
      rcases hcase with h | h
      · have e : s.chunk.index + a = s.chunk.index + a / 2 * 2 := by omega
        rw [e]
        conv_lhs => rw [h]
        have e2 : a / 2 * 2 / 2 = a / 2 := by omega
        rw [e2]
        exact g0
      · have e : s.chunk.index + a = s.chunk.index + a / 2 * 2 + 1 := by omega
        rw [e]
        conv_lhs => rw [h]
        have e2 : (a / 2 * 2 + 1) / 2 = a / 2 := by omega
        rw [e2]
        exact g1
    · intro h3
      rw [h1] at h3
      exact absurd h3.symm (S16NE_ne_FLOAT32NE B)
  · by_cases h2 : spec.format = pa_sample_format.U8
    · have hres := pa_mix_u8 B [s] data s.chunk.length spec B.PA_VOLUME_NORM hlen h2
      have hcnt : mix_count 1 (mix_length [s] s.chunk.length) * 1 = s.chunk.length := by
        rw [hM]; exact mix_count_mul_of_dvd (by omega) (Nat.one_dvd _)
      rw [hcnt] at hres
      refine ⟨_, hres, ?_, ?_⟩
      · intro _ a ha
        have hk : a < mix_count 1 (mix_length [s] s.chunk.length) := by
          rw [Nat.mul_one] at hcnt; rw [hcnt]; exact ha
        rw [u8_image_sample B [s] _ _ _ data a hk, mix_out_single _ _ s _ _ hnorm hch hvol]
        have hsz : (u8_ops B).size = 1 := rfl
        rw [hsz, Nat.mul_one]
        exact u8_identity_sample B _
      · intro h3
        rw [h2] at h3
        simp [PA_SAMPLE_FLOAT32NE] at h3
    · have h3 : spec.format = PA_SAMPLE_FLOAT32NE := by tauto
      have hsz4 : pa_sample_size PA_SAMPLE_FLOAT32NE = 4 := rfl
      rw [h3, hsz4] at hmul
      have hcnt : mix_count 4 (mix_length [s] s.chunk.length) * 4 = s.chunk.length := by
        rw [hM]; exact mix_count_mul_of_dvd (by omega) hmul
      have hres := pa_mix_float32ne B [s] data s.chunk.length spec B.PA_VOLUME_NORM hlen h3
      rw [hcnt] at hres
      refine ⟨_, hres, fun h => absurd h3 h, ?_⟩
      intro _ k hk
      have hsz : (float32ne_ops B).size = 4 := rfl
      have hx := load_f32_lt B.WORDS_BIGENDIAN s.chunk.memblock.data (s.chunk.index + 4 * k)
      have himg : ∀ j, j < 4 →
          mix_image (float32ne_ops B) B.PA_VOLUME_NORM [s] spec.channels B.PA_VOLUME_NORM 0
              (mix_count 4 (mix_length [s] s.chunk.length)) data (4 * k + j) =
            store_f32 B.WORDS_BIGENDIAN data (4 * k)
              ((float32ne_ops B).clamp ((float32ne_ops B).add (float32ne_ops B).zero
                (load_f32 B.WORDS_BIGENDIAN s.chunk.memblock.data (s.chunk.index + 4 * k))))
              (4 * k + j) := by
        intro j hj
        rw [mix_image_at _ _ _ _ _ _ _ (4 * k + j) (by rw [hsz, hcnt]; omega),
          mix_out_single _ _ s _ _ hnorm hch hvol, hsz]
        have e1 : (4 * k + j) / 4 = k := by omega
        have e2 : k * 4 = 4 * k := by omega
        rw [e1, e2]
        rfl
      refine ⟨?_, ?_, ?_⟩
      · intro hnan hnz hlo hhi j hj
        rw [himg j hj, float32ne_sample_in_range B _ hx hnan hnz hlo hhi]
        have := store_f32_of_load B.WORDS_BIGENDIAN data s.chunk.memblock.data (4 * k)
          (s.chunk.index + 4 * k) j hj
        exact this
      · intro hhi
        apply load_f32_of_store B.WORDS_BIGENDIAN data _ _ _ (by decide)
        intro j hj
        rw [himg j hj, float32ne_sample_above B _ hx hhi]
      · intro hlo
        apply load_f32_of_store B.WORDS_BIGENDIAN data _ _ _ (by decide)
        intro j hj
        rw [himg j hj, float32ne_sample_below B _ hx hlo]

/-- C4, as stated, fails for FLOAT32NE: one stream at unit volumes whose only
sample is 2.0 (bytes 00 00 00 40) is written as 1.0 (bytes 00 00 80 3F). -/
theorem pa_mix_identity_float_counterexample :
    (∀ c, c < 1 → (ex_stream [0, 0, 0, 0x40] [0x10000]).volume.values c
      = ex_build.PA_VOLUME_NORM) ∧
    pa_sample_size PA_SAMPLE_FLOAT32NE ∣ (ex_stream [0, 0, 0, 0x40] [0x10000]).chunk.length ∧
    (pa_mix ex_build [ex_stream [0, 0, 0, 0x40] [0x10000]] (ex_mem [])
        (ex_stream [0, 0, 0, 0x40] [0x10000]).chunk.length ⟨PA_SAMPLE_FLOAT32NE, 44100, 1⟩
        ex_build.PA_VOLUME_NORM).map
      (fun r => (r.1, (List.range 4).map (fun a => (r.2 a).val))) = some (4, [0, 0, 0x80, 0x3F]) ∧
    (List.range 4).map (fun a =>
        ((ex_stream [0, 0, 0, 0x40] [0x10000]).chunk.memblock.data a).val) = [0, 0, 0, 0x40] := by
  refine ⟨by decide, by decide, ?_, by decide⟩
  decide

/-! ## The in-place volume loop in closed form -/

theorem volume_loop_eq {α : Type} (K : SampleOps α) (hK : K.Lawful) (volume : pa_cvolume)
    (channels : Nat) : ∀ (n d j : Nat) (m : Mem),
    volume_loop K volume channels n d (channel_at channels j) m =
      volume_image K volume channels n d j m := by
  have hs := hK.size_pos
  intro n
  induction n with
  | zero =>
    intro d j m
    funext a
    have : ¬ (d ≤ a ∧ a < d + 0 * K.size) := by omega
    simp only [volume_loop, volume_image, if_neg this]
  | succ n ih =>
    intro d j m
    have hstep : volume_loop K volume channels (n + 1) d (channel_at channels j) m =
        volume_loop K volume channels n (d + K.size) (channel_at channels (j + 1))
          (K.store m d (volume_out K volume channels m d j 0)) := by
      simp only [volume_loop, volume_out, Nat.zero_mul, Nat.add_zero]
      rfl
    rw [hstep, ih]
    funext a
    have hmul : (n + 1) * K.size = n * K.size + K.size := Nat.succ_mul _ _
    simp only [volume_image]
    by_cases h1 : a < d
    · have c1 : ¬ (d + K.size ≤ a ∧ a < d + K.size + n * K.size) := by omega
      have c2 : ¬ (d ≤ a ∧ a < d + (n + 1) * K.size) := by omega
      rw [if_neg c1, if_neg c2]
      exact hK.store_frame _ _ _ _ (Or.inl h1)
    · by_cases h2 : a < d + K.size
      · have c1 : ¬ (d + K.size ≤ a ∧ a < d + K.size + n * K.size) := by omega
        have c2 : d ≤ a ∧ a < d + (n + 1) * K.size := by omega
        have hq : (a - d) / K.size = 0 := Nat.div_eq_of_lt (by omega)
        rw [if_neg c1, if_pos c2, hq, Nat.zero_mul, Nat.add_zero]
      · by_cases h3 : a < d + (n + 1) * K.size
        · have c1 : d + K.size ≤ a ∧ a < d + K.size + n * K.size := by omega
          have c2 : d ≤ a ∧ a < d + (n + 1) * K.size := by omega
          rw [if_pos c1, if_pos c2]
          have hq : (a - d) / K.size = (a - (d + K.size)) / K.size + 1 := by
            have e : a - d = a - (d + K.size) + K.size := by omega
            rw [e, Nat.add_div_right _ hs]
          have haddr : d + K.size + (a - (d + K.size)) / K.size * K.size =
              d + (a - d) / K.size * K.size := by
            rw [hq, Nat.succ_mul]; omega
          have hlo : d + (a - d) / K.size * K.size ≤ a := by
            have := Nat.div_mul_le_self (a - d) K.size
            omega
          have hhi : a < d + (a - d) / K.size * K.size + K.size := by
            have := Nat.lt_succ_iff.2 (Nat.le_refl ((a - d) / K.size))
            have h4 := (Nat.div_lt_iff_lt_mul hs).1 this
            rw [Nat.succ_mul] at h4
            omega
          have hge : d + K.size ≤ d + (a - d) / K.size * K.size := by
            rw [hq, Nat.succ_mul]; omega
          have hout : volume_out K volume channels
              (K.store m d (volume_out K volume channels m d j 0)) (d + K.size) (j + 1)
              ((a - (d + K.size)) / K.size) =
              volume_out K volume channels m d j ((a - d) / K.size) := by
            unfold volume_out
            rw [haddr]
            have hj : j + 1 + (a - (d + K.size)) / K.size = j + (a - d) / K.size := by
              rw [hq]; omega
            rw [hj]
            congr 2
            apply hK.load_local
            intro x hx1 hx2
            exact hK.store_frame _ _ _ _ (Or.inr (by omega))
          rw [haddr, hout]
          exact hK.store_own _ _ _ _ _ hlo hhi
        · have c1 : ¬ (d + K.size ≤ a ∧ a < d + K.size + n * K.size) := by omega
          have c2 : ¬ (d ≤ a ∧ a < d + (n + 1) * K.size) := by omega
          rw [if_neg c1, if_neg c2]
          exact hK.store_frame _ _ _ _ (Or.inr (by omega))

/-! ## In-place volume -/

theorem channels_equal_to_iff (a : pa_cvolume) (channels v : Nat) :
    pa_cvolume_channels_equal_to a channels v = true ↔ ∀ c, c < channels → a.values c = v := by
  simp [pa_cvolume_channels_equal_to]

theorem pa_sample_size_pos (f : pa_sample_format) : 0 < pa_sample_size f := by
  cases f <;> simp [pa_sample_size]

theorem pa_frame_size_pos (spec : pa_sample_spec) (h : 0 < spec.channels) :
    0 < pa_frame_size spec :=
  Nat.mul_pos (pa_sample_size_pos _) h

theorem not_all_norm_of_muted (B : Build) (volume : pa_cvolume) (channels : Nat)
    (hnorm : B.PA_VOLUME_NORM ≠ PA_VOLUME_MUTED) (hch : 0 < channels)
    (hm : ∀ c, c < channels → volume.values c = PA_VOLUME_MUTED) :
    pa_cvolume_channels_equal_to volume channels B.PA_VOLUME_NORM = false := by
  cases h : pa_cvolume_channels_equal_to volume channels B.PA_VOLUME_NORM
  · rfl
  · have h0 := (channels_equal_to_iff _ _ _).1 h 0 hch
    rw [hm 0 hch] at h0
    exact absurd h0.symm hnorm

theorem pa_silence_memchunk_eq (c : pa_memchunk) (spec : pa_sample_spec) (h : 0 < c.length) :
    pa_silence_memchunk c spec =
      some { c with memblock := { c.memblock with
        data := memset c.memblock.data c.index (silence_byte spec.format) c.length } } := by
  have hne : ¬ c.length = 0 := by omega
  simp only [pa_silence_memchunk, if_neg hne, pa_silence_memory_eq _ _ _ spec h]

/-- C8. For every sample format and every memchunk of non-zero length that is
a multiple of the frame size, `pa_volume_memchunk` with a volume vector whose
first `spec.channels` entries are all MUTED does exactly what
`pa_silence_memchunk` does: every byte of the window is the silence byte of
the format, nothing outside the window is touched, and no sample is scaled. -/
theorem pa_volume_memchunk_all_muted (B : Build) (c : pa_memchunk) (spec : pa_sample_spec)
    (volume : pa_cvolume)
    (hnorm : B.PA_VOLUME_NORM ≠ PA_VOLUME_MUTED)
    (hch : 0 < spec.channels)
    (hlen : 0 < c.length)
    (hmul : c.length % pa_frame_size spec = 0)
    (hmuted : ∀ ch, ch < spec.channels → volume.values ch = PA_VOLUME_MUTED) :
    pa_volume_memchunk B c spec volume = pa_silence_memchunk c spec ∧
    ∃ c', pa_volume_memchunk B c spec volume = some c' ∧
      c'.index = c.index ∧ c'.length = c.length ∧
      (∀ a, c.index ≤ a → a < c.index + c.length →
        c'.memblock.data a = silence_byte spec.format) ∧
      (∀ a, a < c.index ∨ c.index + c.length ≤ a →
        c'.memblock.data a = c.memblock.data a) := by
  have hfs : ¬ pa_frame_size spec = 0 := by
    have := pa_frame_size_pos spec hch; omega
  have hmul' : ¬ c.length % pa_frame_size spec ≠ 0 := by simp [hmul]
  have hN := not_all_norm_of_muted B volume spec.channels hnorm hch hmuted
  have hM : pa_cvolume_channels_equal_to volume spec.channels PA_VOLUME_MUTED = true :=
    (channels_equal_to_iff _ _ _).2 hmuted
  have hmain : pa_volume_memchunk B c spec volume = pa_silence_memchunk c spec := by
    simp only [pa_volume_memchunk, if_neg hfs, if_neg hmul', hN, hM, Bool.false_eq_true,
      if_false, if_true]
  refine ⟨hmain, _, hmain.trans (pa_silence_memchunk_eq c spec hlen), rfl, rfl, ?_, ?_⟩
  · intro a h1 h2
    simp [memset, h1, h2]
  · intro a h
    have : ¬ (c.index ≤ a ∧ a < c.index + c.length) := by omega
    simp [memset, this]

theorem int_tdiv_scale (NORM : Nat) (hn : NORM ≠ 0) (x : Int) :
    (x * (NORM : Int)).tdiv (NORM : Int) = x :=
  Int.mul_tdiv_cancel x (by exact_mod_cast hn)

theorem saturate_zero_s16 : saturate (-0x8000) 0x7FFF ((0 : Int)) = 0 := by decide

/-- The S16NE sample `k` of the window after the general path. -/
theorem s16ne_volume_sample (B : Build) (volume : pa_cvolume) (channels n d : Nat) (m : Mem)
    (k : Nat) (hk : k < n)
    (hfit : fits32 (load_s16 B.WORDS_BIGENDIAN m (d + 2 * k) *
      (volume.values (channel_at channels k) : Int))) :
    load_s16 B.WORDS_BIGENDIAN (volume_image (s16ne_ops B) volume channels n d 0 m)
        (d + 2 * k) =
      saturate (-0x8000) 0x7FFF
        ((load_s16 B.WORDS_BIGENDIAN m (d + 2 * k) *
          (volume.values (channel_at channels k) : Int)).tdiv (B.PA_VOLUME_NORM : Int)) := by
  have hsz : (s16ne_ops B).size = 2 := rfl
  have hout : volume_out (s16ne_ops B) volume channels m d 0 k =
      saturate (-0x8000) 0x7FFF
        ((load_s16 B.WORDS_BIGENDIAN m (d + 2 * k) *
          (volume.values (channel_at channels k) : Int)).tdiv (B.PA_VOLUME_NORM : Int)) := by
    unfold volume_out
    rw [s16ne_clamp_eq, Nat.zero_add, hsz, Nat.mul_comm k 2]
    show saturate _ _ ((wrap32 (load_s16 _ m (d + 2 * k) * _)).tdiv _) = _
    rw [wrap32_of_fits hfit]
  rw [← hout]
  have c1 : d ≤ d + 2 * k ∧ d + 2 * k < d + n * 2 := by omega
  have c2 : d ≤ d + 2 * k + 1 ∧ d + 2 * k + 1 < d + n * 2 := by omega
  have e1 : (d + 2 * k - d) / 2 = k := by omega
  have e2 : (d + 2 * k + 1 - d) / 2 = k := by omega
  have e3 : k * 2 = 2 * k := by omega
  apply load_s16_of_store B.WORDS_BIGENDIAN m
  · rw [hout]
    exact saturate_range (by omega) _
  · simp only [volume_image, hsz, if_pos c1, e1, e3]
    rfl
  · simp only [volume_image, hsz, if_pos c2, e2, e3]
    rfl

/-- The U8 sample `k` of the window after the general path. -/
theorem u8_volume_sample (B : Build) (volume : pa_cvolume) (channels n d : Nat) (m : Mem)
    (k : Nat) (hk : k < n)
    (hfit : fits32 ((((m (d + k)).val : Int) - 0x80) *
      (volume.values (channel_at channels k) : Int))) :
    volume_image (u8_ops B) volume channels n d 0 m (d + k) =
      toByte (saturate (-0x80) 0x7F
        (((((m (d + k)).val : Int) - 0x80) *
          (volume.values (channel_at channels k) : Int)).tdiv (B.PA_VOLUME_NORM : Int))
        + 0x80) := by
  have hsz : (u8_ops B).size = 1 := rfl
  have hout : volume_out (u8_ops B) volume channels m d 0 k =
      saturate (-0x80) 0x7F
        (((((m (d + k)).val : Int) - 0x80) *
          (volume.values (channel_at channels k) : Int)).tdiv (B.PA_VOLUME_NORM : Int)) := by
    unfold volume_out
    rw [u8_clamp_eq, Nat.zero_add, hsz, Nat.mul_one]
    show saturate _ _ ((wrap32 ((((m (d + k)).val : Int) - 0x80) * _)).tdiv _) = _
    rw [wrap32_of_fits hfit]
  rw [← hout]
  have c1 : d ≤ d + k ∧ d + k < d + n * (u8_ops B).size := by rw [hsz]; omega
  simp only [volume_image, if_pos c1]
  have e1 : (d + k - d) = k := by omega
  rw [hsz, Nat.div_one, Nat.mul_one, e1]
  exact Mem.write_same _ _ _

theorem volume_image_outside {α : Type} (K : SampleOps α) (volume : pa_cvolume)
    (channels n d j : Nat) (m : Mem) (a : Nat) (h : a < d ∨ d + n * K.size ≤ a) :
    volume_image K volume channels n d j m a = m a := by
  have c : ¬ (d ≤ a ∧ a < d + n * K.size) := by omega
  simp only [volume_image, if_neg c]

theorem toByte_128 : toByte (0 + 0x80) = (0x80 : Byte) := by decide

theorem load_s16_zero (be : Bool) (m : Mem) (a : Nat) (h0 : m a = 0) (h1 : m (a + 1) = 0) :
    load_s16 be m a = 0 := by
  unfold load_s16 toS16
  rw [h0, h1]
  cases be <;> simp

/-- The in-place volume with the loop as intended (`volume_loop`): for S16NE
and for U8, for every memchunk whose length is a multiple of the frame size
(and is not zero when the volumes are all MUTED, the case in which
`pa_silence_memchunk` asserts a non-zero length) and every per-channel volume
vector, the fast paths included, the function returns, and wherever the
scaling product does not overflow 32 bits sample `k` of the chunk window
afterwards equals clamp(s_k * volume[k mod channels] / NORM truncated toward
zero) over the range of the format (U8: computed on s_k - 0x80 and biased by
0x80 again); every byte of the memblock outside [index, index + length) is
unchanged. -/
theorem pa_volume_memchunk_formula (B : Build) (c : pa_memchunk) (spec : pa_sample_spec)
    (volume : pa_cvolume)
    (hfmt : spec.format = PA_SAMPLE_S16NE B ∨ spec.format = pa_sample_format.U8)
    (hnorm : B.PA_VOLUME_NORM ≠ PA_VOLUME_MUTED)
    (hch : 0 < spec.channels)
    (hmul : c.length % pa_frame_size spec = 0)
    (hlen : 0 < c.length ∨
      pa_cvolume_channels_equal_to volume spec.channels PA_VOLUME_MUTED = false) :
    ∃ c', pa_volume_memchunk B c spec volume = some c' ∧
      c'.index = c.index ∧ c'.length = c.length ∧
      (∀ a, a < c.index ∨ c.index + c.length ≤ a →
        c'.memblock.data a = c.memblock.data a) ∧
      (spec.format = PA_SAMPLE_S16NE B → ∀ k, 2 * k < c.length →
        (pa_cvolume_channels_equal_to volume spec.channels B.PA_VOLUME_NORM = false →
         pa_cvolume_channels_equal_to volume spec.channels PA_VOLUME_MUTED = false →
          fits32 (load_s16 B.WORDS_BIGENDIAN c.memblock.data (c.index + 2 * k) *
            (volume.values (k % spec.channels) : Int))) →
        load_s16 B.WORDS_BIGENDIAN c'.memblock.data (c.index + 2 * k) =
          saturate (-0x8000) 0x7FFF
            ((load_s16 B.WORDS_BIGENDIAN c.memblock.data (c.index + 2 * k) *
              (volume.values (k % spec.channels) : Int)).tdiv (B.PA_VOLUME_NORM : Int))) ∧
      (spec.format = pa_sample_format.U8 → ∀ k, k < c.length →
        (pa_cvolume_channels_equal_to volume spec.channels B.PA_VOLUME_NORM = false →
         pa_cvolume_channels_equal_to volume spec.channels PA_VOLUME_MUTED = false →
          fits32 ((((c.memblock.data (c.index + k)).val : Int) - 0x80) *
            (volume.values (k % spec.channels) : Int))) →
        c'.memblock.data (c.index + k) =
          toByte (saturate (-0x80) 0x7F
            (((((c.memblock.data (c.index + k)).val : Int) - 0x80) *
              (volume.values (k % spec.channels) : Int)).tdiv (B.PA_VOLUME_NORM : Int))
            + 0x80)) := by
  have hfs : ¬ pa_frame_size spec = 0 := by
    have := pa_frame_size_pos spec hch; omega
  have hmul' : ¬ c.length % pa_frame_size spec ≠ 0 := by simp [hmul]
  have hn0 : B.PA_VOLUME_NORM ≠ 0 := hnorm
  have hmodlt : ∀ k, k % spec.channels < spec.channels := fun k => Nat.mod_lt _ hch
  have hsz16 : pa_sample_size (PA_SAMPLE_S16NE B) = 2 := by
    unfold PA_SAMPLE_S16NE; split <;> rfl
  by_cases hN : pa_cvolume_channels_equal_to volume spec.channels B.PA_VOLUME_NORM = true
  · -- every channel at NORM: the chunk is returned as it is
    have hres : pa_volume_memchunk B c spec volume = some c := by
      simp only [pa_volume_memchunk, if_neg hfs, if_neg hmul', hN, if_true]
    have hv := (channels_equal_to_iff _ _ _).1 hN
    refine ⟨c, hres, rfl, rfl, fun _ _ => rfl, ?_, ?_⟩
    · intro _ k _ _
      rw [hv _ (hmodlt k), int_tdiv_scale _ hn0]
      have := load_s16_range B.WORDS_BIGENDIAN c.memblock.data (c.index + 2 * k)
      rw [saturate_of_range (by omega) (by omega)]
    · intro _ k _ _
      rw [hv _ (hmodlt k), int_tdiv_scale _ hn0]
      have hb := (c.memblock.data (c.index + k)).isLt
      rw [saturate_of_range (by omega) (by omega)]
      apply Fin.ext; apply Int.ofNat_inj.1; rw [toByte_val]
      omega
  · have hN' : pa_cvolume_channels_equal_to volume spec.channels B.PA_VOLUME_NORM = false := by
      simpa using hN
    by_cases hM : pa_cvolume_channels_equal_to volume spec.channels PA_VOLUME_MUTED = true
    · -- every channel MUTED: the window is silenced
      have hl : 0 < c.length := by
        rcases hlen with h | h
        · exact h
        · rw [hM] at h; exact absurd h (by simp)
      have hres : pa_volume_memchunk B c spec volume = pa_silence_memchunk c spec := by
        simp only [pa_volume_memchunk, if_neg hfs, if_neg hmul', hN', hM, Bool.false_eq_true,
          if_false, if_true]
      have hv := (channels_equal_to_iff _ _ _).1 hM
      refine ⟨_, hres.trans (pa_silence_memchunk_eq c spec hl), rfl, rfl, ?_, ?_, ?_⟩
      · intro a h
        have : ¬ (c.index ≤ a ∧ a < c.index + c.length) := by omega
        simp [memset, this]
      · intro hf k hk _
        have hsb : silence_byte spec.format = 0 := by
          rw [hf]; unfold PA_SAMPLE_S16NE; split <;> rfl
        have hdv : 2 ∣ c.length := by
          have h1 : pa_frame_size spec ∣ c.length := Nat.dvd_of_mod_eq_zero hmul
          have h2 : 2 ∣ pa_frame_size spec := by
            unfold pa_frame_size; rw [hf, hsz16]; exact Dvd.intro _ rfl
          exact dvd_trans h2 h1
        have hk1 : 2 * k + 1 < c.length := by omega
        rw [hv _ (hmodlt k)]
        have e : (load_s16 B.WORDS_BIGENDIAN c.memblock.data (c.index + 2 * k) *
            ((PA_VOLUME_MUTED : Nat) : Int)).tdiv (B.PA_VOLUME_NORM : Int) = 0 := by
          simp [PA_VOLUME_MUTED]
        rw [e, saturate_zero_s16]
        apply load_s16_zero
        · have : c.index ≤ c.index + 2 * k ∧ c.index + 2 * k < c.index + c.length := by omega
          simp [memset, this, hsb]
        · have : c.index ≤ c.index + 2 * k + 1 ∧ c.index + 2 * k + 1 < c.index + c.length := by
            omega
          simp [memset, this, hsb]
      · intro hf k hk _
        have hsb : silence_byte spec.format = 0x80 := by rw [hf]; rfl
        rw [hv _ (hmodlt k)]
        have e : ((((c.memblock.data (c.index + k)).val : Int) - 0x80) *
            ((PA_VOLUME_MUTED : Nat) : Int)).tdiv (B.PA_VOLUME_NORM : Int) = 0 := by
          simp [PA_VOLUME_MUTED]
        rw [e]
        have e2 : toByte (saturate (-0x80) 0x7F 0 + 0x80) = (0x80 : Byte) := by decide
        rw [e2]
        simp [memset, hk, hsb]
    · have hM' : pa_cvolume_channels_equal_to volume spec.channels PA_VOLUME_MUTED = false := by
        simpa using hM
      rcases hfmt with hf | hf
      · -- the S16NE loop
        have hdv : 2 ∣ c.length := by
          have h1 : pa_frame_size spec ∣ c.length := Nat.dvd_of_mod_eq_zero hmul
          have h2 : 2 ∣ pa_frame_size spec := by
            unfold pa_frame_size; rw [hf, hsz16]; exact Dvd.intro _ rfl
          exact dvd_trans h2 h1
        have hlen2 : c.length / 2 * 2 = c.length := Nat.div_mul_cancel hdv
        have hres : pa_volume_memchunk B c spec volume = some { c with memblock :=
            { c.memblock with data := (volume_image (s16ne_ops B) volume spec.channels
                (c.length / 2) c.index 0 c.memblock.data) } } := by
          simp only [pa_volume_memchunk, if_neg hfs, if_neg hmul', hN', hM', Bool.false_eq_true,
            if_false, if_pos hf]
          have := volume_loop_eq (s16ne_ops B) (s16ne_ops_lawful B) volume spec.channels
            (c.length / 2) c.index 0 c.memblock.data
          rw [show channel_at spec.channels 0 = 0 from rfl] at this
          rw [this]
        refine ⟨_, hres, rfl, rfl, ?_, ?_, ?_⟩
        · intro a h
          apply volume_image_outside
          have hsz : (s16ne_ops B).size = 2 := rfl
          rw [hsz, hlen2]; exact h
        · intro _ k hk hfit
          have hfit' := hfit hN' hM'
          rw [← channel_at_eq_mod hch] at hfit' ⊢
          exact s16ne_volume_sample B volume spec.channels (c.length / 2) c.index
            c.memblock.data k (by omega) hfit'
        · intro hf2
          rw [hf] at hf2
          exact absurd hf2.symm (S16NE_ne_U8 B)
      · -- the U8 loop
        have hf1 : ¬ spec.format = PA_SAMPLE_S16NE B := by rw [hf]; exact S16NE_ne_U8 B
        have hres : pa_volume_memchunk B c spec volume = some { c with memblock :=
            { c.memblock with data := (volume_image (u8_ops B) volume spec.channels
                c.length c.index 0 c.memblock.data) } } := by
          simp only [pa_volume_memchunk, if_neg hfs, if_neg hmul', hN', hM', Bool.false_eq_true,
            if_false, if_neg hf1, if_pos hf]
          have := volume_loop_eq (u8_ops B) (u8_ops_lawful B) volume spec.channels
            c.length c.index 0 c.memblock.data
          rw [show channel_at spec.channels 0 = 0 from rfl] at this
          rw [this]
        refine ⟨_, hres, rfl, rfl, ?_, ?_, ?_⟩
        · intro a h
          apply volume_image_outside
          have hsz : (u8_ops B).size = 1 := rfl
          rw [hsz, Nat.mul_one]; exact h
        · intro hf2
          exact absurd hf2 hf1
        · intro _ k hk hfit
          have hfit' := hfit hN' hM'
          rw [← channel_at_eq_mod hch] at hfit' ⊢
          exact u8_volume_sample B volume spec.channels c.length c.index
            c.memblock.data k hk hfit'

/-- C7. `pa_volume_memchunk` does not return on every chunk whose length is
a multiple of the frame size: an empty chunk passes the assertion of the
function, and with all volumes NORM the call returns the chunk as it is, but
with all volumes MUTED the silence fast path reaches the assertion `c->length`
of `pa_silence_memchunk` and the call aborts. -/
theorem pa_volume_memchunk_empty_muted_aborts :
    (0 : Nat) % pa_frame_size ⟨pa_sample_format.U8, 44100, 2⟩ = 0 ∧
    (pa_volume_memchunk ex_build ⟨⟨ex_mem [], 0⟩, 0, 0⟩ ⟨pa_sample_format.U8, 44100, 2⟩
      ⟨2, fun _ => PA_VOLUME_MUTED⟩).isSome = false ∧
    (pa_silence_memchunk ⟨⟨ex_mem [], 0⟩, 0, 0⟩ ⟨pa_sample_format.U8, 44100, 2⟩).isSome =
      false ∧
    (pa_volume_memchunk ex_build ⟨⟨ex_mem [], 0⟩, 0, 0⟩ ⟨pa_sample_format.U8, 44100, 2⟩
      ⟨2, fun _ => ex_build.PA_VOLUME_NORM⟩).isSome = true := by
  decide

/-! # Theorems about the poll loop -/

theorem core_eq_refl (p : pa_rtpoll) : core_eq p p := ⟨rfl, rfl, rfl, rfl, rfl, rfl⟩

theorem core_eq_trans {p q r : pa_rtpoll} (h1 : core_eq p q) (h2 : core_eq q r) :
    core_eq p r := by
  unfold core_eq at h1 h2 ⊢
  refine ⟨h2.1.trans h1.1, h2.2.1.trans h1.2.1, h2.2.2.1.trans h1.2.2.1, ?_, ?_, ?_⟩
  · exact h2.2.2.2.1.trans h1.2.2.2.1
  · exact h2.2.2.2.2.1.trans h1.2.2.2.2.1
  · exact h2.2.2.2.2.2.trans h1.2.2.2.2.2

theorem perform_timer_only {σ : Type} (E : Env σ) (w : σ) (p : pa_rtpoll) (a : Action)
    (h : a.timer_only = true) : ∃ p', perform E w p a = some p' ∧ core_eq p p' := by
  cases a with
  | item_free id => simp [Action.timer_only] at h
  | quit => simp [Action.timer_only] at h
  | set_timer_absolute usec => exact ⟨_, rfl, rfl, rfl, rfl, rfl, rfl, rfl⟩
  | set_timer_relative usec =>
    have h' : usec ≤ 1000000 * 60 * 60 := by simpa [Action.timer_only] using h
    refine ⟨{ p with next_elapse := E.pa_rtclock_get w + usec, timer_enabled := true }, ?_,
      rfl, rfl, rfl, rfl, rfl, rfl⟩
    simp only [perform, pa_rtpoll_set_timer_relative, if_pos h']
  | set_timer_disabled => exact ⟨_, rfl, rfl, rfl, rfl, rfl, rfl, rfl⟩

theorem perform_all_timer_only {σ : Type} (E : Env σ) (w : σ) (acts : List Action) :
    ∀ (p : pa_rtpoll), (∀ a ∈ acts, a.timer_only = true) →
      ∃ p', perform_all E w p acts = some p' ∧ core_eq p p' := by
  induction acts with
  | nil => intro p _; exact ⟨p, rfl, core_eq_refl p⟩
  | cons a rest ih =>
    intro p h
    obtain ⟨p1, h1, c1⟩ := perform_timer_only E w p a (h a (by simp))
    obtain ⟨p2, h2, c2⟩ := ih p1 (fun b hb => h b (by simp [hb]))
    refine ⟨p2, ?_, core_eq_trans c1 c2⟩
    simp only [perform_all, h1, h2]

/-- A callback that only touches the timer returns into a state with the
same items and flags and an unchanged trace. -/
theorem invoke_tame {σ : Type} (E : Env σ) (fn id : Nat) (s : RunState σ)
    (h : calls_tame E fn id) :
    ∃ s', invoke E fn id s = some ((E.callback fn id s.p s.w).1.1, s') ∧
      core_eq s.p s'.p ∧ s'.trace = s.trace := by
  obtain ⟨p', h1, c1⟩ := perform_all_timer_only E (E.callback fn id s.p s.w).2
    (E.callback fn id s.p s.w).1.2 s.p (h s.p s.w)
  refine ⟨{ p := p', w := (E.callback fn id s.p s.w).2, trace := s.trace }, ?_, c1, rfl⟩
  simp only [invoke, h1]

theorem loop_items_nil (NEVER : Int) : loop_items NEVER [] = [] := rfl

theorem loop_items_stop (NEVER : Int) (i : pa_rtpoll_item) (rest : List pa_rtpoll_item)
    (h : ¬ i.priority < NEVER) : loop_items NEVER (i :: rest) = [] := by
  simp [loop_items, List.takeWhile_cons, h]

theorem loop_items_dead (NEVER : Int) (i : pa_rtpoll_item) (rest : List pa_rtpoll_item)
    (h : i.priority < NEVER) (hd : i.dead = true) :
    loop_items NEVER (i :: rest) = loop_items NEVER rest := by
  simp [loop_items, List.takeWhile_cons, h, hd]

theorem loop_items_live (NEVER : Int) (i : pa_rtpoll_item) (rest : List pa_rtpoll_item)
    (h : i.priority < NEVER) (hd : i.dead = false) :
    loop_items NEVER (i :: rest) = i :: loop_items NEVER rest := by
  simp [loop_items, List.takeWhile_cons, h, hd]

/-- On a list sorted by priority the loop reaches every live item below
`PA_RTPOLL_NEVER`. -/
theorem loop_items_eq_visited (NEVER : Int) (items : List pa_rtpoll_item)
    (hs : items.Pairwise (fun a b => a.priority ≤ b.priority)) :
    loop_items NEVER items = visited NEVER items := by
  induction items with
  | nil => rfl
  | cons i rest ih =>
    rw [List.pairwise_cons] at hs
    by_cases hp : i.priority < NEVER
    · cases hd : i.dead
      · rw [loop_items_live NEVER i rest hp hd, ih hs.2]
        simp [visited, hp, hd]
      · rw [loop_items_dead NEVER i rest hp hd, ih hs.2]
        simp [visited, hp, hd]
    · rw [loop_items_stop NEVER i rest hp]
      symm
      unfold visited
      rw [List.filter_eq_nil_iff]
      intro j hj
      rcases List.mem_cons.1 hj with rfl | hj'
      · simp [hp]
      · have := hs.1 j hj'
        have : ¬ j.priority < NEVER := by omega
        simp [this]

theorem work_loop_tame {σ : Type} (E : Env σ) (L : List pa_rtpoll_item)
    (hh : ∀ i ∈ L, ∀ fn, i.work_cb = some fn → calls_tame E fn i.id ∧ returns_zero E fn i.id) :
    ∀ (n idx : Nat) (s : RunState σ), s.p.items = L → idx + n = L.length → s.p.quit = false →
      ∃ s', work_loop E n idx s = Outcome.proceed s' ∧ core_eq s.p s'.p ∧
        s'.trace = s.trace ++ work_calls (loop_items E.PA_RTPOLL_NEVER (L.drop idx)) := by
  intro n
  induction n with
  | zero =>
    intro idx s hL hn hq
    have : L.drop idx = [] := List.drop_eq_nil_of_le (by omega)
    exact ⟨s, rfl, core_eq_refl _, by simp [this, loop_items, work_calls]⟩
  | succ n ih =>
    intro idx s hL hn hq
    have hidx : idx < L.length := by omega
    have hget : s.p.items[idx]? = some L[idx] := by
      rw [hL]; exact List.getElem?_eq_getElem hidx
    have hdrop : L.drop idx = L[idx] :: L.drop (idx + 1) := List.drop_eq_getElem_cons hidx
    have hmem : L[idx] ∈ L := List.getElem_mem hidx
    rw [hdrop]
    simp only [work_loop, hget]
    by_cases hp : L[idx].priority < E.PA_RTPOLL_NEVER
    · simp only [hp, not_true_eq_false, if_false]
      cases hd : L[idx].dead
      · simp only [Bool.false_eq_true, if_false]
        rw [loop_items_live _ _ _ hp hd]
        cases hw : L[idx].work_cb with
        | none =>
          simp only []
          obtain ⟨s', h1, h2, h4⟩ := ih (idx + 1) s hL (by omega) hq
          refine ⟨s', h1, h2, ?_⟩
          rw [h4]
          simp [work_calls, hw]
        | some fn =>
          simp only [hq, Bool.false_eq_true, if_false]
          obtain ⟨ht, hz⟩ := hh _ hmem fn hw
          obtain ⟨s1, hi, hc, htr⟩ := invoke_tame E fn L[idx].id s ht
          rw [hi, hz s.p s.w]
          simp only [ne_eq, not_true_eq_false, if_false]
          obtain ⟨s', h1, h2, h4⟩ := ih (idx + 1)
            { s1 with trace := s1.trace ++ [Event.work L[idx].id 0] }
            (hc.1.trans hL) (by omega) (hc.2.1.trans hq)
          refine ⟨s', h1, core_eq_trans hc h2, ?_⟩
          rw [h4, htr]
          simp [work_calls, hw]
      · simp only [if_true]
        rw [loop_items_dead _ _ _ hp hd]
        exact ih (idx + 1) s hL (by omega) hq
    · simp only [hp, not_false_eq_true, if_true]
      rw [loop_items_stop _ _ _ hp]
      exact ⟨s, rfl, core_eq_refl _, by simp [work_calls]⟩

/-- The live ones among the given items. -/
theorem filter_live_cons (i : pa_rtpoll_item) (rest : List pa_rtpoll_item) :
    (i :: rest).filter (fun j => !j.dead) =
      if i.dead then rest.filter (fun j => !j.dead) else i :: rest.filter (fun j => !j.dead) := by
  cases h : i.dead <;> simp [h]

/-- The backward loop under callbacks that only touch the timer: it calls
the `after_cb` of the live items below position `j`, last first. -/
theorem unwind_tame {σ : Type} (E : Env σ) (L : List pa_rtpoll_item) :
    ∀ (j : Nat) (s : RunState σ), s.p.items = L → j ≤ L.length →
      (∀ i ∈ L.take j, ∀ fn, i.after_cb = some fn → calls_tame E fn i.id) →
      ∃ s', unwind E j s = some s' ∧ core_eq s.p s'.p ∧
        s'.trace = s.trace ++
          after_calls (((L.take j).filter (fun i => !i.dead)).reverse) := by
  intro j
  induction j with
  | zero =>
    intro s _ _ _
    exact ⟨s, rfl, core_eq_refl _, by simp [after_calls]⟩
  | succ j ih =>
    intro s hL hj hh
    have hjlt : j < L.length := by omega
    have hget : s.p.items[j]? = some L[j] := by
      rw [hL]; exact List.getElem?_eq_getElem hjlt
    have htake : L.take (j + 1) = L.take j ++ [L[j]] := by
      rw [List.take_succ, List.getElem?_eq_getElem hjlt]; rfl
    have hmem : L[j] ∈ L.take (j + 1) := by
      rw [htake]; exact List.mem_append_right _ (List.mem_singleton_self _)
    have hsub : ∀ i ∈ L.take j, ∀ fn, i.after_cb = some fn → calls_tame E fn i.id := by
      intro i hi
      exact hh i (by rw [htake]; exact List.mem_append_left _ hi)
    simp only [unwind, hget]
    rw [htake, List.filter_append, List.reverse_append]
    cases hd : L[j].dead
    · simp only [Bool.false_eq_true, if_false]
      cases ha : L[j].after_cb with
      | none =>
        simp only []
        obtain ⟨s', h1, h2, h3⟩ := ih s hL (by omega) hsub
        refine ⟨s', h1, h2, ?_⟩
        rw [h3]
        simp [after_calls, hd, ha, List.filterMap_append]
      | some fn =>
        simp only []
        obtain ⟨s1, hi, hc, htr⟩ := invoke_tame E fn L[j].id s (hh _ hmem fn ha)
        rw [hi]
        simp only []
        obtain ⟨s', h1, h2, h3⟩ := ih { s1 with trace := s1.trace ++ [Event.after L[j].id] }
          (hc.1.trans hL) (by omega) hsub
        refine ⟨s', h1, core_eq_trans hc h2, ?_⟩
        rw [h3, htr]
        simp [after_calls, hd, ha, List.filterMap_append]
    · simp only [if_true]
      obtain ⟨s', h1, h2, h3⟩ := ih s hL (by omega) hsub
      refine ⟨s', h1, h2, ?_⟩
      rw [h3]
      simp [after_calls, hd]

/-- The second loop under callbacks that return 0 and only touch the timer. -/
theorem before_loop_tame {σ : Type} (E : Env σ) (L : List pa_rtpoll_item)
    (hh : ∀ i ∈ L, ∀ fn, i.before_cb = some fn →
      calls_tame E fn i.id ∧ returns_zero E fn i.id) :
    ∀ (n idx : Nat) (s : RunState σ), s.p.items = L → idx + n = L.length → s.p.quit = false →
      ∃ s', before_loop E n idx s = Outcome.proceed s' ∧ core_eq s.p s'.p ∧
        s'.trace = s.trace ++ before_calls (loop_items E.PA_RTPOLL_NEVER (L.drop idx)) := by
  intro n
  induction n with
  | zero =>
    intro idx s hL hn hq
    have : L.drop idx = [] := List.drop_eq_nil_of_le (by omega)
    exact ⟨s, rfl, core_eq_refl _, by simp [this, loop_items, before_calls]⟩
  | succ n ih =>
    intro idx s hL hn hq
    have hidx : idx < L.length := by omega
    have hget : s.p.items[idx]? = some L[idx] := by
      rw [hL]; exact List.getElem?_eq_getElem hidx
    have hdrop : L.drop idx = L[idx] :: L.drop (idx + 1) := List.drop_eq_getElem_cons hidx
    have hmem : L[idx] ∈ L := List.getElem_mem hidx
    rw [hdrop]
    simp only [before_loop, hget]
    by_cases hp : L[idx].priority < E.PA_RTPOLL_NEVER
    · simp only [hp, not_true_eq_false, if_false]
      cases hd : L[idx].dead
      · simp only [Bool.false_eq_true, if_false]
        rw [loop_items_live _ _ _ hp hd]
        cases hw : L[idx].before_cb with
        | none =>
          simp only []
          obtain ⟨s', h1, h2, h4⟩ := ih (idx + 1) s hL (by omega) hq
          refine ⟨s', h1, h2, ?_⟩
          rw [h4]
          simp [before_calls, hw]
        | some fn =>
          simp only [hq, Bool.false_eq_true, if_false]
          obtain ⟨ht, hz⟩ := hh _ hmem fn hw
          obtain ⟨s1, hi, hc, htr⟩ := invoke_tame E fn L[idx].id s ht
          rw [hi, hz s.p s.w]
          simp only [ne_eq, not_true_eq_false, if_false]
          obtain ⟨s', h1, h2, h4⟩ := ih (idx + 1)
            { s1 with trace := s1.trace ++ [Event.before L[idx].id 0] }
            (hc.1.trans hL) (by omega) (hc.2.1.trans hq)
          refine ⟨s', h1, core_eq_trans hc h2, ?_⟩
          rw [h4, htr]
          simp [before_calls, hw]
      · simp only [if_true]
        rw [loop_items_dead _ _ _ hp hd]
        exact ih (idx + 1) s hL (by omega) hq
    · simp only [hp, not_false_eq_true, if_true]
      rw [loop_items_stop _ _ _ hp]
      exact ⟨s, rfl, core_eq_refl _, by simp [before_calls]⟩

/-- The third loop under callbacks that only touch the timer. -/
theorem after_loop_tame {σ : Type} (E : Env σ) (L : List pa_rtpoll_item)
    (hh : ∀ i ∈ L, ∀ fn, i.after_cb = some fn → calls_tame E fn i.id) :
    ∀ (n idx : Nat) (s : RunState σ), s.p.items = L → idx + n = L.length →
      ∃ s', after_loop E n idx s = some s' ∧ core_eq s.p s'.p ∧
        s'.trace = s.trace ++ after_calls (loop_items E.PA_RTPOLL_NEVER (L.drop idx)) := by
  intro n
  induction n with
  | zero =>
    intro idx s hL hn
    have : L.drop idx = [] := List.drop_eq_nil_of_le (by omega)
    exact ⟨s, rfl, core_eq_refl _, by simp [this, loop_items, after_calls]⟩
  | succ n ih =>
    intro idx s hL hn
    have hidx : idx < L.length := by omega
    have hget : s.p.items[idx]? = some L[idx] := by
      rw [hL]; exact List.getElem?_eq_getElem hidx
    have hdrop : L.drop idx = L[idx] :: L.drop (idx + 1) := List.drop_eq_getElem_cons hidx
    have hmem : L[idx] ∈ L := List.getElem_mem hidx
    rw [hdrop]
    simp only [after_loop, hget]
    by_cases hp : L[idx].priority < E.PA_RTPOLL_NEVER
    · simp only [hp, not_true_eq_false, if_false]
      cases hd : L[idx].dead
      · simp only [Bool.false_eq_true, if_false]
        rw [loop_items_live _ _ _ hp hd]
        cases hw : L[idx].after_cb with
        | none =>
          simp only []
          obtain ⟨s', h1, h2, h4⟩ := ih (idx + 1) s hL (by omega)
          refine ⟨s', h1, h2, ?_⟩
          rw [h4]
          simp [after_calls, hw]
        | some fn =>
          simp only []
          obtain ⟨s1, hi, hc, htr⟩ := invoke_tame E fn L[idx].id s (hh _ hmem fn hw)
          rw [hi]
          simp only []
          obtain ⟨s', h1, h2, h4⟩ := ih (idx + 1)
            { s1 with trace := s1.trace ++ [Event.after L[idx].id] }
            (hc.1.trans hL) (by omega)
          refine ⟨s', h1, core_eq_trans hc h2, ?_⟩
          rw [h4, htr]
          simp [after_calls, hw]
      · simp only [if_true]
        rw [loop_items_dead _ _ _ hp hd]
        exact ih (idx + 1) s hL (by omega)
    · simp only [hp, not_false_eq_true, if_true]
      rw [loop_items_stop _ _ _ hp]
      exact ⟨s, rfl, core_eq_refl _, by simp [after_calls]⟩

/-! ## The sleep -/

theorem rebuild_items_same (old : Nat → pollfd) (L : List pa_rtpoll_item) :
    ∀ (buf : Nat → pollfd) (e : Nat),
      List.Forall₂ same_hooks L (rebuild_items old L buf e).1 ∧
      (rebuild_items old L buf e).2.2 = e + (L.map (fun i => i.n_pollfd)).sum := by
  induction L with
  | nil => intro buf e; exact ⟨List.Forall₂.nil, by simp [rebuild_items]⟩
  | cons i rest ih =>
    intro buf e
    simp only [rebuild_items]
    refine ⟨List.Forall₂.cons ?_ (ih _ _).1, ?_⟩
    · by_cases h : i.n_pollfd > 0
      · simp only [h, if_true]
        exact ⟨rfl, rfl, rfl, rfl, rfl, rfl, rfl⟩
      · simp only [h, if_false]
        exact ⟨rfl, rfl, rfl, rfl, rfl, rfl, rfl⟩
    · rw [(ih _ _).2]
      simp only [List.map_cons, List.sum_cons]
      omega

theorem same_hooks_refl (L : List pa_rtpoll_item) : List.Forall₂ same_hooks L L := by
  induction L with
  | nil => exact List.Forall₂.nil
  | cons i rest ih => exact List.Forall₂.cons ⟨rfl, rfl, rfl, rfl, rfl, rfl, rfl⟩ ih

/-- The rebuild succeeds when the descriptor count is right, and changes no
item but in its slice. -/
theorem rtpoll_rebuild_ok (p : pa_rtpoll)
    (hc : p.n_pollfd_used = (p.items.map (fun i => i.n_pollfd)).sum) :
    ∃ p', rtpoll_rebuild p = some p' ∧ List.Forall₂ same_hooks p.items p'.items ∧
      p'.quit = p.quit ∧ p'.rebuild_needed = false ∧ p'.n_pollfd_used = p.n_pollfd_used ∧
      p'.running = p.running ∧ p'.scan_for_dead = p.scan_for_dead := by
  unfold rtpoll_rebuild
  by_cases h : p.n_pollfd_used > p.n_pollfd_alloc
  · simp only [h, if_true]
    have := rebuild_items_same p.pollfd p.items p.pollfd2 0
    rw [if_pos (by rw [this.2, hc]; omega)]
    exact ⟨_, rfl, this.1, rfl, rfl, rfl, rfl, rfl⟩
  · simp only [h, if_false]
    have := rebuild_items_same p.pollfd p.items p.pollfd2 0
    rw [if_pos (by rw [this.2, hc]; omega)]
    exact ⟨_, rfl, this.1, rfl, rfl, rfl, rfl, rfl⟩

theorem loop_items_congr (NEVER : Int) {L L' : List pa_rtpoll_item}
    (h : List.Forall₂ same_hooks L L') :
    List.Forall₂ same_hooks (loop_items NEVER L) (loop_items NEVER L') := by
  induction h with
  | nil => exact List.Forall₂.nil
  | @cons i i' rest rest' hi _ ih =>
    obtain ⟨h1, h2, h3, h4, h5, h6, h7⟩ := hi
    by_cases hp : i.priority < NEVER
    · have hp' : i'.priority < NEVER := by rw [h3]; exact hp
      cases hd : i.dead
      · have hd' : i'.dead = false := by rw [h2]; exact hd
        rw [loop_items_live _ _ _ hp hd, loop_items_live _ _ _ hp' hd']
        exact List.Forall₂.cons ⟨h1, h2, h3, h4, h5, h6, h7⟩ ih
      · have hd' : i'.dead = true := by rw [h2]; exact hd
        rw [loop_items_dead _ _ _ hp hd, loop_items_dead _ _ _ hp' hd']
        exact ih
    · have hp' : ¬ i'.priority < NEVER := by rw [h3]; exact hp
      rw [loop_items_stop _ _ _ hp, loop_items_stop _ _ _ hp']
      exact List.Forall₂.nil

theorem after_calls_congr {L L' : List pa_rtpoll_item} (h : List.Forall₂ same_hooks L L') :
    after_calls L' = after_calls L := by
  induction h with
  | nil => rfl
  | @cons i i' rest rest' hi _ ih =>
    obtain ⟨h1, _, _, _, _, h6, _⟩ := hi
    simp only [after_calls, List.filterMap_cons] at ih ⊢
    rw [h6, h1, ih]

theorem same_hooks_mem {L L' : List pa_rtpoll_item} (h : List.Forall₂ same_hooks L L')
    (i' : pa_rtpoll_item) (hi : i' ∈ L') : ∃ i ∈ L, same_hooks i i' := by
  induction h with
  | nil => simp at hi
  | @cons j j' rest rest' hj _ ih =>
    rcases List.mem_cons.1 hi with rfl | hi'
    · exact ⟨j, by simp, hj⟩
    · obtain ⟨i, him, hs⟩ := ih hi'
      exact ⟨i, by simp [him], hs⟩

theorem find_id_some (L : List pa_rtpoll_item) (i : pa_rtpoll_item) (hi : i ∈ L) :
    ∃ j, L.find? (fun x => decide (x.id = i.id)) = some j := by
  cases h : L.find? (fun x => decide (x.id = i.id)) with
  | some j => exact ⟨j, rfl⟩
  | none =>
    rw [List.find?_eq_none] at h
    have := h i hi
    simp at this

theorem reset_revents_ok (p : pa_rtpoll) (i : pa_rtpoll_item) (hi : i ∈ p.items)
    (hr : p.rebuild_needed = false) :
    ∃ p', reset_revents p i.id = some p' ∧ p'.items = p.items ∧ p'.quit = p.quit ∧
      p'.rebuild_needed = false ∧ p'.running = p.running ∧
      p'.scan_for_dead = p.scan_for_dead ∧ p'.n_pollfd_used = p.n_pollfd_used := by
  obtain ⟨j, hj⟩ := find_id_some p.items i hi
  have hg : pa_rtpoll_item_get_pollfd p i.id = some (p, j.pollfd, j.n_pollfd) := by
    simp only [pa_rtpoll_item_get_pollfd, hj, hr, Bool.false_eq_true, and_false, if_false]
  unfold reset_revents
  rw [hg]
  cases hpf : j.pollfd with
  | none => exact ⟨p, rfl, rfl, rfl, hr, rfl, rfl, rfl⟩
  | some off => exact ⟨_, rfl, rfl, rfl, hr, rfl, rfl, rfl⟩

theorem reset_all_revents_ok : ∀ (n idx : Nat) (p : pa_rtpoll), p.rebuild_needed = false →
    ∃ p', reset_all_revents n idx p = some p' ∧ p'.items = p.items ∧ p'.quit = p.quit ∧
      p'.rebuild_needed = false ∧ p'.running = p.running ∧
      p'.scan_for_dead = p.scan_for_dead ∧ p'.n_pollfd_used = p.n_pollfd_used := by
  intro n
  induction n with
  | zero => intro idx p hr; exact ⟨p, rfl, rfl, rfl, hr, rfl, rfl, rfl⟩
  | succ n ih =>
    intro idx p hr
    cases hget : p.items[idx]? with
    | none =>
      refine ⟨p, ?_, rfl, rfl, hr, rfl, rfl, rfl⟩
      simp only [reset_all_revents, hget]
    | some i =>
      have hi : i ∈ p.items := List.getElem?_mem hget
      simp only [reset_all_revents, hget]
      cases hd : i.dead
      · simp only [Bool.false_eq_true, if_false]
        obtain ⟨p1, h1, a1, a2, a3, a4, a5, a6⟩ := reset_revents_ok p i hi hr
        rw [h1]
        simp only []
        obtain ⟨p2, h2, b1, b2, b3, b4, b5, b6⟩ := ih (idx + 1) p1 a3
        exact ⟨p2, h2, b1.trans a1, b2.trans a2, b3, b4.trans a4, b5.trans a5, b6.trans a6⟩
      · simp only [if_true]
        exact ih (idx + 1) p hr

/-- The sleep with a right descriptor count: the system call is made exactly
once, and no item changes but in its slice. -/
theorem run_poll_ok {σ : Type} (E : Env σ) (wait_op : Bool) (s : RunState σ)
    (hc : s.p.n_pollfd_used = (s.p.items.map (fun i => i.n_pollfd)).sum) :
    ∃ r s' n t, run_poll E wait_op s = some (r, s') ∧
      List.Forall₂ same_hooks s.p.items s'.p.items ∧ s'.p.quit = s.p.quit ∧
      s'.trace = s.trace ++ [Event.poll n t] := by
  have hpre : ∃ p, (if s.p.rebuild_needed then rtpoll_rebuild s.p else some s.p) = some p ∧
      List.Forall₂ same_hooks s.p.items p.items ∧ p.quit = s.p.quit ∧
      p.rebuild_needed = false := by
    cases hr : s.p.rebuild_needed
    · exact ⟨s.p, by simp, same_hooks_refl _, rfl, hr⟩
    · obtain ⟨p', h1, h2, h3, h4, _⟩ := rtpoll_rebuild_ok s.p hc
      exact ⟨p', by simp [h1], h2, h3, h4⟩
  obtain ⟨p, hp, hsame, hq, hrn⟩ := hpre
  unfold run_poll
  rw [hp]
  simp only []
  by_cases hneg : (E.poll ((List.range p.n_pollfd_used).map p.pollfd)
      (poll_timeout E wait_op p s.w) s.w).1.r < 0
  · rw [if_pos hneg]
    obtain ⟨p', h1, a1, a2, _⟩ := reset_all_revents_ok p.items.length 0
      { p with
        pollfd := fun x =>
          if x < p.n_pollfd_used then
            { p.pollfd x with revents := (E.poll ((List.range p.n_pollfd_used).map p.pollfd)
              (poll_timeout E wait_op p s.w) s.w).1.revents x }
          else p.pollfd x
        timer_elapsed := decide ((E.poll ((List.range p.n_pollfd_used).map p.pollfd)
          (poll_timeout E wait_op p s.w) s.w).1.r = 0) } hrn
    rw [h1]
    refine ⟨_, _, _, _, rfl, ?_, ?_, rfl⟩
    · show List.Forall₂ same_hooks s.p.items p'.items
      rw [a1]; exact hsame
    · show p'.quit = s.p.quit
      rw [a2]; exact hq
  · rw [if_neg hneg]
    exact ⟨_, _, _, _, rfl, hsame, hq, rfl⟩

/-! ## The order of the callbacks in a run -/

theorem id_inj_of_nodup (L : List pa_rtpoll_item) (h : (L.map (fun i => i.id)).Nodup)
    (a b : pa_rtpoll_item) (ha : a ∈ L) (hb : b ∈ L) (hab : a.id = b.id) : a = b :=
  List.inj_on_of_nodup_map h ha hb hab

theorem work_calls_item (L : List pa_rtpoll_item) (e : Event) (he : e ∈ work_calls L) :
    ∃ i ∈ L, e.item = some i.id := by
  simp only [work_calls, List.mem_filterMap, Option.map_eq_some'] at he
  obtain ⟨i, hi, _, _, rfl⟩ := he
  exact ⟨i, hi, rfl⟩

theorem before_calls_item (L : List pa_rtpoll_item) (e : Event) (he : e ∈ before_calls L) :
    ∃ i ∈ L, e.item = some i.id := by
  simp only [before_calls, List.mem_filterMap, Option.map_eq_some'] at he
  obtain ⟨i, hi, _, _, rfl⟩ := he
  exact ⟨i, hi, rfl⟩

theorem after_calls_item (L : List pa_rtpoll_item) (e : Event) (he : e ∈ after_calls L) :
    ∃ i ∈ L, e.item = some i.id := by
  simp only [after_calls, List.mem_filterMap, Option.map_eq_some'] at he
  obtain ⟨i, hi, _, _, rfl⟩ := he
  exact ⟨i, hi, rfl⟩

theorem mem_visited (NEVER : Int) (L : List pa_rtpoll_item) (i : pa_rtpoll_item) :
    i ∈ visited NEVER L ↔ i ∈ L ∧ i.priority < NEVER ∧ i.dead = false := by
  simp [visited]

/-- The whole run under callbacks that return 0 and only touch the timer. -/
theorem pa_rtpoll_run_tame {σ : Type} (E : Env σ) (p : pa_rtpoll) (w : σ) (wait_op : Bool)
    (hrun : p.running = false) (hquit : p.quit = false)
    (hcount : p.n_pollfd_used = (p.items.map (fun i => i.n_pollfd)).sum)
    (hwork : ∀ i ∈ p.items, ∀ fn, i.work_cb = some fn →
      calls_tame E fn i.id ∧ returns_zero E fn i.id)
    (hbefore : ∀ i ∈ p.items, ∀ fn, i.before_cb = some fn →
      calls_tame E fn i.id ∧ returns_zero E fn i.id)
    (hafter : ∀ i ∈ p.items, ∀ fn, i.after_cb = some fn → calls_tame E fn i.id) :
    ∃ r p' w' n t, pa_rtpoll_run E p w wait_op = some (r, p', w',
      work_calls (loop_items E.PA_RTPOLL_NEVER p.items) ++
      before_calls (loop_items E.PA_RTPOLL_NEVER p.items) ++ [Event.poll n t] ++
      after_calls (loop_items E.PA_RTPOLL_NEVER p.items)) := by
  obtain ⟨s1, h1, c1, t1⟩ := work_loop_tame E p.items hwork p.items.length 0
    { p := { p with running := true, timer_elapsed := false }, w := w, trace := [] }
    rfl (by omega) hquit
  have hL1 : s1.p.items = p.items := c1.1
  obtain ⟨s2, h2, c2, t2⟩ := before_loop_tame E p.items hbefore p.items.length 0 s1
    hL1 (by omega) (c1.2.1.trans hquit)
  have hL2 : s2.p.items = p.items := c2.1.trans hL1
  have hc2 : s2.p.n_pollfd_used = (s2.p.items.map (fun i => i.n_pollfd)).sum := by
    rw [hL2, c2.2.2.2.1, c1.2.2.2.1]; exact hcount
  obtain ⟨r, s3, n, t, h3, hsame, _, t3⟩ := run_poll_ok E wait_op s2 hc2
  rw [hL2] at hsame
  have hafter3 : ∀ i ∈ s3.p.items, ∀ fn, i.after_cb = some fn → calls_tame E fn i.id := by
    intro i' hi' fn hfn
    obtain ⟨i, hi, hs⟩ := same_hooks_mem hsame i' hi'
    rw [hs.1]
    exact hafter i hi fn (by rw [← hs.2.2.2.2.2.1]; exact hfn)
  obtain ⟨s4, h4, _, t4⟩ := after_loop_tame E s3.p.items hafter3 s3.p.items.length 0 s3
    rfl (by omega)
  have hlen1 : s1.p.items.length = p.items.length := by rw [hL1]
  have hlen2 : s2.p.items.length = p.items.length := by rw [hL2]
  have hres : pa_rtpoll_run E p w wait_op = some (run_finish r s4) := by
    simp only [pa_rtpoll_run, hrun, Bool.false_eq_true, if_false, h1, hlen1, h2, hlen2, h3, h4]
  have e : run_finish r s4 =
      ((run_finish r s4).1, (run_finish r s4).2.1, (run_finish r s4).2.2.1, s4.trace) := rfl
  have htr : s4.trace = work_calls (loop_items E.PA_RTPOLL_NEVER p.items) ++
      before_calls (loop_items E.PA_RTPOLL_NEVER p.items) ++ [Event.poll n t] ++
      after_calls (loop_items E.PA_RTPOLL_NEVER p.items) := by
    rw [t4, t3, t2, t1, List.drop_zero, List.drop_zero,
      after_calls_congr (loop_items_congr E.PA_RTPOLL_NEVER hsame)]
    simp
  refine ⟨(run_finish r s4).1, (run_finish r s4).2.1, (run_finish r s4).2.2.1, n, t, ?_⟩
  rw [hres, e, htr]

/-- C9. In every `pa_rtpoll_run` in which every hook returns 0, no item is
freed and quit is not requested, the hook invocations are: the `work_cb` of
every live item with priority below NEVER in list order, which is
non-decreasing priority order, then the `before_cb` of those items in the same
order, then exactly one poll, then the `after_cb` of those items in the same
order; no hook of an item whose priority is not below NEVER is invoked. For
items created with the priorities 3, 1, 2, 1 the invocation order by priority
is 1, 1, 2, 3 in each of the three phases. -/
theorem pa_rtpoll_run_call_order {σ : Type} (E : Env σ) (p : pa_rtpoll) (w : σ)
    (wait_op : Bool)
    (hrun : p.running = false) (hquit : p.quit = false)
    (hsorted : p.items.Pairwise (fun a b => a.priority ≤ b.priority))
    (hids : (p.items.map (fun i => i.id)).Nodup)
    (hcount : p.n_pollfd_used = (p.items.map (fun i => i.n_pollfd)).sum)
    (hwork : ∀ i ∈ p.items, ∀ fn, i.work_cb = some fn →
      calls_tame E fn i.id ∧ returns_zero E fn i.id)
    (hbefore : ∀ i ∈ p.items, ∀ fn, i.before_cb = some fn →
      calls_tame E fn i.id ∧ returns_zero E fn i.id)
    (hafter : ∀ i ∈ p.items, ∀ fn, i.after_cb = some fn → calls_tame E fn i.id) :
    (∃ r p' w' n t trace, pa_rtpoll_run E p w wait_op = some (r, p', w', trace) ∧
      trace = work_calls (visited E.PA_RTPOLL_NEVER p.items) ++
        before_calls (visited E.PA_RTPOLL_NEVER p.items) ++ [Event.poll n t] ++
        after_calls (visited E.PA_RTPOLL_NEVER p.items) ∧
      ∀ i ∈ p.items, ¬ i.priority < E.PA_RTPOLL_NEVER →
        ∀ e ∈ trace, e.item ≠ some i.id) ∧
    (visited E.PA_RTPOLL_NEVER p.items).Pairwise (fun a b => a.priority ≤ b.priority) ∧
    (∀ i, i ∈ visited E.PA_RTPOLL_NEVER p.items ↔
      i ∈ p.items ∧ i.priority < E.PA_RTPOLL_NEVER ∧ i.dead = false) ∧
    ex_rtpoll.items.map (fun i => (i.id, i.priority)) =
      [(4, 1), (2, 1), (3, 2), (1, 3), (5, 2147483647)] ∧
    (pa_rtpoll_run ex_env ex_rtpoll () true).map
        (fun r => r.2.2.2.filterMap (Event.priority ex_rtpoll.items)) =
      some [1, 1, 2, 3, 1, 1, 2, 3, 1, 1, 2, 3] := by
  refine ⟨?_, ?_, ?_, by decide, by decide⟩
  · obtain ⟨r, p', w', n, t, h⟩ :=
      pa_rtpoll_run_tame E p w wait_op hrun hquit hcount hwork hbefore hafter
    rw [loop_items_eq_visited _ _ hsorted] at h
    refine ⟨r, p', w', n, t, _, h, rfl, ?_⟩
    intro i hi hp e he heq
    have hv : ∃ j ∈ visited E.PA_RTPOLL_NEVER p.items, e.item = some j.id := by
      simp only [List.mem_append, List.mem_singleton] at he
      rcases he with ((he | he) | he) | he
      · exact work_calls_item _ e he
      · exact before_calls_item _ e he
      · rw [he] at heq; simp [Event.item] at heq
      · exact after_calls_item _ e he
    obtain ⟨j, hj, hje⟩ := hv
    rw [mem_visited] at hj
    rw [heq] at hje
    have : i = j := id_inj_of_nodup p.items hids i j hi hj.1 (Option.some.inj hje)
    rw [this] at hp
    exact hp hj.2.1
  · exact List.Pairwise.sublist (List.filter_sublist _) hsorted
  · intro i
    exact mem_visited _ _ i

/-! ## A refusing `before_cb` -/

/-- The second loop when the `before_cb` at position `k` is the first to
return non-zero: the loop ends in `finish` after the `after_cb` of the live
items below `k` have been called, last first. -/
theorem before_loop_refuse {σ : Type} (E : Env σ) (L : List pa_rtpoll_item) (k : Nat)
    (hk : k < L.length) (fnk : Nat) (hkb : L[k].before_cb = some fnk)
    (hkd : L[k].dead = false)
    (hprio : ∀ i ∈ L.take (k + 1), i.priority < E.PA_RTPOLL_NEVER)
    (hbefore : ∀ i ∈ L.take k, ∀ fn, i.before_cb = some fn →
      calls_tame E fn i.id ∧ returns_zero E fn i.id)
    (hkt : calls_tame E fnk L[k].id) (hknz : returns_nonzero E fnk L[k].id)
    (hafter : ∀ i ∈ L.take k, ∀ fn, i.after_cb = some fn → calls_tame E fn i.id) :
    ∀ (n idx : Nat) (s : RunState σ), s.p.items = L → idx + n = L.length → idx ≤ k →
      s.p.quit = false →
      ∃ ret s', ret ≠ 0 ∧
        before_loop E n idx s = Outcome.finish (if ret < 0 then ret else 0) s' ∧
        core_eq s.p s'.p ∧
        s'.trace = s.trace ++
          before_calls (((L.take k).drop idx).filter (fun i => !i.dead)) ++
          [Event.before L[k].id ret] ++
          after_calls (((L.take k).filter (fun i => !i.dead)).reverse) := by
  intro n
  induction n with
  | zero => intro idx s _ hn hik _; omega
  | succ n ih =>
    intro idx s hL hn hik hq
    have hidx : idx < L.length := by omega
    have hget : s.p.items[idx]? = some L[idx] := by
      rw [hL]; exact List.getElem?_eq_getElem hidx
    simp only [before_loop, hget]
    have hmem1 : L[idx] ∈ L.take (k + 1) :=
      List.mem_take_iff_getElem.2 ⟨idx, by simp; omega, rfl⟩
    have hp := hprio _ hmem1
    simp only [hp, not_true_eq_false, if_false]
    by_cases hik2 : idx = k
    · subst hik2
      have hdropk : (L.take idx).drop idx = [] :=
        List.drop_eq_nil_of_le (by simp)
      simp only [hkd, Bool.false_eq_true, if_false, hkb, hq]
      obtain ⟨s1, hi, hc, htr⟩ := invoke_tame E fnk L[idx].id s hkt
      rw [hi]
      have hnz := hknz s.p s.w
      simp only [ne_eq, hnz, not_false_eq_true, if_true]
      obtain ⟨s2, hu, hc2, htr2⟩ := unwind_tame E L idx
        { s1 with trace := s1.trace ++ [Event.before L[idx].id (E.callback fnk L[idx].id s.p s.w).1.1] }
        (hc.1.trans hL) (by omega) hafter
      rw [hu]
      refine ⟨_, s2, hnz, rfl, core_eq_trans hc hc2, ?_⟩
      rw [htr2, htr, hdropk]
      simp [before_calls]
    · have hlt : idx < k := by omega
      have hmemk : L[idx] ∈ L.take k :=
        List.mem_take_iff_getElem.2 ⟨idx, by simp; omega, rfl⟩
      have hdrop : (L.take k).drop idx = L[idx] :: (L.take k).drop (idx + 1) := by
        have hlen : idx < (L.take k).length := by simp; omega
        rw [List.drop_eq_getElem_cons hlen]
        simp
      rw [hdrop, filter_live_cons]
      cases hd : L[idx].dead
      · simp only [Bool.false_eq_true, if_false]
        cases hw : L[idx].before_cb with
        | none =>
          simp only []
          obtain ⟨ret, s', h0, h1, h2, h4⟩ := ih (idx + 1) s hL (by omega) (by omega) hq
          refine ⟨ret, s', h0, h1, h2, ?_⟩
          rw [h4]
          simp [before_calls, hw]
        | some fn =>
          simp only [hq, Bool.false_eq_true, if_false]
          obtain ⟨ht, hz⟩ := hbefore _ hmemk fn hw
          obtain ⟨s1, hi, hc, htr⟩ := invoke_tame E fn L[idx].id s ht
          rw [hi, hz s.p s.w]
          simp only [ne_eq, not_true_eq_false, if_false]
          obtain ⟨ret, s', h0, h1, h2, h4⟩ := ih (idx + 1)
            { s1 with trace := s1.trace ++ [Event.before L[idx].id 0] }
            (hc.1.trans hL) (by omega) (by omega) (hc.2.1.trans hq)
          refine ⟨ret, s', h0, h1, core_eq_trans hc h2, ?_⟩
          rw [h4, htr]
          simp [before_calls, hw]
      · simp only [if_true]
        exact ih (idx + 1) s hL (by omega) (by omega) hq

theorem filter_live_all (L : List pa_rtpoll_item) (h : ∀ i ∈ L, i.dead = false) :
    L.filter (fun i => !i.dead) = L := by
  rw [List.filter_eq_self]
  intro i hi
  simp [h i hi]

theorem before_calls_all (L : List pa_rtpoll_item) (h : ∀ i ∈ L, i.before_cb.isSome = true) :
    before_calls L = L.map (fun i => Event.before i.id 0) := by
  induction L with
  | nil => rfl
  | cons i rest ih =>
    have hi := h i (by simp)
    obtain ⟨fn, hfn⟩ := Option.isSome_iff_exists.1 hi
    simp only [before_calls, List.filterMap_cons, hfn, Option.map_some', List.map_cons] at ih ⊢
    rw [ih (fun j hj => h j (by simp [hj]))]

theorem after_calls_all (L : List pa_rtpoll_item) (h : ∀ i ∈ L, i.after_cb.isSome = true) :
    after_calls L = L.map (fun i => Event.after i.id) := by
  induction L with
  | nil => rfl
  | cons i rest ih =>
    have hi := h i (by simp)
    obtain ⟨fn, hfn⟩ := Option.isSome_iff_exists.1 hi
    simp only [after_calls, List.filterMap_cons, hfn, Option.map_some', List.map_cons] at ih ⊢
    rw [ih (fun j hj => h j (by simp [hj]))]

theorem work_calls_not_after (L : List pa_rtpoll_item) (e : Event) (he : e ∈ work_calls L) :
    ∃ id ret, e = Event.work id ret := by
  simp only [work_calls, List.mem_filterMap, Option.map_eq_some'] at he
  obtain ⟨i, _, _, _, rfl⟩ := he
  exact ⟨_, _, rfl⟩

/-- C10. In a `pa_rtpoll_run` over live items that all have a `before_cb`
and an `after_cb`, if the `before_cb` of the item at list position `k` is
the first to return non-zero, then poll is not called, the `after_cb` of the
items at positions k-1, k-2, …, 0 are invoked in exactly that (reverse)
order, and the `after_cb` of the item at position `k` and of every later item
is not invoked. -/
theorem pa_rtpoll_run_before_refuses {σ : Type} (E : Env σ) (p : pa_rtpoll) (w : σ)
    (wait_op : Bool) (k : Nat) (hk : k < p.items.length)
    (hrun : p.running = false) (hquit : p.quit = false)
    (hids : (p.items.map (fun i => i.id)).Nodup)
    (hlive : ∀ i ∈ p.items,
      i.dead = false ∧ i.before_cb.isSome = true ∧ i.after_cb.isSome = true)
    (hprio : ∀ i ∈ p.items.take (k + 1), i.priority < E.PA_RTPOLL_NEVER)
    (hwork : ∀ i ∈ p.items, ∀ fn, i.work_cb = some fn →
      calls_tame E fn i.id ∧ returns_zero E fn i.id)
    (hbefore : ∀ i ∈ p.items.take k, ∀ fn, i.before_cb = some fn →
      calls_tame E fn i.id ∧ returns_zero E fn i.id)
    (hrefuse : ∀ fn, p.items[k].before_cb = some fn →
      calls_tame E fn p.items[k].id ∧ returns_nonzero E fn p.items[k].id)
    (hafter : ∀ i ∈ p.items.take k, ∀ fn, i.after_cb = some fn → calls_tame E fn i.id) :
    ∃ r p' w' ret trace, ret ≠ 0 ∧
      pa_rtpoll_run E p w wait_op = some (r, p', w', trace) ∧
      trace = work_calls (loop_items E.PA_RTPOLL_NEVER p.items) ++
        (p.items.take k).map (fun i => Event.before i.id 0) ++
        [Event.before p.items[k].id ret] ++
        ((p.items.take k).reverse).map (fun i => Event.after i.id) ∧
      (∀ e ∈ trace, e.is_poll = false) ∧
      (∀ j (hj : j < p.items.length), k ≤ j → Event.after p.items[j].id ∉ trace) := by
  have hkmem : p.items[k] ∈ p.items := List.getElem_mem hk
  obtain ⟨fnk, hfnk⟩ := Option.isSome_iff_exists.1 (hlive _ hkmem).2.1
  obtain ⟨hkt, hknz⟩ := hrefuse fnk hfnk
  obtain ⟨s1, h1, c1, t1⟩ := work_loop_tame E p.items hwork p.items.length 0
    { p := { p with running := true, timer_elapsed := false }, w := w, trace := [] }
    rfl (by omega) hquit
  have hL1 : s1.p.items = p.items := c1.1
  obtain ⟨ret, s2, hret, h2, _, t2⟩ := before_loop_refuse E p.items k hk fnk hfnk
    (hlive _ hkmem).1 hprio hbefore hkt hknz hafter p.items.length 0 s1 hL1 (by omega)
    (by omega) (c1.2.1.trans hquit)
  have hlen1 : s1.p.items.length = p.items.length := by rw [hL1]
  have hres : pa_rtpoll_run E p w wait_op =
      some (run_finish (if ret < 0 then ret else 0) s2) := by
    simp only [pa_rtpoll_run, hrun, Bool.false_eq_true, if_false, h1, hlen1, h2]
  have e : run_finish (if ret < 0 then ret else 0) s2 =
      ((run_finish (if ret < 0 then ret else 0) s2).1,
       (run_finish (if ret < 0 then ret else 0) s2).2.1,
       (run_finish (if ret < 0 then ret else 0) s2).2.2.1, s2.trace) := rfl
  have hsubk : ∀ i ∈ p.items.take k, i ∈ p.items := fun i hi => List.mem_of_mem_take hi
  have hliveK : (p.items.take k).filter (fun i => !i.dead) = p.items.take k :=
    filter_live_all _ (fun i hi => (hlive i (hsubk i hi)).1)
  have htr : s2.trace = work_calls (loop_items E.PA_RTPOLL_NEVER p.items) ++
      (p.items.take k).map (fun i => Event.before i.id 0) ++
      [Event.before p.items[k].id ret] ++
      ((p.items.take k).reverse).map (fun i => Event.after i.id) := by
    rw [t2, t1, List.drop_zero, List.drop_zero, hliveK,
      before_calls_all _ (fun i hi => (hlive i (hsubk i hi)).2.1),
      after_calls_all _ (fun i hi => (hlive i (hsubk i (List.mem_reverse.1 hi))).2.2)]
    simp
  refine ⟨_, _, _, ret, s2.trace, hret, by rw [hres, e], htr, ?_, ?_⟩
  · intro e he
    rw [htr] at he
    simp only [List.mem_append, List.mem_map, List.mem_singleton, List.mem_reverse] at he
    rcases he with ((he | ⟨i, _, rfl⟩) | rfl) | ⟨i, _, rfl⟩
    · obtain ⟨id, r, rfl⟩ := work_calls_not_after _ e he
      rfl
    · rfl
    · rfl
    · rfl
  · intro j hj hkj he
    rw [htr] at he
    simp only [List.mem_append, List.mem_map, List.mem_singleton, List.mem_reverse] at he
    rcases he with ((he | ⟨i, _, hi⟩) | he) | ⟨i, hi, hid⟩
    · obtain ⟨id, r, h⟩ := work_calls_not_after _ _ he
      exact Event.noConfusion h
    · exact Event.noConfusion hi
    · exact Event.noConfusion he
    · obtain ⟨m, hm, rfl⟩ := List.mem_take_iff_getElem.1 hi
      have hm' : m < p.items.length := by omega
      have hidm : p.items[m].id = p.items[j].id := by
        injection hid
      have hm2 : m < (p.items.map (fun i => i.id)).length := by simp; omega
      have hj2 : j < (p.items.map (fun i => i.id)).length := by simp; omega
      have hmj : (p.items.map (fun i => i.id))[m] = (p.items.map (fun i => i.id))[j] := by
        simp [hidm]
      have := (List.Nodup.getElem_inj_iff hids).1 hmj
      omega

/-! # The theorems at concrete inputs -/

/-- The mix formula on the two constant streams of the scenario, four samples
on two channels. -/
theorem pa_mix_s16ne_formula_witness :
    (ex_spec.format = PA_SAMPLE_S16NE ex_build ∧ 0 < ex_spec.channels ∧ 0 < 8) ∧
    ∃ d data', pa_mix ex_build [ex_a, ex_b] (ex_mem []) 8 ex_spec 0x10000 = some (d, data') ∧
      (∀ k, 2 * k < d →
        mix_fits32 ex_build.PA_VOLUME_NORM 0x10000
          (s16_inputs ex_build [ex_a, ex_b] ex_spec.channels k) →
        load_s16 ex_build.WORDS_BIGENDIAN data' (2 * k) =
          mix_exact ex_build.PA_VOLUME_NORM 0x10000
            (s16_inputs ex_build [ex_a, ex_b] ex_spec.channels k)) ∧
      (∀ a b : pa_mix_info, [ex_a, ex_b] = [a, b] → ex_spec.channels = 2 →
        0x10000 = ex_build.PA_VOLUME_NORM → ex_build.PA_VOLUME_NORM ≠ PA_VOLUME_MUTED →
        a.volume.values 0 = ex_build.PA_VOLUME_NORM → a.volume.values 1 = PA_VOLUME_MUTED →
        b.volume.values 0 = PA_VOLUME_MUTED → b.volume.values 1 = ex_build.PA_VOLUME_NORM →
        (∀ k, stream_sample_s16 ex_build a k = 0x2000) →
        (∀ k, stream_sample_s16 ex_build b k = -0x1000) →
        ∀ k, 2 * k < d →
          load_s16 ex_build.WORDS_BIGENDIAN data' (2 * k) =
            if k % 2 = 0 then 0x2000 else -0x1000) :=
  ⟨⟨rfl, by decide, by decide⟩,
   pa_mix_s16ne_formula ex_build [ex_a, ex_b] (ex_mem []) 8 ex_spec 0x10000 rfl (by decide)
     (by decide)⟩

/-- The saturated sum on two streams at `0x7FFF`. -/
theorem pa_mix_unit_volumes_saturated_sum_witness :
    ([ex_loud, ex_loud].length < 65536 ∧ ex_build.PA_VOLUME_NORM ≠ PA_VOLUME_MUTED ∧
      0 < ex_spec.channels ∧
      (∀ s ∈ [ex_loud, ex_loud], ∀ c, c < ex_spec.channels →
        s.volume.values c = ex_build.PA_VOLUME_NORM) ∧ 0 < 4) ∧
    ((ex_spec.format = PA_SAMPLE_S16NE ex_build →
      ∃ d data', pa_mix ex_build [ex_loud, ex_loud] (ex_mem []) 4 ex_spec
          ex_build.PA_VOLUME_NORM = some (d, data') ∧
        ∀ k, 2 * k < d →
          load_s16 ex_build.WORDS_BIGENDIAN data' (2 * k) =
            saturate (-0x8000) 0x7FFF
              ([ex_loud, ex_loud].map (fun s => stream_sample_s16 ex_build s k)).sum) ∧
    (ex_spec.format = pa_sample_format.U8 →
      ∃ d data', pa_mix ex_build [ex_loud, ex_loud] (ex_mem []) 4 ex_spec
          ex_build.PA_VOLUME_NORM = some (d, data') ∧
        ∀ k, k < d →
          data' k =
            toByte (saturate (-0x80) 0x7F
              ([ex_loud, ex_loud].map (fun s => stream_sample_u8 s k)).sum + 0x80)) ∧
    saturate (-0x8000) 0x7FFF (0x7FFF + 0x7FFF) = 0x7FFF ∧
    saturate (-0x8000) 0x7FFF (-0x8000 + -0x8000) = -0x8000) :=
  have hvol : ∀ s ∈ [ex_loud, ex_loud], ∀ c, c < ex_spec.channels →
      s.volume.values c = ex_build.PA_VOLUME_NORM := by
    intro s hs c hc
    have hs' : s = ex_loud := by simpa using hs
    have hc' : c = 0 ∨ c = 1 := by
      have : c < 2 := hc
      omega
    rw [hs']
    rcases hc' with rfl | rfl <;> rfl
  ⟨⟨by decide, by decide, by decide, hvol, by decide⟩,
   pa_mix_unit_volumes_saturated_sum ex_build [ex_loud, ex_loud] (ex_mem []) 4 ex_spec
     (by decide) (by decide) (by decide) hvol (by decide)⟩

/-- The identity on one S16NE stream of two samples. -/
theorem pa_mix_identity_witness :
    ((ex_spec.format = PA_SAMPLE_S16NE ex_build ∨ ex_spec.format = pa_sample_format.U8 ∨
        ex_spec.format = PA_SAMPLE_FLOAT32NE) ∧
      ex_build.PA_VOLUME_NORM ≠ PA_VOLUME_MUTED ∧ 0 < ex_spec.channels ∧
      (∀ c, c < ex_spec.channels → ex_loud.volume.values c = ex_build.PA_VOLUME_NORM) ∧
      0 < ex_loud.chunk.length ∧ pa_sample_size ex_spec.format ∣ ex_loud.chunk.length) ∧
    ∃ data', pa_mix ex_build [ex_loud] (ex_mem []) ex_loud.chunk.length ex_spec
        ex_build.PA_VOLUME_NORM = some (ex_loud.chunk.length, data') ∧
      (ex_spec.format ≠ PA_SAMPLE_FLOAT32NE →
        ∀ a, a < ex_loud.chunk.length →
          data' a = ex_loud.chunk.memblock.data (ex_loud.chunk.index + a)) ∧
      (ex_spec.format = PA_SAMPLE_FLOAT32NE →
        ∀ k, 4 * k < ex_loud.chunk.length →
          (F32.isNaN (load_f32 ex_build.WORDS_BIGENDIAN ex_loud.chunk.memblock.data
              (ex_loud.chunk.index + 4 * k)) = false →
            load_f32 ex_build.WORDS_BIGENDIAN ex_loud.chunk.memblock.data
              (ex_loud.chunk.index + 4 * k) ≠ 0x80000000 →
            F32.lt (load_f32 ex_build.WORDS_BIGENDIAN ex_loud.chunk.memblock.data
              (ex_loud.chunk.index + 4 * k)) F32.negOne = false →
            F32.lt F32.one (load_f32 ex_build.WORDS_BIGENDIAN ex_loud.chunk.memblock.data
              (ex_loud.chunk.index + 4 * k)) = false →
            ∀ j, j < 4 →
              data' (4 * k + j) =
                ex_loud.chunk.memblock.data (ex_loud.chunk.index + 4 * k + j)) ∧
          (F32.lt F32.one (load_f32 ex_build.WORDS_BIGENDIAN ex_loud.chunk.memblock.data
              (ex_loud.chunk.index + 4 * k)) = true →
            load_f32 ex_build.WORDS_BIGENDIAN data' (4 * k) = F32.one) ∧
          (F32.lt (load_f32 ex_build.WORDS_BIGENDIAN ex_loud.chunk.memblock.data
              (ex_loud.chunk.index + 4 * k)) F32.negOne = true →
            load_f32 ex_build.WORDS_BIGENDIAN data' (4 * k) = F32.negOne)) :=
  have hvol : ∀ c, c < ex_spec.channels →
      ex_loud.volume.values c = ex_build.PA_VOLUME_NORM := by
    intro c hc
    have hc' : c = 0 ∨ c = 1 := by
      have : c < 2 := hc
      omega
    rcases hc' with rfl | rfl <;> rfl
  ⟨⟨Or.inl rfl, by decide, by decide, hvol, by decide, by decide⟩,
   pa_mix_identity ex_build ex_loud (ex_mem []) ex_spec (Or.inl rfl) (by decide) (by decide)
     hvol (by decide) (by decide)⟩

/-- A muted master volume over two streams and a destination that held 7s. -/
theorem pa_mix_master_muted_is_silence_witness :
    ((ex_spec.format = PA_SAMPLE_S16NE ex_build ∨ ex_spec.format = pa_sample_format.U8 ∨
        ex_spec.format = PA_SAMPLE_FLOAT32NE) ∧ 0 < 8) ∧
    ∃ d data', pa_mix ex_build [ex_a, ex_b] (ex_mem [7, 7, 7, 7, 7, 7, 7, 7]) 8 ex_spec
        PA_VOLUME_MUTED = some (d, data') ∧
      ∀ a, a < d →
        (∃ m, pa_silence_memory (ex_mem [7, 7, 7, 7, 7, 7, 7, 7]) 0 d ex_spec = some m ∧
          data' a = m a) ∧
        data' a = (if ex_spec.format = pa_sample_format.U8 then 0x80 else 0) :=
  ⟨⟨Or.inl rfl, by decide⟩,
   pa_mix_master_muted_is_silence ex_build [ex_a, ex_b] (ex_mem [7, 7, 7, 7, 7, 7, 7, 7]) 8
     ex_spec (Or.inl rfl) (by decide)⟩

/-- The in-place volume on a window in the middle of a block, half and double
volume on the two channels. -/
theorem pa_volume_memchunk_formula_witness :
    ((ex_spec.format = PA_SAMPLE_S16NE ex_build ∨ ex_spec.format = pa_sample_format.U8) ∧
      ex_build.PA_VOLUME_NORM ≠ PA_VOLUME_MUTED ∧ 0 < ex_spec.channels ∧
      ex_chunk.length % pa_frame_size ex_spec = 0 ∧
      (0 < ex_chunk.length ∨
        pa_cvolume_channels_equal_to ex_volume ex_spec.channels PA_VOLUME_MUTED = false)) ∧
    ∃ c', pa_volume_memchunk ex_build ex_chunk ex_spec ex_volume = some c' ∧
      c'.index = ex_chunk.index ∧ c'.length = ex_chunk.length ∧
      (∀ a, a < ex_chunk.index ∨ ex_chunk.index + ex_chunk.length ≤ a →
        c'.memblock.data a = ex_chunk.memblock.data a) ∧
      (ex_spec.format = PA_SAMPLE_S16NE ex_build → ∀ k, 2 * k < ex_chunk.length →
        (pa_cvolume_channels_equal_to ex_volume ex_spec.channels ex_build.PA_VOLUME_NORM
            = false →
         pa_cvolume_channels_equal_to ex_volume ex_spec.channels PA_VOLUME_MUTED = false →
          fits32 (load_s16 ex_build.WORDS_BIGENDIAN ex_chunk.memblock.data
            (ex_chunk.index + 2 * k) * (ex_volume.values (k % ex_spec.channels) : Int))) →
        load_s16 ex_build.WORDS_BIGENDIAN c'.memblock.data (ex_chunk.index + 2 * k) =
          saturate (-0x8000) 0x7FFF
            ((load_s16 ex_build.WORDS_BIGENDIAN ex_chunk.memblock.data
                (ex_chunk.index + 2 * k) *
              (ex_volume.values (k % ex_spec.channels) : Int)).tdiv
              (ex_build.PA_VOLUME_NORM : Int))) ∧
      (ex_spec.format = pa_sample_format.U8 → ∀ k, k < ex_chunk.length →
        (pa_cvolume_channels_equal_to ex_volume ex_spec.channels ex_build.PA_VOLUME_NORM
            = false →
         pa_cvolume_channels_equal_to ex_volume ex_spec.channels PA_VOLUME_MUTED = false →
          fits32 ((((ex_chunk.memblock.data (ex_chunk.index + k)).val : Int) - 0x80) *
            (ex_volume.values (k % ex_spec.channels) : Int))) →
        c'.memblock.data (ex_chunk.index + k) =
          toByte (saturate (-0x80) 0x7F
            (((((ex_chunk.memblock.data (ex_chunk.index + k)).val : Int) - 0x80) *
              (ex_volume.values (k % ex_spec.channels) : Int)).tdiv
              (ex_build.PA_VOLUME_NORM : Int))
            + 0x80)) :=
  ⟨⟨Or.inl rfl, by decide, by decide, by decide, Or.inl (by decide)⟩,
   pa_volume_memchunk_formula ex_build ex_chunk ex_spec ex_volume (Or.inl rfl) (by decide)
     (by decide) (by decide) (Or.inl (by decide))⟩

/-- The muted fast path on a window in the middle of a block. -/
theorem pa_volume_memchunk_all_muted_witness :
    (ex_build.PA_VOLUME_NORM ≠ PA_VOLUME_MUTED ∧ 0 < ex_spec.channels ∧
      0 < ex_chunk.length ∧ ex_chunk.length % pa_frame_size ex_spec = 0 ∧
      (∀ ch, ch < ex_spec.channels → ex_muted.values ch = PA_VOLUME_MUTED)) ∧
    (pa_volume_memchunk ex_build ex_chunk ex_spec ex_muted = pa_silence_memchunk ex_chunk ex_spec ∧
    ∃ c', pa_volume_memchunk ex_build ex_chunk ex_spec ex_muted = some c' ∧
      c'.index = ex_chunk.index ∧ c'.length = ex_chunk.length ∧
      (∀ a, ex_chunk.index ≤ a → a < ex_chunk.index + ex_chunk.length →
        c'.memblock.data a = silence_byte ex_spec.format) ∧
      (∀ a, a < ex_chunk.index ∨ ex_chunk.index + ex_chunk.length ≤ a →
        c'.memblock.data a = ex_chunk.memblock.data a)) :=
  ⟨⟨by decide, by decide, by decide, by decide, fun _ _ => rfl⟩,
   pa_volume_memchunk_all_muted ex_build ex_chunk ex_spec ex_muted (by decide) (by decide)
     (by decide) (by decide) (fun _ _ => rfl)⟩

/-- The callbacks of `ex_env` do nothing and return 0. -/
theorem ex_env_tame (fn id : Nat) : calls_tame ex_env fn id ∧ returns_zero ex_env fn id :=
  ⟨fun _ _ a ha => by simp [ex_env] at ha, fun _ _ => rfl⟩

/-- The call order on the items created with the priorities 3, 1, 2, 1. -/
theorem pa_rtpoll_run_call_order_witness :
    (ex_rtpoll.running = false ∧ ex_rtpoll.quit = false ∧
      ex_rtpoll.items.Pairwise (fun a b => a.priority ≤ b.priority) ∧
      (ex_rtpoll.items.map (fun i => i.id)).Nodup ∧
      ex_rtpoll.n_pollfd_used = (ex_rtpoll.items.map (fun i => i.n_pollfd)).sum ∧
      (∀ i ∈ ex_rtpoll.items, ∀ fn, i.work_cb = some fn →
        calls_tame ex_env fn i.id ∧ returns_zero ex_env fn i.id) ∧
      (∀ i ∈ ex_rtpoll.items, ∀ fn, i.before_cb = some fn →
        calls_tame ex_env fn i.id ∧ returns_zero ex_env fn i.id) ∧
      (∀ i ∈ ex_rtpoll.items, ∀ fn, i.after_cb = some fn → calls_tame ex_env fn i.id)) ∧
    ((∃ r p' w' n t trace, pa_rtpoll_run ex_env ex_rtpoll () true = some (r, p', w', trace) ∧
      trace = work_calls (visited ex_env.PA_RTPOLL_NEVER ex_rtpoll.items) ++
        before_calls (visited ex_env.PA_RTPOLL_NEVER ex_rtpoll.items) ++ [Event.poll n t] ++
        after_calls (visited ex_env.PA_RTPOLL_NEVER ex_rtpoll.items) ∧
      ∀ i ∈ ex_rtpoll.items, ¬ i.priority < ex_env.PA_RTPOLL_NEVER →
        ∀ e ∈ trace, e.item ≠ some i.id) ∧
    (visited ex_env.PA_RTPOLL_NEVER ex_rtpoll.items).Pairwise
      (fun a b => a.priority ≤ b.priority) ∧
    (∀ i, i ∈ visited ex_env.PA_RTPOLL_NEVER ex_rtpoll.items ↔
      i ∈ ex_rtpoll.items ∧ i.priority < ex_env.PA_RTPOLL_NEVER ∧ i.dead = false) ∧
    ex_rtpoll.items.map (fun i => (i.id, i.priority)) =
      [(4, 1), (2, 1), (3, 2), (1, 3), (5, 2147483647)] ∧
    (pa_rtpoll_run ex_env ex_rtpoll () true).map
        (fun r => r.2.2.2.filterMap (Event.priority ex_rtpoll.items)) =
      some [1, 1, 2, 3, 1, 1, 2, 3, 1, 1, 2, 3]) :=
  ⟨⟨rfl, rfl, by decide, by decide, by decide,
    fun i _ fn _ => ex_env_tame fn i.id, fun i _ fn _ => ex_env_tame fn i.id,
    fun i _ fn _ => (ex_env_tame fn i.id).1⟩,
   pa_rtpoll_run_call_order ex_env ex_rtpoll () true rfl rfl (by decide) (by decide)
     (by decide) (fun i _ fn _ => ex_env_tame fn i.id) (fun i _ fn _ => ex_env_tame fn i.id)
     (fun i _ fn _ => (ex_env_tame fn i.id).1)⟩

/-- The callbacks of `ex_env_refuse` make no API call. -/
theorem ex_env_refuse_tame (fn id : Nat) : calls_tame ex_env_refuse fn id := by
  intro p w a ha
  simp only [ex_env_refuse] at ha
  split at ha <;> simp at ha

/-- Every callback of `ex_env_refuse` but the `before_cb` of item 3 returns 0. -/
theorem ex_env_refuse_zero (fn id : Nat) (h : ¬ (fn = 200 ∧ id = 3)) :
    returns_zero ex_env_refuse fn id := by
  intro p w
  simp only [ex_env_refuse, if_neg h]

/-- The list of `ex_rtpoll4`: a later item of equal priority stands first. -/
theorem ex_rtpoll4_items :
    ex_rtpoll4.items =
      [⟨4, false, 1, none, 1, some 100, some 200, some 300, 0⟩,
       ⟨2, false, 1, none, 0, some 100, some 200, some 300, 0⟩,
       ⟨3, false, 2, none, 2, some 100, some 200, some 300, 0⟩,
       ⟨1, false, 3, none, 1, some 100, some 200, some 300, 0⟩] := by
  decide

/-- The unwind when the `before_cb` at position 2 of four items refuses: the
`after_cb` of the items at positions 1 and 0 run, in this order. -/
theorem pa_rtpoll_run_before_refuses_witness :
    (∃ hk : 2 < ex_rtpoll4.items.length,
      ex_rtpoll4.running = false ∧ ex_rtpoll4.quit = false ∧
      (ex_rtpoll4.items.map (fun i => i.id)).Nodup ∧
      (∀ i ∈ ex_rtpoll4.items,
        i.dead = false ∧ i.before_cb.isSome = true ∧ i.after_cb.isSome = true) ∧
      (∀ i ∈ ex_rtpoll4.items.take (2 + 1), i.priority < ex_env_refuse.PA_RTPOLL_NEVER) ∧
      (∀ i ∈ ex_rtpoll4.items, ∀ fn, i.work_cb = some fn →
        calls_tame ex_env_refuse fn i.id ∧ returns_zero ex_env_refuse fn i.id) ∧
      (∀ i ∈ ex_rtpoll4.items.take 2, ∀ fn, i.before_cb = some fn →
        calls_tame ex_env_refuse fn i.id ∧ returns_zero ex_env_refuse fn i.id) ∧
      (∀ fn, ex_rtpoll4.items[2].before_cb = some fn →
        calls_tame ex_env_refuse fn ex_rtpoll4.items[2].id ∧
        returns_nonzero ex_env_refuse fn ex_rtpoll4.items[2].id) ∧
      (∀ i ∈ ex_rtpoll4.items.take 2, ∀ fn, i.after_cb = some fn →
        calls_tame ex_env_refuse fn i.id) ∧
      ∃ r p' w' ret trace, ret ≠ 0 ∧
        pa_rtpoll_run ex_env_refuse ex_rtpoll4 () true = some (r, p', w', trace) ∧
        trace = work_calls (loop_items ex_env_refuse.PA_RTPOLL_NEVER ex_rtpoll4.items) ++
          (ex_rtpoll4.items.take 2).map (fun i => Event.before i.id 0) ++
          [Event.before ex_rtpoll4.items[2].id ret] ++
          ((ex_rtpoll4.items.take 2).reverse).map (fun i => Event.after i.id) ∧
        (∀ e ∈ trace, e.is_poll = false) ∧
        (∀ j (hj : j < ex_rtpoll4.items.length), 2 ≤ j →
          Event.after ex_rtpoll4.items[j].id ∉ trace)) ∧
    (pa_rtpoll_run ex_env_refuse ex_rtpoll4 () true).map (fun r => r.2.2.2) =
      some [Event.work 4 0, Event.work 2 0, Event.work 3 0, Event.work 1 0,
        Event.before 4 0, Event.before 2 0, Event.before 3 1, Event.after 2, Event.after 4] :=
  have hk : 2 < ex_rtpoll4.items.length := by decide
  have hlive : ∀ i ∈ ex_rtpoll4.items,
      i.dead = false ∧ i.before_cb.isSome = true ∧ i.after_cb.isSome = true := by decide
  have hprio : ∀ i ∈ ex_rtpoll4.items.take (2 + 1),
      i.priority < ex_env_refuse.PA_RTPOLL_NEVER := by decide
  have hwork : ∀ i ∈ ex_rtpoll4.items, ∀ fn, i.work_cb = some fn →
      calls_tame ex_env_refuse fn i.id ∧ returns_zero ex_env_refuse fn i.id := by
    intro i hi fn hfn
    refine ⟨ex_env_refuse_tame fn i.id, ex_env_refuse_zero fn i.id ?_⟩
    rw [ex_rtpoll4_items] at hi
    simp only [List.mem_cons, List.mem_singleton, List.not_mem_nil, or_false] at hi
    rcases hi with rfl | rfl | rfl | rfl <;> simp at hfn <;> omega
  have hbefore : ∀ i ∈ ex_rtpoll4.items.take 2, ∀ fn, i.before_cb = some fn →
      calls_tame ex_env_refuse fn i.id ∧ returns_zero ex_env_refuse fn i.id := by
    intro i hi fn hfn
    refine ⟨ex_env_refuse_tame fn i.id, ex_env_refuse_zero fn i.id ?_⟩
    rw [ex_rtpoll4_items] at hi
    simp only [List.take, List.mem_cons, List.mem_singleton, List.not_mem_nil, or_false] at hi
    rcases hi with rfl | rfl <;> simp
  have hrefuse : ∀ fn, ex_rtpoll4.items[2].before_cb = some fn →
      calls_tame ex_env_refuse fn ex_rtpoll4.items[2].id ∧
      returns_nonzero ex_env_refuse fn ex_rtpoll4.items[2].id := by
    intro fn hfn
    refine ⟨ex_env_refuse_tame fn _, ?_⟩
    have h1 : ex_rtpoll4.items[2].before_cb = some 200 := by simp [ex_rtpoll4_items]
    have h2 : ex_rtpoll4.items[2].id = 3 := by simp [ex_rtpoll4_items]
    rw [h1] at hfn
    have h3 : fn = 200 := (Option.some.inj hfn).symm
    rw [h2, h3]
    intro p w
    simp [ex_env_refuse]
  have hafter : ∀ i ∈ ex_rtpoll4.items.take 2, ∀ fn, i.after_cb = some fn →
      calls_tame ex_env_refuse fn i.id :=
    fun i _ fn _ => ex_env_refuse_tame fn i.id
  ⟨⟨hk, rfl, rfl, by decide, hlive, hprio, hwork, hbefore, hrefuse, hafter,
    pa_rtpoll_run_before_refuses ex_env_refuse ex_rtpoll4 () true 2 hk rfl rfl (by decide)
      hlive hprio hwork hbefore hrefuse hafter⟩, by decide⟩

/-! # Runs under arbitrary callbacks -/

theorem same_cell_refl (i : pa_rtpoll_item) : same_cell i i :=
  ⟨rfl, rfl, rfl, rfl, rfl, rfl, id⟩

theorem same_cell_trans {a b c : pa_rtpoll_item} (h1 : same_cell a b) (h2 : same_cell b c) :
    same_cell a c := by
  unfold same_cell at h1 h2 ⊢
  refine ⟨h2.1.trans h1.1, h2.2.1.trans h1.2.1, h2.2.2.1.trans h1.2.2.1, ?_, ?_, ?_, ?_⟩
  · exact h2.2.2.2.1.trans h1.2.2.2.1
  · exact h2.2.2.2.2.1.trans h1.2.2.2.2.1
  · exact h2.2.2.2.2.2.1.trans h1.2.2.2.2.2.1
  · exact fun h => h2.2.2.2.2.2.2 (h1.2.2.2.2.2.2 h)

theorem same_cells_refl (L : List pa_rtpoll_item) : List.Forall₂ same_cell L L := by
  induction L with
  | nil => exact List.Forall₂.nil
  | cons i rest ih => exact List.Forall₂.cons (same_cell_refl i) ih

theorem same_cells_trans {L M N : List pa_rtpoll_item} (h1 : List.Forall₂ same_cell L M) :
    List.Forall₂ same_cell M N → List.Forall₂ same_cell L N := by
  induction h1 generalizing N with
  | nil => intro h2; cases h2; exact List.Forall₂.nil
  | cons hab _ ih =>
    intro h2
    cases h2 with
    | cons hbc hrest => exact List.Forall₂.cons (same_cell_trans hab hbc) (ih hrest)

/-- Marking the item at an address dead leaves every cell the same item. -/
theorem same_cells_mark (id : Nat) (L : List pa_rtpoll_item) :
    List.Forall₂ same_cell L
      (L.map (fun i => if i.id = id then { i with dead := true } else i)) := by
  induction L with
  | nil => exact List.Forall₂.nil
  | cons i rest ih =>
    refine List.Forall₂.cons ?_ ih
    by_cases h : i.id = id
    · simp only [if_pos h]; exact ⟨rfl, rfl, rfl, rfl, rfl, rfl, fun _ => rfl⟩
    · simp only [if_neg h]; exact same_cell_refl i

theorem same_hooks_cell {i i' : pa_rtpoll_item} (h : same_hooks i i') : same_cell i i' := by
  unfold same_hooks at h
  unfold same_cell
  refine ⟨h.1, h.2.2.1, h.2.2.2.2.2.2, h.2.2.2.1, h.2.2.2.2.1, h.2.2.2.2.2.1, ?_⟩
  intro hd
  rw [h.2.1]; exact hd

theorem same_hooks_cells {L M : List pa_rtpoll_item} (h : List.Forall₂ same_hooks L M) :
    List.Forall₂ same_cell L M := by
  induction h with
  | nil => exact List.Forall₂.nil
  | cons hab _ ih => exact List.Forall₂.cons (same_hooks_cell hab) ih

theorem same_cells_sum {L M : List pa_rtpoll_item} (h : List.Forall₂ same_cell L M) :
    (M.map (fun i => i.n_pollfd)).sum = (L.map (fun i => i.n_pollfd)).sum := by
  induction h with
  | nil => rfl
  | cons hab _ ih =>
    simp only [List.map_cons, List.sum_cons, ih, hab.2.2.1]

theorem same_cells_priorities {L M : List pa_rtpoll_item} (h : List.Forall₂ same_cell L M) :
    M.map (fun i => i.priority) = L.map (fun i => i.priority) := by
  induction h with
  | nil => rfl
  | cons hab _ ih => simp only [List.map_cons, ih, hab.2.1]

theorem same_cells_ids {L M : List pa_rtpoll_item} (h : List.Forall₂ same_cell L M) :
    M.map (fun i => i.id) = L.map (fun i => i.id) := by
  induction h with
  | nil => rfl
  | cons hab _ ih => simp only [List.map_cons, ih, hab.1]

theorem during_entry {σ : Type} (p : pa_rtpoll) (w : σ) :
    during (run_entry p w).p (run_entry p w).p :=
  ⟨same_cells_refl _, rfl, rfl, id⟩

/-- An API call made by a callback during a run keeps the cells and the
descriptor count. -/
theorem perform_during {σ : Type} (E : Env σ) (w : σ) (p0 p p' : pa_rtpoll) (a : Action)
    (hd : during p0 p) (h : perform E w p a = some p') : during p0 p' := by
  obtain ⟨h1, h2, h3, h4⟩ := hd
  cases a with
  | item_free id =>
    simp only [perform, pa_rtpoll_item_free, h3, if_true, Option.some.injEq] at h
    subst h
    exact ⟨same_cells_trans h1 (same_cells_mark id p.items), h2, rfl, fun _ _ => rfl⟩
  | quit =>
    simp only [perform, pa_rtpoll_quit, Option.some.injEq] at h
    subst h
    exact ⟨h1, h2, h3, h4⟩
  | set_timer_absolute usec =>
    simp only [perform, pa_rtpoll_set_timer_absolute, Option.some.injEq] at h
    subst h
    exact ⟨h1, h2, h3, h4⟩
  | set_timer_relative usec =>
    simp only [perform, pa_rtpoll_set_timer_relative] at h
    split at h
    · simp only [Option.some.injEq] at h
      subst h
      exact ⟨h1, h2, h3, h4⟩
    · exact absurd h (by simp)
  | set_timer_disabled =>
    simp only [perform, pa_rtpoll_set_timer_disabled, Option.some.injEq] at h
    subst h
    exact ⟨h1, h2, h3, h4⟩

theorem perform_all_during {σ : Type} (E : Env σ) (w : σ) (p0 : pa_rtpoll)
    (acts : List Action) :
    ∀ (p p' : pa_rtpoll), during p0 p → perform_all E w p acts = some p' → during p0 p' := by
  induction acts with
  | nil =>
    intro p p' hd h
    simp only [perform_all, Option.some.injEq] at h
    subst h; exact hd
  | cons a rest ih =>
    intro p p' hd h
    simp only [perform_all] at h
    cases h1 : perform E w p a with
    | none => rw [h1] at h; exact absurd h (by simp)
    | some p1 =>
      rw [h1] at h
      exact ih p1 p' (perform_during E w p0 p p1 a hd h1) h

theorem perform_safe {σ : Type} (E : Env σ) (w : σ) (p : pa_rtpoll) (a : Action)
    (h : a.asserts_hold = true) : ∃ p', perform E w p a = some p' := by
  cases a with
  | item_free id => exact ⟨_, rfl⟩
  | quit => exact ⟨_, rfl⟩
  | set_timer_absolute usec => exact ⟨_, rfl⟩
  | set_timer_relative usec =>
    have h' : usec ≤ 1000000 * 60 * 60 := by simpa [Action.asserts_hold] using h
    exact ⟨{ p with next_elapse := E.pa_rtclock_get w + usec, timer_enabled := true },
      by simp only [perform, pa_rtpoll_set_timer_relative, if_pos h']⟩
  | set_timer_disabled => exact ⟨_, rfl⟩

theorem perform_all_safe {σ : Type} (E : Env σ) (w : σ) (acts : List Action) :
    ∀ (p : pa_rtpoll), (∀ a ∈ acts, a.asserts_hold = true) →
      ∃ p', perform_all E w p acts = some p' := by
  induction acts with
  | nil => intro p _; exact ⟨p, rfl⟩
  | cons a rest ih =>
    intro p h
    obtain ⟨p1, h1⟩ := perform_safe E w p a (h a (by simp))
    obtain ⟨p2, h2⟩ := ih p1 (fun b hb => h b (by simp [hb]))
    exact ⟨p2, by simp only [perform_all, h1, h2]⟩

/-- A callback fails an assertion only by an API call of its own. -/
theorem invoke_none {σ : Type} (E : Env σ) (fn id : Nat) (s : RunState σ)
    (h : invoke E fn id s = none) : ¬ calls_safe E := by
  intro hs
  obtain ⟨p', h1⟩ := perform_all_safe E (E.callback fn id s.p s.w).2
    (E.callback fn id s.p s.w).1.2 s.p (hs fn id s.p s.w)
  simp only [invoke, h1] at h
  exact absurd h (by simp)

/-- A callback that returns leaves the cells, the descriptor count and the
trace as they are. -/
theorem invoke_some {σ : Type} (E : Env σ) (fn id : Nat) (s s' : RunState σ) (k : Int)
    (p0 : pa_rtpoll) (hd : during p0 s.p) (h : invoke E fn id s = some (k, s')) :
    during p0 s'.p ∧ s'.trace = s.trace ∧ k = (E.callback fn id s.p s.w).1.1 := by
  simp only [invoke] at h
  cases h1 : perform_all E (E.callback fn id s.p s.w).2 s.p (E.callback fn id s.p s.w).1.2 with
  | none => rw [h1] at h; exact absurd h (by simp)
  | some p1 =>
    rw [h1] at h
    simp only [Option.some.injEq, Prod.mk.injEq] at h
    obtain ⟨hk, hs⟩ := h
    subst hs
    exact ⟨perform_all_during E _ p0 _ s.p p1 hd h1, rfl, hk.symm⟩

theorem work_outcome_step {σ : Type} (E : Env σ) (p0 : pa_rtpoll) (t : List Event) (id : Nat)
    (o : Outcome σ) (h : work_outcome E p0 (t ++ [Event.work id 0]) o) :
    work_outcome E p0 t o := by
  cases o with
  | fail => exact h
  | proceed s =>
    obtain ⟨hd, ev, htr, hz⟩ := h
    refine ⟨hd, Event.work id 0 :: ev, by rw [htr]; simp, ?_⟩
    intro e he
    rcases List.mem_cons.1 he with rfl | he'
    · exact ⟨id, rfl⟩
    · exact hz e he'
  | finish r s =>
    obtain ⟨hd, ev, tail, htr, hz, hr⟩ := h
    refine ⟨hd, Event.work id 0 :: ev, tail, by rw [htr]; simp, ?_, hr⟩
    intro e he
    rcases List.mem_cons.1 he with rfl | he'
    · exact ⟨id, rfl⟩
    · exact hz e he'

/-- The first loop under arbitrary callbacks. -/
theorem work_loop_gen {σ : Type} (E : Env σ) (p0 : pa_rtpoll) :
    ∀ (n idx : Nat) (s : RunState σ), during p0 s.p →
      work_outcome E p0 s.trace (work_loop E n idx s) := by
  intro n
  induction n with
  | zero =>
    intro idx s hd
    exact ⟨hd, [], by simp, fun e he => absurd he (List.not_mem_nil e)⟩
  | succ n ih =>
    intro idx s hd
    have hstop : work_outcome E p0 s.trace (Outcome.proceed s) :=
      ⟨hd, [], by simp, fun e he => absurd he (List.not_mem_nil e)⟩
    simp only [work_loop]
    cases hget : s.p.items[idx]? with
    | none => exact hstop
    | some i =>
      simp only []
      by_cases hp : i.priority < E.PA_RTPOLL_NEVER
      · simp only [hp, not_true_eq_false, if_false]
        cases hdead : i.dead
        · simp only [Bool.false_eq_true, if_false]
          cases hw : i.work_cb with
          | none => exact ih (idx + 1) s hd
          | some fn =>
            simp only []
            cases hq : s.p.quit
            · simp only [Bool.false_eq_true, if_false]
              cases hi : invoke E fn i.id s with
              | none => exact invoke_none E fn i.id s hi
              | some ks =>
                obtain ⟨k, s1⟩ := ks
                obtain ⟨hd1, htr1, _⟩ := invoke_some E fn i.id s s1 k p0 hd hi
                simp only []
                by_cases hk : k = 0
                · subst hk
                  simp only [ne_eq, not_true_eq_false, if_false]
                  rw [htr1]
                  exact work_outcome_step E p0 s.trace i.id _
                    (ih (idx + 1) { p := s1.p, w := s1.w, trace := s.trace ++ [Event.work i.id 0] } hd1)
                · simp only [ne_eq, hk, not_false_eq_true, if_true]
                  refine ⟨hd1, [], [Event.work i.id k], by simp [htr1], ?_, Or.inr ⟨i.id, k, rfl, hk, rfl⟩⟩
                  exact fun e he => absurd he (List.not_mem_nil e)
            · simp only [if_true]
              exact ⟨hd, [], [], by simp, fun e he => absurd he (List.not_mem_nil e),
                Or.inl ⟨rfl, rfl⟩⟩
        · simp only [if_true]
          exact ih (idx + 1) s hd
      · simp only [hp, not_false_eq_true, if_true]
        exact hstop

theorem after_outcome_step {σ : Type} (E : Env σ) (p0 : pa_rtpoll) (t : List Event) (id : Nat)
    (o : Option (RunState σ)) (h : after_outcome E p0 (t ++ [Event.after id]) o) :
    after_outcome E p0 t o := by
  cases o with
  | none => exact h
  | some s =>
    obtain ⟨hd, ev, htr, hz⟩ := h
    refine ⟨hd, Event.after id :: ev, by rw [htr]; simp, ?_⟩
    intro e he
    rcases List.mem_cons.1 he with rfl | he'
    · exact ⟨id, rfl⟩
    · exact hz e he'

/-- The backward loop under arbitrary callbacks. -/
theorem unwind_gen {σ : Type} (E : Env σ) (p0 : pa_rtpoll) :
    ∀ (j : Nat) (s : RunState σ), during p0 s.p →
      after_outcome E p0 s.trace (unwind E j s) := by
  intro j
  induction j with
  | zero =>
    intro s hd
    exact ⟨hd, [], by simp, fun e he => absurd he (List.not_mem_nil e)⟩
  | succ j ih =>
    intro s hd
    simp only [unwind]
    cases hget : s.p.items[j]? with
    | none => exact ih s hd
    | some i =>
      simp only []
      cases hdead : i.dead
      · simp only [Bool.false_eq_true, if_false]
        cases ha : i.after_cb with
        | none => exact ih s hd
        | some fn =>
          simp only []
          cases hi : invoke E fn i.id s with
          | none => exact invoke_none E fn i.id s hi
          | some ks =>
            obtain ⟨k, s1⟩ := ks
            obtain ⟨hd1, htr1, _⟩ := invoke_some E fn i.id s s1 k p0 hd hi
            simp only []
            rw [htr1]
            exact after_outcome_step E p0 s.trace i.id _
              (ih { p := s1.p, w := s1.w, trace := s.trace ++ [Event.after i.id] } hd1)
      · simp only [if_true]
        exact ih s hd

/-- The third loop under arbitrary callbacks. -/
theorem after_loop_gen {σ : Type} (E : Env σ) (p0 : pa_rtpoll) :
    ∀ (n idx : Nat) (s : RunState σ), during p0 s.p →
      after_outcome E p0 s.trace (after_loop E n idx s) := by
  intro n
  induction n with
  | zero =>
    intro idx s hd
    exact ⟨hd, [], by simp, fun e he => absurd he (List.not_mem_nil e)⟩
  | succ n ih =>
    intro idx s hd
    have hstop : after_outcome E p0 s.trace (some s) :=
      ⟨hd, [], by simp, fun e he => absurd he (List.not_mem_nil e)⟩
    simp only [after_loop]
    cases hget : s.p.items[idx]? with
    | none => exact hstop
    | some i =>
      simp only []
      by_cases hp : i.priority < E.PA_RTPOLL_NEVER
      · simp only [hp, not_true_eq_false, if_false]
        cases hdead : i.dead
        · simp only [Bool.false_eq_true, if_false]
          cases ha : i.after_cb with
          | none => exact ih (idx + 1) s hd
          | some fn =>
            simp only []
            cases hi : invoke E fn i.id s with
            | none => exact invoke_none E fn i.id s hi
            | some ks =>
              obtain ⟨k, s1⟩ := ks
              obtain ⟨hd1, htr1, _⟩ := invoke_some E fn i.id s s1 k p0 hd hi
              simp only []
              rw [htr1]
              exact after_outcome_step E p0 s.trace i.id _
                (ih (idx + 1) { p := s1.p, w := s1.w, trace := s.trace ++ [Event.after i.id] } hd1)
        · simp only [if_true]
          exact ih (idx + 1) s hd
      · simp only [hp, not_false_eq_true, if_true]
        exact hstop

theorem before_outcome_step {σ : Type} (E : Env σ) (p0 : pa_rtpoll) (t : List Event) (id : Nat)
    (o : Outcome σ) (h : before_outcome E p0 (t ++ [Event.before id 0]) o) :
    before_outcome E p0 t o := by
  cases o with
  | fail => exact h
  | proceed s =>
    obtain ⟨hd, ev, htr, hz⟩ := h
    refine ⟨hd, Event.before id 0 :: ev, by rw [htr]; simp, ?_⟩
    intro e he
    rcases List.mem_cons.1 he with rfl | he'
    · exact ⟨id, rfl⟩
    · exact hz e he'
  | finish r s =>
    obtain ⟨hd, ev, mid, aev, htr, hz, ha, hr⟩ := h
    refine ⟨hd, Event.before id 0 :: ev, mid, aev, by rw [htr]; simp, ?_, ha, hr⟩
    intro e he
    rcases List.mem_cons.1 he with rfl | he'
    · exact ⟨id, rfl⟩
    · exact hz e he'

/-- The second loop under arbitrary callbacks. -/
theorem before_loop_gen {σ : Type} (E : Env σ) (p0 : pa_rtpoll) :
    ∀ (n idx : Nat) (s : RunState σ), during p0 s.p →
      before_outcome E p0 s.trace (before_loop E n idx s) := by
  intro n
  induction n with
  | zero =>
    intro idx s hd
    exact ⟨hd, [], by simp, fun e he => absurd he (List.not_mem_nil e)⟩
  | succ n ih =>
    intro idx s hd
    have hstop : before_outcome E p0 s.trace (Outcome.proceed s) :=
      ⟨hd, [], by simp, fun e he => absurd he (List.not_mem_nil e)⟩
    simp only [before_loop]
    cases hget : s.p.items[idx]? with
    | none => exact hstop
    | some i =>
      simp only []
      by_cases hp : i.priority < E.PA_RTPOLL_NEVER
      · simp only [hp, not_true_eq_false, if_false]
        cases hdead : i.dead
        · simp only [Bool.false_eq_true, if_false]
          cases hw : i.before_cb with
          | none => exact ih (idx + 1) s hd
          | some fn =>
            simp only []
            cases hq : s.p.quit
            · simp only [Bool.false_eq_true, if_false]
              cases hi : invoke E fn i.id s with
              | none => exact invoke_none E fn i.id s hi
              | some ks =>
                obtain ⟨k, s1⟩ := ks
                obtain ⟨hd1, htr1, _⟩ := invoke_some E fn i.id s s1 k p0 hd hi
                simp only []
                by_cases hk : k = 0
                · subst hk
                  simp only [ne_eq, not_true_eq_false, if_false]
                  rw [htr1]
                  exact before_outcome_step E p0 s.trace i.id _
                    (ih (idx + 1) { p := s1.p, w := s1.w, trace := s.trace ++ [Event.before i.id 0] } hd1)
                · simp only [ne_eq, hk, not_false_eq_true, if_true]
                  have hu := unwind_gen E p0 idx
                    { s1 with trace := s1.trace ++ [Event.before i.id k] } hd1
                  cases hun : unwind E idx { s1 with trace := s1.trace ++ [Event.before i.id k] } with
                  | none => rw [hun] at hu; exact hu
                  | some s3 =>
                    rw [hun] at hu
                    obtain ⟨hd3, aev, htr3, ha3⟩ := hu
                    refine ⟨hd3, [], [Event.before i.id k], aev, ?_,
                      fun e he => absurd he (List.not_mem_nil e), ha3,
                      Or.inr ⟨i.id, k, rfl, hk, rfl⟩⟩
                    rw [htr3, htr1]; simp
            · simp only [if_true]
              have hu := unwind_gen E p0 idx s hd
              cases hun : unwind E idx s with
              | none => rw [hun] at hu; exact hu
              | some s3 =>
                rw [hun] at hu
                obtain ⟨hd3, aev, htr3, ha3⟩ := hu
                refine ⟨hd3, [], [], aev, ?_,
                  fun e he => absurd he (List.not_mem_nil e), ha3, Or.inl ⟨rfl, rfl⟩⟩
                rw [htr3]; simp
        · simp only [if_true]
          exact ih (idx + 1) s hd
      · simp only [hp, not_false_eq_true, if_true]
        exact hstop

/-! ## The sweep at `finish` -/

theorem sweep_fold (L : List pa_rtpoll_item) :
    ∀ (K : List pa_rtpoll_item) (q : pa_rtpoll), q.items = K ++ L →
      (∀ i ∈ K, i.dead = false) →
      (L.foldl (fun q i => if i.dead then rtpoll_item_destroy q i else q) q).items =
          K ++ L.filter (fun i => !i.dead) ∧
      (L.foldl (fun q i => if i.dead then rtpoll_item_destroy q i else q) q).n_pollfd_used =
          q.n_pollfd_used - dead_fds L ∧
      (L.foldl (fun q i => if i.dead then rtpoll_item_destroy q i else q) q).quit = q.quit ∧
      (L.foldl (fun q i => if i.dead then rtpoll_item_destroy q i else q) q).running =
          q.running ∧
      (L.foldl (fun q i => if i.dead then rtpoll_item_destroy q i else q) q).scan_for_dead =
          q.scan_for_dead := by
  induction L with
  | nil =>
    intro K q hq _
    simp [hq, dead_fds]
  | cons i rest ih =>
    intro K q hq hK
    simp only [List.foldl_cons]
    cases hd : i.dead
    · simp only [Bool.false_eq_true, if_false]
      obtain ⟨h1, h2, h3⟩ := ih (K ++ [i]) q (by rw [hq]; simp) (by
        intro j hj
        rcases List.mem_append.1 hj with hj | hj
        · exact hK j hj
        · rw [List.mem_singleton.1 hj]; exact hd)
      refine ⟨?_, ?_, h3⟩
      · rw [h1]; simp [hd]
      · rw [h2]; simp [dead_fds, hd]
    · simp only [if_true]
      have hnot : i ∉ K := by
        intro hi
        have := hK i hi
        rw [hd] at this
        exact absurd this (by simp)
      have hitems : (rtpoll_item_destroy q i).items = K ++ rest := by
        show q.items.erase i = K ++ rest
        rw [hq, List.erase_append_right _ hnot, List.erase_cons_head]
      obtain ⟨h1, h2, h3⟩ := ih K (rtpoll_item_destroy q i) hitems hK
      refine ⟨?_, ?_, h3⟩
      · rw [h1]; simp [hd]
      · rw [h2]
        show q.n_pollfd_used - i.n_pollfd - dead_fds rest = q.n_pollfd_used - dead_fds (i :: rest)
        have : dead_fds (i :: rest) = i.n_pollfd + dead_fds rest := by
          simp [dead_fds, hd]
        rw [this, Nat.sub_sub]

/-- The sweep removes the dead items and takes their descriptors off the
count. -/
theorem sweep_dead_spec (p : pa_rtpoll) :
    (sweep_dead p).items = p.items.filter (fun i => !i.dead) ∧
    (sweep_dead p).n_pollfd_used = p.n_pollfd_used - dead_fds p.items ∧
    (sweep_dead p).quit = p.quit ∧ (sweep_dead p).running = p.running ∧
    (sweep_dead p).scan_for_dead = p.scan_for_dead := by
  have := sweep_fold p.items [] p (by simp) (by simp)
  simpa [sweep_dead] using this

theorem dead_fds_none (L : List pa_rtpoll_item) (h : ∀ i ∈ L, i.dead = false) :
    dead_fds L = 0 := by
  have : L.filter (fun i => i.dead) = [] := by
    rw [List.filter_eq_nil_iff]
    intro i hi
    simp [h i hi]
  simp [dead_fds, this]

/-- The label `finish`: the run hands back the world and the trace, the
rtpoll is no longer running, and the value is `r` if negative and else tells
whether quit is clear. -/
theorem run_finish_spec {σ : Type} (r : Int) (s : RunState σ) :
    (run_finish r s).2.2.1 = s.w ∧ (run_finish r s).2.2.2 = s.trace ∧
    (run_finish r s).2.1.quit = s.p.quit ∧ (run_finish r s).2.1.running = false ∧
    (run_finish r s).2.1.scan_for_dead = false ∧
    (run_finish r s).1 = (if r < 0 then r else if s.p.quit then 0 else 1) ∧
    (run_finish r s).2.1.items.Sublist s.p.items ∧
    (dead_scanned s.p →
      (run_finish r s).2.1.items = s.p.items.filter (fun i => !i.dead) ∧
      (run_finish r s).2.1.n_pollfd_used = s.p.n_pollfd_used - dead_fds s.p.items) := by
  cases hsc : s.p.scan_for_dead
  · have e : run_finish r s =
        (if r < 0 then r else if s.p.quit then 0 else 1, { s.p with running := false },
          s.w, s.trace) := by
      simp only [run_finish, hsc, Bool.false_eq_true, if_false]
    rw [e]
    refine ⟨rfl, rfl, rfl, rfl, hsc, rfl, List.Sublist.refl _, ?_⟩
    intro hds
    have hno : ∀ i ∈ s.p.items, i.dead = false := by
      intro i hi
      cases hd : i.dead
      · rfl
      · have := hds ⟨i, hi, hd⟩
        rw [hsc] at this
        exact absurd this (by simp)
    constructor
    · show s.p.items = s.p.items.filter (fun i => !i.dead)
      rw [List.filter_eq_self.2]
      intro i hi
      simp [hno i hi]
    · show s.p.n_pollfd_used = s.p.n_pollfd_used - dead_fds s.p.items
      rw [dead_fds_none _ hno]; rfl
  · obtain ⟨h1, h2, h3, h4, h5⟩ :=
      sweep_dead_spec { s.p with running := false, scan_for_dead := false }
    have e : run_finish r s =
        (if r < 0 then r
          else if (sweep_dead { s.p with running := false, scan_for_dead := false }).quit
            then 0 else 1,
          sweep_dead { s.p with running := false, scan_for_dead := false }, s.w, s.trace) := by
      simp only [run_finish, hsc, if_true]
    rw [e]
    refine ⟨rfl, rfl, h3, h4, h5, ?_, ?_, ?_⟩
    · show (if r < 0 then r
          else if (sweep_dead { s.p with running := false, scan_for_dead := false }).quit
            then 0 else 1) = _
      rw [h3]
    · show (sweep_dead { s.p with running := false, scan_for_dead := false }).items.Sublist _
      rw [h1]
      exact List.filter_sublist _
    · intro _
      exact ⟨h1, h2⟩

/-! ## The sleep and the whole run under arbitrary callbacks -/

/-- The rebuild fails its assertion only on a wrong descriptor count; when it
returns no item has changed but in its slice, and the flags and the timer are
as they were. -/
theorem rtpoll_rebuild_gen (p : pa_rtpoll) :
    match rtpoll_rebuild p with
    | none => p.n_pollfd_used ≠ (p.items.map (fun i => i.n_pollfd)).sum
    | some q => List.Forall₂ same_hooks p.items q.items ∧ q.rebuild_needed = false ∧
        q.n_pollfd_used = p.n_pollfd_used ∧ q.running = p.running ∧
        q.scan_for_dead = p.scan_for_dead ∧ q.quit = p.quit ∧
        q.timer_enabled = p.timer_enabled ∧ q.next_elapse = p.next_elapse := by
  have hsame := rebuild_items_same p.pollfd p.items p.pollfd2 0
  unfold rtpoll_rebuild
  by_cases h : p.n_pollfd_used > p.n_pollfd_alloc
  · simp only [h, if_true]
    by_cases hc : (rebuild_items p.pollfd p.items p.pollfd2 0).2.2 = p.n_pollfd_used
    · rw [if_pos hc]
      exact ⟨hsame.1, rfl, rfl, rfl, rfl, rfl, rfl, rfl⟩
    · rw [if_neg hc]
      intro hcount
      apply hc
      rw [hsame.2, hcount]; omega
  · simp only [h, if_false]
    by_cases hc : (rebuild_items p.pollfd p.items p.pollfd2 0).2.2 = p.n_pollfd_used
    · rw [if_pos hc]
      exact ⟨hsame.1, rfl, rfl, rfl, rfl, rfl, rfl, rfl⟩
    · rw [if_neg hc]
      intro hcount
      apply hc
      rw [hsame.2, hcount]; omega

/-- The pending rebuild of a run. -/
theorem rebuild_pending_gen (p : pa_rtpoll) :
    match (if p.rebuild_needed then rtpoll_rebuild p else some p) with
    | none => p.n_pollfd_used ≠ (p.items.map (fun i => i.n_pollfd)).sum
    | some q => List.Forall₂ same_hooks p.items q.items ∧ q.rebuild_needed = false ∧
        q.n_pollfd_used = p.n_pollfd_used ∧ q.running = p.running ∧
        q.scan_for_dead = p.scan_for_dead ∧ q.quit = p.quit ∧
        q.timer_enabled = p.timer_enabled ∧ q.next_elapse = p.next_elapse := by
  cases hr : p.rebuild_needed
  · rw [if_neg Bool.false_ne_true]
    exact ⟨same_hooks_refl _, hr, rfl, rfl, rfl, rfl, rfl, rfl⟩
  · rw [if_pos rfl]
    exact rtpoll_rebuild_gen p

theorem same_hooks_dead {L M : List pa_rtpoll_item} (h : List.Forall₂ same_hooks L M)
    (hd : ∃ i ∈ M, i.dead = true) : ∃ i ∈ L, i.dead = true := by
  obtain ⟨i', hi', hdead⟩ := hd
  obtain ⟨i, hi, hs⟩ := same_hooks_mem h i' hi'
  exact ⟨i, hi, by rw [← hs.2.1]; exact hdead⟩

/-- A rtpoll whose list differs from that of `q` at most in the slices, with
the same count and flags, is at the same moment of the run. -/
theorem during_of_same_hooks {p0 q q' : pa_rtpoll} (hd : during p0 q)
    (hi : List.Forall₂ same_hooks q.items q'.items)
    (hu : q'.n_pollfd_used = q.n_pollfd_used) (hr : q'.running = q.running)
    (hs : q'.scan_for_dead = q.scan_for_dead) : during p0 q' := by
  obtain ⟨h1, h2, h3, h4⟩ := hd
  refine ⟨same_cells_trans h1 (same_hooks_cells hi), hu.trans h2, hr.trans h3, ?_⟩
  intro h0 hdead
  rw [hs]
  exact h4 h0 (same_hooks_dead hi hdead)

/-- The sleep under arbitrary callbacks: it fails only on a wrong descriptor
count; else the system call is made once, on the array and with the timeout of
the rebuilt rtpoll `q`, and the value of `r` is its report. -/
theorem run_poll_gen {σ : Type} (E : Env σ) (wait_op : Bool) (s : RunState σ) (p0 : pa_rtpoll)
    (hd : during p0 s.p) :
    match run_poll E wait_op s with
    | none => s.p.n_pollfd_used ≠ (s.p.items.map (fun i => i.n_pollfd)).sum
    | some (r, s') =>
      ∃ q, (if s.p.rebuild_needed then rtpoll_rebuild s.p else some s.p) = some q ∧
        during p0 q ∧ during p0 s'.p ∧
        s'.trace = s.trace ++ [Event.poll q.n_pollfd_used (poll_timeout E wait_op q s.w)] ∧
        r = poll_value E (E.poll (sleep_array q) (poll_timeout E wait_op q s.w) s.w).1 := by
  have hpre := rebuild_pending_gen s.p
  unfold run_poll
  cases hq : (if s.p.rebuild_needed then rtpoll_rebuild s.p else some s.p) with
  | none => rw [hq] at hpre; exact hpre
  | some q =>
    rw [hq] at hpre
    obtain ⟨hsame, hrn, hu, hr, hs, _⟩ := hpre
    have hdq : during p0 q := during_of_same_hooks hd hsame hu hr hs
    simp only []
    by_cases hneg : (E.poll ((List.range q.n_pollfd_used).map q.pollfd)
        (poll_timeout E wait_op q s.w) s.w).1.r < 0
    · rw [if_pos hneg]
      obtain ⟨p', h1, a1, _, _, a4, a5, a6⟩ := reset_all_revents_ok q.items.length 0
        { q with
          pollfd := fun x =>
            if x < q.n_pollfd_used then
              { q.pollfd x with revents := (E.poll ((List.range q.n_pollfd_used).map q.pollfd)
                (poll_timeout E wait_op q s.w) s.w).1.revents x }
            else q.pollfd x
          timer_elapsed := decide ((E.poll ((List.range q.n_pollfd_used).map q.pollfd)
            (poll_timeout E wait_op q s.w) s.w).1.r = 0) } hrn
      rw [h1]
      refine ⟨q, rfl, hdq, ?_, rfl, ?_⟩
      · refine during_of_same_hooks hdq ?_ a6 a4 a5
        show List.Forall₂ same_hooks q.items p'.items
        rw [a1]; exact same_hooks_refl _
      · simp only [poll_value, sleep_array, if_pos hneg]
    · rw [if_neg hneg]
      refine ⟨q, rfl, hdq, ?_, rfl, ?_⟩
      · exact during_of_same_hooks hdq (same_hooks_refl _) rfl rfl rfl
      · simp only [poll_value, sleep_array, if_neg hneg]

/-- The whole run under arbitrary callbacks: an assertion fails only in a
callback or on a wrong descriptor count; a run that returns has one of the
three shapes. -/
theorem pa_rtpoll_run_gen {σ : Type} (E : Env σ) (p : pa_rtpoll) (w : σ) (wait_op : Bool)
    (hrun : p.running = false) :
    match pa_rtpoll_run E p w wait_op with
    | none => ¬ calls_safe E ∨ p.n_pollfd_used ≠ (p.items.map (fun i => i.n_pollfd)).sum
    | some out => run_shape E p w wait_op out := by
  have hw := work_loop_gen E (run_entry p w).p p.items.length 0 (run_entry p w)
    (during_entry p w)
  cases hwl : work_loop E p.items.length 0 (run_entry p w) with
  | fail =>
    rw [hwl] at hw
    have e : pa_rtpoll_run E p w wait_op = none := by
      simp only [run_entry] at hwl
      simp only [pa_rtpoll_run, hrun, Bool.false_eq_true, if_false, hwl]
    rw [e]
    exact Or.inl hw
  | finish r s =>
    rw [hwl] at hw
    obtain ⟨hd, ev, tail, htr, hz, hr⟩ := hw
    have hsl : sleep_state E p w = none := by
      simp only [sleep_state, hrun, Bool.false_eq_true, if_false, hwl]
    have e : pa_rtpoll_run E p w wait_op = some (run_finish r s) := by
      simp only [run_entry] at hwl
      simp only [pa_rtpoll_run, hrun, Bool.false_eq_true, if_false, hwl]
    rw [e]
    exact ⟨r, s, rfl, hd, Or.inl ⟨hsl, ev, tail, by rw [htr]; rfl, hz, hr⟩⟩
  | proceed s1 =>
    rw [hwl] at hw
    obtain ⟨hd1, wev, htr1, hz1⟩ := hw
    have htr1' : s1.trace = wev := by rw [htr1]; rfl
    have hb := before_loop_gen E (run_entry p w).p s1.p.items.length 0 s1 hd1
    cases hbl : before_loop E s1.p.items.length 0 s1 with
    | fail =>
      rw [hbl] at hb
      have e : pa_rtpoll_run E p w wait_op = none := by
        simp only [run_entry] at hwl
        simp only [pa_rtpoll_run, hrun, Bool.false_eq_true, if_false, hwl, hbl]
      rw [e]
      exact Or.inl hb
    | finish r s =>
      rw [hbl] at hb
      obtain ⟨hd, bev, mid, aev, htr, hz, ha, hr⟩ := hb
      have hsl : sleep_state E p w = none := by
        simp only [sleep_state, hrun, Bool.false_eq_true, if_false, hwl, hbl]
      have e : pa_rtpoll_run E p w wait_op = some (run_finish r s) := by
        simp only [run_entry] at hwl
        simp only [pa_rtpoll_run, hrun, Bool.false_eq_true, if_false, hwl, hbl]
      rw [e]
      exact ⟨r, s, rfl, hd, Or.inr (Or.inl ⟨hsl, wev, bev, mid, aev,
        by rw [htr, htr1'], hz1, hz, ha, hr⟩)⟩
    | proceed s2 =>
      rw [hbl] at hb
      obtain ⟨hd2, bev, htr2, hz2⟩ := hb
      have hp := run_poll_gen E wait_op s2 (run_entry p w).p hd2
      cases hrp : run_poll E wait_op s2 with
      | none =>
        rw [hrp] at hp
        have e : pa_rtpoll_run E p w wait_op = none := by
          simp only [run_entry] at hwl
          simp only [pa_rtpoll_run, hrun, Bool.false_eq_true, if_false, hwl, hbl, hrp]
        rw [e]
        refine Or.inr ?_
        intro hc
        apply hp
        rw [hd2.2.1, same_cells_sum hd2.1]
        exact hc
      | some rs =>
        obtain ⟨r, s3⟩ := rs
        rw [hrp] at hp
        obtain ⟨q, hq, hdq, hd3, htr3, hr3⟩ := hp
        have hsl : sleep_state E p w = some { s2 with p := q } := by
          simp only [sleep_state, hrun, Bool.false_eq_true, if_false, hwl, hbl, hq]
        have ha := after_loop_gen E (run_entry p w).p s3.p.items.length 0 s3 hd3
        cases hal : after_loop E s3.p.items.length 0 s3 with
        | none =>
          rw [hal] at ha
          have e : pa_rtpoll_run E p w wait_op = none := by
            simp only [run_entry] at hwl
            simp only [pa_rtpoll_run, hrun, Bool.false_eq_true, if_false, hwl, hbl, hrp, hal]
          rw [e]
          exact Or.inl ha
        | some s4 =>
          rw [hal] at ha
          obtain ⟨hd4, aev, htr4, ha4⟩ := ha
          have e : pa_rtpoll_run E p w wait_op = some (run_finish r s4) := by
            simp only [run_entry] at hwl
            simp only [pa_rtpoll_run, hrun, Bool.false_eq_true, if_false, hwl, hbl, hrp, hal]
          rw [e]
          refine ⟨r, s4, rfl, hd4, Or.inr (Or.inr ⟨{ s2 with p := q }, wev, bev, aev, hsl,
            hdq, ?_, ?_, hz1, hz2, ha4, hr3⟩)⟩
          · show s2.trace = wev ++ bev
            rw [htr2, htr1']
          · rw [htr4, htr3, htr2, htr1']

/-- A run that is entered with the rtpoll not running, a right descriptor
count and callbacks whose API calls pass their assertions returns. -/
theorem pa_rtpoll_run_total {σ : Type} (E : Env σ) (p : pa_rtpoll) (w : σ) (wait_op : Bool)
    (hrun : p.running = false) (hsafe : calls_safe E)
    (hcount : p.n_pollfd_used = (p.items.map (fun i => i.n_pollfd)).sum) :
    ∃ out, pa_rtpoll_run E p w wait_op = some out ∧ run_shape E p w wait_op out := by
  have h := pa_rtpoll_run_gen E p w wait_op hrun
  cases hr : pa_rtpoll_run E p w wait_op with
  | none =>
    rw [hr] at h
    rcases h with h | h
    · exact absurd hsafe h
    · exact absurd hcount h
  | some out =>
    rw [hr] at h
    exact ⟨out, rfl, h⟩

/-- A run that returns has one of the three shapes. -/
theorem pa_rtpoll_run_shape {σ : Type} (E : Env σ) (p : pa_rtpoll) (w : σ) (wait_op : Bool)
    (out : Int × pa_rtpoll × σ × List Event) (h : pa_rtpoll_run E p w wait_op = some out) :
    run_shape E p w wait_op out := by
  have hrun : p.running = false := by
    cases hr : p.running
    · rfl
    · simp [pa_rtpoll_run, hr] at h
  have := pa_rtpoll_run_gen E p w wait_op hrun
  rw [h] at this
  exact this

/-! ## The unwind after a refusing `before_cb` -/

theorem before_calls_not_after (L : List pa_rtpoll_item) (e : Event) (he : e ∈ before_calls L) :
    ∃ id ret, e = Event.before id ret := by
  simp only [before_calls, List.mem_filterMap, Option.map_eq_some'] at he
  obtain ⟨i, _, _, _, rfl⟩ := he
  exact ⟨_, _, rfl⟩

theorem mem_after_calls (L : List pa_rtpoll_item) (id : Nat) :
    Event.after id ∈ after_calls L ↔ ∃ i ∈ L, i.id = id ∧ i.after_cb.isSome = true := by
  simp only [after_calls, List.mem_filterMap, Option.map_eq_some']
  constructor
  · rintro ⟨i, hi, fn, hfn, he⟩
    injection he with he
    exact ⟨i, hi, he, by rw [hfn]; rfl⟩
  · rintro ⟨i, hi, rfl, hsome⟩
    obtain ⟨fn, hfn⟩ := Option.isSome_iff_exists.1 hsome
    exact ⟨i, hi, fn, hfn, rfl⟩

/-- C11, amended. When in a `pa_rtpoll_run` the `before_cb` of the item at
list position `k` is the first to return non-zero, poll is not called and the
`after_cb` hooks invoked by the unwind are those of every live item that stands
in front of position `k` and has an `after_cb`, in reverse list order, whether
or not the item has a `before_cb`; the `after_cb` of the item at position `k`
and of the later items is not invoked. -/
theorem pa_rtpoll_run_unwind_all_earlier {σ : Type} (E : Env σ) (p : pa_rtpoll) (w : σ)
    (wait_op : Bool) (k : Nat) (hk : k < p.items.length)
    (hrun : p.running = false) (hquit : p.quit = false)
    (hids : (p.items.map (fun i => i.id)).Nodup)
    (hklive : p.items[k].dead = false) (hkb : p.items[k].before_cb.isSome = true)
    (hprio : ∀ i ∈ p.items.take (k + 1), i.priority < E.PA_RTPOLL_NEVER)
    (hwork : ∀ i ∈ p.items, ∀ fn, i.work_cb = some fn →
      calls_tame E fn i.id ∧ returns_zero E fn i.id)
    (hbefore : ∀ i ∈ p.items.take k, ∀ fn, i.before_cb = some fn →
      calls_tame E fn i.id ∧ returns_zero E fn i.id)
    (hrefuse : ∀ fn, p.items[k].before_cb = some fn →
      calls_tame E fn p.items[k].id ∧ returns_nonzero E fn p.items[k].id)
    (hafter : ∀ i ∈ p.items.take k, ∀ fn, i.after_cb = some fn → calls_tame E fn i.id) :
    ∃ r p' w' ret trace, ret ≠ 0 ∧
      pa_rtpoll_run E p w wait_op = some (r, p', w', trace) ∧
      trace = work_calls (loop_items E.PA_RTPOLL_NEVER p.items) ++
        before_calls ((p.items.take k).filter (fun i => !i.dead)) ++
        [Event.before p.items[k].id ret] ++
        after_calls (((p.items.take k).filter (fun i => !i.dead)).reverse) ∧
      (∀ e ∈ trace, e.is_poll = false) ∧
      (∀ i ∈ p.items.take k, i.dead = false → i.after_cb.isSome = true →
        Event.after i.id ∈ trace) ∧
      (∀ j (hj : j < p.items.length), k ≤ j → Event.after p.items[j].id ∉ trace) := by
  obtain ⟨fnk, hfnk⟩ := Option.isSome_iff_exists.1 hkb
  obtain ⟨hkt, hknz⟩ := hrefuse fnk hfnk
  obtain ⟨s1, h1, c1, t1⟩ := work_loop_tame E p.items hwork p.items.length 0
    { p := { p with running := true, timer_elapsed := false }, w := w, trace := [] }
    rfl (by omega) hquit
  have hL1 : s1.p.items = p.items := c1.1
  obtain ⟨ret, s2, hret, h2, _, t2⟩ := before_loop_refuse E p.items k hk fnk hfnk
    hklive hprio hbefore hkt hknz hafter p.items.length 0 s1 hL1 (by omega)
    (by omega) (c1.2.1.trans hquit)
  have hlen1 : s1.p.items.length = p.items.length := by rw [hL1]
  have hres : pa_rtpoll_run E p w wait_op =
      some (run_finish (if ret < 0 then ret else 0) s2) := by
    simp only [pa_rtpoll_run, hrun, Bool.false_eq_true, if_false, h1, hlen1, h2]
  have e : run_finish (if ret < 0 then ret else 0) s2 =
      ((run_finish (if ret < 0 then ret else 0) s2).1,
       (run_finish (if ret < 0 then ret else 0) s2).2.1,
       (run_finish (if ret < 0 then ret else 0) s2).2.2.1, s2.trace) := rfl
  have htr : s2.trace = work_calls (loop_items E.PA_RTPOLL_NEVER p.items) ++
      before_calls ((p.items.take k).filter (fun i => !i.dead)) ++
      [Event.before p.items[k].id ret] ++
      after_calls (((p.items.take k).filter (fun i => !i.dead)).reverse) := by
    rw [t2, t1, List.drop_zero, List.drop_zero]
    simp
  have hsplit : ∀ e ∈ s2.trace, (∃ id r, e = Event.work id r) ∨ (∃ id r, e = Event.before id r) ∨
      e ∈ after_calls (((p.items.take k).filter (fun i => !i.dead)).reverse) := by
    intro e he
    rw [htr] at he
    simp only [List.mem_append, List.mem_singleton] at he
    rcases he with ((he | he) | he) | he
    · exact Or.inl (work_calls_not_after _ e he)
    · exact Or.inr (Or.inl (before_calls_not_after _ e he))
    · exact Or.inr (Or.inl ⟨_, _, he⟩)
    · exact Or.inr (Or.inr he)
  refine ⟨_, _, _, ret, s2.trace, hret, by rw [hres, e], htr, ?_, ?_, ?_⟩
  · intro e he
    rcases hsplit e he with ⟨_, _, rfl⟩ | ⟨_, _, rfl⟩ | h
    · rfl
    · rfl
    · simp only [after_calls, List.mem_filterMap, Option.map_eq_some'] at h
      obtain ⟨_, _, _, _, rfl⟩ := h
      rfl
  · intro i hi hd ha
    rw [htr]
    apply List.mem_append_right
    rw [mem_after_calls]
    exact ⟨i, by simp [hi, hd], rfl, ha⟩
  · intro j hj hkj he
    rcases hsplit _ he with ⟨_, _, h⟩ | ⟨_, _, h⟩ | h
    · exact Event.noConfusion h
    · exact Event.noConfusion h
    · rw [mem_after_calls] at h
      obtain ⟨i, hi, hid, _⟩ := h
      have hi' : i ∈ p.items.take k := by
        simp only [List.mem_reverse, List.mem_filter] at hi
        exact hi.1
      obtain ⟨m, hm, rfl⟩ := List.mem_take_iff_getElem.1 hi'
      have hm' : m < p.items.length := by omega
      have hm2 : m < (p.items.map (fun i => i.id)).length := by simp; omega
      have hj2 : j < (p.items.map (fun i => i.id)).length := by simp; omega
      have hmj : (p.items.map (fun i => i.id))[m] = (p.items.map (fun i => i.id))[j] := by
        simp [hid]
      have := (List.Nodup.getElem_inj_iff hids).1 hmj
      omega

/-! ## A `work_cb` that asks for an immediate restart -/

/-- C12. A `pa_rtpoll_run` entered with the rtpoll not running, a right
descriptor count and callbacks whose API calls pass their assertions returns;
and if in that run some `work_cb` returned a value `k > 0`, then that call is
the last entry of the trace and every entry before it is a `work_cb` that
returned 0, so that no further `work_cb`, no `before_cb`, no `after_cb` and no
poll is executed, and the run returns 1 when quit has not been requested (and 0
when it has). -/
theorem pa_rtpoll_run_work_restart {σ : Type} (E : Env σ) (p : pa_rtpoll) (w : σ)
    (wait_op : Bool) (hrun : p.running = false) (hsafe : calls_safe E)
    (hcount : p.n_pollfd_used = (p.items.map (fun i => i.n_pollfd)).sum) :
    ∃ r p' w' trace, pa_rtpoll_run E p w wait_op = some (r, p', w', trace) ∧
      ∀ id k, 0 < k → Event.work id k ∈ trace →
        (∃ ev, trace = ev ++ [Event.work id k] ∧ work_zero ev) ∧
        (∀ e ∈ trace, e.is_poll = false) ∧
        (p'.quit = false → r = 1) ∧ (p'.quit = true → r = 0) := by
  obtain ⟨out, hout, r0, s, hfin, _, hshape⟩ :=
    pa_rtpoll_run_total E p w wait_op hrun hsafe hcount
  obtain ⟨hw, htr, hq, _, _, hr, _⟩ := run_finish_spec r0 s
  refine ⟨out.1, out.2.1, out.2.2.1, out.2.2.2, hout, ?_⟩
  rw [hfin, htr, hq, hr]
  intro id k hk hmem
  rcases hshape with ⟨_, ev, tail, hs, hz, htail⟩ | ⟨_, wev, bev, mid, aev, hs, hz, hbz, ha, _⟩ |
    ⟨sl, wev, bev, aev, _, _, _, hs, hz, hbz, ha, _⟩
  · rw [hs] at hmem ⊢
    rcases List.mem_append.1 hmem with h | h
    · obtain ⟨_, he⟩ := hz _ h
      injection he with _ h0
      omega
    · rcases htail with ⟨ht, _⟩ | ⟨id', k', ht, hk', hr0⟩
      · rw [ht] at h; exact absurd h (List.not_mem_nil _)
      · rw [ht] at h ⊢
        have he := List.mem_singleton.1 h
        injection he with h1 h2
        subst h1; subst h2
        have hr0' : r0 = 0 := by rw [hr0, if_neg (by omega)]
        refine ⟨⟨ev, rfl, hz⟩, ?_, ?_, ?_⟩
        · intro e he
          rcases List.mem_append.1 he with h | h
          · obtain ⟨_, rfl⟩ := hz _ h; rfl
          · rw [List.mem_singleton.1 h]; rfl
        · intro hq0; rw [hr0', hq0]; rfl
        · intro hq1; rw [hr0', hq1]; rfl
  · rw [hs] at hmem
    exfalso
    simp only [List.mem_append] at hmem
    rcases hmem with ((h | h) | h) | h
    · obtain ⟨_, he⟩ := hz _ h
      injection he with _ h0
      omega
    · obtain ⟨_, he⟩ := hbz _ h
      exact Event.noConfusion he
    · rename_i hmid
      rcases hmid with ⟨ht, _⟩ | ⟨id', k', ht, _⟩
      · rw [ht] at h; exact absurd h (List.not_mem_nil _)
      · rw [ht] at h
        exact Event.noConfusion (List.mem_singleton.1 h)
    · obtain ⟨_, he⟩ := ha _ h
      exact Event.noConfusion he
  · rw [hs] at hmem
    exfalso
    simp only [List.mem_append, List.mem_singleton] at hmem
    rcases hmem with ((h | h) | h) | h
    · obtain ⟨_, he⟩ := hz _ h
      injection he with _ h0
      omega
    · obtain ⟨_, he⟩ := hbz _ h
      exact Event.noConfusion he
    · exact Event.noConfusion h
    · obtain ⟨_, he⟩ := ha _ h
      exact Event.noConfusion he

/-! ## The value of a run -/

/-- No callback of the trace returned a negative value. -/
theorem nonneg_of_zero_events (ev : List Event)
    (h : ∀ e ∈ ev, (∃ id, e = Event.work id 0) ∨ (∃ id, e = Event.before id 0) ∨
      (∃ id, e = Event.after id) ∨ ∃ n t, e = Event.poll n t) :
    ∀ id k, k ≠ 0 → Event.work id k ∉ ev ∧ Event.before id k ∉ ev := by
  intro id k hk
  constructor
  · intro hm
    rcases h _ hm with ⟨_, he⟩ | ⟨_, he⟩ | ⟨_, he⟩ | ⟨_, _, he⟩
    · injection he with _ h0; exact hk h0
    · exact Event.noConfusion he
    · exact Event.noConfusion he
    · exact Event.noConfusion he
  · intro hm
    rcases h _ hm with ⟨_, he⟩ | ⟨_, he⟩ | ⟨_, he⟩ | ⟨_, _, he⟩
    · exact Event.noConfusion he
    · injection he with _ h0; exact hk h0
    · exact Event.noConfusion he
    · exact Event.noConfusion he

/-- C13. A `pa_rtpoll_run` entered with the rtpoll not running, a right
descriptor count and callbacks whose API calls pass their assertions returns a
value `r` such that: `r = k` when a `work_cb` or `before_cb` returned `k < 0`;
`r` is the negative result of poll when poll failed with an errno other than
EAGAIN and EINTR; and otherwise (no callback returned a negative value, and
poll was not called or returned a count or was interrupted by EAGAIN or EINTR)
`r` is 1 if the quit flag is clear on return and 0 if it is set. Hence `r = 0`
exactly when quit was requested and nothing failed. Poll has a report exactly
in the runs whose trace has the poll. -/
theorem pa_rtpoll_run_return_value {σ : Type} (E : Env σ) (p : pa_rtpoll) (w : σ)
    (wait_op : Bool) (hrun : p.running = false) (hsafe : calls_safe E)
    (hcount : p.n_pollfd_used = (p.items.map (fun i => i.n_pollfd)).sum) :
    ∃ r p' w' trace, pa_rtpoll_run E p w wait_op = some (r, p', w', trace) ∧
      (∀ id k, k < 0 → (Event.work id k ∈ trace ∨ Event.before id k ∈ trace) → r = k) ∧
      (∀ res, poll_report E p w wait_op = some res → res.r < 0 →
        res.errno ≠ E.EAGAIN → res.errno ≠ E.EINTR → r = res.r) ∧
      ((∀ id k, k < 0 → Event.work id k ∉ trace ∧ Event.before id k ∉ trace) →
        (∀ res, poll_report E p w wait_op = some res →
          0 ≤ res.r ∨ res.errno = E.EAGAIN ∨ res.errno = E.EINTR) →
        r = if p'.quit then 0 else 1) ∧
      (r = 0 ↔ (p'.quit = true ∧
        (∀ id k, k < 0 → Event.work id k ∉ trace ∧ Event.before id k ∉ trace) ∧
        ∀ res, poll_report E p w wait_op = some res →
          0 ≤ res.r ∨ res.errno = E.EAGAIN ∨ res.errno = E.EINTR)) ∧
      ((poll_report E p w wait_op).isSome = true ↔ ∃ e ∈ trace, e.is_poll = true) := by
  obtain ⟨out, hout, r0, s, hfin, _, hshape⟩ :=
    pa_rtpoll_run_total E p w wait_op hrun hsafe hcount
  obtain ⟨_, htr, hq, _, _, hr, _⟩ := run_finish_spec r0 s
  refine ⟨out.1, out.2.1, out.2.2.1, out.2.2.2, hout, ?_⟩
  rw [hfin, htr, hq, hr]
  have hquit01 : ∀ b : Bool, (if b = true then (0 : Int) else 1) = 0 ↔ b = true := by
    intro b; cases b <;> simp
  -- either one callback returned a negative value, or none did
  have key : (∃ id k, k < 0 ∧ (Event.work id k ∈ s.trace ∨ Event.before id k ∈ s.trace) ∧
        r0 = k ∧ poll_report E p w wait_op = none ∧ (∀ e ∈ s.trace, e.is_poll = false) ∧
        ∀ id' k', k' < 0 → (Event.work id' k' ∈ s.trace ∨ Event.before id' k' ∈ s.trace) →
          k' = k) ∨
      ((∀ id k, k < 0 → Event.work id k ∉ s.trace ∧ Event.before id k ∉ s.trace) ∧
        ((poll_report E p w wait_op = none ∧ r0 = 0 ∧ ∀ e ∈ s.trace, e.is_poll = false) ∨
         (∃ res, poll_report E p w wait_op = some res ∧ r0 = poll_value E res ∧
            ∃ e ∈ s.trace, e.is_poll = true))) := by
    rcases hshape with ⟨hsl, ev, tail, hs, hz, htail⟩ |
      ⟨hsl, wev, bev, mid, aev, hs, hz, hbz, ha, hmid⟩ |
      ⟨sl, wev, bev, aev, hsl, _, _, hs, hz, hbz, ha, hr0⟩
    · have hrep : poll_report E p w wait_op = none := by simp [poll_report, hsl]
      rcases htail with ⟨ht, hr0⟩ | ⟨id', k', ht, hk', hr0⟩
      · right
        have hall : ∀ e ∈ s.trace, (∃ id, e = Event.work id 0) ∨
            (∃ id, e = Event.before id 0) ∨ (∃ id, e = Event.after id) ∨
            ∃ n t, e = Event.poll n t := by
          intro e he
          rw [hs, ht, List.append_nil] at he
          exact Or.inl (hz e he)
        refine ⟨fun id k hk => nonneg_of_zero_events _ hall id k (by omega),
          Or.inl ⟨hrep, hr0, ?_⟩⟩
        intro e he
        rw [hs, ht, List.append_nil] at he
        obtain ⟨_, rfl⟩ := hz e he; rfl
      · have hpoll : ∀ e ∈ s.trace, e.is_poll = false := by
          intro e he
          rw [hs, ht] at he
          rcases List.mem_append.1 he with h | h
          · obtain ⟨_, rfl⟩ := hz e h; rfl
          · rw [List.mem_singleton.1 h]; rfl
        have honly : ∀ id k, k ≠ 0 →
            (Event.work id k ∈ s.trace ∨ Event.before id k ∈ s.trace) → k = k' := by
          intro id k hk hm
          rw [hs, ht] at hm
          rcases hm with hm | hm
          · rcases List.mem_append.1 hm with h | h
            · obtain ⟨_, he⟩ := hz _ h
              injection he with _ h0; exact absurd h0 hk
            · have he := List.mem_singleton.1 h
              injection he
          · rcases List.mem_append.1 hm with h | h
            · obtain ⟨_, he⟩ := hz _ h
              exact Event.noConfusion he
            · exact Event.noConfusion (List.mem_singleton.1 h)
        by_cases hneg : k' < 0
        · left
          refine ⟨id', k', hneg, Or.inl ?_, by rw [hr0, if_pos hneg], hrep, hpoll,
            fun id k hk hm => honly id k (by omega) hm⟩
          rw [hs, ht]; simp
        · right
          refine ⟨?_, Or.inl ⟨hrep, by rw [hr0, if_neg hneg], hpoll⟩⟩
          intro id k hk
          constructor
          · intro hm
            have := honly id k (by omega) (Or.inl hm)
            omega
          · intro hm
            have := honly id k (by omega) (Or.inr hm)
            omega
    · have hrep : poll_report E p w wait_op = none := by simp [poll_report, hsl]
      have hzero : ∀ e ∈ wev ++ bev ++ aev, (∃ id, e = Event.work id 0) ∨
          (∃ id, e = Event.before id 0) ∨ (∃ id, e = Event.after id) ∨
          ∃ n t, e = Event.poll n t := by
        intro e he
        simp only [List.mem_append] at he
        rcases he with (h | h) | h
        · exact Or.inl (hz e h)
        · exact Or.inr (Or.inl (hbz e h))
        · exact Or.inr (Or.inr (Or.inl (ha e h)))
      rcases hmid with ⟨ht, hr0⟩ | ⟨id', k', ht, hk', hr0⟩
      · right
        have hall : ∀ e ∈ s.trace, (∃ id, e = Event.work id 0) ∨
            (∃ id, e = Event.before id 0) ∨ (∃ id, e = Event.after id) ∨
            ∃ n t, e = Event.poll n t := by
          intro e he
          rw [hs, ht, List.append_nil] at he
          exact hzero e he
        refine ⟨fun id k hk => nonneg_of_zero_events _ hall id k (by omega),
          Or.inl ⟨hrep, hr0, ?_⟩⟩
        intro e he
        rcases hall e he with ⟨_, rfl⟩ | ⟨_, rfl⟩ | ⟨_, rfl⟩ | ⟨n, t, rfl⟩
        · rfl
        · rfl
        · rfl
        · exfalso
          rw [hs, ht, List.append_nil] at he
          simp only [List.mem_append] at he
          rcases he with (h | h) | h
          · obtain ⟨_, e1⟩ := hz _ h; exact Event.noConfusion e1
          · obtain ⟨_, e1⟩ := hbz _ h; exact Event.noConfusion e1
          · obtain ⟨_, e1⟩ := ha _ h; exact Event.noConfusion e1
      · have hsplit : ∀ e ∈ s.trace, e ∈ wev ++ bev ++ aev ∨ e = Event.before id' k' := by
          intro e he
          rw [hs, ht] at he
          simp only [List.mem_append, List.mem_singleton] at he ⊢
          tauto
        have hpoll : ∀ e ∈ s.trace, e.is_poll = false := by
          intro e he
          rcases hsplit e he with h | rfl
          · simp only [List.mem_append] at h
            rcases h with (h | h) | h
            · obtain ⟨_, rfl⟩ := hz e h; rfl
            · obtain ⟨_, rfl⟩ := hbz e h; rfl
            · obtain ⟨_, rfl⟩ := ha e h; rfl
          · rfl
        have honly : ∀ id k, k ≠ 0 →
            (Event.work id k ∈ s.trace ∨ Event.before id k ∈ s.trace) → k = k' := by
          intro id k hk hm
          rcases hm with hm | hm
          · rcases hsplit _ hm with h | h
            · exact absurd h (nonneg_of_zero_events _ hzero id k hk).1
            · exact Event.noConfusion h
          · rcases hsplit _ hm with h | h
            · exact absurd h (nonneg_of_zero_events _ hzero id k hk).2
            · injection h
        by_cases hneg : k' < 0
        · left
          refine ⟨id', k', hneg, Or.inr ?_, by rw [hr0, if_pos hneg], hrep, hpoll,
            fun id k hk hm => honly id k (by omega) hm⟩
          rw [hs, ht]; simp
        · right
          refine ⟨?_, Or.inl ⟨hrep, by rw [hr0, if_neg hneg], hpoll⟩⟩
          intro id k hk
          constructor
          · intro hm
            have := honly id k (by omega) (Or.inl hm)
            omega
          · intro hm
            have := honly id k (by omega) (Or.inr hm)
            omega
    · right
      have hall : ∀ e ∈ s.trace, (∃ id, e = Event.work id 0) ∨
          (∃ id, e = Event.before id 0) ∨ (∃ id, e = Event.after id) ∨
          ∃ n t, e = Event.poll n t := by
        intro e he
        rw [hs] at he
        simp only [List.mem_append, List.mem_singleton] at he
        rcases he with ((h | h) | h) | h
        · exact Or.inl (hz e h)
        · exact Or.inr (Or.inl (hbz e h))
        · exact Or.inr (Or.inr (Or.inr ⟨_, _, h⟩))
        · exact Or.inr (Or.inr (Or.inl (ha e h)))
      refine ⟨fun id k hk => nonneg_of_zero_events _ hall id k (by omega),
        Or.inr ⟨_, by simp only [poll_report, hsl, Option.map_some'], hr0, ?_⟩⟩
      exact ⟨Event.poll sl.p.n_pollfd_used (poll_timeout E wait_op sl.p sl.w),
        by rw [hs]; simp, rfl⟩
  rcases key with ⟨id, k, hk, hm, hr0, hrep, hpoll, honly⟩ | ⟨hnone, hcase⟩
  · have hrk : (if r0 < 0 then r0 else if s.p.quit = true then 0 else 1) = k := by
      rw [hr0, if_pos hk]
    rw [hrk]
    refine ⟨?_, ?_, ?_, ?_, ?_⟩
    · intro id' k' hk' hm'
      exact (honly id' k' hk' hm').symm
    · intro res hres
      rw [hrep] at hres
      exact absurd hres (by simp)
    · intro hno
      rcases hm with hm | hm
      · exact absurd hm (hno id k hk).1
      · exact absurd hm (hno id k hk).2
    · constructor
      · intro h0; omega
      · intro ⟨_, hno, _⟩
        rcases hm with hm | hm
        · exact absurd hm (hno id k hk).1
        · exact absurd hm (hno id k hk).2
    · rw [hrep]
      constructor
      · intro h; exact absurd h (by simp)
      · intro ⟨e, he, hp⟩
        rw [hpoll e he] at hp
        exact absurd hp (by simp)
  · refine ⟨?_, ?_, ?_, ?_, ?_⟩
    · intro id k hk hm
      rcases hm with hm | hm
      · exact absurd hm (hnone id k hk).1
      · exact absurd hm (hnone id k hk).2
    · intro res hres hneg he1 he2
      rcases hcase with ⟨hrep, _, _⟩ | ⟨res', hrep, hr0, _⟩
      · rw [hrep] at hres; exact absurd hres (by simp)
      · rw [hrep] at hres
        have : res' = res := Option.some.inj hres
        subst this
        have hv : poll_value E res' = res'.r := by
          simp only [poll_value, if_pos hneg]
          rw [if_neg (by tauto)]
        rw [hr0, hv, if_pos hneg]
    · intro _ hok
      rcases hcase with ⟨_, hr0, _⟩ | ⟨res', hrep, hr0, _⟩
      · rw [hr0]; simp
      · have hv : ¬ poll_value E res' < 0 := by
          simp only [poll_value]
          rcases hok res' hrep with h | h | h
          · rw [if_neg (by omega)]; omega
          · split
            · rw [if_pos (Or.inl h)]; omega
            · omega
          · split
            · rw [if_pos (Or.inr h)]; omega
            · omega
        rw [hr0, if_neg hv]
    · rcases hcase with ⟨hrep, hr0, _⟩ | ⟨res', hrep, hr0, _⟩
      · rw [hr0]
        simp only [lt_self_iff_false, if_false]
        rw [hquit01]
        constructor
        · intro hq1
          refine ⟨hq1, hnone, ?_⟩
          intro res hres
          rw [hrep] at hres; exact absurd hres (by simp)
        · intro h; exact h.1
      · by_cases hv : poll_value E res' < 0
        · rw [hr0, if_pos hv]
          constructor
          · intro h0; omega
          · intro ⟨_, _, hok⟩
            exfalso
            simp only [poll_value] at hv
            rcases hok res' hrep with h | h | h
            · rw [if_neg (by omega)] at hv; omega
            · split at hv
              · rw [if_pos (Or.inl h)] at hv; omega
              · omega
            · split at hv
              · rw [if_pos (Or.inr h)] at hv; omega
              · omega
        · rw [hr0, if_neg hv, hquit01]
          constructor
          · intro hq1
            refine ⟨hq1, hnone, ?_⟩
            intro res hres
            rw [hrep] at hres
            have : res' = res := Option.some.inj hres
            subst this
            simp only [poll_value] at hv
            by_cases hneg : res'.r < 0
            · rw [if_pos hneg] at hv
              by_cases ht : res'.errno = E.EAGAIN ∨ res'.errno = E.EINTR
              · exact Or.inr ht
              · rw [if_neg ht] at hv; omega
            · left; omega
          · intro h; exact h.1
    · rcases hcase with ⟨hrep, _, hpoll⟩ | ⟨res', hrep, _, hex⟩
      · rw [hrep]
        constructor
        · intro h; exact absurd h (by simp)
        · intro ⟨e, he, hp⟩
          rw [hpoll e he] at hp
          exact absurd hp (by simp)
      · rw [hrep]
        exact ⟨fun _ => hex, fun _ => rfl⟩

/-! ## The timeout of the sleep -/

/-- The timeout that the run computes is the one of the specification in
the unit of the system call. -/
theorem poll_timeout_eq {σ : Type} (E : Env σ) (wait_op : Bool) (p : pa_rtpoll) (w : σ) :
    poll_timeout E wait_op p w =
      (timeout_spec wait_op p.quit p.timer_enabled p.next_elapse (E.pa_rtclock_get w)).map
        (timeout_unit E) := by
  have h0 : timeout_unit E 0 = 0 := by
    unfold timeout_unit; split <;> rfl
  unfold poll_timeout timeout_spec
  by_cases hle : p.next_elapse ≤ E.pa_rtclock_get w
  · have hlt : ¬ p.next_elapse > E.pa_rtclock_get w := by omega
    cases wait_op <;> cases hq : p.quit <;> cases ht : p.timer_enabled <;>
      simp [hle, hlt, h0, timeout_unit]
  · have hlt : p.next_elapse > E.pa_rtclock_get w := by omega
    cases wait_op <;> cases hq : p.quit <;> cases ht : p.timer_enabled <;>
      simp [hle, hlt, h0, timeout_unit]

theorem timeout_spec_none (wait_op quit timer_enabled : Bool) (next_elapse now : Nat) :
    timeout_spec wait_op quit timer_enabled next_elapse now = none ↔
      (wait_op = true ∧ quit = false ∧ timer_enabled = false) := by
  unfold timeout_spec
  by_cases hle : next_elapse ≤ now <;>
    cases wait_op <;> cases quit <;> cases timer_enabled <;> simp [hle]

/-- The entry of the system call is in the trace of a run only if the run
made the call, and then with the descriptor count and the timeout of the state
in which it made it. -/
theorem poll_event_of_shape {σ : Type} (E : Env σ) (p : pa_rtpoll) (w : σ) (wait_op : Bool)
    (out : Int × pa_rtpoll × σ × List Event) (h : run_shape E p w wait_op out)
    (n : Nat) (t : Option Nat) (hm : Event.poll n t ∈ out.2.2.2) :
    ∃ sl, sleep_state E p w = some sl ∧ during (run_entry p w).p sl.p ∧
      n = sl.p.n_pollfd_used ∧ t = poll_timeout E wait_op sl.p sl.w ∧
      ∃ aev, out.2.2.2 = sl.trace ++ [Event.poll n t] ++ aev ∧ after_only aev ∧
        ∀ e ∈ sl.trace, e.is_poll = false := by
  obtain ⟨r0, s, hfin, _, hshape⟩ := h
  obtain ⟨_, htr, _⟩ := run_finish_spec r0 s
  rw [hfin, htr] at hm ⊢
  rcases hshape with ⟨_, ev, tail, hs, hz, htail⟩ | ⟨_, wev, bev, mid, aev, hs, hz, hbz, ha, hmid⟩ |
    ⟨sl, wev, bev, aev, hsl, hd, hslt, hs, hz, hbz, ha, _⟩
  · exfalso
    rw [hs] at hm
    rcases List.mem_append.1 hm with h | h
    · obtain ⟨_, he⟩ := hz _ h
      exact Event.noConfusion he
    · rcases htail with ⟨ht, _⟩ | ⟨_, _, ht, _⟩
      · rw [ht] at h; exact absurd h (List.not_mem_nil _)
      · rw [ht] at h
        exact Event.noConfusion (List.mem_singleton.1 h)
  · exfalso
    rw [hs] at hm
    simp only [List.mem_append] at hm
    rcases hm with ((h | h) | h) | h
    · obtain ⟨_, he⟩ := hz _ h
      exact Event.noConfusion he
    · obtain ⟨_, he⟩ := hbz _ h
      exact Event.noConfusion he
    · rcases hmid with ⟨ht, _⟩ | ⟨_, _, ht, _⟩
      · rw [ht] at h; exact absurd h (List.not_mem_nil _)
      · rw [ht] at h
        exact Event.noConfusion (List.mem_singleton.1 h)
    · obtain ⟨_, he⟩ := ha _ h
      exact Event.noConfusion he
  · have heq : Event.poll n t =
        Event.poll sl.p.n_pollfd_used (poll_timeout E wait_op sl.p sl.w) := by
      rw [hs] at hm
      simp only [List.mem_append, List.mem_singleton] at hm
      rcases hm with ((h | h) | h) | h
      · obtain ⟨_, he⟩ := hz _ h
        exact Event.noConfusion he
      · obtain ⟨_, he⟩ := hbz _ h
        exact Event.noConfusion he
      · exact h
      · obtain ⟨_, he⟩ := ha _ h
        exact Event.noConfusion he
    injection heq with h1 h2
    refine ⟨sl, hsl, hd, h1, h2, aev, ?_, ha, ?_⟩
    · rw [hs, hslt, h1, h2]
    · intro e he
      rw [hslt] at he
      rcases List.mem_append.1 he with h | h
      · obtain ⟨_, rfl⟩ := hz _ h; rfl
      · obtain ⟨_, rfl⟩ := hbz _ h; rfl

/-- C14, amended. A `pa_rtpoll_run` entered with the rtpoll not running, a
right descriptor count and callbacks whose API calls pass their assertions
returns, and the timeout it hands to poll is a function of the wait flag and
of the quit flag, the timer and the clock at the moment of the call: zero if
wait is false, or quit is set, or the timer is enabled and
`next_elapse <= now`; `next_elapse - now` if wait is true, quit is clear, the
timer is enabled and `next_elapse > now`, as it is in a build with `ppoll` and
cut down to whole milliseconds in a build without; and no timeout exactly when
wait is true, quit is clear and the timer is disabled. -/
theorem pa_rtpoll_run_timeout {σ : Type} (E : Env σ) (p : pa_rtpoll) (w : σ)
    (wait_op : Bool) (hrun : p.running = false) (hsafe : calls_safe E)
    (hcount : p.n_pollfd_used = (p.items.map (fun i => i.n_pollfd)).sum) :
    ∃ r p' w' trace, pa_rtpoll_run E p w wait_op = some (r, p', w', trace) ∧
      ∀ n t, Event.poll n t ∈ trace →
        ∃ sl, sleep_state E p w = some sl ∧
          t = (timeout_spec wait_op sl.p.quit sl.p.timer_enabled sl.p.next_elapse
                (E.pa_rtclock_get sl.w)).map
              (fun usec => if E.HAVE_PPOLL then usec else usec / 1000 * 1000) ∧
          (t = none ↔
            (wait_op = true ∧ sl.p.quit = false ∧ sl.p.timer_enabled = false)) := by
  obtain ⟨out, hout, hshape⟩ := pa_rtpoll_run_total E p w wait_op hrun hsafe hcount
  refine ⟨out.1, out.2.1, out.2.2.1, out.2.2.2, hout, ?_⟩
  intro n t hm
  obtain ⟨sl, hsl, _, _, ht, _⟩ := poll_event_of_shape E p w wait_op out hshape n t hm
  refine ⟨sl, hsl, ?_, ?_⟩
  · rw [ht, poll_timeout_eq]; rfl
  · rw [ht, poll_timeout_eq, Option.map_eq_none', timeout_spec_none]

/-! ## What every sequence of calls keeps -/

theorem llist_insert_perm (i : pa_rtpoll_item) (L : List pa_rtpoll_item) :
    (llist_insert i L).Perm (i :: L) := by
  induction L with
  | nil => exact List.Perm.refl _
  | cons j rest ih =>
    simp only [llist_insert]
    by_cases h : i.priority ≤ j.priority
    · rw [if_pos h]
    · rw [if_neg h]
      exact (List.Perm.cons j ih).trans (List.Perm.swap i j rest)

/-- The insertion of `pa_rtpoll_item_new` keeps the list sorted. -/
theorem llist_insert_sorted (i : pa_rtpoll_item) (L : List pa_rtpoll_item)
    (h : L.Pairwise (fun a b => a.priority ≤ b.priority)) :
    (llist_insert i L).Pairwise (fun a b => a.priority ≤ b.priority) := by
  induction L with
  | nil => simp [llist_insert]
  | cons j rest ih =>
    rw [List.pairwise_cons] at h
    simp only [llist_insert]
    by_cases hp : i.priority ≤ j.priority
    · rw [if_pos hp]
      refine List.Pairwise.cons ?_ (List.Pairwise.cons h.1 h.2)
      intro x hx
      rcases List.mem_cons.1 hx with rfl | hx'
      · exact hp
      · exact le_trans hp (h.1 x hx')
    · rw [if_neg hp]
      refine List.Pairwise.cons ?_ (ih h.2)
      intro x hx
      rcases List.mem_cons.1 ((llist_insert_perm i rest).mem_iff.1 hx) with rfl | hx'
      · omega
      · exact h.1 x hx'

theorem sum_erase (L : List pa_rtpoll_item) (i : pa_rtpoll_item) (hi : i ∈ L) :
    ((L.erase i).map (fun j => j.n_pollfd)).sum + i.n_pollfd =
      (L.map (fun j => j.n_pollfd)).sum := by
  have h := ((List.perm_cons_erase hi).map (fun j => j.n_pollfd)).sum_eq
  simp only [List.map_cons, List.sum_cons] at h
  omega

theorem sum_filter_live (L : List pa_rtpoll_item) :
    (L.map (fun i => i.n_pollfd)).sum =
      ((L.filter (fun i => !i.dead)).map (fun i => i.n_pollfd)).sum + dead_fds L := by
  induction L with
  | nil => rfl
  | cons i rest ih =>
    cases hd : i.dead
    · simp only [List.map_cons, List.sum_cons, dead_fds, hd, List.filter_cons, Bool.not_false,
        if_true, Bool.false_eq_true, if_false] at ih ⊢
      omega
    · simp only [List.map_cons, List.sum_cons, dead_fds, hd, List.filter_cons, Bool.not_true,
        if_true, Bool.false_eq_true, if_false] at ih ⊢
      omega

theorem sorted_of_priorities {L M : List pa_rtpoll_item}
    (h : M.map (fun i => i.priority) = L.map (fun i => i.priority))
    (hs : L.Pairwise (fun a b => a.priority ≤ b.priority)) :
    M.Pairwise (fun a b => a.priority ≤ b.priority) := by
  have h1 : (L.map (fun i => i.priority)).Pairwise (fun a b => a ≤ b) :=
    List.pairwise_map.2 hs
  rw [← h] at h1
  exact List.pairwise_map.1 h1

/-- A change of the items that keeps the marks, the priorities and the
descriptor counts keeps the rtpoll as its owner sees it. -/
theorem between_calls_map (p : pa_rtpoll) (f : pa_rtpoll_item → pa_rtpoll_item)
    (hf : ∀ j, (f j).dead = j.dead ∧ (f j).priority = j.priority ∧
      (f j).n_pollfd = j.n_pollfd)
    (h : between_calls p) : between_calls { p with items := p.items.map f } := by
  obtain ⟨h1, h2, h3, h4⟩ := h
  refine ⟨h1, ?_, ?_, ?_⟩
  · intro i hi
    obtain ⟨j, hj, rfl⟩ := List.mem_map.1 hi
    rw [(hf j).1]; exact h2 j hj
  · apply sorted_of_priorities _ h3
    show (p.items.map f).map (fun i => i.priority) = _
    rw [List.map_map]
    apply List.map_congr_left
    intro j _
    exact (hf j).2.1
  · show p.n_pollfd_used = ((p.items.map f).map (fun i => i.n_pollfd)).sum
    rw [h4, List.map_map]
    congr 1
    apply List.map_congr_left
    intro j _
    exact ((hf j).2.2).symm

theorem between_calls_of_same_hooks {p q : pa_rtpoll} (h : between_calls p)
    (hi : List.Forall₂ same_hooks p.items q.items)
    (hu : q.n_pollfd_used = p.n_pollfd_used) (hr : q.running = p.running) :
    between_calls q := by
  obtain ⟨h1, h2, h3, h4⟩ := h
  refine ⟨hr.trans h1, ?_, ?_, ?_⟩
  · intro i hi'
    cases hd : i.dead
    · rfl
    · obtain ⟨j, hj, hdj⟩ := same_hooks_dead hi ⟨i, hi', hd⟩
      rw [h2 j hj] at hdj
      exact absurd hdj (by simp)
  · exact sorted_of_priorities (same_cells_priorities (same_hooks_cells hi)) h3
  · rw [hu, h4, same_cells_sum (same_hooks_cells hi)]

theorem between_calls_new : between_calls pa_rtpoll_new :=
  ⟨rfl, fun i hi => absurd hi (List.not_mem_nil i), List.Pairwise.nil, rfl⟩

theorem between_calls_item_new (p : pa_rtpoll) (id : Nat) (prio : Int) (n_fds : Nat)
    (h : between_calls p) : between_calls (pa_rtpoll_item_new p id prio n_fds) := by
  obtain ⟨h1, h2, h3, h4⟩ := h
  have hperm := llist_insert_perm
    { id := id, dead := false, priority := prio, pollfd := none, n_pollfd := n_fds,
      work_cb := none, before_cb := none, after_cb := none, userdata := 0 } p.items
  have hsum := (hperm.map (fun j => j.n_pollfd)).sum_eq
  simp only [List.map_cons, List.sum_cons] at hsum
  have hdead : ∀ i ∈ llist_insert
      { id := id, dead := false, priority := prio, pollfd := none, n_pollfd := n_fds,
        work_cb := none, before_cb := none, after_cb := none, userdata := 0 } p.items,
      i.dead = false := by
    intro i hi
    rcases List.mem_cons.1 (hperm.mem_iff.1 hi) with rfl | hi'
    · rfl
    · exact h2 i hi'
  have hsorted := llist_insert_sorted
    { id := id, dead := false, priority := prio, pollfd := none, n_pollfd := n_fds,
      work_cb := none, before_cb := none, after_cb := none, userdata := 0 } p.items h3
  unfold pa_rtpoll_item_new
  by_cases hn : n_fds > 0
  · simp only [hn, if_true]
    exact ⟨h1, hdead, hsorted, by
      show p.n_pollfd_used + n_fds = _
      rw [hsum, h4]; omega⟩
  · simp only [hn, if_false]
    exact ⟨h1, hdead, hsorted, by
      show p.n_pollfd_used = _
      rw [hsum, h4]; omega⟩

theorem between_calls_destroy (p : pa_rtpoll) (i : pa_rtpoll_item) (hi : i ∈ p.items)
    (h : between_calls p) : between_calls (rtpoll_item_destroy p i) := by
  obtain ⟨h1, h2, h3, h4⟩ := h
  refine ⟨h1, fun j hj => h2 j (List.mem_of_mem_erase hj),
    List.Pairwise.sublist (List.erase_sublist i p.items) h3, ?_⟩
  show p.n_pollfd_used - i.n_pollfd = ((p.items.erase i).map (fun j => j.n_pollfd)).sum
  have := sum_erase p.items i hi
  omega

theorem between_calls_item_free (p : pa_rtpoll) (id : Nat) (h : between_calls p) :
    between_calls (pa_rtpoll_item_free p id) := by
  unfold pa_rtpoll_item_free
  rw [if_neg (by rw [h.1]; simp)]
  cases hf : p.items.find? (fun i => decide (i.id = id)) with
  | none => exact h
  | some i => exact between_calls_destroy p i (List.mem_of_find?_eq_some hf) h

theorem between_calls_rebuild (p q : pa_rtpoll) (h : between_calls p)
    (hq : rtpoll_rebuild p = some q) : between_calls q := by
  have := rtpoll_rebuild_gen p
  rw [hq] at this
  exact between_calls_of_same_hooks h this.1 this.2.2.1 this.2.2.2.1

/-- Where `pa_rtpoll_item_get_pollfd` returns, the rtpoll is as it was or
rebuilt. -/
theorem get_pollfd_cases (p p' : pa_rtpoll) (id : Nat) (o : Option Nat) (n : Nat)
    (h : pa_rtpoll_item_get_pollfd p id = some (p', o, n)) :
    p' = p ∨ rtpoll_rebuild p = some p' := by
  unfold pa_rtpoll_item_get_pollfd at h
  cases hf : p.items.find? (fun i => decide (i.id = id)) with
  | none => rw [hf] at h; exact absurd h (by simp)
  | some i =>
    rw [hf] at h
    simp only [] at h
    by_cases hc : i.n_pollfd > 0 ∧ p.rebuild_needed = true
    · rw [if_pos hc] at h
      cases hr : rtpoll_rebuild p with
      | none => rw [hr] at h; exact absurd h (by simp)
      | some q =>
        rw [hr] at h
        simp only [] at h
        cases hf2 : q.items.find? (fun j => decide (j.id = id)) with
        | none => rw [hf2] at h; exact absurd h (by simp)
        | some j =>
          rw [hf2] at h
          simp only [Option.some.injEq, Prod.mk.injEq] at h
          exact Or.inr (by rw [h.1])
    · rw [if_neg hc] at h
      simp only [] at h
      cases hf2 : p.items.find? (fun j => decide (j.id = id)) with
      | none => rw [hf2] at h; exact absurd h (by simp)
      | some j =>
        rw [hf2] at h
        simp only [Option.some.injEq, Prod.mk.injEq] at h
        exact Or.inl h.1.symm

theorem between_calls_set_callback (NEVER : Int) (p q : pa_rtpoll) (id : Nat)
    (set : pa_rtpoll_item → pa_rtpoll_item)
    (hset : ∀ j, (set j).dead = j.dead ∧ (set j).priority = j.priority ∧
      (set j).n_pollfd = j.n_pollfd)
    (h : between_calls p) (hq : pa_rtpoll_item_set_callback NEVER p id set = some q) :
    between_calls q := by
  unfold pa_rtpoll_item_set_callback at hq
  cases hf : p.items.find? (fun i => decide (i.id = id)) with
  | none => rw [hf] at hq; exact absurd hq (by simp)
  | some i =>
    rw [hf] at hq
    simp only [] at hq
    split at hq
    · simp only [Option.some.injEq] at hq
      rw [← hq]
      refine between_calls_map p _ ?_ h
      intro j
      by_cases hj : j.id = id
      · rw [if_pos hj]; exact hset j
      · rw [if_neg hj]; exact ⟨rfl, rfl, rfl⟩
    · exact absurd hq (by simp)

/-- A run hands the rtpoll back as its owner sees it between two calls. -/
theorem between_calls_run {σ : Type} (E : Env σ) (p : pa_rtpoll) (w : σ) (wait_op : Bool)
    (out : Int × pa_rtpoll × σ × List Event) (h : between_calls p)
    (hout : pa_rtpoll_run E p w wait_op = some out) : between_calls out.2.1 := by
  obtain ⟨h1, h2, h3, h4⟩ := h
  obtain ⟨r0, s, hfin, hd, _⟩ := pa_rtpoll_run_shape E p w wait_op out hout
  obtain ⟨_, _, _, hrun, _, _, _, hsweep⟩ := run_finish_spec r0 s
  have hscan : dead_scanned (run_entry p w).p := by
    intro ⟨i, hi, hdead⟩
    have := h2 i hi
    rw [this] at hdead
    exact absurd hdead (by simp)
  obtain ⟨hitems, hused⟩ := hsweep (hd.2.2.2 hscan)
  have hsorted : s.p.items.Pairwise (fun a b => a.priority ≤ b.priority) :=
    sorted_of_priorities (same_cells_priorities hd.1) h3
  have hsum : (s.p.items.map (fun i => i.n_pollfd)).sum = p.n_pollfd_used := by
    rw [same_cells_sum hd.1]; exact h4.symm
  rw [hfin]
  refine ⟨hrun, ?_, ?_, ?_⟩
  · intro i hi
    rw [hitems] at hi
    have := (List.mem_filter.1 hi).2
    simpa using this
  · rw [hitems]
    exact List.Pairwise.sublist (List.filter_sublist _) hsorted
  · rw [hused, hitems, hd.2.1]
    show p.n_pollfd_used - dead_fds s.p.items = _
    have := sum_filter_live s.p.items
    omega

/-- Every call of the owner keeps the rtpoll as the owner sees it. -/
theorem between_calls_apply_op {σ : Type} (E : Env σ) (p : pa_rtpoll) (w : σ) (op : Op)
    (out : pa_rtpoll × σ) (h : between_calls p) (hout : apply_op E p w op = some out) :
    between_calls out.1 := by
  cases op with
  | item_new id prio n_fds =>
    simp only [apply_op] at hout
    split at hout
    · exact absurd hout (by simp)
    · simp only [Option.some.injEq] at hout
      rw [← hout]
      exact between_calls_item_new p id prio n_fds h
  | item_free id =>
    simp only [apply_op, Option.some.injEq] at hout
    rw [← hout]
    exact between_calls_item_free p id h
  | item_get_pollfd id =>
    simp only [apply_op, Option.map_eq_some'] at hout
    obtain ⟨⟨p', o, n⟩, hg, rfl⟩ := hout
    rcases get_pollfd_cases p p' id o n hg with rfl | hr
    · exact h
    · exact between_calls_rebuild p p' h hr
  | item_set_work_callback id cb =>
    simp only [apply_op, Option.map_eq_some'] at hout
    obtain ⟨q, hq, rfl⟩ := hout
    exact between_calls_set_callback E.PA_RTPOLL_NEVER p q id
      (fun j => { j with work_cb := cb }) (fun j => ⟨rfl, rfl, rfl⟩) h hq
  | item_set_before_callback id cb =>
    simp only [apply_op, Option.map_eq_some'] at hout
    obtain ⟨q, hq, rfl⟩ := hout
    exact between_calls_set_callback E.PA_RTPOLL_NEVER p q id
      (fun j => { j with before_cb := cb }) (fun j => ⟨rfl, rfl, rfl⟩) h hq
  | item_set_after_callback id cb =>
    simp only [apply_op, Option.map_eq_some'] at hout
    obtain ⟨q, hq, rfl⟩ := hout
    exact between_calls_set_callback E.PA_RTPOLL_NEVER p q id
      (fun j => { j with after_cb := cb }) (fun j => ⟨rfl, rfl, rfl⟩) h hq
  | item_set_userdata id userdata =>
    simp only [apply_op, Option.some.injEq] at hout
    rw [← hout]
    refine between_calls_map p _ ?_ h
    intro j
    by_cases hj : j.id = id
    · rw [if_pos hj]; exact ⟨rfl, rfl, rfl⟩
    · rw [if_neg hj]; exact ⟨rfl, rfl, rfl⟩
  | set_timer_absolute usec =>
    simp only [apply_op, Option.some.injEq] at hout
    rw [← hout]
    exact h
  | set_timer_relative usec =>
    simp only [apply_op, Option.map_eq_some'] at hout
    obtain ⟨q, hq, rfl⟩ := hout
    unfold pa_rtpoll_set_timer_relative at hq
    split at hq
    · simp only [Option.some.injEq] at hq
      rw [← hq]
      exact h
    · exact absurd hq (by simp)
  | set_timer_disabled =>
    simp only [apply_op, Option.some.injEq] at hout
    rw [← hout]
    exact h
  | quit =>
    simp only [apply_op, Option.some.injEq] at hout
    rw [← hout]
    exact h
  | run wait_op =>
    simp only [apply_op, Option.map_eq_some'] at hout
    obtain ⟨r, hr, rfl⟩ := hout
    exact between_calls_run E p w wait_op r h hr

/-- Every sequence of calls of the owner keeps the rtpoll as the owner sees
it. -/
theorem between_calls_run_ops {σ : Type} (E : Env σ) (ops : List Op) :
    ∀ (s out : pa_rtpoll × σ), between_calls s.1 → run_ops E ops s = some out →
      between_calls out.1 := by
  induction ops with
  | nil =>
    intro s out h hout
    simp only [run_ops, Option.some.injEq] at hout
    rw [← hout]; exact h
  | cons op rest ih =>
    intro s out h hout
    simp only [run_ops] at hout
    cases ha : apply_op E s.1 s.2 op with
    | none => rw [ha] at hout; exact absurd hout (by simp)
    | some s' =>
      rw [ha] at hout
      exact ih s' out (between_calls_apply_op E s.1 s.2 op s' h ha) hout

/-! ## The deferred delete, the order of the list, the descriptor count -/

/-- C15. (1) `pa_rtpoll_item_free` called while the rtpoll is running removes
nothing: the list has the same cells, `n_pollfd_used` is unchanged and the item
is only marked dead. (2) A `pa_rtpoll_run` that is entered without a dead item
returns with every item that was marked dead in it removed from the list and
`n_pollfd_used` reduced by the descriptors of those items, so that no item of
the list is dead. (3) Consequently, after every sequence of calls that starts
from `pa_rtpoll_new` the rtpoll is not running and no item of the list is dead.
(4) Called outside a run, `pa_rtpoll_item_free` removes the item
immediately. -/
theorem pa_rtpoll_item_free_deferred {σ : Type} (E : Env σ) :
    (∀ (p : pa_rtpoll) (id : Nat), p.running = true →
      (pa_rtpoll_item_free p id).items =
        p.items.map (fun i => if i.id = id then { i with dead := true } else i) ∧
      List.Forall₂ same_cell p.items (pa_rtpoll_item_free p id).items ∧
      (pa_rtpoll_item_free p id).n_pollfd_used = p.n_pollfd_used ∧
      (pa_rtpoll_item_free p id).running = true ∧
      ∀ i ∈ (pa_rtpoll_item_free p id).items, i.id = id → i.dead = true) ∧
    (∀ (p : pa_rtpoll) (w : σ) (wait_op : Bool), p.running = false → calls_safe E →
      p.n_pollfd_used = (p.items.map (fun i => i.n_pollfd)).sum →
      (∀ i ∈ p.items, i.dead = false) →
      ∃ r p' w' trace marked,
        pa_rtpoll_run E p w wait_op = some (r, p', w', trace) ∧
        List.Forall₂ same_cell p.items marked ∧
        p'.items = marked.filter (fun i => !i.dead) ∧
        dead_fds marked ≤ p.n_pollfd_used ∧
        p'.n_pollfd_used = p.n_pollfd_used - dead_fds marked ∧
        p'.running = false ∧ ∀ i ∈ p'.items, i.dead = false) ∧
    (∀ (ops : List Op) (w : σ) (p' : pa_rtpoll) (w' : σ),
      run_ops E ops (pa_rtpoll_new, w) = some (p', w') →
      p'.running = false ∧ ∀ i ∈ p'.items, i.dead = false) ∧
    (∀ (p : pa_rtpoll) (id : Nat) (i : pa_rtpoll_item), p.running = false →
      p.items.find? (fun j => j.id = id) = some i →
      (pa_rtpoll_item_free p id).items = p.items.erase i ∧
      (pa_rtpoll_item_free p id).n_pollfd_used = p.n_pollfd_used - i.n_pollfd ∧
      (pa_rtpoll_item_free p id).rebuild_needed = true) := by
  refine ⟨?_, ?_, ?_, ?_⟩
  · intro p id hrun
    have e : pa_rtpoll_item_free p id =
        { p with
          items := p.items.map (fun i => if i.id = id then { i with dead := true } else i)
          scan_for_dead := true } := by
      simp only [pa_rtpoll_item_free, hrun, if_true]
    rw [e]
    refine ⟨rfl, same_cells_mark id p.items, rfl, hrun, ?_⟩
    intro i hi hid
    obtain ⟨j, _, rfl⟩ := List.mem_map.1 hi
    by_cases hj : j.id = id
    · rw [if_pos hj]
    · rw [if_neg hj] at hid
      exact absurd hid hj
  · intro p w wait_op hrun hsafe hcount hlive
    obtain ⟨out, hout, r0, s, hfin, hd, _⟩ :=
      pa_rtpoll_run_total E p w wait_op hrun hsafe hcount
    obtain ⟨_, _, _, hr, _, _, _, hsweep⟩ := run_finish_spec r0 s
    have hscan : dead_scanned (run_entry p w).p := by
      intro ⟨i, hi, hdead⟩
      have := hlive i hi
      rw [this] at hdead
      exact absurd hdead (by simp)
    obtain ⟨hitems, hused⟩ := hsweep (hd.2.2.2 hscan)
    refine ⟨out.1, out.2.1, out.2.2.1, out.2.2.2, s.p.items, hout, hd.1, ?_, ?_, ?_, ?_, ?_⟩
    · rw [hfin]; exact hitems
    · have h1 := sum_filter_live s.p.items
      have h2 := same_cells_sum hd.1
      have h3 : (run_entry p w).p.items = p.items := rfl
      rw [h3] at h2
      omega
    · rw [hfin, hused, hd.2.1]; rfl
    · rw [hfin]; exact hr
    · intro i hi
      rw [hfin, hitems] at hi
      have := (List.mem_filter.1 hi).2
      simpa using this
  · intro ops w p' w' h
    have := between_calls_run_ops E ops (pa_rtpoll_new, w) (p', w') between_calls_new h
    exact ⟨this.1, this.2.1⟩
  · intro p id i hrun hf
    have e : pa_rtpoll_item_free p id = rtpoll_item_destroy p i := by
      simp only [pa_rtpoll_item_free, hrun, Bool.false_eq_true, if_false, hf]
    rw [e]
    exact ⟨rfl, rfl, rfl⟩

/-- C16. Starting from `pa_rtpoll_new`, after every sequence of calls of
`pa_rtpoll_item_new` (with arbitrary priorities), `pa_rtpoll_item_free`,
`pa_rtpoll_run` and the other functions of the API, the item list is sorted by
non-decreasing priority. -/
theorem pa_rtpoll_items_sorted {σ : Type} (E : Env σ) (ops : List Op) (w : σ)
    (p' : pa_rtpoll) (w' : σ) (h : run_ops E ops (pa_rtpoll_new, w) = some (p', w')) :
    p'.items.Pairwise (fun a b => a.priority ≤ b.priority) :=
  (between_calls_run_ops E ops (pa_rtpoll_new, w) (p', w') between_calls_new h).2.2.1

theorem get_pollfd_ok (p : pa_rtpoll) (i : pa_rtpoll_item) (hi : i ∈ p.items)
    (hcount : p.n_pollfd_used = (p.items.map (fun i => i.n_pollfd)).sum) :
    (pa_rtpoll_item_get_pollfd p i.id).isSome = true := by
  obtain ⟨j, hj⟩ := find_id_some p.items i hi
  unfold pa_rtpoll_item_get_pollfd
  rw [hj]
  simp only []
  by_cases hc : j.n_pollfd > 0 ∧ p.rebuild_needed = true
  · rw [if_pos hc]
    obtain ⟨q, hq, hsame, _⟩ := rtpoll_rebuild_ok p hcount
    rw [hq]
    simp only []
    have hids := same_cells_ids (same_hooks_cells hsame)
    have hmem : i.id ∈ q.items.map (fun i => i.id) := by
      rw [hids]; exact List.mem_map.2 ⟨i, hi, rfl⟩
    obtain ⟨i', hi', hid⟩ := List.mem_map.1 hmem
    obtain ⟨j', hj'⟩ := find_id_some q.items i' hi'
    rw [hid] at hj'
    rw [hj']
    rfl
  · rw [if_neg hc]
    simp only []
    rw [hj]
    rfl

/-- C17. Starting from `pa_rtpoll_new`, after every sequence of calls of
`pa_rtpoll_item_new`, `pa_rtpoll_item_free`, `pa_rtpoll_item_get_pollfd`,
`pa_rtpoll_run` and the other functions of the API, `n_pollfd_used` equals the
sum of `n_pollfd` over all items of the list; so the assertion at the end of
`rtpoll_rebuild` does not fail, neither in a call of `rtpoll_rebuild` on that
rtpoll, nor in `pa_rtpoll_item_get_pollfd` on an item of the list, nor in the
next `pa_rtpoll_run`. -/
theorem pa_rtpoll_count_invariant {σ : Type} (E : Env σ) (ops : List Op) (w : σ)
    (p' : pa_rtpoll) (w' : σ) (h : run_ops E ops (pa_rtpoll_new, w) = some (p', w')) :
    p'.n_pollfd_used = (p'.items.map (fun i => i.n_pollfd)).sum ∧
    (rtpoll_rebuild p').isSome = true ∧
    (∀ i ∈ p'.items, (pa_rtpoll_item_get_pollfd p' i.id).isSome = true) ∧
    (calls_safe E → ∀ wait_op, (pa_rtpoll_run E p' w' wait_op).isSome = true) := by
  obtain ⟨hrun, _, _, hcount⟩ :=
    between_calls_run_ops E ops (pa_rtpoll_new, w) (p', w') between_calls_new h
  refine ⟨hcount, ?_, ?_, ?_⟩
  · obtain ⟨q, hq, _⟩ := rtpoll_rebuild_ok p' hcount
    rw [hq]; rfl
  · intro i hi
    exact get_pollfd_ok p' i hi hcount
  · intro hsafe wait_op
    obtain ⟨out, hout, _⟩ := pa_rtpoll_run_total E p' w' wait_op hrun hsafe hcount
    rw [hout]; rfl

/-! ## The rebuild of the array -/

theorem slice_offset_zero (L : List pa_rtpoll_item) : slice_offset L 0 = 0 := by
  simp [slice_offset]

theorem slice_offset_succ (i : pa_rtpoll_item) (rest : List pa_rtpoll_item) (j : Nat) :
    slice_offset (i :: rest) (j + 1) = i.n_pollfd + slice_offset rest j := by
  simp [slice_offset]

/-- The scratch array below the running offset is left as it is. -/
theorem rebuild_items_below (old : Nat → pollfd) (L : List pa_rtpoll_item) :
    ∀ (buf : Nat → pollfd) (e x : Nat), x < e →
      (rebuild_items old L buf e).2.1 x = buf x := by
  induction L with
  | nil => intro buf e x _; rfl
  | cons i rest ih =>
    intro buf e x hx
    simp only [rebuild_items]
    rw [ih _ _ x (by omega)]
    by_cases hn : i.n_pollfd > 0
    · simp only [hn, if_true]
      cases i.pollfd with
      | none => simp only []; rw [if_neg (by omega)]
      | some off => simp only []; rw [if_neg (by omega)]
    · simp only [hn, if_false]

/-- The item at position `j` gets the slice at the offset of the items in
front of it, or `NULL` when it has no descriptor. -/
theorem rebuild_items_item (old : Nat → pollfd) (L : List pa_rtpoll_item) :
    ∀ (buf : Nat → pollfd) (e j : Nat) (i : pa_rtpoll_item), L[j]? = some i →
      (rebuild_items old L buf e).1[j]? =
        some { i with pollfd := if 0 < i.n_pollfd then some (e + slice_offset L j) else none } := by
  induction L with
  | nil => intro buf e j i h; simp at h
  | cons a rest ih =>
    intro buf e j i h
    simp only [rebuild_items]
    cases j with
    | zero =>
      simp only [List.getElem?_cons_zero, Option.some.injEq] at h
      subst h
      simp only [List.getElem?_cons_zero, slice_offset_zero, Nat.add_zero]
      by_cases hn : a.n_pollfd > 0
      · simp only [hn, if_true]
      · simp only [hn, if_false]
    | succ j =>
      simp only [List.getElem?_cons_succ] at h ⊢
      rw [ih _ _ j i h, slice_offset_succ, Nat.add_assoc]

/-- The entries of the slice of the item at position `j` are those it had,
or zero. -/
theorem rebuild_items_entry (old : Nat → pollfd) (L : List pa_rtpoll_item) :
    ∀ (buf : Nat → pollfd) (e j : Nat) (i : pa_rtpoll_item), L[j]? = some i →
      ∀ k, k < i.n_pollfd →
        (rebuild_items old L buf e).2.1 (e + slice_offset L j + k) = item_entry old i k := by
  induction L with
  | nil => intro buf e j i h; simp at h
  | cons a rest ih =>
    intro buf e j i h k hk
    simp only [rebuild_items]
    cases j with
    | zero =>
      simp only [List.getElem?_cons_zero, Option.some.injEq] at h
      subst h
      rw [slice_offset_zero, Nat.add_zero, rebuild_items_below old rest _ _ _ (by omega)]
      have hn : a.n_pollfd > 0 := by omega
      simp only [hn, if_true, item_entry]
      cases a.pollfd with
      | none => simp only []; rw [if_pos (by omega)]
      | some off =>
        simp only []
        rw [if_pos (by omega)]
        congr 1
        omega
    | succ j =>
      simp only [List.getElem?_cons_succ] at h
      rw [slice_offset_succ, ← Nat.add_assoc]
      exact ih _ _ j i h k hk

/-- The scratch array from the running offset on is the concatenation of
the slices of the items in list order. -/
theorem rebuild_items_concat (old : Nat → pollfd) (L : List pa_rtpoll_item) :
    ∀ (buf : Nat → pollfd) (e : Nat),
      (List.range' e (L.map (fun i => i.n_pollfd)).sum).map (rebuild_items old L buf e).2.1 =
        L.flatMap (item_slice old) := by
  induction L with
  | nil => intro buf e; rfl
  | cons a rest ih =>
    intro buf e
    have hsplit : List.range' e ((a :: rest).map (fun i => i.n_pollfd)).sum =
        List.range' e a.n_pollfd ++
          List.range' (e + a.n_pollfd) (rest.map (fun i => i.n_pollfd)).sum := by
      simp only [List.map_cons, List.sum_cons]
      rw [Nat.add_comm a.n_pollfd, List.range'_append_1]
    rw [hsplit, List.map_append, List.flatMap_cons]
    congr 1
    · rw [List.range'_eq_map_range, List.map_map, item_slice]
      apply List.map_congr_left
      intro k hk
      have hk' : k < a.n_pollfd := List.mem_range.1 hk
      have := rebuild_items_entry old (a :: rest) buf e 0 a (by simp) k hk'
      rw [slice_offset_zero, Nat.add_zero] at this
      exact this
    · have : (rebuild_items old (a :: rest) buf e).2.1 =
          (rebuild_items old rest
            (if a.n_pollfd > 0 then
              match a.pollfd with
              | some off => fun x =>
                if e ≤ x ∧ x < e + a.n_pollfd then old (off + (x - e)) else buf x
              | none => fun x => if e ≤ x ∧ x < e + a.n_pollfd then ⟨0, 0, 0⟩ else buf x
            else buf) (e + a.n_pollfd)).2.1 := rfl
      rw [this]
      exact ih _ _

/-- The rebuild on a right descriptor count: the flag, the capacity, the
array as the concatenation of the slices, and the slice of every item. -/
theorem rtpoll_rebuild_spec (p : pa_rtpoll)
    (hcount : p.n_pollfd_used = (p.items.map (fun i => i.n_pollfd)).sum) :
    ∃ q, rtpoll_rebuild p = some q ∧ q.rebuild_needed = false ∧
      q.n_pollfd_alloc ≥ q.n_pollfd_used ∧ q.n_pollfd_used = p.n_pollfd_used ∧
      sleep_array q = p.items.flatMap (item_slice p.pollfd) ∧
      q.items.length = p.items.length ∧
      ∀ j i, p.items[j]? = some i →
        q.items[j]? = some { i with
          pollfd := if 0 < i.n_pollfd then some (slice_offset p.items j) else none } ∧
        slice_offset p.items j + i.n_pollfd ≤ q.n_pollfd_used ∧
        ∀ k, k < i.n_pollfd →
          q.pollfd (slice_offset p.items j + k) = item_entry p.pollfd i k := by
  have hsame := rebuild_items_same p.pollfd p.items p.pollfd2 0
  have hassert : (rebuild_items p.pollfd p.items p.pollfd2 0).2.2 = p.n_pollfd_used := by
    rw [hsame.2, hcount]; omega
  have hbound : ∀ j i, p.items[j]? = some i →
      slice_offset p.items j + i.n_pollfd ≤ p.n_pollfd_used := by
    intro j i hj
    have hlt : j < p.items.length := (List.getElem?_eq_some_iff.1 hj).1
    have hi : p.items[j] = i := (List.getElem?_eq_some_iff.1 hj).2
    have h1 : ((p.items.take (j + 1)).map (fun i => i.n_pollfd)).sum =
        slice_offset p.items j + i.n_pollfd := by
      rw [List.take_succ, hj]
      simp [slice_offset]
    have h2 : ((p.items.take (j + 1)).map (fun i => i.n_pollfd)).sum ≤
        (p.items.map (fun i => i.n_pollfd)).sum := by
      conv_rhs => rw [← List.take_append_drop (j + 1) p.items]
      rw [List.map_append, List.sum_append]
      omega
    rw [hcount]; omega
  have hitems : ∀ j i, p.items[j]? = some i →
      (rebuild_items p.pollfd p.items p.pollfd2 0).1[j]? = some { i with
          pollfd := if 0 < i.n_pollfd then some (slice_offset p.items j) else none } ∧
      ∀ k, k < i.n_pollfd →
        (rebuild_items p.pollfd p.items p.pollfd2 0).2.1 (slice_offset p.items j + k) =
          item_entry p.pollfd i k := by
    intro j i hj
    constructor
    · have := rebuild_items_item p.pollfd p.items p.pollfd2 0 j i hj
      rw [Nat.zero_add] at this
      exact this
    · intro k hk
      have := rebuild_items_entry p.pollfd p.items p.pollfd2 0 j i hj k hk
      rw [Nat.zero_add] at this
      exact this
  have hconcat : (List.range p.n_pollfd_used).map
      (rebuild_items p.pollfd p.items p.pollfd2 0).2.1 =
        p.items.flatMap (item_slice p.pollfd) := by
    rw [hcount, List.range_eq_range']
    exact rebuild_items_concat p.pollfd p.items p.pollfd2 0
  have hlen : (rebuild_items p.pollfd p.items p.pollfd2 0).1.length = p.items.length :=
    (List.Forall₂.length_eq hsame.1).symm
  unfold rtpoll_rebuild
  by_cases h : p.n_pollfd_used > p.n_pollfd_alloc
  · simp only [h, if_true]
    rw [if_pos hassert]
    refine ⟨_, rfl, rfl, ?_, rfl, hconcat, hlen, ?_⟩
    · show p.n_pollfd_used * 2 ≥ p.n_pollfd_used
      omega
    · intro j i hj
      exact ⟨(hitems j i hj).1, hbound j i hj, (hitems j i hj).2⟩
  · simp only [h, if_false]
    rw [if_pos hassert]
    refine ⟨_, rfl, rfl, ?_, rfl, hconcat, hlen, ?_⟩
    · show p.n_pollfd_alloc ≥ p.n_pollfd_used
      omega
    · intro j i hj
      exact ⟨(hitems j i hj).1, hbound j i hj, (hitems j i hj).2⟩

/-- C18. When the descriptor count is right, `rtpoll_rebuild` returns, and
afterwards `rebuild_needed` is false, `n_pollfd_alloc >= n_pollfd_used`, and
the active array with its `n_pollfd_used` entries is the concatenation, in list
order, of every item's slice: the item at list position `j` is the item it
was, with the slice of `n_pollfd` entries that starts at the offset
`slice_offset` (the sum of `n_pollfd` of the items in front of it), whose
contents are the item's entries before the rebuild (all-zero for an item that
had no slice yet), and with a null slice if `n_pollfd = 0`. -/
theorem rtpoll_rebuild_layout (p : pa_rtpoll)
    (hcount : p.n_pollfd_used = (p.items.map (fun i => i.n_pollfd)).sum) :
    ∃ q, rtpoll_rebuild p = some q ∧ q.rebuild_needed = false ∧
      q.n_pollfd_alloc ≥ q.n_pollfd_used ∧ q.n_pollfd_used = p.n_pollfd_used ∧
      sleep_array q = p.items.flatMap (item_slice p.pollfd) ∧
      q.items.length = p.items.length ∧
      ∀ j i, p.items[j]? = some i →
        q.items[j]? = some { i with
          pollfd := if 0 < i.n_pollfd then some (slice_offset p.items j) else none } ∧
        slice_offset p.items j + i.n_pollfd ≤ q.n_pollfd_used ∧
        ∀ k, k < i.n_pollfd →
          q.pollfd (slice_offset p.items j + k) = item_entry p.pollfd i k :=
  rtpoll_rebuild_spec p hcount

/-! ## What the callbacks leave in place up to the sleep -/

/-- The first loop keeps what every call of a `work_cb` keeps. -/
theorem work_loop_inv {σ : Type} (E : Env σ) (I : RunState σ → Prop)
    (hstep : ∀ (s : RunState σ) (i : pa_rtpoll_item) (fn : Nat) (k : Int) (s1 : RunState σ),
      i ∈ s.p.items → i.work_cb = some fn → I s → invoke E fn i.id s = some (k, s1) →
      I { s1 with trace := s1.trace ++ [Event.work i.id k] }) :
    ∀ (n idx : Nat) (s s' : RunState σ), I s → work_loop E n idx s = Outcome.proceed s' →
      I s' := by
  intro n
  induction n with
  | zero =>
    intro idx s s' hI h
    simp only [work_loop, Outcome.proceed.injEq] at h
    rw [← h]; exact hI
  | succ n ih =>
    intro idx s s' hI h
    simp only [work_loop] at h
    cases hget : s.p.items[idx]? with
    | none =>
      rw [hget] at h
      simp only [Outcome.proceed.injEq] at h
      rw [← h]; exact hI
    | some i =>
      rw [hget] at h
      simp only [] at h
      by_cases hp : i.priority < E.PA_RTPOLL_NEVER
      · simp only [hp, not_true_eq_false, if_false] at h
        cases hdead : i.dead
        · simp only [hdead, Bool.false_eq_true, if_false] at h
          cases hw : i.work_cb with
          | none =>
            rw [hw] at h
            exact ih (idx + 1) s s' hI h
          | some fn =>
            rw [hw] at h
            simp only [] at h
            cases hq : s.p.quit
            · simp only [hq, Bool.false_eq_true, if_false] at h
              cases hi : invoke E fn i.id s with
              | none => rw [hi] at h; exact Outcome.noConfusion h
              | some ks =>
                obtain ⟨k, s1⟩ := ks
                rw [hi] at h
                simp only [] at h
                by_cases hk : k = 0
                · simp only [hk, ne_eq, not_true_eq_false, if_false] at h
                  have := hstep s i fn k s1 (List.getElem?_mem hget) hw hI hi
                  rw [hk] at this
                  exact ih (idx + 1) _ s' this h
                · simp only [ne_eq, hk, not_false_eq_true, if_true] at h
                  exact Outcome.noConfusion h
            · simp only [hq, if_true] at h
              exact Outcome.noConfusion h
        · simp only [hdead, if_true] at h
          exact ih (idx + 1) s s' hI h
      · simp only [hp, not_false_eq_true, if_true, Outcome.proceed.injEq] at h
        rw [← h]; exact hI

/-- The second loop, when it runs to its end, keeps what every call of a
`before_cb` keeps. -/
theorem before_loop_inv {σ : Type} (E : Env σ) (I : RunState σ → Prop)
    (hstep : ∀ (s : RunState σ) (i : pa_rtpoll_item) (fn : Nat) (k : Int) (s1 : RunState σ),
      i ∈ s.p.items → i.before_cb = some fn → I s → invoke E fn i.id s = some (k, s1) →
      I { s1 with trace := s1.trace ++ [Event.before i.id k] }) :
    ∀ (n idx : Nat) (s s' : RunState σ), I s → before_loop E n idx s = Outcome.proceed s' →
      I s' := by
  intro n
  induction n with
  | zero =>
    intro idx s s' hI h
    simp only [before_loop, Outcome.proceed.injEq] at h
    rw [← h]; exact hI
  | succ n ih =>
    intro idx s s' hI h
    simp only [before_loop] at h
    cases hget : s.p.items[idx]? with
    | none =>
      rw [hget] at h
      simp only [Outcome.proceed.injEq] at h
      rw [← h]; exact hI
    | some i =>
      rw [hget] at h
      simp only [] at h
      by_cases hp : i.priority < E.PA_RTPOLL_NEVER
      · simp only [hp, not_true_eq_false, if_false] at h
        cases hdead : i.dead
        · simp only [hdead, Bool.false_eq_true, if_false] at h
          cases hw : i.before_cb with
          | none =>
            rw [hw] at h
            exact ih (idx + 1) s s' hI h
          | some fn =>
            rw [hw] at h
            simp only [] at h
            cases hq : s.p.quit
            · simp only [hq, Bool.false_eq_true, if_false] at h
              cases hi : invoke E fn i.id s with
              | none => rw [hi] at h; exact Outcome.noConfusion h
              | some ks =>
                obtain ⟨k, s1⟩ := ks
                rw [hi] at h
                simp only [] at h
                by_cases hk : k = 0
                · simp only [hk, ne_eq, not_true_eq_false, if_false] at h
                  have := hstep s i fn k s1 (List.getElem?_mem hget) hw hI hi
                  rw [hk] at this
                  exact ih (idx + 1) _ s' this h
                · simp only [ne_eq, hk, not_false_eq_true, if_true] at h
                  split at h <;> exact Outcome.noConfusion h
            · simp only [hq, if_true] at h
              split at h <;> exact Outcome.noConfusion h
        · simp only [hdead, if_true] at h
          exact ih (idx + 1) s s' hI h
      · simp only [hp, not_false_eq_true, if_true, Outcome.proceed.injEq] at h
        rw [← h]; exact hI

/-- The state of the sleep is that of the end of the second loop with the
pending rebuild done, and what every call of a `work_cb` and of a `before_cb`
keeps holds at the end of the second loop. -/
theorem sleep_state_inv {σ : Type} (E : Env σ) (I : RunState σ → Prop) (p : pa_rtpoll) (w : σ)
    (hwork : ∀ (s : RunState σ) (i : pa_rtpoll_item) (fn : Nat) (k : Int) (s1 : RunState σ),
      i ∈ s.p.items → i.work_cb = some fn → I s → invoke E fn i.id s = some (k, s1) →
      I { s1 with trace := s1.trace ++ [Event.work i.id k] })
    (hbefore : ∀ (s : RunState σ) (i : pa_rtpoll_item) (fn : Nat) (k : Int) (s1 : RunState σ),
      i ∈ s.p.items → i.before_cb = some fn → I s → invoke E fn i.id s = some (k, s1) →
      I { s1 with trace := s1.trace ++ [Event.before i.id k] })
    (hentry : I (run_entry p w)) (sl : RunState σ) (h : sleep_state E p w = some sl) :
    ∃ s2 : RunState σ, I s2 ∧ (if s2.p.rebuild_needed then rtpoll_rebuild s2.p else some s2.p) = some sl.p ∧
      sl.w = s2.w ∧ sl.trace = s2.trace := by
  unfold sleep_state at h
  split at h
  · exact absurd h (by simp)
  · cases hwl : work_loop E p.items.length 0 (run_entry p w) with
    | fail => rw [hwl] at h; exact absurd h (by simp)
    | finish r s => rw [hwl] at h; exact absurd h (by simp)
    | proceed s1 =>
      rw [hwl] at h
      simp only [] at h
      have hI1 := work_loop_inv E I hwork _ _ _ s1 hentry hwl
      cases hbl : before_loop E s1.p.items.length 0 s1 with
      | fail => rw [hbl] at h; exact absurd h (by simp)
      | finish r s => rw [hbl] at h; exact absurd h (by simp)
      | proceed s2 =>
        rw [hbl] at h
        simp only [] at h
        have hI2 := before_loop_inv E I hbefore _ _ _ s2 hI1 hbl
        cases hq : (if s2.p.rebuild_needed then rtpoll_rebuild s2.p else some s2.p) with
        | none => rw [hq] at h; exact absurd h (by simp)
        | some q =>
          rw [hq] at h
          simp only [Option.some.injEq] at h
          rw [← h]
          exact ⟨s2, hI2, hq, rfl, rfl⟩

theorem perform_keeps_rebuild {σ : Type} (E : Env σ) (w : σ) (p p' : pa_rtpoll) (a : Action)
    (hr : p.running = true) (h : perform E w p a = some p') :
    p'.rebuild_needed = p.rebuild_needed ∧ p'.running = true := by
  cases a with
  | item_free id =>
    simp only [perform, pa_rtpoll_item_free, hr, if_true, Option.some.injEq] at h
    subst h
    exact ⟨rfl, rfl⟩
  | quit =>
    simp only [perform, pa_rtpoll_quit, Option.some.injEq] at h
    subst h
    exact ⟨rfl, hr⟩
  | set_timer_absolute usec =>
    simp only [perform, pa_rtpoll_set_timer_absolute, Option.some.injEq] at h
    subst h
    exact ⟨rfl, hr⟩
  | set_timer_relative usec =>
    simp only [perform, pa_rtpoll_set_timer_relative] at h
    split at h
    · simp only [Option.some.injEq] at h
      subst h
      exact ⟨rfl, hr⟩
    · exact absurd h (by simp)
  | set_timer_disabled =>
    simp only [perform, pa_rtpoll_set_timer_disabled, Option.some.injEq] at h
    subst h
    exact ⟨rfl, hr⟩

theorem perform_all_keeps_rebuild {σ : Type} (E : Env σ) (w : σ) (acts : List Action) :
    ∀ (p p' : pa_rtpoll), p.running = true → perform_all E w p acts = some p' →
      p'.rebuild_needed = p.rebuild_needed ∧ p'.running = true := by
  induction acts with
  | nil =>
    intro p p' hr h
    simp only [perform_all, Option.some.injEq] at h
    subst h; exact ⟨rfl, hr⟩
  | cons a rest ih =>
    intro p p' hr h
    simp only [perform_all] at h
    cases h1 : perform E w p a with
    | none => rw [h1] at h; exact absurd h (by simp)
    | some p1 =>
      rw [h1] at h
      obtain ⟨a1, a2⟩ := perform_keeps_rebuild E w p p1 a hr h1
      obtain ⟨b1, b2⟩ := ih p1 p' a2 h
      exact ⟨b1.trans a1, b2⟩

/-- What a callback that returns has done to the rtpoll are its API calls. -/
theorem invoke_perform {σ : Type} (E : Env σ) (fn id : Nat) (s s' : RunState σ) (k : Int)
    (h : invoke E fn id s = some (k, s')) :
    perform_all E (E.callback fn id s.p s.w).2 s.p (E.callback fn id s.p s.w).1.2 =
      some s'.p := by
  simp only [invoke] at h
  cases h1 : perform_all E (E.callback fn id s.p s.w).2 s.p (E.callback fn id s.p s.w).1.2 with
  | none => rw [h1] at h; exact absurd h (by simp)
  | some p1 =>
    rw [h1] at h
    simp only [Option.some.injEq, Prod.mk.injEq] at h
    rw [← h.2]

theorem same_cells_mem {L M : List pa_rtpoll_item} (h : List.Forall₂ same_cell L M)
    (i' : pa_rtpoll_item) (hi : i' ∈ M) : ∃ i ∈ L, same_cell i i' := by
  induction h with
  | nil => simp at hi
  | @cons j j' rest rest' hj _ ih =>
    rcases List.mem_cons.1 hi with rfl | hi'
    · exact ⟨j, by simp, hj⟩
    · obtain ⟨i, him, hs⟩ := ih hi'
      exact ⟨i, by simp [him], hs⟩

theorem same_cells_get {L M : List pa_rtpoll_item} (h : List.Forall₂ same_cell L M) :
    ∀ (j : Nat) (i : pa_rtpoll_item), L[j]? = some i → ∃ i', M[j]? = some i' ∧ same_cell i i' := by
  induction h with
  | nil => intro j i hj; simp at hj
  | @cons a a' rest rest' ha _ ih =>
    intro j i hj
    cases j with
    | zero =>
      simp only [List.getElem?_cons_zero, Option.some.injEq] at hj
      subst hj
      exact ⟨a', by simp, ha⟩
    | succ j =>
      simp only [List.getElem?_cons_succ] at hj ⊢
      exact ih j i hj

theorem same_cells_offset {L M : List pa_rtpoll_item} (h : List.Forall₂ same_cell L M)
    (j : Nat) : slice_offset M j = slice_offset L j := by
  induction h generalizing j with
  | nil => rfl
  | @cons a a' rest rest' ha _ ih =>
    cases j with
    | zero => rw [slice_offset_zero, slice_offset_zero]
    | succ j => rw [slice_offset_succ, slice_offset_succ, ih j, ha.2.2.1]

/-! ## The items of priority `PA_RTPOLL_NEVER` and the array of the sleep -/

theorem slice_offset_bound (L : List pa_rtpoll_item) (j : Nat) (i : pa_rtpoll_item)
    (hj : L[j]? = some i) :
    slice_offset L j + i.n_pollfd ≤ (L.map (fun i => i.n_pollfd)).sum := by
  have h1 : ((L.take (j + 1)).map (fun i => i.n_pollfd)).sum =
      slice_offset L j + i.n_pollfd := by
    rw [List.take_succ, hj]
    simp [slice_offset]
  have h2 : ((L.take (j + 1)).map (fun i => i.n_pollfd)).sum ≤
      (L.map (fun i => i.n_pollfd)).sum := by
    conv_rhs => rw [← List.take_append_drop (j + 1) L]
    rw [List.map_append, List.sum_append]
    omega
  omega

/-- Up to the sleep the callbacks keep the cells, the descriptor count and
the pending rebuild. -/
theorem sleep_state_steady {σ : Type} (E : Env σ) (p : pa_rtpoll) (w : σ) (sl : RunState σ)
    (h : sleep_state E p w = some sl) :
    ∃ s2 : RunState σ, during (run_entry p w).p s2.p ∧
      s2.p.rebuild_needed = p.rebuild_needed ∧
      (if s2.p.rebuild_needed then rtpoll_rebuild s2.p else some s2.p) = some sl.p ∧
      sl.w = s2.w ∧ sl.trace = s2.trace := by
  obtain ⟨s2, ⟨h1, h2⟩, h3⟩ := sleep_state_inv E
    (fun s => during (run_entry p w).p s.p ∧ s.p.rebuild_needed = p.rebuild_needed) p w
    (by
      intro s i fn k s1 _ _ hI hi
      refine ⟨(invoke_some E fn i.id s s1 k _ hI.1 hi).1, ?_⟩
      exact ((perform_all_keeps_rebuild E _ _ s.p s1.p hI.1.2.2.1
        (invoke_perform E fn i.id s s1 k hi)).1).trans hI.2)
    (by
      intro s i fn k s1 _ _ hI hi
      refine ⟨(invoke_some E fn i.id s s1 k _ hI.1 hi).1, ?_⟩
      exact ((perform_all_keeps_rebuild E _ _ s.p s1.p hI.1.2.2.1
        (invoke_perform E fn i.id s s1 k hi)).1).trans hI.2)
    ⟨during_entry p w, rfl⟩ sl h
  exact ⟨s2, h1, h2, h3⟩

/-- C19, amended. A `pa_rtpoll_run` entered with the rtpoll not running, a
right descriptor count and callbacks whose API calls pass their assertions
returns, and the array that it passes to poll holds the slice of every item of
the list, whatever the priority of the item, that of an item of priority NEVER
included: the number of entries passed is the sum of `n_pollfd` over all items,
and the item at list position `j` has its `n_pollfd` entries inside the array,
from the offset `slice_offset` on when the array was rebuilt in this run. -/
theorem pa_rtpoll_run_polls_every_item {σ : Type} (E : Env σ) (p : pa_rtpoll) (w : σ)
    (wait_op : Bool) (hrun : p.running = false) (hsafe : calls_safe E)
    (hcount : p.n_pollfd_used = (p.items.map (fun i => i.n_pollfd)).sum) :
    ∃ r p' w' trace, pa_rtpoll_run E p w wait_op = some (r, p', w', trace) ∧
      ∀ n t, Event.poll n t ∈ trace →
        ∃ sl, sleep_state E p w = some sl ∧
          poll_report E p w wait_op = some (E.poll (sleep_array sl.p) t sl.w).1 ∧
          (sleep_array sl.p).length = n ∧
          n = (p.items.map (fun i => i.n_pollfd)).sum ∧
          ∀ j i, p.items[j]? = some i →
            slice_offset p.items j + i.n_pollfd ≤ n ∧
            ∃ i', sl.p.items[j]? = some i' ∧ i'.id = i.id ∧ i'.priority = i.priority ∧
              i'.n_pollfd = i.n_pollfd ∧
              (p.rebuild_needed = true →
                i'.pollfd = if 0 < i.n_pollfd then some (slice_offset p.items j) else none) := by
  obtain ⟨out, hout, hshape⟩ := pa_rtpoll_run_total E p w wait_op hrun hsafe hcount
  refine ⟨out.1, out.2.1, out.2.2.1, out.2.2.2, hout, ?_⟩
  intro n t hm
  obtain ⟨sl, hsl, hd, hn, ht, _⟩ := poll_event_of_shape E p w wait_op out hshape n t hm
  have hn' : n = (p.items.map (fun i => i.n_pollfd)).sum := by
    rw [hn, hd.2.1]; exact hcount
  refine ⟨sl, hsl, ?_, ?_, hn', ?_⟩
  · simp only [poll_report, hsl, Option.map_some', ht]
  · simp [sleep_array, hn]
  · intro j i hj
    refine ⟨by rw [hn']; exact slice_offset_bound p.items j i hj, ?_⟩
    obtain ⟨s2, hd2, hrn, hq, _⟩ := sleep_state_steady E p w sl hsl
    cases hr : p.rebuild_needed
    · obtain ⟨i', hi', hc⟩ := same_cells_get hd.1 j i hj
      exact ⟨i', hi', hc.1, hc.2.1, hc.2.2.1, fun h => absurd h (by simp)⟩
    · rw [hrn, hr, if_pos rfl] at hq
      obtain ⟨i2, hi2, hc2⟩ := same_cells_get hd2.1 j i hj
      have hcount2 : s2.p.n_pollfd_used = (s2.p.items.map (fun i => i.n_pollfd)).sum := by
        rw [hd2.2.1, same_cells_sum hd2.1]; exact hcount
      obtain ⟨q, hq', _, _, _, _, _, hlay⟩ := rtpoll_rebuild_spec s2.p hcount2
      rw [hq] at hq'
      have hqe : sl.p = q := Option.some.inj hq'
      obtain ⟨hitem, _⟩ := hlay j i2 hi2
      rw [← hqe] at hitem
      refine ⟨_, hitem, hc2.1, hc2.2.1, hc2.2.2.1, ?_⟩
      intro _
      show (if 0 < i2.n_pollfd then some (slice_offset s2.p.items j) else none) = _
      rw [hc2.2.2.1, same_cells_offset hd2.1 j]
      rfl

/-! ## A timer that is changed during a run -/

/-- One call of a `work_cb` or `before_cb`, of the function that sets the
timer or of another one that keeps it. -/
theorem timer_step {σ : Type} (E : Env σ) (p : pa_rtpoll) (w : σ) (fn0 id0 : Nat) (en : Bool)
    (ne : Nat) (hids : (p.items.map (fun i => i.id)).Nodup)
    (hset : sets_timer E fn0 id0 en ne)
    (hkeep : ∀ i ∈ p.items, ∀ fn, (i.work_cb = some fn ∨ i.before_cb = some fn) →
      ¬ (fn = fn0 ∧ i.id = id0) → keeps_timer E fn i.id)
    (s : RunState σ) (i : pa_rtpoll_item) (fn : Nat) (k : Int) (s1 : RunState σ) (e : Event)
    (hi : i ∈ s.p.items)
    (he : (e = Event.work i.id k ∧ i.work_cb = some fn) ∨
      (e = Event.before i.id k ∧ i.before_cb = some fn))
    (hI : during (run_entry p w).p s.p ∧
      (hook_ran p.items fn0 id0 s.trace → s.p.timer_enabled = en ∧ s.p.next_elapse = ne))
    (hinv : invoke E fn i.id s = some (k, s1)) :
    during (run_entry p w).p s1.p ∧
      (hook_ran p.items fn0 id0 (s1.trace ++ [e]) →
        s1.p.timer_enabled = en ∧ s1.p.next_elapse = ne) := by
  obtain ⟨hd1, htr1, _⟩ := invoke_some E fn i.id s s1 k _ hI.1 hinv
  have hperf := invoke_perform E fn i.id s s1 k hinv
  refine ⟨hd1, ?_⟩
  intro hran
  by_cases hdes : fn = fn0 ∧ i.id = id0
  · rw [hdes.1, hdes.2] at hperf
    exact hset s.p s.w s1.p hperf
  · obtain ⟨i', hi', hc⟩ := same_cells_mem hI.1.1 i hi
    have hi'' : i' ∈ p.items := hi'
    have hhook : i'.work_cb = some fn ∨ i'.before_cb = some fn := by
      rcases he with ⟨_, h⟩ | ⟨_, h⟩
      · left; rw [← hc.2.2.2.1]; exact h
      · right; rw [← hc.2.2.2.2.1]; exact h
    have hk := hkeep i' hi'' fn hhook (by rw [← hc.1]; exact hdes)
    rw [← hc.1] at hk
    obtain ⟨hk1, hk2⟩ := hk s.p s.w s1.p hperf
    have hold : hook_ran p.items fn0 id0 s.trace := by
      obtain ⟨i0, hi0, hid0, hcase⟩ := hran
      refine ⟨i0, hi0, hid0, ?_⟩
      rw [htr1] at hcase
      rcases hcase with ⟨hw0, hm⟩ | ⟨hb0, hm⟩
      · rcases List.mem_append.1 hm with h | h
        · exact Or.inl ⟨hw0, h⟩
        · exfalso
          have h' := List.mem_singleton.1 h
          rcases he with ⟨he1, hwf⟩ | ⟨he1, _⟩
          · rw [he1] at h'
            injection h' with h1 h2
            have heq : i0 = i' :=
              id_inj_of_nodup p.items hids i0 i' hi0 hi'' (by rw [hid0, h1, hc.1])
            rw [heq, ← hc.2.2.2.1, hwf] at hw0
            exact hdes ⟨Option.some.inj hw0, h1.symm⟩
          · rw [he1] at h'
            exact Event.noConfusion h'
      · rcases List.mem_append.1 hm with h | h
        · exact Or.inr ⟨hb0, h⟩
        · exfalso
          have h' := List.mem_singleton.1 h
          rcases he with ⟨he1, _⟩ | ⟨he1, hbf⟩
          · rw [he1] at h'
            exact Event.noConfusion h'
          · rw [he1] at h'
            injection h' with h1 h2
            have heq : i0 = i' :=
              id_inj_of_nodup p.items hids i0 i' hi0 hi'' (by rw [hid0, h1, hc.1])
            rw [heq, ← hc.2.2.2.2.1, hbf] at hb0
            exact hdes ⟨Option.some.inj hb0, h1.symm⟩
    obtain ⟨h1, h2⟩ := hI.2 hold
    exact ⟨hk1.trans h1, hk2.trans h2⟩

/-- C20, amended. A timer change made by a `work_cb` or `before_cb` during a
`pa_rtpoll_run` takes effect in that same run: the timeout of the run's poll is
the one determined by the timer state that the callbacks have left when the
poll is entered, not by the timer state at the moment the run was entered. So
if the function `fn0` has run in the run as the `work_cb` or `before_cb` of the
item `id0` and leaves the timer in the state `(en, ne)` (as it does when its
last API call is `pa_rtpoll_set_timer_absolute(ne)`, or
`pa_rtpoll_set_timer_disabled`), and no other `work_cb` or `before_cb` touches
the timer, then the timeout handed to poll is the one of `(en, ne)`, whatever
the timer was on entry. -/
theorem pa_rtpoll_run_timer_change {σ : Type} (E : Env σ) (p : pa_rtpoll) (w : σ)
    (wait_op : Bool) (fn0 id0 : Nat) (en : Bool) (ne : Nat)
    (hrun : p.running = false) (hsafe : calls_safe E)
    (hcount : p.n_pollfd_used = (p.items.map (fun i => i.n_pollfd)).sum)
    (hids : (p.items.map (fun i => i.id)).Nodup)
    (hset : sets_timer E fn0 id0 en ne)
    (hkeep : ∀ i ∈ p.items, ∀ fn, (i.work_cb = some fn ∨ i.before_cb = some fn) →
      ¬ (fn = fn0 ∧ i.id = id0) → keeps_timer E fn i.id) :
    ∃ r p' w' trace, pa_rtpoll_run E p w wait_op = some (r, p', w', trace) ∧
      ∀ n t, Event.poll n t ∈ trace → hook_ran p.items fn0 id0 trace →
        ∃ sl, sleep_state E p w = some sl ∧
          sl.p.timer_enabled = en ∧ sl.p.next_elapse = ne ∧
          t = (timeout_spec wait_op sl.p.quit en ne (E.pa_rtclock_get sl.w)).map
              (fun usec => if E.HAVE_PPOLL then usec else usec / 1000 * 1000) := by
  obtain ⟨out, hout, hshape⟩ := pa_rtpoll_run_total E p w wait_op hrun hsafe hcount
  refine ⟨out.1, out.2.1, out.2.2.1, out.2.2.2, hout, ?_⟩
  intro n t hm hran
  obtain ⟨sl, hsl, _, _, ht, aev, htrace, haev, _⟩ :=
    poll_event_of_shape E p w wait_op out hshape n t hm
  have hran' : hook_ran p.items fn0 id0 sl.trace := by
    obtain ⟨i0, hi0, hid0, hcase⟩ := hran
    refine ⟨i0, hi0, hid0, ?_⟩
    rw [htrace] at hcase
    simp only [List.mem_append, List.mem_singleton] at hcase
    rcases hcase with ⟨hw0, (h | h) | h⟩ | ⟨hb0, (h | h) | h⟩
    · exact Or.inl ⟨hw0, h⟩
    · exact Event.noConfusion h
    · obtain ⟨_, h'⟩ := haev _ h
      exact Event.noConfusion h'
    · exact Or.inr ⟨hb0, h⟩
    · exact Event.noConfusion h
    · obtain ⟨_, h'⟩ := haev _ h
      exact Event.noConfusion h'
  obtain ⟨s2, hI2, hq, _, htr2⟩ := sleep_state_inv E
    (fun s => during (run_entry p w).p s.p ∧
      (hook_ran p.items fn0 id0 s.trace → s.p.timer_enabled = en ∧ s.p.next_elapse = ne)) p w
    (fun s i fn k s1 hi hw hI hinv =>
      timer_step E p w fn0 id0 en ne hids hset hkeep s i fn k s1 _ hi (Or.inl ⟨rfl, hw⟩) hI hinv)
    (fun s i fn k s1 hi hb hI hinv =>
      timer_step E p w fn0 id0 en ne hids hset hkeep s i fn k s1 _ hi (Or.inr ⟨rfl, hb⟩) hI hinv)
    ⟨during_entry p w, by
      intro ⟨_, _, _, hcase⟩
      rcases hcase with ⟨_, h⟩ | ⟨_, h⟩
      · exact absurd h (List.not_mem_nil _)
      · exact absurd h (List.not_mem_nil _)⟩ sl hsl
  rw [htr2] at hran'
  obtain ⟨hen, hne⟩ := hI2.2 hran'
  have hpre := rebuild_pending_gen s2.p
  rw [hq] at hpre
  have hen' : sl.p.timer_enabled = en := hpre.2.2.2.2.2.2.1.trans hen
  have hne' : sl.p.next_elapse = ne := hpre.2.2.2.2.2.2.2.trans hne
  refine ⟨sl, hsl, hen', hne', ?_⟩
  rw [ht, poll_timeout_eq, hen', hne']
  rfl

/-! # The theorems about runs and sequences of calls at concrete inputs -/

/-- The callbacks of `ex_env` make no API call. -/
theorem ex_env_safe : calls_safe ex_env := by
  intro fn id p w a ha
  simp [ex_env] at ha

/-- The list of `ex_rtpoll_unwind`. -/
theorem ex_rtpoll_unwind_items :
    ex_rtpoll_unwind.items =
      [⟨1, false, 1, none, 0, none, none, some 300, 0⟩,
       ⟨3, false, 2, none, 0, none, some 200, none, 0⟩] := by
  decide

/-- C11 as stated fails: in the run of `ex_rtpoll_unwind` in which the
`before_cb` of item 3 returns 1, the `after_cb` of item 1 is invoked by the
unwind although item 1 has no `before_cb`. -/
theorem pa_rtpoll_run_unwind_counterexample :
    ex_rtpoll_unwind.items.map (fun i => (i.id, i.before_cb, i.after_cb)) =
      [(1, none, some 300), (3, some 200, none)] ∧
    (pa_rtpoll_run ex_env_refuse ex_rtpoll_unwind () true).map (fun r => r.2.2.2) =
      some [Event.before 3 1, Event.after 1] := by
  decide

/-- The unwind over an item that has no `before_cb`. -/
theorem pa_rtpoll_run_unwind_all_earlier_witness :
    (∃ hk : 1 < ex_rtpoll_unwind.items.length,
      ex_rtpoll_unwind.running = false ∧ ex_rtpoll_unwind.quit = false ∧
      (ex_rtpoll_unwind.items.map (fun i => i.id)).Nodup ∧
      ex_rtpoll_unwind.items[1].dead = false ∧
      ex_rtpoll_unwind.items[1].before_cb.isSome = true ∧
      ∃ r p' w' ret trace, ret ≠ 0 ∧
        pa_rtpoll_run ex_env_refuse ex_rtpoll_unwind () true = some (r, p', w', trace) ∧
        trace = work_calls (loop_items ex_env_refuse.PA_RTPOLL_NEVER ex_rtpoll_unwind.items) ++
          before_calls ((ex_rtpoll_unwind.items.take 1).filter (fun i => !i.dead)) ++
          [Event.before ex_rtpoll_unwind.items[1].id ret] ++
          after_calls (((ex_rtpoll_unwind.items.take 1).filter (fun i => !i.dead)).reverse) ∧
        (∀ e ∈ trace, e.is_poll = false) ∧
        (∀ i ∈ ex_rtpoll_unwind.items.take 1, i.dead = false → i.after_cb.isSome = true →
          Event.after i.id ∈ trace) ∧
        (∀ j (hj : j < ex_rtpoll_unwind.items.length), 1 ≤ j →
          Event.after ex_rtpoll_unwind.items[j].id ∉ trace)) ∧
    after_calls (((ex_rtpoll_unwind.items.take 1).filter (fun i => !i.dead)).reverse) =
      [Event.after 1] :=
  have hk : 1 < ex_rtpoll_unwind.items.length := by decide
  have hklive : ex_rtpoll_unwind.items[1].dead = false := by simp [ex_rtpoll_unwind_items]
  have hkb : ex_rtpoll_unwind.items[1].before_cb.isSome = true := by
    simp [ex_rtpoll_unwind_items]
  have hprio : ∀ i ∈ ex_rtpoll_unwind.items.take (1 + 1),
      i.priority < ex_env_refuse.PA_RTPOLL_NEVER := by decide
  have hwork : ∀ i ∈ ex_rtpoll_unwind.items, ∀ fn, i.work_cb = some fn →
      calls_tame ex_env_refuse fn i.id ∧ returns_zero ex_env_refuse fn i.id := by
    intro i hi fn hfn
    rw [ex_rtpoll_unwind_items] at hi
    simp only [List.mem_cons, List.mem_singleton, List.not_mem_nil, or_false] at hi
    rcases hi with rfl | rfl <;> simp at hfn
  have hbefore : ∀ i ∈ ex_rtpoll_unwind.items.take 1, ∀ fn, i.before_cb = some fn →
      calls_tame ex_env_refuse fn i.id ∧ returns_zero ex_env_refuse fn i.id := by
    intro i hi fn hfn
    rw [ex_rtpoll_unwind_items] at hi
    simp only [List.take, List.mem_cons, List.mem_singleton, List.not_mem_nil, or_false] at hi
    rcases hi with rfl
    simp at hfn
  have hrefuse : ∀ fn, ex_rtpoll_unwind.items[1].before_cb = some fn →
      calls_tame ex_env_refuse fn ex_rtpoll_unwind.items[1].id ∧
      returns_nonzero ex_env_refuse fn ex_rtpoll_unwind.items[1].id := by
    intro fn hfn
    refine ⟨ex_env_refuse_tame fn _, ?_⟩
    have h1 : ex_rtpoll_unwind.items[1].before_cb = some 200 := by
      simp [ex_rtpoll_unwind_items]
    have h2 : ex_rtpoll_unwind.items[1].id = 3 := by simp [ex_rtpoll_unwind_items]
    rw [h1] at hfn
    have h3 : fn = 200 := (Option.some.inj hfn).symm
    rw [h2, h3]
    intro p w
    simp [ex_env_refuse]
  have hafter : ∀ i ∈ ex_rtpoll_unwind.items.take 1, ∀ fn, i.after_cb = some fn →
      calls_tame ex_env_refuse fn i.id :=
    fun i _ fn _ => ex_env_refuse_tame fn i.id
  ⟨⟨hk, rfl, rfl, by decide, hklive, hkb,
    pa_rtpoll_run_unwind_all_earlier ex_env_refuse ex_rtpoll_unwind () true 1 hk rfl rfl
      (by decide) hklive hkb hprio hwork hbefore hrefuse hafter⟩, by decide⟩

/-- The callbacks of `ex_env_restart` make no API call. -/
theorem ex_env_restart_safe : calls_safe ex_env_restart := by
  intro fn id p w a ha
  simp only [ex_env_restart] at ha
  split at ha <;> simp at ha

/-- The restart asked for by the `work_cb` of the second of four items. -/
theorem pa_rtpoll_run_work_restart_witness :
    (ex_rtpoll4.running = false ∧ calls_safe ex_env_restart ∧
      ex_rtpoll4.n_pollfd_used = (ex_rtpoll4.items.map (fun i => i.n_pollfd)).sum) ∧
    (∃ r p' w' trace, pa_rtpoll_run ex_env_restart ex_rtpoll4 () true = some (r, p', w', trace) ∧
      ∀ id k, 0 < k → Event.work id k ∈ trace →
        (∃ ev, trace = ev ++ [Event.work id k] ∧ work_zero ev) ∧
        (∀ e ∈ trace, e.is_poll = false) ∧
        (p'.quit = false → r = 1) ∧ (p'.quit = true → r = 0)) ∧
    (pa_rtpoll_run ex_env_restart ex_rtpoll4 () true).map (fun r => (r.1, r.2.1.quit, r.2.2.2)) =
      some (1, false, [Event.work 4 0, Event.work 2 1]) :=
  ⟨⟨rfl, ex_env_restart_safe, by decide⟩,
   pa_rtpoll_run_work_restart ex_env_restart ex_rtpoll4 () true rfl ex_env_restart_safe
     (by decide), by decide⟩

/-- The callbacks of `ex_env_pollfail` make no API call. -/
theorem ex_env_pollfail_safe : calls_safe ex_env_pollfail := by
  intro fn id p w a ha
  simp [ex_env_pollfail, ex_env] at ha

/-- The value of a run whose poll fails with the errno 5, and of runs that
end otherwise. -/
theorem pa_rtpoll_run_return_value_witness :
    (ex_rtpoll.running = false ∧ calls_safe ex_env_pollfail ∧
      ex_rtpoll.n_pollfd_used = (ex_rtpoll.items.map (fun i => i.n_pollfd)).sum) ∧
    (∃ r p' w' trace, pa_rtpoll_run ex_env_pollfail ex_rtpoll () true = some (r, p', w', trace) ∧
      (∀ id k, k < 0 → (Event.work id k ∈ trace ∨ Event.before id k ∈ trace) → r = k) ∧
      (∀ res, poll_report ex_env_pollfail ex_rtpoll () true = some res → res.r < 0 →
        res.errno ≠ ex_env_pollfail.EAGAIN → res.errno ≠ ex_env_pollfail.EINTR → r = res.r) ∧
      ((∀ id k, k < 0 → Event.work id k ∉ trace ∧ Event.before id k ∉ trace) →
        (∀ res, poll_report ex_env_pollfail ex_rtpoll () true = some res →
          0 ≤ res.r ∨ res.errno = ex_env_pollfail.EAGAIN ∨ res.errno = ex_env_pollfail.EINTR) →
        r = if p'.quit then 0 else 1) ∧
      (r = 0 ↔ (p'.quit = true ∧
        (∀ id k, k < 0 → Event.work id k ∉ trace ∧ Event.before id k ∉ trace) ∧
        ∀ res, poll_report ex_env_pollfail ex_rtpoll () true = some res →
          0 ≤ res.r ∨ res.errno = ex_env_pollfail.EAGAIN ∨ res.errno = ex_env_pollfail.EINTR)) ∧
      ((poll_report ex_env_pollfail ex_rtpoll () true).isSome = true ↔
        ∃ e ∈ trace, e.is_poll = true)) ∧
    (pa_rtpoll_run ex_env_pollfail ex_rtpoll () true).map (fun r => r.1) = some (-1) ∧
    (poll_report ex_env_pollfail ex_rtpoll () true).map (fun res => (res.r, res.errno)) =
      some (-1, 5) ∧
    (pa_rtpoll_run ex_env ex_rtpoll () true).map (fun r => r.1) = some 1 ∧
    (pa_rtpoll_run ex_env (pa_rtpoll_quit ex_rtpoll) () true).map (fun r => r.1) = some 0 ∧
    (pa_rtpoll_run ex_env_restart ex_rtpoll4 () true).map (fun r => r.1) = some 1 :=
  ⟨⟨rfl, ex_env_pollfail_safe, by decide⟩,
   pa_rtpoll_run_return_value ex_env_pollfail ex_rtpoll () true rfl ex_env_pollfail_safe
     (by decide), by decide, by decide, by decide, by decide, by decide⟩

/-- The callbacks of `ex_env_poll` make no API call. -/
theorem ex_env_poll_safe : calls_safe ex_env_poll := by
  intro fn id p w a ha
  simp [ex_env_poll, ex_env] at ha

/-- C14 as stated fails in a build without `ppoll`: with the timer enabled,
`next_elapse = 1500` and the clock at 0, a waiting run hands poll the timeout
of one millisecond, while `next_elapse - now` is 1500 microseconds. -/
theorem pa_rtpoll_run_timeout_counterexample :
    ex_env_poll.HAVE_PPOLL = false ∧
    (pa_rtpoll_run ex_env_poll (pa_rtpoll_set_timer_absolute pa_rtpoll_new 1500) () true).map
        (fun r => r.2.2.2) = some [Event.poll 0 (some 1000)] ∧
    (sleep_state ex_env_poll (pa_rtpoll_set_timer_absolute pa_rtpoll_new 1500) ()).map
        (fun s => (s.p.quit, s.p.timer_enabled, s.p.next_elapse,
          ex_env_poll.pa_rtclock_get s.w,
          timeout_spec true s.p.quit s.p.timer_enabled s.p.next_elapse
            (ex_env_poll.pa_rtclock_get s.w))) =
      some (false, true, 1500, 0, some 1500) := by
  decide

/-- The timeout of 1500 microseconds in a build without `ppoll`. -/
theorem pa_rtpoll_run_timeout_witness :
    ((pa_rtpoll_set_timer_absolute pa_rtpoll_new 1500).running = false ∧
      calls_safe ex_env_poll ∧
      (pa_rtpoll_set_timer_absolute pa_rtpoll_new 1500).n_pollfd_used =
        ((pa_rtpoll_set_timer_absolute pa_rtpoll_new 1500).items.map
          (fun i => i.n_pollfd)).sum) ∧
    (∃ r p' w' trace,
      pa_rtpoll_run ex_env_poll (pa_rtpoll_set_timer_absolute pa_rtpoll_new 1500) () true =
        some (r, p', w', trace) ∧
      ∀ n t, Event.poll n t ∈ trace →
        ∃ sl, sleep_state ex_env_poll (pa_rtpoll_set_timer_absolute pa_rtpoll_new 1500) () =
            some sl ∧
          t = (timeout_spec true sl.p.quit sl.p.timer_enabled sl.p.next_elapse
                (ex_env_poll.pa_rtclock_get sl.w)).map
              (fun usec => if ex_env_poll.HAVE_PPOLL then usec else usec / 1000 * 1000) ∧
          (t = none ↔ (true = true ∧ sl.p.quit = false ∧ sl.p.timer_enabled = false))) ∧
    (pa_rtpoll_run ex_env (pa_rtpoll_set_timer_absolute pa_rtpoll_new 1500) () true).map
        (fun r => r.2.2.2) = some [Event.poll 0 (some 1500)] ∧
    (pa_rtpoll_run ex_env pa_rtpoll_new () true).map (fun r => r.2.2.2) =
      some [Event.poll 0 none] ∧
    (pa_rtpoll_run ex_env pa_rtpoll_new () false).map (fun r => r.2.2.2) =
      some [Event.poll 0 (some 0)] :=
  ⟨⟨rfl, ex_env_poll_safe, rfl⟩,
   pa_rtpoll_run_timeout ex_env_poll (pa_rtpoll_set_timer_absolute pa_rtpoll_new 1500) () true
     rfl ex_env_poll_safe rfl, by decide, by decide, by decide⟩

/-- The API call of the callbacks of `ex_env_free` has no assertion. -/
theorem ex_env_free_safe : calls_safe ex_env_free := by
  intro fn id p w a ha
  simp only [ex_env_free] at ha
  split at ha
  · simp only [List.mem_singleton] at ha
    rw [ha]; rfl
  · simp at ha

/-- An item that frees itself in its own `work_cb`: its `before_cb` and
`after_cb` are no longer called, and when the run returns the item is gone and
its two descriptors are off the count. -/
theorem pa_rtpoll_item_free_deferred_witness :
    (ex_rtpoll4.running = false ∧ calls_safe ex_env_free ∧
      ex_rtpoll4.n_pollfd_used = (ex_rtpoll4.items.map (fun i => i.n_pollfd)).sum ∧
      (∀ i ∈ ex_rtpoll4.items, i.dead = false)) ∧
    (∃ r p' w' trace marked,
      pa_rtpoll_run ex_env_free ex_rtpoll4 () true = some (r, p', w', trace) ∧
      List.Forall₂ same_cell ex_rtpoll4.items marked ∧
      p'.items = marked.filter (fun i => !i.dead) ∧
      dead_fds marked ≤ ex_rtpoll4.n_pollfd_used ∧
      p'.n_pollfd_used = ex_rtpoll4.n_pollfd_used - dead_fds marked ∧
      p'.running = false ∧ ∀ i ∈ p'.items, i.dead = false) ∧
    (ex_rtpoll4.items.map (fun i => i.id), ex_rtpoll4.n_pollfd_used) = ([4, 2, 3, 1], 4) ∧
    (pa_rtpoll_run ex_env_free ex_rtpoll4 () true).map
        (fun r => (r.2.2.2, r.2.1.items.map (fun i => i.id), r.2.1.n_pollfd_used)) =
      some ([Event.work 4 0, Event.work 2 0, Event.work 3 0, Event.work 1 0,
        Event.before 4 0, Event.before 2 0, Event.before 1 0, Event.poll 4 none,
        Event.after 4, Event.after 2, Event.after 1], [4, 2, 1], 2) :=
  ⟨⟨rfl, ex_env_free_safe, by decide, by decide⟩,
   (pa_rtpoll_item_free_deferred ex_env_free).2.1 ex_rtpoll4 () true rfl ex_env_free_safe
     (by decide) (by decide), by decide, by decide⟩

/-- The sequence `ex_ops` returns. -/
theorem ex_ops_some : (run_ops ex_env ex_ops (pa_rtpoll_new, ())).isSome = true := by
  decide

/-- The list after the sequence `ex_ops`. -/
theorem pa_rtpoll_items_sorted_witness :
    ∃ p', run_ops ex_env ex_ops (pa_rtpoll_new, ()) = some (p', ()) ∧
      p'.items.Pairwise (fun a b => a.priority ≤ b.priority) ∧
      p'.items.map (fun i => (i.id, i.priority)) = [(5, 0), (4, 1), (3, 2), (1, 3)] :=
  match h : run_ops ex_env ex_ops (pa_rtpoll_new, ()) with
  | some (p', ()) =>
    ⟨p', rfl, pa_rtpoll_items_sorted ex_env ex_ops () p' () h, by
      have e : (run_ops ex_env ex_ops (pa_rtpoll_new, ())).map
          (fun s => s.1.items.map (fun i => (i.id, i.priority))) =
          some [(5, 0), (4, 1), (3, 2), (1, 3)] := by decide
      rw [h] at e
      exact Option.some.inj e⟩
  | none => absurd ex_ops_some (by rw [h]; simp)

/-- The descriptor count after the sequence `ex_ops`. -/
theorem pa_rtpoll_count_invariant_witness :
    ∃ p', run_ops ex_env ex_ops (pa_rtpoll_new, ()) = some (p', ()) ∧
      (p'.n_pollfd_used = (p'.items.map (fun i => i.n_pollfd)).sum ∧
        (rtpoll_rebuild p').isSome = true ∧
        (∀ i ∈ p'.items, (pa_rtpoll_item_get_pollfd p' i.id).isSome = true) ∧
        (calls_safe ex_env → ∀ wait_op, (pa_rtpoll_run ex_env p' () wait_op).isSome = true)) ∧
      (p'.n_pollfd_used, p'.items.map (fun i => i.n_pollfd)) = (7, [3, 1, 2, 1]) :=
  match h : run_ops ex_env ex_ops (pa_rtpoll_new, ()) with
  | some (p', ()) =>
    ⟨p', rfl, pa_rtpoll_count_invariant ex_env ex_ops () p' () h, by
      have e : (run_ops ex_env ex_ops (pa_rtpoll_new, ())).map
          (fun s => (s.1.n_pollfd_used, s.1.items.map (fun i => i.n_pollfd))) =
          some (7, [3, 1, 2, 1]) := by decide
      rw [h] at e
      exact Option.some.inj e⟩
  | none => absurd ex_ops_some (by rw [h]; simp)

/-- The rebuild of the five items of `ex_rtpoll`. -/
theorem rtpoll_rebuild_layout_witness :
    ex_rtpoll.n_pollfd_used = (ex_rtpoll.items.map (fun i => i.n_pollfd)).sum ∧
    (∃ q, rtpoll_rebuild ex_rtpoll = some q ∧ q.rebuild_needed = false ∧
      q.n_pollfd_alloc ≥ q.n_pollfd_used ∧ q.n_pollfd_used = ex_rtpoll.n_pollfd_used ∧
      sleep_array q = ex_rtpoll.items.flatMap (item_slice ex_rtpoll.pollfd) ∧
      q.items.length = ex_rtpoll.items.length ∧
      ∀ j i, ex_rtpoll.items[j]? = some i →
        q.items[j]? = some { i with
          pollfd := if 0 < i.n_pollfd then some (slice_offset ex_rtpoll.items j) else none } ∧
        slice_offset ex_rtpoll.items j + i.n_pollfd ≤ q.n_pollfd_used ∧
        ∀ k, k < i.n_pollfd →
          q.pollfd (slice_offset ex_rtpoll.items j + k) = item_entry ex_rtpoll.pollfd i k) ∧
    (rtpoll_rebuild ex_rtpoll).map
        (fun q => (q.items.map (fun i => (i.id, i.n_pollfd, i.pollfd)), q.n_pollfd_used)) =
      some ([(4, 1, some 0), (2, 0, none), (3, 2, some 1), (1, 1, some 3), (5, 1, some 4)], 5) :=
  ⟨by decide, rtpoll_rebuild_layout ex_rtpoll (by decide), by decide⟩

/-- The callbacks of `ex_env_record` make no API call. -/
theorem ex_env_record_safe : calls_safe ex_env_record := by
  intro fn id p w a ha
  simp [ex_env_record] at ha

/-- C19 as stated fails: the one item of `ex_rtpoll_never` has the priority
NEVER, and the array that the run passes to poll is the slice of that item,
with the descriptor 9 of the semaphore. -/
theorem pa_rtpoll_run_polls_never_counterexample :
    ex_rtpoll_never.items.map (fun i => (i.id, i.priority, i.pollfd, i.n_pollfd)) =
      [(1, 2147483647, some 0, 1)] ∧
    ex_env_record.PA_RTPOLL_NEVER = 2147483647 ∧
    (pa_rtpoll_run ex_env_record ex_rtpoll_never [] true).map (fun r => (r.2.2.1, r.2.2.2)) =
      some ([⟨9, 1, 0⟩], [Event.poll 1 none]) := by
  decide

/-- The array of the sleep of `ex_rtpoll`, whose last item has the priority
NEVER and one descriptor. -/
theorem pa_rtpoll_run_polls_every_item_witness :
    (ex_rtpoll.running = false ∧ calls_safe ex_env_record ∧
      ex_rtpoll.n_pollfd_used = (ex_rtpoll.items.map (fun i => i.n_pollfd)).sum) ∧
    (∃ r p' w' trace, pa_rtpoll_run ex_env_record ex_rtpoll [] true = some (r, p', w', trace) ∧
      ∀ n t, Event.poll n t ∈ trace →
        ∃ sl, sleep_state ex_env_record ex_rtpoll [] = some sl ∧
          poll_report ex_env_record ex_rtpoll [] true =
            some (ex_env_record.poll (sleep_array sl.p) t sl.w).1 ∧
          (sleep_array sl.p).length = n ∧
          n = (ex_rtpoll.items.map (fun i => i.n_pollfd)).sum ∧
          ∀ j i, ex_rtpoll.items[j]? = some i →
            slice_offset ex_rtpoll.items j + i.n_pollfd ≤ n ∧
            ∃ i', sl.p.items[j]? = some i' ∧ i'.id = i.id ∧ i'.priority = i.priority ∧
              i'.n_pollfd = i.n_pollfd ∧
              (ex_rtpoll.rebuild_needed = true →
                i'.pollfd =
                  if 0 < i.n_pollfd then some (slice_offset ex_rtpoll.items j) else none)) ∧
    (pa_rtpoll_run ex_env_record ex_rtpoll [] true).map
        (fun r => (r.2.2.1.length, r.2.2.2.filter Event.is_poll)) =
      some (5, [Event.poll 5 none]) ∧
    (sleep_state ex_env_record ex_rtpoll []).map
        (fun s => s.p.items.map (fun i => (i.id, i.priority, i.pollfd, i.n_pollfd))) =
      some [(4, 1, some 0, 1), (2, 1, none, 0), (3, 2, some 1, 2), (1, 3, some 3, 1),
        (5, 2147483647, some 4, 1)] :=
  ⟨⟨rfl, ex_env_record_safe, by decide⟩,
   pa_rtpoll_run_polls_every_item ex_env_record ex_rtpoll [] true rfl ex_env_record_safe
     (by decide), by decide, by decide⟩

/-- The API call of the callbacks of `ex_env_timer` has no assertion. -/
theorem ex_env_timer_safe : calls_safe ex_env_timer := by
  intro fn id p w a ha
  simp only [ex_env_timer] at ha
  split at ha
  · simp only [List.mem_singleton] at ha
    rw [ha]; rfl
  · simp at ha

/-- C20 as stated fails: the run is entered with the timer disabled, for
which a waiting poll has no timeout; the `work_cb` of item 3 sets the timer to
5000 with the clock at 2000, and the poll of that same run gets the timeout
3000. -/
theorem pa_rtpoll_run_timer_change_counterexample :
    (ex_rtpoll4.quit, ex_rtpoll4.timer_enabled, ex_rtpoll4.next_elapse) = (false, false, 0) ∧
    timeout_spec true ex_rtpoll4.quit ex_rtpoll4.timer_enabled ex_rtpoll4.next_elapse
      (ex_env_timer.pa_rtclock_get ()) = none ∧
    (pa_rtpoll_run ex_env_timer ex_rtpoll4 () true).map
        (fun r => r.2.2.2.filter Event.is_poll) = some [Event.poll 4 (some 3000)] ∧
    (pa_rtpoll_run ex_env ex_rtpoll4 () true).map
        (fun r => r.2.2.2.filter Event.is_poll) = some [Event.poll 4 none] := by
  decide

/-- The timer that the `work_cb` of item 3 sets to 5000 with the clock at
2000. -/
theorem pa_rtpoll_run_timer_change_witness :
    (ex_rtpoll4.running = false ∧ calls_safe ex_env_timer ∧
      ex_rtpoll4.n_pollfd_used = (ex_rtpoll4.items.map (fun i => i.n_pollfd)).sum ∧
      (ex_rtpoll4.items.map (fun i => i.id)).Nodup ∧
      sets_timer ex_env_timer 100 3 true 5000 ∧
      (∀ i ∈ ex_rtpoll4.items, ∀ fn, (i.work_cb = some fn ∨ i.before_cb = some fn) →
        ¬ (fn = 100 ∧ i.id = 3) → keeps_timer ex_env_timer fn i.id)) ∧
    (∃ r p' w' trace, pa_rtpoll_run ex_env_timer ex_rtpoll4 () true = some (r, p', w', trace) ∧
      ∀ n t, Event.poll n t ∈ trace → hook_ran ex_rtpoll4.items 100 3 trace →
        ∃ sl, sleep_state ex_env_timer ex_rtpoll4 () = some sl ∧
          sl.p.timer_enabled = true ∧ sl.p.next_elapse = 5000 ∧
          t = (timeout_spec true sl.p.quit true 5000 (ex_env_timer.pa_rtclock_get sl.w)).map
              (fun usec => if ex_env_timer.HAVE_PPOLL then usec else usec / 1000 * 1000)) ∧
    (pa_rtpoll_run ex_env_timer ex_rtpoll4 () true).map
        (fun r => (decide (Event.work 3 0 ∈ r.2.2.2), r.2.2.2.filter Event.is_poll)) =
      some (true, [Event.poll 4 (some 3000)]) :=
  have hset : sets_timer ex_env_timer 100 3 true 5000 := by
    intro p w p' h
    simp only [ex_env_timer, and_self, if_true, perform_all, perform,
      pa_rtpoll_set_timer_absolute, Option.some.injEq] at h
    rw [← h]
    exact ⟨rfl, rfl⟩
  have hkeep : ∀ i ∈ ex_rtpoll4.items, ∀ fn, (i.work_cb = some fn ∨ i.before_cb = some fn) →
      ¬ (fn = 100 ∧ i.id = 3) → keeps_timer ex_env_timer fn i.id := by
    intro i _ fn _ hne p w p' h
    simp only [ex_env_timer, if_neg hne, perform_all, Option.some.injEq] at h
    rw [← h]
    exact ⟨rfl, rfl⟩
  ⟨⟨rfl, ex_env_timer_safe, by decide, by decide, hset, hkeep⟩,
   pa_rtpoll_run_timer_change ex_env_timer ex_rtpoll4 () true 100 3 true 5000 rfl
     ex_env_timer_safe (by decide) (by decide) hset hkeep, by decide⟩

/-! ## What a mix reads of its streams: proofs -/

theorem mix_sum_congr {α : Type} (K : SampleOps α) (NORM d channel : Nat) :
    ∀ (streams streams' : List pa_mix_info) (acc : α),
      List.Forall₂ (fun s s' => mix_stream_value K NORM d channel s' =
        mix_stream_value K NORM d channel s) streams streams' →
      mix_sum K NORM d channel streams' acc = mix_sum K NORM d channel streams acc := by
  intro streams streams' acc h
  induction h generalizing acc with
  | nil => rfl
  | cons hab _ ih =>
    show mix_sum K NORM d channel _ (K.add acc _) = mix_sum K NORM d channel _ (K.add acc _)
    rw [hab]
    exact ih _

theorem mix_length_congr (length : Nat) :
    ∀ (streams streams' : List pa_mix_info),
      List.Forall₂ (fun s s' => s'.chunk.length = s.chunk.length) streams streams' →
      mix_length streams' length = mix_length streams length := by
  intro streams streams' h
  induction h with
  | nil => rfl
  | cons hab _ ih =>
    show min _ (mix_length _ length) = min _ (mix_length _ length)
    rw [hab, ih]

/-- Two lists of streams that contribute the same values to the first `n`
samples and have the same chunk lengths are mixed alike. -/
theorem mix_image_congr {α : Type} (K : SampleOps α) (hK : K.Lawful) (NORM : Nat)
    (streams streams' : List pa_mix_info) (channels volume n : Nat) (data : Mem)
    (h : ∀ k, k < n → List.Forall₂ (fun s s' =>
      mix_stream_value K NORM (k * K.size) (channel_at channels k) s' =
        mix_stream_value K NORM (k * K.size) (channel_at channels k) s) streams streams') :
    mix_image K NORM streams' channels volume 0 n data =
      mix_image K NORM streams channels volume 0 n data := by
  funext a
  unfold mix_image
  by_cases c : 0 * K.size ≤ a ∧ a < n * K.size
  · rw [if_pos c, if_pos c]
    have hk : a / K.size < n := (Nat.div_lt_iff_lt_mul hK.size_pos).2 c.2
    unfold mix_out
    rw [mix_sum_congr K NORM _ _ streams streams' _ (h _ hk)]
  · rw [if_neg c, if_neg c]

theorem forall₂_weaken {α : Type} {R S : α → α → Prop} (hRS : ∀ a b, R a b → S a b) :
    ∀ {L M : List α}, List.Forall₂ R L M → List.Forall₂ S L M := by
  intro L M h
  induction h with
  | nil => exact List.Forall₂.nil
  | cons hab _ ih => exact List.Forall₂.cons (hRS _ _ hab) ih

/-- A stream contributes the same value to sample `k` when the bytes of that
sample are the same, or when its volume mutes the sample. -/
theorem mix_stream_value_unmuted {α : Type} (K : SampleOps α) (hK : K.Lawful) (NORM : Nat)
    (channels k : Nat) (s s' : pa_mix_info)
    (h : same_unmuted K.size channels s s') :
    mix_stream_value K NORM (k * K.size) (channel_at channels k) s' =
      mix_stream_value K NORM (k * K.size) (channel_at channels k) s := by
  obtain ⟨hi, _, hv, hb⟩ := h
  unfold mix_stream_value
  rw [hv]
  by_cases hm : s.volume.values (channel_at channels k) = PA_VOLUME_MUTED
  · simp only [hm, if_true]
  · have hl : K.load s'.chunk.memblock.data (s'.chunk.index + k * K.size) =
        K.load s.chunk.memblock.data (s.chunk.index + k * K.size) := by
      rw [hi]
      apply hK.load_local
      intro x hx1 hx2
      have := hb k hm (x - (s.chunk.index + k * K.size)) (by omega)
      have e : s.chunk.index + k * K.size + (x - (s.chunk.index + k * K.size)) = x := by omega
      rw [e] at this
      exact this
    simp only [hm, if_false, hl]

/-- The loop of `pa_mix` on two lists of streams that contribute the same
values and have the same chunk lengths. -/
theorem pa_mix_loop_congr {α : Type} (K : SampleOps α) (hK : K.Lawful) (NORM : Nat)
    (streams streams' : List pa_mix_info) (length channels volume : Nat) (data : Mem)
    (hlen : List.Forall₂ (fun s s' => s'.chunk.length = s.chunk.length) streams streams')
    (h : ∀ k, k < mix_count K.size (mix_length streams length) → List.Forall₂ (fun s s' =>
      mix_stream_value K NORM (k * K.size) (channel_at channels k) s' =
        mix_stream_value K NORM (k * K.size) (channel_at channels k) s) streams streams') :
    pa_mix_loop K NORM streams' length channels volume (length + 1) 0 0 data =
      pa_mix_loop K NORM streams length channels volume (length + 1) 0 0 data := by
  rw [pa_mix_loop_result K hK, pa_mix_loop_result K hK, mix_length_congr length _ _ hlen,
    mix_image_congr K hK NORM streams streams' channels volume _ data h]

/-- The loop of `pa_mix` returns the least multiple of the sample size that
is not below min(length, chunk lengths), and leaves the bytes from there on
alone. -/
theorem pa_mix_loop_round_up {α : Type} (K : SampleOps α) (hK : K.Lawful) (NORM : Nat)
    (streams : List pa_mix_info) (length channels volume : Nat) (data : Mem) :
    ∃ d data', pa_mix_loop K NORM streams length channels volume (length + 1) 0 0 data =
        some (d, data') ∧
      d = mix_count K.size (mix_length streams length) * K.size ∧
      K.size ∣ d ∧ mix_length streams length ≤ d ∧ d < mix_length streams length + K.size ∧
      (K.size ∣ mix_length streams length → d = mix_length streams length) ∧
      (∀ a, d ≤ a → data' a = data a) := by
  have hs := hK.size_pos
  refine ⟨_, _, pa_mix_loop_result K hK NORM streams length channels volume data, rfl,
    Dvd.intro_left _ rfl, le_mix_count_mul hs, ?_, ?_, ?_⟩
  · unfold mix_count
    have := Nat.div_mul_le_self (mix_length streams length + K.size - 1) K.size
    omega
  · intro hd
    exact mix_count_mul_of_dvd hs hd
  · intro a ha
    have c : ¬ (0 * K.size ≤ a ∧ a < mix_count K.size (mix_length streams length) * K.size) := by
      omega
    simp only [mix_image, if_neg c]

theorem mix_length_le_chunk (streams : List pa_mix_info) (length : Nat) :
    ∀ s ∈ streams, mix_length streams length ≤ s.chunk.length := by
  intro s hs
  by_contra h
  have := ((@lt_mix_length streams length s.chunk.length).1 (by omega)).2 s hs
  omega

/-- The loop of `pa_mix` on streams that differ in muted samples only. -/
theorem pa_mix_loop_unmuted {α : Type} (K : SampleOps α) (hK : K.Lawful) (NORM : Nat)
    (streams streams' : List pa_mix_info) (length channels volume : Nat) (data : Mem)
    (h : List.Forall₂ (same_unmuted K.size channels) streams streams') :
    pa_mix_loop K NORM streams' length channels volume (length + 1) 0 0 data =
      pa_mix_loop K NORM streams length channels volume (length + 1) 0 0 data ∧
    ∃ data', pa_mix_loop K NORM streams length channels volume (length + 1) 0 0 data =
        some (mix_count K.size (mix_length streams length) * K.size, data') ∧
      ∀ s ∈ streams,
        mix_count K.size (mix_length streams length) * K.size < s.chunk.length + K.size ∧
        (K.size ∣ mix_length streams length →
          mix_count K.size (mix_length streams length) * K.size ≤ s.chunk.length) := by
  refine ⟨?_, ?_⟩
  · apply pa_mix_loop_congr K hK NORM streams streams' length channels volume data
    · exact forall₂_weaken (fun a b hab => hab.2.1) h
    · intro k _
      exact forall₂_weaken
        (fun a b hab => mix_stream_value_unmuted K hK NORM channels k a b hab) h
  · obtain ⟨d, data', he, hd, _, _, h3, h4, _⟩ :=
      pa_mix_loop_round_up K hK NORM streams length channels volume data
    refine ⟨data', hd ▸ he, ?_⟩
    intro s hs
    have hle := mix_length_le_chunk streams length s hs
    rw [← hd]
    refine ⟨by omega, fun hdv => ?_⟩
    rw [h4 hdv]
    exact hle

theorem pa_sample_size_S16NE (B : Build) : pa_sample_size (PA_SAMPLE_S16NE B) = 2 := by
  unfold PA_SAMPLE_S16NE; split <;> rfl

/-! ## Muted samples -/

/-- C30. A muted stream's samples do not influence the mix: for S16NE and
for U8, a call of `pa_mix` on streams that differ from the given ones at most
in the bytes of samples whose channel volume of that stream is MUTED returns
the same length and the same destination memory, and the call returns. The
chunk length of every stream, muted or not, still bounds the returned length:
it is min(length, chunk lengths) brought to a multiple of the sample size, less
than one sample beyond the chunk length of each stream, and within it when
that minimum is a whole number of samples. -/
theorem pa_mix_muted_samples_ignored (B : Build) (streams streams' : List pa_mix_info)
    (data : Mem) (length : Nat) (spec : pa_sample_spec) (volume : Nat)
    (hfmt : spec.format = PA_SAMPLE_S16NE B ∨ spec.format = pa_sample_format.U8)
    (hlen : 0 < length)
    (h : List.Forall₂ (same_unmuted (pa_sample_size spec.format) spec.channels)
      streams streams') :
    pa_mix B streams' data length spec volume = pa_mix B streams data length spec volume ∧
    ∃ data', pa_mix B streams data length spec volume =
        some (mix_count (pa_sample_size spec.format) (mix_length streams length) *
          pa_sample_size spec.format, data') ∧
      ∀ s ∈ streams,
        mix_count (pa_sample_size spec.format) (mix_length streams length) *
          pa_sample_size spec.format < s.chunk.length + pa_sample_size spec.format ∧
        (pa_sample_size spec.format ∣ mix_length streams length →
          mix_count (pa_sample_size spec.format) (mix_length streams length) *
            pa_sample_size spec.format ≤ s.chunk.length) := by
  have hne : ¬ length = 0 := by omega
  by_cases h1 : spec.format = PA_SAMPLE_S16NE B
  · rw [h1, pa_sample_size_S16NE] at h ⊢
    simp only [pa_mix, if_neg hne, if_pos h1]
    exact pa_mix_loop_unmuted (s16ne_ops B) (s16ne_ops_lawful B) _ streams streams' length _
      volume data h
  · have h2 : spec.format = pa_sample_format.U8 := by tauto
    rw [h2] at h ⊢
    simp only [pa_mix, if_neg hne, if_neg h1, if_pos h2]
    exact pa_mix_loop_unmuted (u8_ops B) (u8_ops_lawful B) _ streams streams' length _
      volume data h

/-! ## Lengths that are not whole samples -/

/-- C21. The product of a sample with a channel volume is formed in 32 bits
and wraps: for the S16 sample `0x7FFF` at the channel volume `0x20000`, twice
the unit volume `0x10000`, with master volume NORM, `pa_mix` writes the sample
-2 (bytes FE FF), where the exact quotient 65534 saturates to `0x7FFF`; and
`pa_volume_memchunk` leaves the same bytes. In a build with the unit volume
`0x100` the same input gives -512 (bytes 00 FE) from both functions. -/
theorem pa_mix_volume_product_wraps :
    saturate (-0x8000) 0x7FFF (vol_scale ex_build.PA_VOLUME_NORM 0x20000 0x7FFF) = 0x7FFF ∧
    saturate (-0x8000) 0x7FFF (vol_scale ex_build_256.PA_VOLUME_NORM 0x20000 0x7FFF) =
      0x7FFF ∧
    stream_sample_s16 ex_build ex_boost 0 = 0x7FFF ∧
    ex_boost.volume.values 0 = 0x20000 ∧
    (pa_mix ex_build [ex_boost] (ex_mem []) 2 ⟨pa_sample_format.S16LE, 44100, 1⟩
        ex_build.PA_VOLUME_NORM).map (fun r => (r.1, bytes_of r.2 2)) =
      some (2, [0xFE, 0xFF]) ∧
    (pa_volume_memchunk ex_build ex_boost.chunk ⟨pa_sample_format.S16LE, 44100, 1⟩
        ex_boost.volume).map (fun c => bytes_of c.memblock.data 2) = some [0xFE, 0xFF] ∧
    load_s16 ex_build.WORDS_BIGENDIAN (ex_mem [0xFE, 0xFF]) 0 = -2 ∧
    (pa_mix ex_build_256 [ex_boost] (ex_mem []) 2 ⟨pa_sample_format.S16LE, 44100, 1⟩
        ex_build_256.PA_VOLUME_NORM).map (fun r => (r.1, bytes_of r.2 2)) =
      some (2, [0x00, 0xFE]) ∧
    (pa_volume_memchunk ex_build_256 ex_boost.chunk ⟨pa_sample_format.S16LE, 44100, 1⟩
        ex_boost.volume).map (fun c => bytes_of c.memblock.data 2) = some [0x00, 0xFE] ∧
    load_s16 ex_build_256.WORDS_BIGENDIAN (ex_mem [0x00, 0xFE]) 0 = -512 := by
  refine ⟨by decide, by decide, by decide, by decide, by decide, by decide, by decide,
    by decide, by decide, by decide⟩

/-! ## The master volume -/

/-- C2. The master volume is not applied per channel: the body of `pa_mix`
never reads `volume->values[channel]` but compares and multiplies the
parameter itself, one value for all channels. For one S16 stream of two
samples `0x2000` at unit volumes on 2 channels, the formula with the master
volumes [NORM, MUTED] gives the samples `0x2000` and 0; whatever value the
body takes for `volume`, `pa_mix` returns 4 and writes the same sample on
both channels, so never that pair. With the value NORM it writes
`0x2000, 0x2000`, with MUTED `0, 0`. -/
theorem pa_mix_master_volume_uniform :
    mix_exact ex_build.PA_VOLUME_NORM (ex_master.values (0 % 2))
      (s16_inputs ex_build [ex_flat] 2 0) = 0x2000 ∧
    mix_exact ex_build.PA_VOLUME_NORM (ex_master.values (1 % 2))
      (s16_inputs ex_build [ex_flat] 2 1) = 0 ∧
    (∀ volume : Nat, ∃ data',
      pa_mix ex_build [ex_flat] (ex_mem []) 4 ⟨pa_sample_format.S16LE, 44100, 2⟩ volume =
        some (4, data') ∧
      load_s16 ex_build.WORDS_BIGENDIAN data' 0 = load_s16 ex_build.WORDS_BIGENDIAN data' 2 ∧
      ¬ (load_s16 ex_build.WORDS_BIGENDIAN data' 0 = 0x2000 ∧
        load_s16 ex_build.WORDS_BIGENDIAN data' 2 = 0)) ∧
    (pa_mix ex_build [ex_flat] (ex_mem []) 4 ⟨pa_sample_format.S16LE, 44100, 2⟩
        ex_build.PA_VOLUME_NORM).map (fun r => (r.1, bytes_of r.2 4)) =
      some (4, [0x00, 0x20, 0x00, 0x20]) ∧
    (pa_mix ex_build [ex_flat] (ex_mem [7, 7, 7, 7]) 4 ⟨pa_sample_format.S16LE, 44100, 2⟩
        PA_VOLUME_MUTED).map (fun r => (r.1, bytes_of r.2 4)) = some (4, [0, 0, 0, 0]) := by
  refine ⟨by decide, by decide, ?_, by decide, by decide⟩
  intro volume
  have hm : pa_mix ex_build [ex_flat] (ex_mem []) 4 ⟨pa_sample_format.S16LE, 44100, 2⟩ volume =
      some (mix_count 2 (mix_length [ex_flat] 4) * 2,
        mix_image (s16ne_ops ex_build) ex_build.PA_VOLUME_NORM [ex_flat] 2 volume 0
          (mix_count 2 (mix_length [ex_flat] 4)) (ex_mem [])) :=
    pa_mix_s16ne ex_build [ex_flat] (ex_mem []) 4 ⟨pa_sample_format.S16LE, 44100, 2⟩ volume
      (by decide) rfl
  have hn : mix_count 2 (mix_length [ex_flat] 4) = 2 := by decide
  rw [hn] at hm
  have h0 := s16ne_image_sample ex_build [ex_flat] 2 volume 2 (ex_mem []) 0 (by decide)
  have h1 := s16ne_image_sample ex_build [ex_flat] 2 volume 2 (ex_mem []) 1 (by decide)
  have hs0 : mix_sum (s16ne_ops ex_build) ex_build.PA_VOLUME_NORM (0 * (s16ne_ops ex_build).size)
      (channel_at 2 0) [ex_flat] (s16ne_ops ex_build).zero = 0x2000 := by decide
  have hs1 : mix_sum (s16ne_ops ex_build) ex_build.PA_VOLUME_NORM (1 * (s16ne_ops ex_build).size)
      (channel_at 2 1) [ex_flat] (s16ne_ops ex_build).zero = 0x2000 := by decide
  have heq : load_s16 ex_build.WORDS_BIGENDIAN
        (mix_image (s16ne_ops ex_build) ex_build.PA_VOLUME_NORM [ex_flat] 2 volume 0 2
          (ex_mem [])) 0 =
      load_s16 ex_build.WORDS_BIGENDIAN
        (mix_image (s16ne_ops ex_build) ex_build.PA_VOLUME_NORM [ex_flat] 2 volume 0 2
          (ex_mem [])) 2 := by
    have h0' := h0
    have h1' := h1
    simp only [Nat.mul_zero, Nat.mul_one] at h0' h1'
    rw [h0', h1']
    unfold mix_out
    rw [hs0, hs1]
  refine ⟨_, hm, heq, ?_⟩
  intro hc
  rw [heq, hc.2] at hc
  exact absurd hc.1 (by decide)

/-! ## The clocked null sink: proofs -/

theorem wrap64_of_lt (n : Nat) (h : n < 18446744073709551616) : wrap64 (n : Int) = n := by
  unfold wrap64
  rw [Int.emod_eq_of_lt (by omega) (by omega)]
  rfl

theorem wrap64_lt (x : Int) : wrap64 x < 18446744073709551616 := by
  unfold wrap64
  have h1 := Int.emod_lt_of_pos x (show (0 : Int) < 18446744073709551616 by omega)
  have h2 := Int.emod_nonneg x (show (18446744073709551616 : Int) ≠ 0 by omega)
  omega

theorem wrap64_cast (x : Int) : ((wrap64 x : Nat) : Int) = x % 18446744073709551616 := by
  unfold wrap64
  have h2 := Int.emod_nonneg x (show (18446744073709551616 : Int) ≠ 0 by omega)
  omega

theorem wrap64_add (x y : Int) : wrap64 (((wrap64 x : Nat) : Int) + y) = wrap64 (x + y) := by
  rw [wrap64_cast]
  unfold wrap64
  congr 1
  omega

theorem wrap64_sub_of_le (a b : Nat) (hb : b ≤ a) (ha : a < 18446744073709551616) :
    wrap64 ((a : Int) - (b : Int)) = a - b := by
  have e : (a : Int) - (b : Int) = ((a - b : Nat) : Int) := by omega
  rw [e]
  exact wrap64_of_lt _ (by omega)

theorem render_calls_cons (nbytes : Nat) (c : pa_memchunk) (cs : List pa_memchunk) :
    render_calls nbytes (c :: cs) =
      [SinkCall.render nbytes c, SinkCall.unref c.memblock] ++ render_calls nbytes cs := by
  simp [render_calls]

theorem rendered_render_calls (nbytes : Nat) (cs : List pa_memchunk) :
    rendered (render_calls nbytes cs) = cs := by
  induction cs with
  | nil => rfl
  | cons c cs ih =>
    rw [render_calls_cons]
    show c :: rendered (render_calls nbytes cs) = c :: cs
    rw [ih]

theorem released_render_calls (nbytes : Nat) (cs : List pa_memchunk) :
    released (render_calls nbytes cs) = cs.map (fun c => c.memblock) := by
  induction cs with
  | nil => rfl
  | cons c cs ih =>
    rw [render_calls_cons]
    show c.memblock :: released (render_calls nbytes cs) = _
    rw [ih]
    rfl

/-- The loop of `process_render` when every rendered chunk has between 1 and
`nbytes` bytes: from a state with `ate < nbytes` and a budget of at least
`nbytes - ate` passes it ends. -/
theorem render_loop_spec {σ : Type} (S : SinkEnv σ) (now nbytes : Nat)
    (hchunk : ∀ w, 1 ≤ (S.pa_sink_render nbytes w).1.length ∧
      (S.pa_sink_render nbytes w).1.length ≤ nbytes) :
    ∀ (fuel : Nat) (u : userdata) (ate : Nat) (w : σ) (calls : List SinkCall),
      ate < nbytes → nbytes ≤ ate + fuel → u.timestamp < 18446744073709551616 →
      ∃ u' w' chunks,
        render_loop S now nbytes fuel u ate w calls =
          some (u', ate + chunks_bytes chunks, w', calls ++ render_calls nbytes chunks) ∧
        chunks.length + ate ≤ nbytes ∧
        (∀ c ∈ chunks, 1 ≤ c.length ∧ c.length ≤ nbytes) ∧
        u'.timestamp =
          wrap64 ((u.timestamp : Int) + (chunks_usec S u.sink.sample_spec chunks : Nat)) ∧
        u'.sink = u.sink ∧ u'.block_usec = u.block_usec ∧ u'.block_size = u.block_size ∧
        ate + chunks_bytes chunks < 2 * nbytes ∧
        (wrap64 ((now : Int) + (u.block_usec : Int)) ≤ u'.timestamp ∨
          nbytes ≤ ate + chunks_bytes chunks) := by
  intro fuel
  induction fuel with
  | zero => intro u ate w calls h1 h2; omega
  | succ fuel ih =>
    intro u ate w calls h1 h2 hts
    unfold render_loop
    by_cases ht : u.timestamp < wrap64 ((now : Int) + (u.block_usec : Int))
    · rw [if_pos ht]
      have hc := hchunk w
      by_cases hb : ate + (S.pa_sink_render nbytes w).1.length ≥ nbytes
      · simp only [if_pos hb]
        refine ⟨{ u with timestamp := wrap64 ((u.timestamp : Int) +
            (S.pa_bytes_to_usec (S.pa_sink_render nbytes w).1.length u.sink.sample_spec : Int)) },
          S.pa_memblock_unref (S.pa_sink_render nbytes w).1.memblock (S.pa_sink_render nbytes w).2,
          [(S.pa_sink_render nbytes w).1], ?_, ?_, ?_, ?_, rfl, rfl, rfl, ?_, ?_⟩
        · simp [chunks_bytes, render_calls]
        · simp only [List.length_singleton]; omega
        · intro c hcm
          rw [List.mem_singleton] at hcm
          rw [hcm]
          exact hc
        · simp [chunks_usec]
        · simp only [chunks_bytes, List.map_cons, List.map_nil, List.sum_cons, List.sum_nil]
          omega
        · right
          simp only [chunks_bytes, List.map_cons, List.map_nil, List.sum_cons, List.sum_nil]
          omega
      · simp only [if_neg hb]
        obtain ⟨u', w', chunks, he, hn, hcs, hts', hs, hbu, hbs, ha, hx⟩ :=
          ih { u with timestamp := wrap64 ((u.timestamp : Int) +
              (S.pa_bytes_to_usec (S.pa_sink_render nbytes w).1.length u.sink.sample_spec : Int)) }
            (ate + (S.pa_sink_render nbytes w).1.length)
            (S.pa_memblock_unref (S.pa_sink_render nbytes w).1.memblock
              (S.pa_sink_render nbytes w).2)
            (calls ++ [SinkCall.render nbytes (S.pa_sink_render nbytes w).1,
              SinkCall.unref (S.pa_sink_render nbytes w).1.memblock])
            (by omega) (by omega)
            (wrap64_lt ((u.timestamp : Int) +
              (S.pa_bytes_to_usec (S.pa_sink_render nbytes w).1.length u.sink.sample_spec : Int)))
        refine ⟨u', w', (S.pa_sink_render nbytes w).1 :: chunks, ?_, ?_, ?_, ?_, hs, hbu, hbs,
          ?_, ?_⟩
        · rw [he, render_calls_cons]
          simp only [chunks_bytes, List.map_cons, List.sum_cons, List.append_assoc, Nat.add_assoc]
        · simp only [List.length_cons]; omega
        · intro c hcm
          rcases List.mem_cons.1 hcm with hcm | hcm
          · rw [hcm]; exact hc
          · exact hcs c hcm
        · rw [hts']
          have e := wrap64_add ((u.timestamp : Int) +
              (S.pa_bytes_to_usec (S.pa_sink_render nbytes w).1.length u.sink.sample_spec : Int))
            (chunks_usec S u.sink.sample_spec chunks : Nat)
          refine e.trans ?_
          simp only [chunks_usec, List.map_cons, List.sum_cons, Nat.cast_add]
          congr 1
          omega
        · simp only [chunks_bytes, List.map_cons, List.sum_cons] at ha ⊢
          omega
        · simp only [chunks_bytes, List.map_cons, List.sum_cons] at hx ⊢
          rcases hx with hx | hx
          · left; exact hx
          · right; omega
    · rw [if_neg ht]
      refine ⟨u, w, [], ?_, ?_, ?_, ?_, rfl, rfl, rfl, ?_, ?_⟩
      · simp [chunks_bytes, render_calls]
      · simp only [List.length_nil]; omega
      · intro c hcm; cases hcm
      · simp only [chunks_usec, List.map_nil, List.sum_nil, Nat.cast_zero, add_zero]
        exact (wrap64_of_lt _ hts).symm
      · simp only [chunks_bytes, List.map_nil, List.sum_nil]; omega
      · left; omega

/-- A larger budget does not change a result of the loop of `process_render`. -/
theorem render_loop_mono {σ : Type} (S : SinkEnv σ) (now nbytes : Nat) :
    ∀ (fuel : Nat) (u : userdata) (ate : Nat) (w : σ) (calls : List SinkCall)
      (r : userdata × Nat × σ × List SinkCall),
      render_loop S now nbytes fuel u ate w calls = some r →
      ∀ fuel', fuel ≤ fuel' → render_loop S now nbytes fuel' u ate w calls = some r := by
  intro fuel
  induction fuel with
  | zero => intro u ate w calls r h; cases h
  | succ fuel ih =>
    intro u ate w calls r h fuel' hf
    obtain ⟨k, rfl⟩ : ∃ k, fuel' = k + 1 := ⟨fuel' - 1, by omega⟩
    unfold render_loop at h ⊢
    by_cases ht : u.timestamp < wrap64 ((now : Int) + (u.block_usec : Int))
    · rw [if_pos ht] at h ⊢
      by_cases hb : ate + (S.pa_sink_render nbytes w).1.length ≥ nbytes
      · simp only [if_pos hb] at h ⊢
        exact h
      · simp only [if_neg hb] at h ⊢
        exact ih _ _ _ _ _ h k (by omega)
    · rw [if_neg ht] at h ⊢
      exact h

/-- The conversions of the specification round down: what `pa_usec_to_bytes`
gives for a duration lasts no longer than the duration, and so does every
shorter byte count. -/
theorem pa_bytes_to_usec_le (spec : pa_sample_spec) (t n : Nat)
    (hn : n ≤ pa_usec_to_bytes t spec) (h0 : 0 < pa_usec_to_bytes t spec) :
    pa_bytes_to_usec n spec ≤ t := by
  unfold pa_usec_to_bytes at hn h0
  unfold pa_bytes_to_usec
  have hfs : 0 < pa_frame_size spec := by
    rcases Nat.eq_zero_or_pos (pa_frame_size spec) with h | h
    · rw [h, Nat.mul_zero] at h0; omega
    · exact h
  have hrate : 0 < spec.rate := by
    rcases Nat.eq_zero_or_pos spec.rate with h | h
    · rw [h, Nat.mul_zero, Nat.zero_div, Nat.zero_mul] at h0; omega
    · exact h
  have h1 : n / pa_frame_size spec ≤ t * spec.rate / 1000000 := by
    have := Nat.div_le_div_right (c := pa_frame_size spec) hn
    rwa [Nat.mul_div_cancel _ hfs] at this
  have h2 : n / pa_frame_size spec * 1000000 ≤ t * spec.rate :=
    le_trans (Nat.mul_le_mul_right _ h1) (Nat.div_mul_le_self _ _)
  exact (Nat.div_le_iff_le_mul_add_pred hrate).2 (by
    have : spec.rate * t = t * spec.rate := Nat.mul_comm _ _
    omega)

/-- The result of `process_rewind` on a request of `R > 0` bytes. -/
theorem process_rewind_eq {σ : Type} (S : SinkEnv σ) (u : userdata) (now : Nat) (w : σ)
    (hR : 0 < u.sink.rewind_nbytes) :
    process_rewind S u now w =
      if u.timestamp ≤ now ∨ S.pa_usec_to_bytes (u.timestamp - now) u.sink.sample_spec = 0 then
        some ({ u with sink := { u.sink with rewind_nbytes := 0 } }, w, [])
      else
        some ({ u with
            sink := { u.sink with rewind_nbytes := 0 },
            timestamp := wrap64 ((u.timestamp : Int) -
              (S.pa_bytes_to_usec (min u.sink.rewind_nbytes
                (S.pa_usec_to_bytes (u.timestamp - now) u.sink.sample_spec))
                u.sink.sample_spec : Nat)) },
          S.pa_sink_process_rewind (min u.sink.rewind_nbytes
            (S.pa_usec_to_bytes (u.timestamp - now) u.sink.sample_spec)) w,
          [SinkCall.process_rewind (min u.sink.rewind_nbytes
            (S.pa_usec_to_bytes (u.timestamp - now) u.sink.sample_spec))]) := by
  unfold process_rewind
  have h0 : ¬ ¬ u.sink.rewind_nbytes > 0 := by omega
  simp only [if_neg h0]
  by_cases h1 : u.timestamp ≤ now
  · rw [if_pos h1, if_pos (Or.inl h1)]
  · rw [if_neg h1]
    by_cases h2 : S.pa_usec_to_bytes (u.timestamp - now) u.sink.sample_spec ≤ 0
    · rw [if_pos h2, if_pos (Or.inr (Nat.le_zero.1 h2))]
    · have h3 : ¬ (u.timestamp ≤ now ∨
          S.pa_usec_to_bytes (u.timestamp - now) u.sink.sample_spec = 0) := by
        intro h
        rcases h with h | h
        · exact h1 h
        · exact h2 (Nat.le_of_eq h)
      rw [if_neg h2, if_neg h3]
      have hm : (if u.sink.rewind_nbytes >
            S.pa_usec_to_bytes (u.timestamp - now) u.sink.sample_spec
          then S.pa_usec_to_bytes (u.timestamp - now) u.sink.sample_spec
          else u.sink.rewind_nbytes) =
          min u.sink.rewind_nbytes
            (S.pa_usec_to_bytes (u.timestamp - now) u.sink.sample_spec) := by
        split <;> omega
      simp only [hm]

/-! ## Rewinding -/

/-- C24. For every requested rewind R > 0, `process_rewind` returns and has
reset the sink's `rewind_nbytes` to 0 on every path. If timestamp ≤ now or
usec_to_bytes(timestamp - now) = 0 it calls nothing, so rewinds nothing, and
leaves the timestamp unchanged. Otherwise it makes exactly one call, the rewind
of the sink by n = min(R, usec_to_bytes(timestamp - now)) bytes, and sets the
timestamp to timestamp - bytes_to_usec(n) in the arithmetic of `pa_usec_t`,
which is the exact difference when bytes_to_usec(n) ≤ timestamp. With R = 8192
and 17640 bytes buffered it rewinds exactly 8192 bytes. -/
theorem process_rewind_spec {σ : Type} (S : SinkEnv σ) (u : userdata) (now : Nat) (w : σ)
    (hR : 0 < u.sink.rewind_nbytes) :
    ∃ u' w' calls, process_rewind S u now w = some (u', w', calls) ∧
      u'.sink.rewind_nbytes = 0 ∧ u'.sink.sample_spec = u.sink.sample_spec ∧
      u'.block_usec = u.block_usec ∧ u'.block_size = u.block_size ∧
      (u.timestamp ≤ now ∨ S.pa_usec_to_bytes (u.timestamp - now) u.sink.sample_spec = 0 →
        calls = [] ∧ w' = w ∧ u'.timestamp = u.timestamp) ∧
      (now < u.timestamp →
        S.pa_usec_to_bytes (u.timestamp - now) u.sink.sample_spec ≠ 0 →
        calls = [SinkCall.process_rewind (min u.sink.rewind_nbytes
          (S.pa_usec_to_bytes (u.timestamp - now) u.sink.sample_spec))] ∧
        w' = S.pa_sink_process_rewind (min u.sink.rewind_nbytes
          (S.pa_usec_to_bytes (u.timestamp - now) u.sink.sample_spec)) w ∧
        u'.timestamp = wrap64 ((u.timestamp : Int) -
          (S.pa_bytes_to_usec (min u.sink.rewind_nbytes
            (S.pa_usec_to_bytes (u.timestamp - now) u.sink.sample_spec))
            u.sink.sample_spec : Nat)) ∧
        (S.pa_bytes_to_usec (min u.sink.rewind_nbytes
            (S.pa_usec_to_bytes (u.timestamp - now) u.sink.sample_spec))
            u.sink.sample_spec ≤ u.timestamp →
          u.timestamp < 18446744073709551616 →
          u'.timestamp = u.timestamp - S.pa_bytes_to_usec (min u.sink.rewind_nbytes
            (S.pa_usec_to_bytes (u.timestamp - now) u.sink.sample_spec))
            u.sink.sample_spec) ∧
        (u.sink.rewind_nbytes = 8192 →
          S.pa_usec_to_bytes (u.timestamp - now) u.sink.sample_spec = 17640 →
          calls = [SinkCall.process_rewind 8192])) := by
  rw [process_rewind_eq S u now w hR]
  by_cases hc : u.timestamp ≤ now ∨
      S.pa_usec_to_bytes (u.timestamp - now) u.sink.sample_spec = 0
  · rw [if_pos hc]
    refine ⟨_, _, _, rfl, rfl, rfl, rfl, rfl, fun _ => ⟨rfl, rfl, rfl⟩, fun h1 h2 => ?_⟩
    rcases hc with hc | hc
    · omega
    · exact absurd hc h2
  · rw [if_neg hc]
    refine ⟨_, _, _, rfl, rfl, rfl, rfl, rfl, fun h => absurd h hc, fun _ _ => ?_⟩
    refine ⟨rfl, rfl, rfl, fun hle hts => wrap64_sub_of_le _ _ hle hts, fun h1 h2 => ?_⟩
    rw [h1, h2]
    rfl

/-- C31. A rewind never moves the virtual timestamp behind the clock. With
conversions that round down to whole frames (frames = floor(usec*rate/10^6),
usec = floor(frames*10^6/rate)), for every R > 0, every timestamp of
`pa_usec_t` and every now, `process_rewind` returns; the timestamp afterwards
is at least min(timestamp, now) and at most the timestamp before, and at
least now when the timestamp was ahead of now. The duration subtracted for a
rewind of n bytes is at most timestamp - now, so the subtraction does not
underflow and the new timestamp is the exact difference. -/
theorem process_rewind_not_behind_clock {σ : Type} (S : SinkEnv σ) (u : userdata)
    (now : Nat) (w : σ)
    (hto : ∀ t spec, S.pa_usec_to_bytes t spec = pa_usec_to_bytes t spec)
    (hfrom : ∀ n spec, S.pa_bytes_to_usec n spec = pa_bytes_to_usec n spec)
    (hR : 0 < u.sink.rewind_nbytes) (hts : u.timestamp < 18446744073709551616) :
    ∃ u' w' calls, process_rewind S u now w = some (u', w', calls) ∧
      min u.timestamp now ≤ u'.timestamp ∧ u'.timestamp ≤ u.timestamp ∧
      (now < u.timestamp → now ≤ u'.timestamp) ∧
      ∀ n, calls = [SinkCall.process_rewind n] →
        pa_bytes_to_usec n u.sink.sample_spec ≤ u.timestamp - now ∧
        u'.timestamp = u.timestamp - pa_bytes_to_usec n u.sink.sample_spec := by
  rw [process_rewind_eq S u now w hR]
  by_cases hc : u.timestamp ≤ now ∨
      S.pa_usec_to_bytes (u.timestamp - now) u.sink.sample_spec = 0
  · rw [if_pos hc]
    refine ⟨_, _, _, rfl, Nat.min_le_left _ _, Nat.le_refl _, fun h => ?_, fun n h => ?_⟩
    · show now ≤ u.timestamp
      omega
    · cases h
  · rw [if_neg hc]
    have hlt : now < u.timestamp := by
      by_contra h
      exact hc (Or.inl (by omega))
    have hpos : 0 < pa_usec_to_bytes (u.timestamp - now) u.sink.sample_spec := by
      rw [← hto]
      rcases Nat.eq_zero_or_pos
        (S.pa_usec_to_bytes (u.timestamp - now) u.sink.sample_spec) with h | h
      · exact absurd (Or.inr h) hc
      · exact h
    have hle := pa_bytes_to_usec_le u.sink.sample_spec (u.timestamp - now)
      (min u.sink.rewind_nbytes (pa_usec_to_bytes (u.timestamp - now) u.sink.sample_spec))
      (Nat.min_le_right _ _) hpos
    have hval : wrap64 ((u.timestamp : Int) -
        (S.pa_bytes_to_usec (min u.sink.rewind_nbytes
          (S.pa_usec_to_bytes (u.timestamp - now) u.sink.sample_spec))
          u.sink.sample_spec : Nat)) =
        u.timestamp - pa_bytes_to_usec (min u.sink.rewind_nbytes
          (pa_usec_to_bytes (u.timestamp - now) u.sink.sample_spec)) u.sink.sample_spec := by
      rw [hfrom, hto]
      exact wrap64_sub_of_le _ _ (by omega) hts
    refine ⟨_, _, _, rfl, ?_, ?_, fun _ => ?_, fun n h => ?_⟩
    · show min u.timestamp now ≤ wrap64 _
      rw [hval]
      have := Nat.min_le_right u.timestamp now
      omega
    · show wrap64 _ ≤ u.timestamp
      rw [hval]
      omega
    · show now ≤ wrap64 _
      rw [hval]
      omega
    · have hn : n = min u.sink.rewind_nbytes
          (pa_usec_to_bytes (u.timestamp - now) u.sink.sample_spec) := by
        rw [← hto]
        simp only [List.cons.injEq, SinkCall.process_rewind.injEq, and_true] at h
        exact h.symm
      rw [hn]
      exact ⟨hle, hval⟩

/-! ## Rendering -/

/-- C25. With nbytes = usec_to_bytes(block_usec), if every chunk that the
sink renders has a length between 1 and nbytes, then `process_render` ends
within nbytes passes of its loop (every budget of at least nbytes passes gives
the same result). Its calls are, for each rendered chunk in turn, the render
of nbytes and the release of the block of that chunk, so every rendered chunk
is released exactly once; there are at most nbytes renders. The timestamp has
advanced by the sum of bytes_to_usec(chunk.length) over the rendered chunks, in
the arithmetic of `pa_usec_t`; the consumed byte count is the sum of the chunk
lengths and is below 2*nbytes; and on return timestamp ≥ now + block_usec (as
`pa_usec_t`) or the consumed byte count is ≥ nbytes. -/
theorem process_render_spec {σ : Type} (S : SinkEnv σ) (fuel : Nat) (u : userdata)
    (now : Nat) (w : σ)
    (hchunk : ∀ w, 1 ≤ (S.pa_sink_render
        (S.pa_usec_to_bytes u.block_usec u.sink.sample_spec) w).1.length ∧
      (S.pa_sink_render (S.pa_usec_to_bytes u.block_usec u.sink.sample_spec) w).1.length ≤
        S.pa_usec_to_bytes u.block_usec u.sink.sample_spec)
    (hfuel : S.pa_usec_to_bytes u.block_usec u.sink.sample_spec ≤ fuel)
    (hts : u.timestamp < 18446744073709551616) :
    ∃ u' w' chunks,
      process_render S fuel u now w =
        some (u', chunks_bytes chunks, w',
          render_calls (S.pa_usec_to_bytes u.block_usec u.sink.sample_spec) chunks) ∧
      process_render S (S.pa_usec_to_bytes u.block_usec u.sink.sample_spec) u now w =
        process_render S fuel u now w ∧
      chunks.length ≤ S.pa_usec_to_bytes u.block_usec u.sink.sample_spec ∧
      rendered (render_calls (S.pa_usec_to_bytes u.block_usec u.sink.sample_spec) chunks) =
        chunks ∧
      released (render_calls (S.pa_usec_to_bytes u.block_usec u.sink.sample_spec) chunks) =
        chunks.map (fun c => c.memblock) ∧
      u'.timestamp =
        wrap64 ((u.timestamp : Int) + (chunks_usec S u.sink.sample_spec chunks : Nat)) ∧
      (u.timestamp + chunks_usec S u.sink.sample_spec chunks < 18446744073709551616 →
        u'.timestamp = u.timestamp + chunks_usec S u.sink.sample_spec chunks) ∧
      chunks_bytes chunks < 2 * S.pa_usec_to_bytes u.block_usec u.sink.sample_spec ∧
      (wrap64 ((now : Int) + (u.block_usec : Int)) ≤ u'.timestamp ∨
        S.pa_usec_to_bytes u.block_usec u.sink.sample_spec ≤ chunks_bytes chunks) := by
  have hpos : 0 < S.pa_usec_to_bytes u.block_usec u.sink.sample_spec := by
    have := hchunk w
    omega
  obtain ⟨u', w', chunks, he, hn, _, hts', _, _, _, ha, hx⟩ :=
    render_loop_spec S now _ hchunk fuel u 0 w [] hpos (by omega) hts
  obtain ⟨u₂, w₂, chunks₂, he₂, _⟩ :=
    render_loop_spec S now _ hchunk (S.pa_usec_to_bytes u.block_usec u.sink.sample_spec)
      u 0 w [] hpos (by omega) hts
  simp only [Nat.zero_add, List.nil_append, Nat.add_zero] at he he₂ hn ha hx
  refine ⟨u', w', chunks, he, ?_, hn, rendered_render_calls _ _, released_render_calls _ _,
    hts', fun hno => ?_, ha, hx⟩
  · unfold process_render
    rw [render_loop_mono S now _ _ u 0 w [] _ he₂ fuel hfuel, he₂]
  · rw [hts']
    have e : (u.timestamp : Int) + (chunks_usec S u.sink.sample_spec chunks : Nat) =
        ((u.timestamp + chunks_usec S u.sink.sample_spec chunks : Nat) : Int) := by
      push_cast; rfl
    rw [e]
    exact wrap64_of_lt _ hno

/-! ## Messages of the sink -/

/-- C26. For every timestamp and every clock value now, the handler of
`PA_SINK_MESSAGE_GET_LATENCY` stores timestamp - now when timestamp > now and
0 otherwise, which is max(0, timestamp - now) and never an underflowed
difference; it returns 0, makes no call into the generic handler, and leaves
the timestamp and the world unchanged. The handler of
`PA_SINK_MESSAGE_SET_STATE` sets the timestamp to now exactly when the new
state is `PA_SINK_RUNNING`, leaves it unchanged for every other state, and
then returns what the generic handler returns. -/
theorem sink_process_msg_spec {σ : Type} (S : SinkEnv σ) (u : userdata) (data : Nat)
    (offset : Int) (chunk : Option pa_memchunk) (w : σ)
    (hcodes : S.PA_SINK_MESSAGE_SET_STATE ≠ S.PA_SINK_MESSAGE_GET_LATENCY) :
    ((sink_process_msg S u S.PA_SINK_MESSAGE_GET_LATENCY data offset chunk w).stored =
        some (if u.timestamp > S.pa_rtclock_usec w then u.timestamp - S.pa_rtclock_usec w
          else 0) ∧
      (∀ x, (sink_process_msg S u S.PA_SINK_MESSAGE_GET_LATENCY data offset chunk w).stored =
          some x →
        (x : Int) = max 0 ((u.timestamp : Int) - (S.pa_rtclock_usec w : Int)) ∧
        x ≤ u.timestamp) ∧
      (sink_process_msg S u S.PA_SINK_MESSAGE_GET_LATENCY data offset chunk w).ret = 0 ∧
      (sink_process_msg S u S.PA_SINK_MESSAGE_GET_LATENCY data offset chunk w).calls = [] ∧
      (sink_process_msg S u S.PA_SINK_MESSAGE_GET_LATENCY data offset chunk w).u = u ∧
      (sink_process_msg S u S.PA_SINK_MESSAGE_GET_LATENCY data offset chunk w).w = w) ∧
    ((sink_process_msg S u S.PA_SINK_MESSAGE_SET_STATE data offset chunk w).u.timestamp =
        (if data = S.PA_SINK_RUNNING then S.pa_rtclock_usec w else u.timestamp) ∧
      (data = S.PA_SINK_RUNNING →
        (sink_process_msg S u S.PA_SINK_MESSAGE_SET_STATE data offset chunk w).u.timestamp =
          S.pa_rtclock_usec w) ∧
      (data ≠ S.PA_SINK_RUNNING →
        (sink_process_msg S u S.PA_SINK_MESSAGE_SET_STATE data offset chunk w).u = u) ∧
      (sink_process_msg S u S.PA_SINK_MESSAGE_SET_STATE data offset chunk w).stored = none ∧
      (sink_process_msg S u S.PA_SINK_MESSAGE_SET_STATE data offset chunk w).calls =
        [SinkCall.process_msg S.PA_SINK_MESSAGE_SET_STATE data offset] ∧
      (sink_process_msg S u S.PA_SINK_MESSAGE_SET_STATE data offset chunk w).ret =
        (S.pa_sink_process_msg S.PA_SINK_MESSAGE_SET_STATE data offset chunk w).1) := by
  have hne : ¬ S.PA_SINK_MESSAGE_GET_LATENCY = S.PA_SINK_MESSAGE_SET_STATE :=
    fun h => hcodes h.symm
  have e1 : sink_process_msg S u S.PA_SINK_MESSAGE_GET_LATENCY data offset chunk w =
      { ret := 0, u := u,
        stored := some (if u.timestamp > S.pa_rtclock_usec w
          then u.timestamp - S.pa_rtclock_usec w else 0),
        w := w, calls := [] } := by
    unfold sink_process_msg
    rw [if_neg hne, if_pos rfl]
  have e2 : sink_process_msg S u S.PA_SINK_MESSAGE_SET_STATE data offset chunk w =
      sink_process_msg_generic S
        (if data = S.PA_SINK_RUNNING then { u with timestamp := S.pa_rtclock_usec w } else u)
        S.PA_SINK_MESSAGE_SET_STATE data offset chunk w := by
    unfold sink_process_msg
    rw [if_pos rfl]
  rw [e1, e2]
  refine ⟨⟨rfl, ?_, rfl, rfl, rfl, rfl⟩, ?_, ?_, ?_, rfl, rfl, rfl⟩
  · intro x hx
    have hx' := Option.some.inj hx
    rw [← hx']
    split <;> omega
  · show (if data = S.PA_SINK_RUNNING then _ else u).timestamp = _
    split <;> rfl
  · intro h
    show (if data = S.PA_SINK_RUNNING then _ else u).timestamp = _
    rw [if_pos h]
  · intro h
    show (if data = S.PA_SINK_RUNNING then _ else u) = u
    rw [if_neg h]

/-! ## What every phase of a run keeps: proofs -/

/-- The backward loop keeps what every call of an `after_cb` of a live item
keeps. -/
theorem unwind_all {σ : Type} (E : Env σ) (I : RunState σ → Prop)
    (hafter : ∀ (s : RunState σ) (i : pa_rtpoll_item) (fn : Nat) (k : Int) (s1 : RunState σ),
      i ∈ s.p.items → i.dead = false → i.after_cb = some fn → I s →
      invoke E fn i.id s = some (k, s1) →
      I { s1 with trace := s1.trace ++ [Event.after i.id] }) :
    ∀ (j : Nat) (s : RunState σ), I s → ends_in_state I (unwind E j s) := by
  intro j
  induction j with
  | zero => intro s hI; exact hI
  | succ j ih =>
    intro s hI
    simp only [unwind]
    cases hget : s.p.items[j]? with
    | none => exact ih s hI
    | some i =>
      simp only []
      cases hdead : i.dead
      · simp only [Bool.false_eq_true, if_false]
        cases ha : i.after_cb with
        | none => exact ih s hI
        | some fn =>
          simp only []
          cases hi : invoke E fn i.id s with
          | none => exact True.intro
          | some ks =>
            obtain ⟨k, s1⟩ := ks
            exact ih _ (hafter s i fn k s1 (List.getElem?_mem hget) hdead ha hI hi)
      · simp only [if_true]
        exact ih s hI

/-- The third loop keeps what every call of an `after_cb` of a live item
keeps. -/
theorem after_loop_all {σ : Type} (E : Env σ) (I : RunState σ → Prop)
    (hafter : ∀ (s : RunState σ) (i : pa_rtpoll_item) (fn : Nat) (k : Int) (s1 : RunState σ),
      i ∈ s.p.items → i.dead = false → i.after_cb = some fn → I s →
      invoke E fn i.id s = some (k, s1) →
      I { s1 with trace := s1.trace ++ [Event.after i.id] }) :
    ∀ (n idx : Nat) (s : RunState σ), I s → ends_in_state I (after_loop E n idx s) := by
  intro n
  induction n with
  | zero => intro idx s hI; exact hI
  | succ n ih =>
    intro idx s hI
    simp only [after_loop]
    cases hget : s.p.items[idx]? with
    | none => exact hI
    | some i =>
      simp only []
      by_cases hp : i.priority < E.PA_RTPOLL_NEVER
      · simp only [hp, not_true_eq_false, if_false]
        cases hdead : i.dead
        · simp only [Bool.false_eq_true, if_false]
          cases ha : i.after_cb with
          | none => exact ih _ s hI
          | some fn =>
            simp only []
            cases hi : invoke E fn i.id s with
            | none => exact True.intro
            | some ks =>
              obtain ⟨k, s1⟩ := ks
              exact ih _ _ (hafter s i fn k s1 (List.getElem?_mem hget) hdead ha hI hi)
        · simp only [if_true]
          exact ih _ s hI
      · simp only [hp, not_false_eq_true, if_true]
        exact hI

/-- The first loop, however it ends, keeps what every call of a `work_cb` of
a live item keeps. -/
theorem work_loop_all {σ : Type} (E : Env σ) (I : RunState σ → Prop)
    (hwork : ∀ (s : RunState σ) (i : pa_rtpoll_item) (fn : Nat) (k : Int) (s1 : RunState σ),
      i ∈ s.p.items → i.dead = false → i.work_cb = some fn → I s →
      invoke E fn i.id s = some (k, s1) →
      I { s1 with trace := s1.trace ++ [Event.work i.id k] }) :
    ∀ (n idx : Nat) (s : RunState σ), I s → (work_loop E n idx s).ends_in I := by
  intro n
  induction n with
  | zero => intro idx s hI; exact hI
  | succ n ih =>
    intro idx s hI
    simp only [work_loop]
    cases hget : s.p.items[idx]? with
    | none => exact hI
    | some i =>
      simp only []
      by_cases hp : i.priority < E.PA_RTPOLL_NEVER
      · simp only [hp, not_true_eq_false, if_false]
        cases hdead : i.dead
        · simp only [Bool.false_eq_true, if_false]
          cases hw : i.work_cb with
          | none => exact ih _ s hI
          | some fn =>
            simp only []
            cases hq : s.p.quit
            · simp only [Bool.false_eq_true, if_false]
              cases hi : invoke E fn i.id s with
              | none => exact True.intro
              | some ks =>
                obtain ⟨k, s1⟩ := ks
                have hs1 := hwork s i fn k s1 (List.getElem?_mem hget) hdead hw hI hi
                simp only []
                by_cases hk : k = 0
                · simp only [hk, ne_eq, not_true_eq_false, if_false]
                  rw [hk] at hs1
                  exact ih _ _ hs1
                · simp only [ne_eq, hk, not_false_eq_true, if_true]
                  exact hs1
            · simp only [if_true]
              exact hI
        · simp only [if_true]
          exact ih _ s hI
      · simp only [hp, not_false_eq_true, if_true]
        exact hI

/-- The second loop, however it ends, keeps what every call of a `before_cb`
and of an `after_cb` of a live item keeps. -/
theorem before_loop_all {σ : Type} (E : Env σ) (I : RunState σ → Prop)
    (hbefore : ∀ (s : RunState σ) (i : pa_rtpoll_item) (fn : Nat) (k : Int) (s1 : RunState σ),
      i ∈ s.p.items → i.dead = false → i.before_cb = some fn → I s →
      invoke E fn i.id s = some (k, s1) →
      I { s1 with trace := s1.trace ++ [Event.before i.id k] })
    (hafter : ∀ (s : RunState σ) (i : pa_rtpoll_item) (fn : Nat) (k : Int) (s1 : RunState σ),
      i ∈ s.p.items → i.dead = false → i.after_cb = some fn → I s →
      invoke E fn i.id s = some (k, s1) →
      I { s1 with trace := s1.trace ++ [Event.after i.id] }) :
    ∀ (n idx : Nat) (s : RunState σ), I s → (before_loop E n idx s).ends_in I := by
  intro n
  induction n with
  | zero => intro idx s hI; exact hI
  | succ n ih =>
    intro idx s hI
    simp only [before_loop]
    cases hget : s.p.items[idx]? with
    | none => exact hI
    | some i =>
      simp only []
      by_cases hp : i.priority < E.PA_RTPOLL_NEVER
      · simp only [hp, not_true_eq_false, if_false]
        cases hdead : i.dead
        · simp only [Bool.false_eq_true, if_false]
          cases hw : i.before_cb with
          | none => exact ih _ s hI
          | some fn =>
            simp only []
            cases hq : s.p.quit
            · simp only [Bool.false_eq_true, if_false]
              cases hi : invoke E fn i.id s with
              | none => exact True.intro
              | some ks =>
                obtain ⟨k, s1⟩ := ks
                have hs1 := hbefore s i fn k s1 (List.getElem?_mem hget) hdead hw hI hi
                simp only []
                by_cases hk : k = 0
                · simp only [hk, ne_eq, not_true_eq_false, if_false]
                  rw [hk] at hs1
                  exact ih _ _ hs1
                · simp only [ne_eq, hk, not_false_eq_true, if_true]
                  have hu := unwind_all E I hafter idx _ hs1
                  cases hun : unwind E idx
                      { p := s1.p, w := s1.w, trace := s1.trace ++ [Event.before i.id k] } with
                  | none => exact True.intro
                  | some s3 =>
                    rw [hun] at hu
                    exact hu
            · simp only [if_true]
              have hu := unwind_all E I hafter idx s hI
              cases hun : unwind E idx s with
              | none => exact True.intro
              | some s3 =>
                rw [hun] at hu
                exact hu
        · simp only [if_true]
          exact ih _ s hI
      · simp only [hp, not_false_eq_true, if_true]
        exact hI

/-- A run ends at the label `finish` in a state that satisfies whatever the
entry state satisfies and every call of a hook of a live item and the sleep
keep. -/
theorem pa_rtpoll_run_all {σ : Type} (E : Env σ) (I : RunState σ → Prop) (wait_op : Bool)
    (hwork : ∀ (s : RunState σ) (i : pa_rtpoll_item) (fn : Nat) (k : Int) (s1 : RunState σ),
      i ∈ s.p.items → i.dead = false → i.work_cb = some fn → I s →
      invoke E fn i.id s = some (k, s1) →
      I { s1 with trace := s1.trace ++ [Event.work i.id k] })
    (hbefore : ∀ (s : RunState σ) (i : pa_rtpoll_item) (fn : Nat) (k : Int) (s1 : RunState σ),
      i ∈ s.p.items → i.dead = false → i.before_cb = some fn → I s →
      invoke E fn i.id s = some (k, s1) →
      I { s1 with trace := s1.trace ++ [Event.before i.id k] })
    (hafter : ∀ (s : RunState σ) (i : pa_rtpoll_item) (fn : Nat) (k : Int) (s1 : RunState σ),
      i ∈ s.p.items → i.dead = false → i.after_cb = some fn → I s →
      invoke E fn i.id s = some (k, s1) →
      I { s1 with trace := s1.trace ++ [Event.after i.id] })
    (hpoll : ∀ (s : RunState σ) (r : Int) (s1 : RunState σ), I s →
      run_poll E wait_op s = some (r, s1) → I s1)
    (p : pa_rtpoll) (w : σ) (hentry : I (run_entry p w))
    (out : Int × pa_rtpoll × σ × List Event) (h : pa_rtpoll_run E p w wait_op = some out) :
    ∃ r s, out = run_finish r s ∧ I s := by
  unfold pa_rtpoll_run at h
  cases hrun : p.running
  · simp only [hrun, Bool.false_eq_true, if_false] at h
    have hw := work_loop_all E I hwork p.items.length 0 (run_entry p w) hentry
    change (work_loop E p.items.length 0
      { p := { p with running := true, timer_elapsed := false }, w := w, trace := [] }).ends_in I
      at hw
    cases hwl : work_loop E p.items.length 0
        { p := { p with running := true, timer_elapsed := false }, w := w, trace := [] } with
    | fail => rw [hwl] at h; exact absurd h (by simp)
    | finish r s =>
      rw [hwl] at h hw
      simp only [Option.some.injEq] at h
      exact ⟨r, s, h.symm, hw⟩
    | proceed s =>
      rw [hwl] at h hw
      simp only [] at h
      have hb := before_loop_all E I hbefore hafter s.p.items.length 0 s hw
      cases hbl : before_loop E s.p.items.length 0 s with
      | fail => rw [hbl] at h; exact absurd h (by simp)
      | finish r s2 =>
        rw [hbl] at h hb
        simp only [Option.some.injEq] at h
        exact ⟨r, s2, h.symm, hb⟩
      | proceed s2 =>
        rw [hbl] at h hb
        simp only [] at h
        cases hpl : run_poll E wait_op s2 with
        | none => rw [hpl] at h; exact absurd h (by simp)
        | some rs =>
          obtain ⟨r, s3⟩ := rs
          rw [hpl] at h
          simp only [] at h
          have h3 := hpoll s2 r s3 hb hpl
          have ha := after_loop_all E I hafter s3.p.items.length 0 s3 h3
          cases hal : after_loop E s3.p.items.length 0 s3 with
          | none => rw [hal] at h; exact absurd h (by simp)
          | some s4 =>
            rw [hal] at h ha
            simp only [Option.some.injEq] at h
            exact ⟨r, s4, h.symm, ha⟩
  · simp only [hrun, if_true] at h
    exact absurd h (by simp)

/-! ## The flag `timer_elapsed` -/

theorem perform_timer_elapsed {σ : Type} (E : Env σ) (w : σ) (p p' : pa_rtpoll) (a : Action)
    (h : perform E w p a = some p') : p'.timer_elapsed = p.timer_elapsed := by
  cases a with
  | item_free id =>
    simp only [perform, pa_rtpoll_item_free, Option.some.injEq] at h
    subst h
    split
    · rfl
    · split <;> rfl
  | quit =>
    simp only [perform, pa_rtpoll_quit, Option.some.injEq] at h
    subst h
    rfl
  | set_timer_absolute usec =>
    simp only [perform, pa_rtpoll_set_timer_absolute, Option.some.injEq] at h
    subst h
    rfl
  | set_timer_relative usec =>
    simp only [perform, pa_rtpoll_set_timer_relative] at h
    split at h
    · simp only [Option.some.injEq] at h
      subst h
      rfl
    · exact absurd h (by simp)
  | set_timer_disabled =>
    simp only [perform, pa_rtpoll_set_timer_disabled, Option.some.injEq] at h
    subst h
    rfl

theorem perform_all_timer_elapsed {σ : Type} (E : Env σ) (w : σ) (acts : List Action) :
    ∀ (p p' : pa_rtpoll), perform_all E w p acts = some p' →
      p'.timer_elapsed = p.timer_elapsed := by
  induction acts with
  | nil =>
    intro p p' h
    simp only [perform_all, Option.some.injEq] at h
    subst h; rfl
  | cons a rest ih =>
    intro p p' h
    simp only [perform_all] at h
    cases h1 : perform E w p a with
    | none => rw [h1] at h; exact absurd h (by simp)
    | some p1 =>
      rw [h1] at h
      exact (ih p1 p' h).trans (perform_timer_elapsed E w p p1 a h1)

/-- No callback changes the flag `timer_elapsed`. -/
theorem invoke_timer_elapsed {σ : Type} (E : Env σ) (fn id : Nat) (s s' : RunState σ) (k : Int)
    (h : invoke E fn id s = some (k, s')) : s'.p.timer_elapsed = s.p.timer_elapsed :=
  perform_all_timer_elapsed E _ _ s.p s'.p (invoke_perform E fn id s s' k h)

theorem rtpoll_rebuild_timer_elapsed (p q : pa_rtpoll) (h : rtpoll_rebuild p = some q) :
    q.timer_elapsed = p.timer_elapsed := by
  unfold rtpoll_rebuild at h
  by_cases hc : p.n_pollfd_used > p.n_pollfd_alloc
  · simp only [hc, if_true] at h
    split at h
    · simp only [Option.some.injEq] at h
      subst h; rfl
    · exact absurd h (by simp)
  · simp only [hc, if_false] at h
    split at h
    · simp only [Option.some.injEq] at h
      subst h; rfl
    · exact absurd h (by simp)

theorem reset_revents_timer_elapsed (p p' : pa_rtpoll) (id : Nat)
    (h : reset_revents p id = some p') : p'.timer_elapsed = p.timer_elapsed := by
  unfold reset_revents at h
  cases hg : pa_rtpoll_item_get_pollfd p id with
  | none => rw [hg] at h; exact absurd h (by simp)
  | some r =>
    obtain ⟨q, o, n⟩ := r
    rw [hg] at h
    have hq : q.timer_elapsed = p.timer_elapsed := by
      rcases get_pollfd_cases p q id o n hg with e | e
      · rw [e]
      · exact rtpoll_rebuild_timer_elapsed p q e
    cases o with
    | none =>
      simp only [Option.some.injEq] at h
      rw [← h]; exact hq
    | some off =>
      simp only [Option.some.injEq] at h
      rw [← h]; exact hq

theorem reset_all_revents_timer_elapsed : ∀ (n idx : Nat) (p p' : pa_rtpoll),
    reset_all_revents n idx p = some p' → p'.timer_elapsed = p.timer_elapsed := by
  intro n
  induction n with
  | zero =>
    intro idx p p' h
    simp only [reset_all_revents, Option.some.injEq] at h
    rw [← h]
  | succ n ih =>
    intro idx p p' h
    simp only [reset_all_revents] at h
    cases hget : p.items[idx]? with
    | none =>
      rw [hget] at h
      simp only [Option.some.injEq] at h
      rw [← h]
    | some i =>
      rw [hget] at h
      simp only [] at h
      cases hd : i.dead
      · simp only [hd, Bool.false_eq_true, if_false] at h
        cases hr : reset_revents p i.id with
        | none => rw [hr] at h; exact absurd h (by simp)
        | some p1 =>
          rw [hr] at h
          exact (ih _ p1 p' h).trans (reset_revents_timer_elapsed p p1 i.id hr)
      · simp only [hd, if_true] at h
        exact ih _ p p' h

theorem sweep_timer_elapsed (L : List pa_rtpoll_item) :
    ∀ q : pa_rtpoll,
      (L.foldl (fun q i => if i.dead then rtpoll_item_destroy q i else q) q).timer_elapsed =
        q.timer_elapsed := by
  induction L with
  | nil => intro q; rfl
  | cons i rest ih =>
    intro q
    simp only [List.foldl_cons]
    rw [ih]
    split <;> rfl

/-- The label `finish` leaves the flag `timer_elapsed` alone. -/
theorem run_finish_timer_elapsed {σ : Type} (r : Int) (s : RunState σ) :
    (run_finish r s).2.1.timer_elapsed = s.p.timer_elapsed := by
  unfold run_finish
  simp only []
  split
  · exact sweep_timer_elapsed _ _
  · rfl

/-- The sleep sets the flag `timer_elapsed` from the value that the system
call returned. -/
theorem run_poll_timer_elapsed {σ : Type} (E : Env σ) (wait_op : Bool) (s s1 : RunState σ)
    (r : Int) (h : run_poll E wait_op s = some (r, s1)) :
    ∃ q, (if s.p.rebuild_needed then rtpoll_rebuild s.p else some s.p) = some q ∧
      s1.p.timer_elapsed =
        decide ((E.poll (sleep_array q) (poll_timeout E wait_op q s.w) s.w).1.r = 0) := by
  unfold run_poll at h
  cases hq : (if s.p.rebuild_needed then rtpoll_rebuild s.p else some s.p) with
  | none => rw [hq] at h; exact absurd h (by simp)
  | some q =>
    rw [hq] at h
    simp only [] at h
    refine ⟨q, rfl, ?_⟩
    by_cases hneg : (E.poll ((List.range q.n_pollfd_used).map q.pollfd)
        (poll_timeout E wait_op q s.w) s.w).1.r < 0
    · rw [if_pos hneg] at h
      split at h
      · exact absurd h (by simp)
      · rename_i p' hp'
        simp only [Option.some.injEq, Prod.mk.injEq] at h
        rw [← h.2]
        exact reset_all_revents_timer_elapsed _ _ _ p' hp'
    · rw [if_neg hneg] at h
      simp only [Option.some.injEq, Prod.mk.injEq] at h
      rw [← h.2]
      rfl

/-- After a run the flag `timer_elapsed` says whether the system call of the
run, if the run made it, returned 0. -/
theorem pa_rtpoll_run_timer {σ : Type} (E : Env σ) (p : pa_rtpoll) (w : σ) (wait_op : Bool)
    (out : Int × pa_rtpoll × σ × List Event) (h : pa_rtpoll_run E p w wait_op = some out) :
    (poll_report E p w wait_op = none → out.2.1.timer_elapsed = false) ∧
    (∀ res, poll_report E p w wait_op = some res →
      out.2.1.timer_elapsed = decide (res.r = 0)) := by
  have hkw : ∀ b : Bool, ∀ (s : RunState σ) (i : pa_rtpoll_item) (fn : Nat) (k : Int)
      (s1 : RunState σ) (e : Event), invoke E fn i.id s = some (k, s1) →
      s.p.timer_elapsed = b →
      ({ s1 with trace := s1.trace ++ [e] } : RunState σ).p.timer_elapsed = b := by
    intro b s i fn k s1 e hi hb
    exact (invoke_timer_elapsed E fn i.id s s1 k hi).trans hb
  unfold pa_rtpoll_run at h
  cases hrun : p.running
  · simp only [hrun, Bool.false_eq_true, if_false] at h
    have hw := work_loop_all E (fun s => s.p.timer_elapsed = false)
      (fun s i fn k s1 _ _ _ hI hi => hkw false s i fn k s1 _ hi hI)
      p.items.length 0 (run_entry p w) rfl
    change (work_loop E p.items.length 0
      { p := { p with running := true, timer_elapsed := false }, w := w, trace := [] }).ends_in _
      at hw
    have hsl : sleep_state E p w =
        match work_loop E p.items.length 0
          { p := { p with running := true, timer_elapsed := false }, w := w, trace := [] } with
        | .proceed s =>
          match before_loop E s.p.items.length 0 s with
          | .proceed s =>
            match (if s.p.rebuild_needed then rtpoll_rebuild s.p else some s.p) with
            | some q => some { s with p := q }
            | none => none
          | _ => none
        | _ => none := by
      unfold sleep_state
      rw [hrun]
      rfl
    unfold poll_report
    rw [hsl]
    cases hwl : work_loop E p.items.length 0
        { p := { p with running := true, timer_elapsed := false }, w := w, trace := [] } with
    | fail => rw [hwl] at h; exact absurd h (by simp)
    | finish r s =>
      rw [hwl] at h hw
      simp only [Option.some.injEq] at h
      rw [← h]
      refine ⟨fun _ => (run_finish_timer_elapsed r s).trans hw, fun res hres => ?_⟩
      simp at hres
    | proceed s =>
      rw [hwl] at h hw
      simp only [] at h ⊢
      have hb := before_loop_all E (fun s => s.p.timer_elapsed = false)
        (fun s i fn k s1 _ _ _ hI hi => hkw false s i fn k s1 _ hi hI)
        (fun s i fn k s1 _ _ _ hI hi => hkw false s i fn k s1 _ hi hI)
        s.p.items.length 0 s hw
      cases hbl : before_loop E s.p.items.length 0 s with
      | fail => rw [hbl] at h; exact absurd h (by simp)
      | finish r s2 =>
        rw [hbl] at h hb
        simp only [Option.some.injEq] at h
        rw [← h]
        refine ⟨fun _ => (run_finish_timer_elapsed r s2).trans hb, fun res hres => ?_⟩
        simp at hres
      | proceed s2 =>
        rw [hbl] at h hb
        simp only [] at h ⊢
        cases hpl : run_poll E wait_op s2 with
        | none => rw [hpl] at h; exact absurd h (by simp)
        | some rs =>
          obtain ⟨r, s3⟩ := rs
          rw [hpl] at h
          simp only [] at h
          obtain ⟨q, hq, ht⟩ := run_poll_timer_elapsed E wait_op s2 s3 r hpl
          have ha := after_loop_all E (fun s => s.p.timer_elapsed = s3.p.timer_elapsed)
            (fun s i fn k s1 _ _ _ hI hi => hkw _ s i fn k s1 _ hi hI)
            s3.p.items.length 0 s3 rfl
          cases hal : after_loop E s3.p.items.length 0 s3 with
          | none => rw [hal] at h; exact absurd h (by simp)
          | some s4 =>
            rw [hal] at h ha
            simp only [Option.some.injEq] at h
            rw [← h, hq]
            refine ⟨fun hn => by simp at hn, fun res hres => ?_⟩
            simp only [Option.map_some', Option.some.injEq] at hres
            rw [← hres]
            exact ((run_finish_timer_elapsed r s4).trans ha).trans ht
  · simp only [hrun, if_true] at h
    exact absurd h (by simp)

/-- A run either made no system call, and then its trace has no entry of one,
or made it, and then the trace has the entry and the returned value follows
from the value of the call. -/
theorem run_shape_poll {σ : Type} (E : Env σ) (p : pa_rtpoll) (w : σ) (wait_op : Bool)
    (out : Int × pa_rtpoll × σ × List Event) (h : run_shape E p w wait_op out) :
    (poll_report E p w wait_op = none ∧ ∀ e ∈ out.2.2.2, e.is_poll = false) ∨
    ∃ res, poll_report E p w wait_op = some res ∧ (∃ e ∈ out.2.2.2, e.is_poll = true) ∧
      out.1 = if poll_value E res < 0 then poll_value E res
        else if out.2.1.quit then 0 else 1 := by
  obtain ⟨r0, s, hfin, _, hshape⟩ := h
  obtain ⟨_, htr, hq, _, _, hr, _⟩ := run_finish_spec r0 s
  rw [hfin, htr, hq, hr]
  rcases hshape with ⟨hsl, ev, tail, hs, hz, htail⟩ |
    ⟨hsl, wev, bev, mid, aev, hs, hz, hbz, ha, hmid⟩ |
    ⟨sl, wev, bev, aev, hsl, _, _, hs, hz, hbz, ha, hr0⟩
  · left
    refine ⟨by simp [poll_report, hsl], ?_⟩
    intro e he
    rw [hs] at he
    rcases List.mem_append.1 he with h | h
    · obtain ⟨_, rfl⟩ := hz e h; rfl
    · rcases htail with ⟨ht, _⟩ | ⟨_, _, ht, _⟩
      · rw [ht] at h; exact absurd h (List.not_mem_nil _)
      · rw [ht] at h
        rw [List.mem_singleton.1 h]; rfl
  · left
    refine ⟨by simp [poll_report, hsl], ?_⟩
    intro e he
    rw [hs] at he
    simp only [List.mem_append] at he
    rcases he with ((h | h) | h) | h
    · obtain ⟨_, rfl⟩ := hz e h; rfl
    · obtain ⟨_, rfl⟩ := hbz e h; rfl
    · rcases hmid with ⟨ht, _⟩ | ⟨_, _, ht, _⟩
      · rw [ht] at h; exact absurd h (List.not_mem_nil _)
      · rw [ht] at h
        rw [List.mem_singleton.1 h]; rfl
    · obtain ⟨_, rfl⟩ := ha e h; rfl
  · right
    refine ⟨(E.poll (sleep_array sl.p) (poll_timeout E wait_op sl.p sl.w) sl.w).1,
      by simp only [poll_report, hsl, Option.map_some'], ?_, by rw [hr0]⟩
    refine ⟨Event.poll sl.p.n_pollfd_used (poll_timeout E wait_op sl.p sl.w), ?_, rfl⟩
    rw [hs]
    simp

/-- C28. After a `pa_rtpoll_run` (entered with the rtpoll not running, a
right descriptor count and callbacks whose API calls pass their assertions;
the run then returns) `pa_rtpoll_timer_elapsed` is true if and only if poll was
called in that run and its raw return value was 0. Poll was called exactly in
the runs whose trace has the poll. The flag is false after every run without
the poll (the early exits: a hook returned non-zero, or quit was seen before
poll); it is false when poll returned a negative value, also for EAGAIN and
EINTR, where the run goes on as after a wake-up without events and returns 1,
or 0 under quit; and it is true when poll returned 0, whatever the wait flag
and the timer. -/
theorem pa_rtpoll_run_timer_elapsed {σ : Type} (E : Env σ) (p : pa_rtpoll) (w : σ)
    (wait_op : Bool) (hrun : p.running = false) (hsafe : calls_safe E)
    (hcount : p.n_pollfd_used = (p.items.map (fun i => i.n_pollfd)).sum) :
    ∃ r p' w' trace, pa_rtpoll_run E p w wait_op = some (r, p', w', trace) ∧
      (pa_rtpoll_timer_elapsed p' = true ↔
        (∃ e ∈ trace, e.is_poll = true) ∧
          ∃ res, poll_report E p w wait_op = some res ∧ res.r = 0) ∧
      ((∃ e ∈ trace, e.is_poll = true) ↔ (poll_report E p w wait_op).isSome = true) ∧
      ((∀ e ∈ trace, e.is_poll = false) → pa_rtpoll_timer_elapsed p' = false) ∧
      (∀ res, poll_report E p w wait_op = some res → res.r < 0 →
        pa_rtpoll_timer_elapsed p' = false ∧
        (res.errno = E.EAGAIN ∨ res.errno = E.EINTR → r = if p'.quit then 0 else 1)) ∧
      (∀ res, poll_report E p w wait_op = some res → res.r = 0 →
        pa_rtpoll_timer_elapsed p' = true ∧ r = if p'.quit then 0 else 1) := by
  obtain ⟨out, hout, hshape⟩ := pa_rtpoll_run_total E p w wait_op hrun hsafe hcount
  obtain ⟨hnone, hsome⟩ := pa_rtpoll_run_timer E p w wait_op out hout
  refine ⟨out.1, out.2.1, out.2.2.1, out.2.2.2, hout, ?_⟩
  unfold pa_rtpoll_timer_elapsed
  rcases run_shape_poll E p w wait_op out hshape with ⟨hrep, hno⟩ | ⟨res, hrep, hyes, hval⟩
  · have hf := hnone hrep
    have hnoex : ¬ ∃ e ∈ out.2.2.2, e.is_poll = true := by
      intro ⟨e, he, hp⟩
      rw [hno e he] at hp
      exact absurd hp (by simp)
    rw [hrep]
    refine ⟨?_, ?_, fun _ => hf, ?_, ?_⟩
    · rw [hf]
      constructor
      · intro hc; exact absurd hc (by simp)
      · intro hc; exact absurd hc.1 hnoex
    · constructor
      · intro hc; exact absurd hc hnoex
      · intro hc; exact absurd hc (by simp)
    · intro res hres; exact absurd hres (by simp)
    · intro res hres; exact absurd hres (by simp)
  · have ht := hsome res hrep
    rw [hrep]
    refine ⟨?_, ?_, ?_, ?_, ?_⟩
    · rw [ht]
      constructor
      · intro hc
        exact ⟨hyes, res, rfl, of_decide_eq_true hc⟩
      · intro hc
        obtain ⟨_, res', hres', hr'⟩ := hc
        rw [Option.some.inj hres']
        exact decide_eq_true hr'
    · constructor
      · intro _; rfl
      · intro _; exact hyes
    · intro hall
      obtain ⟨e, he, hp⟩ := hyes
      rw [hall e he] at hp
      exact absurd hp (by simp)
    · intro res' hres' hneg
      have e := Option.some.inj hres'
      subst e
      refine ⟨?_, fun herr => ?_⟩
      · rw [ht]
        exact decide_eq_false (by omega)
      · rw [hval]
        have hv : poll_value E res = 0 := by
          unfold poll_value
          rw [if_pos hneg, if_pos herr]
        rw [hv]
        simp
    · intro res' hres' hz
      have e := Option.some.inj hres'
      subst e
      refine ⟨?_, ?_⟩
      · rw [ht]
        exact decide_eq_true hz
      · rw [hval]
        have hv : poll_value E res = 0 := by
          unfold poll_value
          rw [if_neg (by omega)]
          exact hz
        rw [hv]
        simp

/-! ## The read side of the message queue: proofs -/

theorem perform_keeps_quit {σ : Type} (E : Env σ) (w : σ) (p p' : pa_rtpoll) (a : Action)
    (ha : a ≠ Action.quit) (h : perform E w p a = some p') : p'.quit = p.quit := by
  cases a with
  | item_free id =>
    simp only [perform, pa_rtpoll_item_free, Option.some.injEq] at h
    subst h
    split
    · rfl
    · split <;> rfl
  | quit => exact absurd rfl ha
  | set_timer_absolute usec =>
    simp only [perform, pa_rtpoll_set_timer_absolute, Option.some.injEq] at h
    subst h
    rfl
  | set_timer_relative usec =>
    simp only [perform, pa_rtpoll_set_timer_relative] at h
    split at h
    · simp only [Option.some.injEq] at h
      subst h
      rfl
    · exact absurd h (by simp)
  | set_timer_disabled =>
    simp only [perform, pa_rtpoll_set_timer_disabled, Option.some.injEq] at h
    subst h
    rfl

/-- API calls other than `pa_rtpoll_quit` leave the quit flag as it is. -/
theorem perform_all_keeps_quit {σ : Type} (E : Env σ) (w : σ) (acts : List Action) :
    ∀ (p p' : pa_rtpoll), (∀ a ∈ acts, a ≠ Action.quit) → perform_all E w p acts = some p' →
      p'.quit = p.quit := by
  induction acts with
  | nil =>
    intro p p' _ h
    simp only [perform_all, Option.some.injEq] at h
    subst h; rfl
  | cons a rest ih =>
    intro p p' hq h
    simp only [perform_all] at h
    cases h1 : perform E w p a with
    | none => rw [h1] at h; exact absurd h (by simp)
    | some p1 =>
      rw [h1] at h
      exact (ih p1 p' (fun b hb => hq b (List.mem_cons_of_mem _ hb)) h).trans
        (perform_keeps_quit E w p p1 a (hq a (List.mem_cons_self _ _)) h1)

/-- The hook on the request to shut down. -/
theorem asyncmsgq_read_work_shutdown {σ : Type} (M : MsgEnv σ) (i : pa_rtpoll_item) (w : σ)
    (h : shutdown_next M i.userdata w) :
    asyncmsgq_read_work M i w =
      ((1, [Action.quit]),
        M.pa_asyncmsgq_done i.userdata 0 (M.pa_asyncmsgq_get i.userdata w).2,
        [MsgCall.get i.userdata, MsgCall.done i.userdata 0]) := by
  unfold asyncmsgq_read_work
  simp only [h.1, if_true, h.2.1, h.2.2, and_self]

/-- The first loop passes the items that are dead or have no `work_cb`. -/
theorem work_loop_skip {σ : Type} (E : Env σ) (s : RunState σ) :
    ∀ (k idx n : Nat),
      (∀ j, j < k → ∃ i, s.p.items[idx + j]? = some i ∧ i.priority < E.PA_RTPOLL_NEVER ∧
        (i.dead = true ∨ i.work_cb = none)) →
      work_loop E (k + n) idx s = work_loop E n (idx + k) s := by
  intro k
  induction k with
  | zero => intro idx n _; simp
  | succ k ih =>
    intro idx n h
    obtain ⟨i, hget, hp, hskip⟩ := h 0 (by omega)
    have e : k + 1 + n = (k + n) + 1 := by omega
    rw [e]
    simp only [work_loop]
    rw [Nat.add_zero] at hget
    rw [hget]
    simp only [hp, not_true_eq_false, if_false]
    have hrest : work_loop E (k + n) (idx + 1) s = work_loop E n (idx + (k + 1)) s := by
      have := ih (idx + 1) n (by
        intro j hj
        have := h (j + 1) (by omega)
        rwa [show idx + (j + 1) = idx + 1 + j by omega] at this)
      rw [this]
      congr 1
      omega
    rcases hskip with hd | hw
    · simp only [hd, if_true]
      exact hrest
    · cases hd : i.dead
      · simp only [Bool.false_eq_true, if_false, hw]
        exact hrest
      · simp only [if_true]
        exact hrest

/-- The first loop at a live read item whose queue holds the request to shut
down: the hook is called, requests quit and returns 1, and the loop leaves for
`finish` with `r = 0`. -/
theorem work_loop_shutdown {σ : Type} (E : Env σ) (M : MsgEnv σ) (n idx : Nat)
    (s : RunState σ) (i : pa_rtpoll_item) (fn : Nat)
    (hget : s.p.items[idx]? = some i) (hp : i.priority < E.PA_RTPOLL_NEVER)
    (hlive : i.dead = false) (hw : i.work_cb = some fn) (hq : s.p.quit = false)
    (hfn : is_read_work E M fn i) (hnext : shutdown_next M i.userdata s.w) :
    work_loop E (n + 1) idx s =
      Outcome.finish 0
        { p := pa_rtpoll_quit s.p,
          w := M.pa_asyncmsgq_done i.userdata 0 (M.pa_asyncmsgq_get i.userdata s.w).2,
          trace := s.trace ++ [Event.work i.id 1] } := by
  have hcb := hfn s.p s.w
  rw [asyncmsgq_read_work_shutdown M i s.w hnext] at hcb
  have hinv : invoke E fn i.id s = some (1,
      { p := pa_rtpoll_quit s.p,
        w := M.pa_asyncmsgq_done i.userdata 0 (M.pa_asyncmsgq_get i.userdata s.w).2,
        trace := s.trace }) := by
    unfold invoke
    rw [hcb]
    rfl
  simp only [work_loop]
  rw [hget]
  simp only [hp, not_true_eq_false, if_false, hlive, Bool.false_eq_true, hw, hq, hinv]
  rfl

/-- C23. The work hook of the read item, `asyncmsgq_read_work`, calls `done`
exactly once for every message it gets and not at all when the queue is empty,
where it returns 0. For a message with null target and the code
`PA_MESSAGE_SHUTDOWN` it calls `done` with 0, does not dispatch the message,
calls `pa_rtpoll_quit`, which sets the quit flag, and returns 1; the first loop
of a run that calls the hook in this situation leaves for `finish` with r = 0,
so the run returns 0. For every other message it dispatches the message, hands
the result of the dispatch to `done`, makes no API call of its own (the quit
flag stays as it is unless the handler of the message requests quit) and
returns 1. -/
theorem asyncmsgq_read_work_spec {σ : Type} (E : Env σ) (M : MsgEnv σ) (i : pa_rtpoll_item)
    (fn : Nat) (hfn : is_read_work E M fn i) :
    (∀ w : σ,
      ((asyncmsgq_read_work M i w).2.2.filter MsgCall.is_done).length =
        (if (M.pa_asyncmsgq_get i.userdata w).1.1 = 0 then 1 else 0) ∧
      ((M.pa_asyncmsgq_get i.userdata w).1.1 ≠ 0 →
        asyncmsgq_read_work M i w =
          ((0, []), (M.pa_asyncmsgq_get i.userdata w).2, [MsgCall.get i.userdata])) ∧
      (shutdown_next M i.userdata w →
        asyncmsgq_read_work M i w =
          ((1, [Action.quit]),
            M.pa_asyncmsgq_done i.userdata 0 (M.pa_asyncmsgq_get i.userdata w).2,
            [MsgCall.get i.userdata, MsgCall.done i.userdata 0]) ∧
        (asyncmsgq_read_work M i w).2.2.filter MsgCall.is_dispatch = [] ∧
        ∀ p, perform_all E (asyncmsgq_read_work M i w).2.1 p (asyncmsgq_read_work M i w).1.2 =
            some (pa_rtpoll_quit p) ∧ (pa_rtpoll_quit p).quit = true) ∧
      ((M.pa_asyncmsgq_get i.userdata w).1.1 = 0 →
        ¬ ((M.pa_asyncmsgq_get i.userdata w).1.2.object = none ∧
          (M.pa_asyncmsgq_get i.userdata w).1.2.code = M.PA_MESSAGE_SHUTDOWN) →
        asyncmsgq_read_work M i w =
          ((1, (M.pa_asyncmsgq_dispatch (M.pa_asyncmsgq_get i.userdata w).1.2
              (M.pa_asyncmsgq_get i.userdata w).2).1.2),
            M.pa_asyncmsgq_done i.userdata
              (M.pa_asyncmsgq_dispatch (M.pa_asyncmsgq_get i.userdata w).1.2
                (M.pa_asyncmsgq_get i.userdata w).2).1.1
              (M.pa_asyncmsgq_dispatch (M.pa_asyncmsgq_get i.userdata w).1.2
                (M.pa_asyncmsgq_get i.userdata w).2).2,
            [MsgCall.get i.userdata,
              MsgCall.dispatch (M.pa_asyncmsgq_get i.userdata w).1.2,
              MsgCall.done i.userdata
                (M.pa_asyncmsgq_dispatch (M.pa_asyncmsgq_get i.userdata w).1.2
                  (M.pa_asyncmsgq_get i.userdata w).2).1.1]) ∧
        ∀ p p', (∀ a ∈ (asyncmsgq_read_work M i w).1.2, a ≠ Action.quit) →
          perform_all E (asyncmsgq_read_work M i w).2.1 p (asyncmsgq_read_work M i w).1.2 =
            some p' → p'.quit = p.quit)) ∧
    (∀ (n idx : Nat) (s : RunState σ), s.p.items[idx]? = some i →
      i.priority < E.PA_RTPOLL_NEVER → i.dead = false → i.work_cb = some fn →
      s.p.quit = false → shutdown_next M i.userdata s.w →
      ∃ s', work_loop E (n + 1) idx s = Outcome.finish 0 s' ∧ s'.p.quit = true ∧
        s'.trace = s.trace ++ [Event.work i.id 1] ∧
        s'.w = M.pa_asyncmsgq_done i.userdata 0 (M.pa_asyncmsgq_get i.userdata s.w).2 ∧
        (run_finish 0 s').1 = 0 ∧ (run_finish 0 s').2.1.quit = true) ∧
    (∀ (p : pa_rtpoll) (w : σ) (wait_op : Bool) (idx : Nat), p.running = false →
      p.quit = false → p.items[idx]? = some i → i.priority < E.PA_RTPOLL_NEVER →
      i.dead = false → i.work_cb = some fn →
      (∀ j, j < idx → ∃ i', p.items[j]? = some i' ∧ i'.priority < E.PA_RTPOLL_NEVER ∧
        (i'.dead = true ∨ i'.work_cb = none)) →
      shutdown_next M i.userdata w →
      ∃ p', pa_rtpoll_run E p w wait_op =
          some (0, p', M.pa_asyncmsgq_done i.userdata 0 (M.pa_asyncmsgq_get i.userdata w).2,
            [Event.work i.id 1]) ∧
        p'.quit = true) := by
  have hpos : ∀ (n idx : Nat) (s : RunState σ), s.p.items[idx]? = some i →
      i.priority < E.PA_RTPOLL_NEVER → i.dead = false → i.work_cb = some fn →
      s.p.quit = false → shutdown_next M i.userdata s.w →
      ∃ s', work_loop E (n + 1) idx s = Outcome.finish 0 s' ∧ s'.p.quit = true ∧
        s'.trace = s.trace ++ [Event.work i.id 1] ∧
        s'.w = M.pa_asyncmsgq_done i.userdata 0 (M.pa_asyncmsgq_get i.userdata s.w).2 ∧
        (run_finish 0 s').1 = 0 ∧ (run_finish 0 s').2.1.quit = true := by
    intro n idx s hget hp hlive hw hq hnext
    refine ⟨_, work_loop_shutdown E M n idx s i fn hget hp hlive hw hq hfn hnext, rfl, rfl, rfl,
      ?_, ?_⟩
    · obtain ⟨_, _, _, _, _, hr, _⟩ := run_finish_spec (0 : Int)
        ({ p := pa_rtpoll_quit s.p,
           w := M.pa_asyncmsgq_done i.userdata 0 (M.pa_asyncmsgq_get i.userdata s.w).2,
           trace := s.trace ++ [Event.work i.id 1] } : RunState σ)
      rw [hr]
      rfl
    · obtain ⟨_, _, hqf, _⟩ := run_finish_spec (0 : Int)
        ({ p := pa_rtpoll_quit s.p,
           w := M.pa_asyncmsgq_done i.userdata 0 (M.pa_asyncmsgq_get i.userdata s.w).2,
           trace := s.trace ++ [Event.work i.id 1] } : RunState σ)
      rw [hqf]
      rfl
  refine ⟨?_, hpos, ?_⟩
  · intro w
    refine ⟨?_, ?_, ?_, ?_⟩
    · unfold asyncmsgq_read_work
      by_cases h0 : (M.pa_asyncmsgq_get i.userdata w).1.1 = 0
      · simp only [h0, if_true]
        split <;> rfl
      · simp only [h0, if_false]
        rfl
    · intro h0
      unfold asyncmsgq_read_work
      simp only [h0, if_false]
    · intro hnext
      have e := asyncmsgq_read_work_shutdown M i w hnext
      rw [e]
      exact ⟨rfl, rfl, fun p => ⟨rfl, rfl⟩⟩
    · intro h0 hns
      have e : asyncmsgq_read_work M i w =
          ((1, (M.pa_asyncmsgq_dispatch (M.pa_asyncmsgq_get i.userdata w).1.2
              (M.pa_asyncmsgq_get i.userdata w).2).1.2),
            M.pa_asyncmsgq_done i.userdata
              (M.pa_asyncmsgq_dispatch (M.pa_asyncmsgq_get i.userdata w).1.2
                (M.pa_asyncmsgq_get i.userdata w).2).1.1
              (M.pa_asyncmsgq_dispatch (M.pa_asyncmsgq_get i.userdata w).1.2
                (M.pa_asyncmsgq_get i.userdata w).2).2,
            [MsgCall.get i.userdata,
              MsgCall.dispatch (M.pa_asyncmsgq_get i.userdata w).1.2,
              MsgCall.done i.userdata
                (M.pa_asyncmsgq_dispatch (M.pa_asyncmsgq_get i.userdata w).1.2
                  (M.pa_asyncmsgq_get i.userdata w).2).1.1]) := by
        unfold asyncmsgq_read_work
        simp only [h0, if_true, hns, if_false]
      rw [e]
      exact ⟨rfl, fun p p' hq hp => perform_all_keeps_quit E _ _ p p' hq hp⟩
  · intro p w wait_op idx hrun hq hget hp hlive hw hskip hnext
    have hlt : idx < p.items.length := by
      by_contra hc
      rw [List.getElem?_eq_none (by omega)] at hget
      exact absurd hget (by simp)
    have hsk := work_loop_skip E (run_entry p w) idx 0 (p.items.length - idx - 1 + 1) (by
      intro j hj
      rw [Nat.zero_add]
      exact hskip j hj)
    obtain ⟨s', hs', hq', htr, hw', hr, hqf⟩ :=
      hpos (p.items.length - idx - 1) (0 + idx) (run_entry p w)
        (by rw [Nat.zero_add]; exact hget) hp hlive hw hq hnext
    have hlen : idx + (p.items.length - idx - 1 + 1) = p.items.length := by omega
    rw [hlen] at hsk
    obtain ⟨hfw, hft, _⟩ := run_finish_spec (0 : Int) s'
    refine ⟨(run_finish 0 s').2.1, ?_, hqf⟩
    unfold pa_rtpoll_run
    simp only [hrun, Bool.false_eq_true, if_false]
    change (match work_loop E p.items.length 0 (run_entry p w) with
      | .fail => none
      | .finish r s => some (run_finish r s)
      | .proceed s => _) = _
    rw [hsk, hs']
    simp only [Option.some.injEq]
    refine Prod.ext hr (Prod.ext rfl (Prod.ext ?_ ?_))
    · exact hfw.trans hw'
    · exact hft.trans htr

/-! ## Freed items: proofs -/

theorem during_self (p : pa_rtpoll) (h : p.running = true) : during p p :=
  ⟨same_cells_refl _, rfl, h, id⟩

/-- A call of `pa_rtpoll_item_free` among the API calls of a callback of a
running rtpoll leaves every item at that address marked dead. -/
theorem perform_all_frees {σ : Type} (E : Env σ) (w : σ) (id : Nat) (acts : List Action) :
    ∀ (p p' : pa_rtpoll), p.running = true → Action.item_free id ∈ acts →
      perform_all E w p acts = some p' → ∀ i ∈ p'.items, i.id = id → i.dead = true := by
  induction acts with
  | nil => intro p p' _ hm; exact absurd hm (List.not_mem_nil _)
  | cons a rest ih =>
    intro p p' hr hm h
    simp only [perform_all] at h
    cases h1 : perform E w p a with
    | none => rw [h1] at h; exact absurd h (by simp)
    | some p1 =>
      rw [h1] at h
      have hr1 := (perform_keeps_rebuild E w p p1 a hr h1).2
      rcases List.mem_cons.1 hm with hm | hm
      · have hd := perform_all_during E w p1 rest p1 p' (during_self p1 hr1) h
        have hp1 : ∀ i ∈ p1.items, i.id = id → i.dead = true := by
          rw [← hm] at h1
          simp only [perform, pa_rtpoll_item_free, hr, if_true, Option.some.injEq] at h1
          rw [← h1]
          intro i hi hid
          simp only [List.mem_map] at hi
          obtain ⟨j, _, hj⟩ := hi
          by_cases hjid : j.id = id
          · rw [if_pos hjid] at hj
            rw [← hj]
          · rw [if_neg hjid] at hj
            rw [← hj] at hid
            exact absurd hid hjid
        intro i' hi' hid'
        obtain ⟨i, hi, hc⟩ := same_cells_mem hd.1 i' hi'
        exact hc.2.2.2.2.2.2 (hp1 i hi (hc.1 ▸ hid'))
      · exact ih p1 p' hr1 hm h

/-- One more entry of the trace keeps `freed_stays`: the item stays marked
dead, a call that frees it leaves it marked dead, and while it is marked dead
the new entry is not one of its hooks. -/
theorem freed_stays_step {σ : Type} (E : Env σ) (items : List pa_rtpoll_item) (id : Nat)
    (s s1 : RunState σ) (e : Event) (hI : freed_stays E items id s)
    (hd : during s.p s1.p) (htr : s1.trace = s.trace ++ [e])
    (hfree : frees E items id e → ∀ i ∈ s1.p.items, i.id = id → i.dead = true)
    (hother : (∀ i ∈ s.p.items, i.id = id → i.dead = true) → e.item ≠ some id) :
    freed_stays E items id s1 := by
  intro T1 e0 T2 hsplit hf
  rw [htr] at hsplit
  rcases List.eq_nil_or_concat T2 with hT | ⟨T2', x, hT⟩
  · subst hT
    have e1 : s.trace ++ [e] = (T1 ++ [e0]) := by rw [hsplit]
    have e2 := List.append_inj' e1 rfl
    have e3 : e = e0 := by
      have := e2.2
      simp only [List.cons.injEq, and_true] at this
      exact this
    subst e3
    exact ⟨hfree hf, fun e' he' => absurd he' (List.not_mem_nil _)⟩
  · subst hT
    have e1 : s.trace ++ [e] = (T1 ++ e0 :: T2') ++ [x] := by
      rw [hsplit]; simp
    have e2 := List.append_inj' e1 rfl
    have e3 : e = x := by
      have := e2.2
      simp only [List.cons.injEq, and_true] at this
      exact this
    subst e3
    obtain ⟨hdead, hnone⟩ := hI T1 e0 T2' e2.1 hf
    refine ⟨?_, ?_⟩
    · intro i' hi' hid'
      obtain ⟨i, hi, hc⟩ := same_cells_mem hd.1 i' hi'
      exact hc.2.2.2.2.2.2 (hdead i hi (hc.1 ▸ hid'))
    · intro e' he'
      rw [List.concat_eq_append] at he'
      rcases List.mem_append.1 he' with h | h
      · exact hnone e' h
      · rw [List.mem_singleton.1 h]
        exact hother hdead

/-- The call of a hook of a live item keeps `freed_stays`, provided the entry
that records it frees the item only if the API calls of the callback do. -/
theorem freed_stays_invoke {σ : Type} (E : Env σ) (p0 : pa_rtpoll) (id : Nat)
    (s s1 : RunState σ) (i : pa_rtpoll_item) (fn : Nat) (k : Int) (e : Event)
    (hi : i ∈ s.p.items) (hlive : i.dead = false) (he : e.item = some i.id)
    (hI : during p0 s.p ∧ freed_stays E p0.items id s)
    (hinv : invoke E fn i.id s = some (k, s1))
    (hf : frees E p0.items id e → Action.item_free id ∈ (E.callback fn i.id s.p s.w).1.2) :
    during p0 ({ s1 with trace := s1.trace ++ [e] } : RunState σ).p ∧
      freed_stays E p0.items id { s1 with trace := s1.trace ++ [e] } := by
  obtain ⟨hd0, htr0, _⟩ := invoke_some E fn i.id s s1 k p0 hI.1 hinv
  obtain ⟨hd1, _, _⟩ := invoke_some E fn i.id s s1 k s.p (during_self s.p hI.1.2.2.1) hinv
  refine ⟨hd0, freed_stays_step E p0.items id s _ e hI.2 hd1 ?_ ?_ ?_⟩
  · show s1.trace ++ [e] = s.trace ++ [e]
    rw [htr0]
  · intro hfr
    exact perform_all_frees E _ id _ s.p s1.p hI.1.2.2.1 (hf hfr)
      (invoke_perform E fn i.id s s1 k hinv)
  · intro hdead hc
    rw [he] at hc
    have := hdead i hi (Option.some.inj hc)
    rw [hlive] at this
    exact absurd this (by simp)

/-- In every run an entry that records a call which freed an item finds the
item marked dead at `finish` and is followed by no entry of that item. -/
theorem pa_rtpoll_run_freed {σ : Type} (E : Env σ) (p : pa_rtpoll) (w : σ) (wait_op : Bool)
    (id : Nat) (out : Int × pa_rtpoll × σ × List Event)
    (h : pa_rtpoll_run E p w wait_op = some out) :
    ∃ r s, out = run_finish r s ∧ during (run_entry p w).p s.p ∧
      freed_stays E p.items id s := by
  have hcell : ∀ (s : RunState σ) (i : pa_rtpoll_item), during (run_entry p w).p s.p →
      i ∈ s.p.items → ∃ i0 ∈ p.items, same_cell i0 i := by
    intro s i hd hi
    exact same_cells_mem hd.1 i hi
  refine pa_rtpoll_run_all E
    (fun s => during (run_entry p w).p s.p ∧ freed_stays E (run_entry p w).p.items id s)
    wait_op ?_ ?_ ?_ ?_ p w ⟨during_entry p w, ?_⟩ out h
  · intro s i fn k s1 hi hlive hw hI hinv
    refine freed_stays_invoke E _ id s s1 i fn k _ hi hlive rfl hI hinv ?_
    intro hfr
    obtain ⟨i0, hi0, hc⟩ := hcell s i hI.1 hi
    obtain ⟨_, _, hk⟩ := invoke_some E fn i.id s s1 k _ hI.1 hinv
    exact hfr i0 hi0 hc.1.symm fn (hc.2.2.2.1 ▸ hw) s.p s.w hk.symm
  · intro s i fn k s1 hi hlive hw hI hinv
    refine freed_stays_invoke E _ id s s1 i fn k _ hi hlive rfl hI hinv ?_
    intro hfr
    obtain ⟨i0, hi0, hc⟩ := hcell s i hI.1 hi
    obtain ⟨_, _, hk⟩ := invoke_some E fn i.id s s1 k _ hI.1 hinv
    exact hfr i0 hi0 hc.1.symm fn (hc.2.2.2.2.1 ▸ hw) s.p s.w hk.symm
  · intro s i fn k s1 hi hlive hw hI hinv
    refine freed_stays_invoke E _ id s s1 i fn k _ hi hlive rfl hI hinv ?_
    intro hfr
    obtain ⟨i0, hi0, hc⟩ := hcell s i hI.1 hi
    exact hfr i0 hi0 hc.1.symm fn (hc.2.2.2.2.2.1 ▸ hw) s.p s.w
  · intro s r s1 hI hpl
    have h0 := run_poll_gen E wait_op s (run_entry p w).p hI.1
    have h1 := run_poll_gen E wait_op s s.p (during_self s.p hI.1.2.2.1)
    rw [hpl] at h0 h1
    obtain ⟨q, _, _, hd0, htr, _⟩ := h0
    obtain ⟨_, _, _, hd1, _, _⟩ := h1
    refine ⟨hd0, freed_stays_step E _ id s s1 _ hI.2 hd1 htr ?_ ?_⟩
    · intro hfr
      exact absurd hfr (by simp [frees])
    · intro _ hc
      exact absurd hc (by simp [Event.item])
  · intro T1 e T2 hsplit
    have : ([] : List Event) = T1 ++ e :: T2 := hsplit
    exact absurd this (by simp)

/-- The entries of the trace of a run are system calls and calls of hooks of
items of the list. -/
theorem pa_rtpoll_run_events_of_items {σ : Type} (E : Env σ) (p : pa_rtpoll) (w : σ)
    (wait_op : Bool) (out : Int × pa_rtpoll × σ × List Event)
    (h : pa_rtpoll_run E p w wait_op = some out) :
    ∀ e ∈ out.2.2.2, e.of_items p.items := by
  have hstep : ∀ (s s1 : RunState σ) (i : pa_rtpoll_item) (fn : Nat) (k : Int) (e : Event),
      i ∈ s.p.items → e.item = some i.id →
      (during (run_entry p w).p s.p ∧ ∀ e ∈ s.trace, e.of_items p.items) →
      invoke E fn i.id s = some (k, s1) →
      during (run_entry p w).p ({ s1 with trace := s1.trace ++ [e] } : RunState σ).p ∧
        ∀ e' ∈ ({ s1 with trace := s1.trace ++ [e] } : RunState σ).trace,
          e'.of_items p.items := by
    intro s s1 i fn k e hi he hI hinv
    obtain ⟨hd0, htr0, _⟩ := invoke_some E fn i.id s s1 k _ hI.1 hinv
    refine ⟨hd0, ?_⟩
    intro e' he'
    rcases List.mem_append.1 he' with hm | hm
    · rw [htr0] at hm
      exact hI.2 e' hm
    · rw [List.mem_singleton.1 hm]
      intro j hj
      rw [he] at hj
      obtain ⟨i0, hi0, hc⟩ := same_cells_mem hI.1.1 i hi
      exact ⟨i0, hi0, by rw [← Option.some.inj hj]; exact hc.1.symm⟩
  obtain ⟨r, s, hfin, _, hall⟩ := pa_rtpoll_run_all E
    (fun s => during (run_entry p w).p s.p ∧ ∀ e ∈ s.trace, e.of_items p.items)
    wait_op
    (fun s i fn k s1 hi _ _ hI hinv => hstep s s1 i fn k _ hi rfl hI hinv)
    (fun s i fn k s1 hi _ _ hI hinv => hstep s s1 i fn k _ hi rfl hI hinv)
    (fun s i fn k s1 hi _ _ hI hinv => hstep s s1 i fn k _ hi rfl hI hinv)
    (by
      intro s r s1 hI hpl
      have h0 := run_poll_gen E wait_op s (run_entry p w).p hI.1
      rw [hpl] at h0
      obtain ⟨q, _, _, hd0, htr, _⟩ := h0
      refine ⟨hd0, ?_⟩
      intro e' he'
      rw [htr] at he'
      rcases List.mem_append.1 he' with hm | hm
      · exact hI.2 e' hm
      · rw [List.mem_singleton.1 hm]
        intro j hj
        exact absurd hj (by simp [Event.item]))
    p w ⟨during_entry p w, fun e he => absurd he (List.not_mem_nil _)⟩ out h
  rw [hfin, (run_finish_spec r s).2.1]
  exact hall

/-- A run on an rtpoll without an item at the address `id` calls no hook of
such an item. -/
theorem pa_rtpoll_run_gone {σ : Type} (E : Env σ) (p : pa_rtpoll) (w : σ) (wait_op : Bool)
    (id : Nat) (out : Int × pa_rtpoll × σ × List Event) (hg : item_gone p id)
    (h : pa_rtpoll_run E p w wait_op = some out) :
    (∀ e ∈ out.2.2.2, e.item ≠ some id) ∧ item_gone out.2.1 id := by
  refine ⟨?_, ?_⟩
  · intro e he hc
    obtain ⟨i, hi, hid⟩ := pa_rtpoll_run_events_of_items E p w wait_op out h e he id hc
    exact hg i hi hid
  · obtain ⟨r0, s, hfin, hd, _⟩ := pa_rtpoll_run_shape E p w wait_op out h
    obtain ⟨_, _, _, _, _, _, hsub, _⟩ := run_finish_spec r0 s
    rw [hfin]
    intro i' hi' hid'
    obtain ⟨i0, hi0, hc⟩ := same_cells_mem hd.1 i' (hsub.subset hi')
    exact hg i0 hi0 (hc.1 ▸ hid')

theorem item_gone_map (p : pa_rtpoll) (id : Nat) (f : pa_rtpoll_item → pa_rtpoll_item)
    (hf : ∀ j, (f j).id = j.id) (hg : item_gone p id) :
    item_gone { p with items := p.items.map f } id := by
  intro i hi
  simp only [List.mem_map] at hi
  obtain ⟨j, hj, rfl⟩ := hi
  rw [hf]
  exact hg j hj

theorem item_gone_set_callback (NEVER : Int) (p q : pa_rtpoll) (id id' : Nat)
    (set : pa_rtpoll_item → pa_rtpoll_item) (hset : ∀ j, (set j).id = j.id)
    (hg : item_gone p id) (hq : pa_rtpoll_item_set_callback NEVER p id' set = some q) :
    item_gone q id := by
  unfold pa_rtpoll_item_set_callback at hq
  cases hf : p.items.find? (fun i => decide (i.id = id')) with
  | none => rw [hf] at hq; exact absurd hq (by simp)
  | some i =>
    rw [hf] at hq
    simp only [] at hq
    split at hq
    · simp only [Option.some.injEq] at hq
      rw [← hq]
      refine item_gone_map p id _ ?_ hg
      intro j
      by_cases hj : j.id = id'
      · rw [if_pos hj]; exact hset j
      · rw [if_neg hj]
    · exact absurd hq (by simp)

/-- A call of the owner other than the creation of an item at the address
`id` leaves the list without an item at that address. -/
theorem item_gone_apply_op {σ : Type} (E : Env σ) (p : pa_rtpoll) (w : σ) (op : Op) (id : Nat)
    (out : pa_rtpoll × σ) (hg : item_gone p id) (hop : op.keeps_gone id = true)
    (hout : apply_op E p w op = some out) : item_gone out.1 id := by
  cases op with
  | item_new id' prio n_fds =>
    simp only [apply_op] at hout
    split at hout
    · exact absurd hout (by simp)
    · simp only [Option.some.injEq] at hout
      rw [← hout]
      have hne : id' ≠ id := by simpa [Op.keeps_gone] using hop
      have hmem : ∀ i ∈ (pa_rtpoll_item_new p id' prio n_fds).items, i.id = id' ∨ i ∈ p.items := by
        intro i hi
        have hi' : i ∈ llist_insert
            { id := id', dead := false, priority := prio, pollfd := none, n_pollfd := n_fds,
              work_cb := none, before_cb := none, after_cb := none, userdata := 0 } p.items := by
          unfold pa_rtpoll_item_new at hi
          simp only [] at hi
          split at hi <;> exact hi
        rcases List.mem_cons.1 ((llist_insert_perm _ _).mem_iff.1 hi') with he | he
        · left; rw [he]
        · right; exact he
      intro i hi
      rcases hmem i hi with he | he
      · rw [he]; exact hne
      · exact hg i he
  | item_free id' =>
    simp only [apply_op, Option.some.injEq] at hout
    rw [← hout]
    unfold pa_rtpoll_item_free
    split
    · refine item_gone_map p id _ ?_ hg
      intro j
      split <;> rfl
    · split
      · rename_i i hf
        intro j hj
        exact hg j (List.mem_of_mem_erase hj)
      · exact hg
  | item_get_pollfd id' =>
    simp only [apply_op, Option.map_eq_some'] at hout
    obtain ⟨⟨p', o, n⟩, hgp, rfl⟩ := hout
    rcases get_pollfd_cases p p' id' o n hgp with rfl | hr
    · exact hg
    · have := rtpoll_rebuild_gen p
      rw [hr] at this
      intro i' hi'
      obtain ⟨i, hi, hs⟩ := same_hooks_mem this.1 i' hi'
      rw [hs.1]
      exact hg i hi
  | item_set_work_callback id' cb =>
    simp only [apply_op, Option.map_eq_some'] at hout
    obtain ⟨q, hq, rfl⟩ := hout
    exact item_gone_set_callback E.PA_RTPOLL_NEVER p q id id'
      (fun j => { j with work_cb := cb }) (fun j => rfl) hg hq
  | item_set_before_callback id' cb =>
    simp only [apply_op, Option.map_eq_some'] at hout
    obtain ⟨q, hq, rfl⟩ := hout
    exact item_gone_set_callback E.PA_RTPOLL_NEVER p q id id'
      (fun j => { j with before_cb := cb }) (fun j => rfl) hg hq
  | item_set_after_callback id' cb =>
    simp only [apply_op, Option.map_eq_some'] at hout
    obtain ⟨q, hq, rfl⟩ := hout
    exact item_gone_set_callback E.PA_RTPOLL_NEVER p q id id'
      (fun j => { j with after_cb := cb }) (fun j => rfl) hg hq
  | item_set_userdata id' userdata =>
    simp only [apply_op, Option.some.injEq] at hout
    rw [← hout]
    refine item_gone_map p id _ ?_ hg
    intro j
    split <;> rfl
  | set_timer_absolute usec =>
    simp only [apply_op, Option.some.injEq] at hout
    rw [← hout]
    exact hg
  | set_timer_relative usec =>
    simp only [apply_op, Option.map_eq_some'] at hout
    obtain ⟨q, hq, rfl⟩ := hout
    unfold pa_rtpoll_set_timer_relative at hq
    split at hq
    · simp only [Option.some.injEq] at hq
      rw [← hq]
      exact hg
    · exact absurd hq (by simp)
  | set_timer_disabled =>
    simp only [apply_op, Option.some.injEq] at hout
    rw [← hout]
    exact hg
  | quit =>
    simp only [apply_op, Option.some.injEq] at hout
    rw [← hout]
    exact hg
  | run wait_op =>
    simp only [apply_op, Option.map_eq_some'] at hout
    obtain ⟨r, hr, rfl⟩ := hout
    exact (pa_rtpoll_run_gone E p w wait_op id r hg hr).2

/-- No sequence of calls of the owner that creates no item at the address
`id` brings an item to that address. -/
theorem item_gone_run_ops {σ : Type} (E : Env σ) (id : Nat) (ops : List Op) :
    ∀ (s out : pa_rtpoll × σ), item_gone s.1 id → (∀ op ∈ ops, op.keeps_gone id = true) →
      run_ops E ops s = some out → item_gone out.1 id := by
  induction ops with
  | nil =>
    intro s out h _ hout
    simp only [run_ops, Option.some.injEq] at hout
    rw [← hout]; exact h
  | cons op rest ih =>
    intro s out h hops hout
    simp only [run_ops] at hout
    cases ha : apply_op E s.1 s.2 op with
    | none => rw [ha] at hout; exact absurd hout (by simp)
    | some s' =>
      rw [ha] at hout
      exact ih s' out
        (item_gone_apply_op E s.1 s.2 op id s' h (hops op (List.mem_cons_self _ _)) ha)
        (fun o ho => hops o (List.mem_cons_of_mem _ ho)) hout

/-- C29. Once `pa_rtpoll_item_free` has been called on an item during a
`pa_rtpoll_run`, none of the hooks of that item (`work_cb`, `before_cb`,
`after_cb`) is called again. A run entered between two calls of the owner,
with callbacks whose API calls pass their assertions, returns; whatever of its
trace follows an entry of a call that freed the item, be it the rest of the
loops or the backward loop after a refusing `before_cb`, has no entry of that
item; after the run the list has no item at that address; and as long as the
owner creates no new item at that address the list has none, and no later run
has an entry of that item. -/
theorem pa_rtpoll_item_free_silences {σ : Type} (E : Env σ) (p : pa_rtpoll) (w : σ)
    (wait_op : Bool) (id : Nat) (hp : between_calls p) (hsafe : calls_safe E) :
    ∃ out, pa_rtpoll_run E p w wait_op = some out ∧
      ∀ T1 e T2, out.2.2.2 = T1 ++ e :: T2 → frees E p.items id e →
        (∀ e' ∈ T2, e'.item ≠ some id) ∧ item_gone out.2.1 id ∧
        ∀ ops p2 w2, (∀ op ∈ ops, op.keeps_gone id = true) →
          run_ops E ops (out.2.1, out.2.2.1) = some (p2, w2) →
          item_gone p2 id ∧
          ∀ wait2 out2, pa_rtpoll_run E p2 w2 wait2 = some out2 →
            ∀ e' ∈ out2.2.2.2, e'.item ≠ some id := by
  obtain ⟨out, hout, _⟩ := pa_rtpoll_run_total E p w wait_op hp.1 hsafe hp.2.2.2
  refine ⟨out, hout, ?_⟩
  obtain ⟨r, s, hfin, hd, hfs⟩ := pa_rtpoll_run_freed E p w wait_op id out hout
  obtain ⟨_, htr, _, _, _, _, _, hsweep⟩ := run_finish_spec r s
  intro T1 e T2 hsplit hfr
  rw [hfin, htr] at hsplit
  obtain ⟨hdead, hnone⟩ := hfs T1 e T2 hsplit hfr
  have hscan : dead_scanned (run_entry p w).p := by
    intro ⟨i, hi, hdd⟩
    have := hp.2.1 i hi
    rw [this] at hdd
    exact absurd hdd (by simp)
  have hgone : item_gone out.2.1 id := by
    rw [hfin]
    intro i hi hid
    rw [(hsweep (hd.2.2.2 hscan)).1] at hi
    obtain ⟨him, hlv⟩ := List.mem_filter.1 hi
    rw [hdead i him hid] at hlv
    exact absurd hlv (by simp)
  refine ⟨hnone, hgone, ?_⟩
  intro ops p2 w2 hops hrun
  have hg2 := item_gone_run_ops E id ops (out.2.1, out.2.2.1) (p2, w2) hgone hops hrun
  exact ⟨hg2, fun wait2 out2 h2 => (pa_rtpoll_run_gone E p2 w2 wait2 id out2 hg2 h2).1⟩

/-! ## The statements at concrete inputs, continued -/

/-- A stream at full scale mixed with a muted stream, whose bytes are
exchanged; a shorter muted stream cuts the mix. -/
theorem pa_mix_muted_samples_ignored_witness :
    (0 < 4 ∧
      List.Forall₂ (same_unmuted (pa_sample_size pa_sample_format.S16LE) 2)
        [ex_loud, ex_silenced [1, 2, 3, 4]] [ex_loud, ex_silenced [5, 6, 7, 8]]) ∧
    pa_mix ex_build [ex_loud, ex_silenced [5, 6, 7, 8]] (ex_mem []) 4
        ⟨pa_sample_format.S16LE, 44100, 2⟩ 0x10000 =
      pa_mix ex_build [ex_loud, ex_silenced [1, 2, 3, 4]] (ex_mem []) 4
        ⟨pa_sample_format.S16LE, 44100, 2⟩ 0x10000 ∧
    (pa_mix ex_build [ex_loud, ex_silenced [1, 2, 3, 4]] (ex_mem []) 4
        ⟨pa_sample_format.S16LE, 44100, 2⟩ 0x10000).map (fun r => (r.1, bytes_of r.2 4)) =
      some (4, [0xFF, 0x7F, 0xFF, 0x7F]) ∧
    (pa_mix ex_build [ex_loud, ex_silenced [1, 2]] (ex_mem []) 4
        ⟨pa_sample_format.S16LE, 44100, 2⟩ 0x10000).map (fun r => (r.1, bytes_of r.2 4)) =
      some (2, [0xFF, 0x7F, 0, 0]) :=
  have hs : List.Forall₂ (same_unmuted (pa_sample_size pa_sample_format.S16LE) 2)
      [ex_loud, ex_silenced [1, 2, 3, 4]] [ex_loud, ex_silenced [5, 6, 7, 8]] :=
    List.Forall₂.cons ⟨rfl, rfl, rfl, fun _ _ _ _ => rfl⟩
      (List.Forall₂.cons ⟨rfl, rfl, rfl, fun _ hk => absurd rfl hk⟩ List.Forall₂.nil)
  ⟨⟨by decide, hs⟩,
   (pa_mix_muted_samples_ignored ex_build [ex_loud, ex_silenced [1, 2, 3, 4]]
     [ex_loud, ex_silenced [5, 6, 7, 8]] (ex_mem []) 4 ⟨pa_sample_format.S16LE, 44100, 2⟩
     0x10000 (Or.inl rfl) (by decide) hs).1,
   by decide, by decide⟩

/-- A rewind request of 8192 bytes with 100 ms, that is 17640 bytes, rendered
ahead of the clock. -/
theorem process_rewind_spec_witness :
    0 < (ex_userdata 8192).sink.rewind_nbytes ∧
    ex_sink_env.pa_usec_to_bytes ((ex_userdata 8192).timestamp - 1000000)
      (ex_userdata 8192).sink.sample_spec = 17640 ∧
    ex_sink_env.pa_bytes_to_usec 8192 (ex_userdata 8192).sink.sample_spec = 46439 ∧
    ∃ u' w' calls, process_rewind ex_sink_env (ex_userdata 8192) 1000000 () =
        some (u', w', calls) ∧
      u'.sink.rewind_nbytes = 0 ∧ calls = [SinkCall.process_rewind 8192] ∧
      u'.timestamp = 1100000 - 46439 := by
  obtain ⟨u', w', calls, h, h0, _, _, _, _, hrew⟩ :=
    process_rewind_spec ex_sink_env (ex_userdata 8192) 1000000 () (by decide)
  obtain ⟨_, _, _, hexact, h8192⟩ := hrew (by decide) (by decide)
  exact ⟨by decide, by decide, by decide, u', w', calls, h, h0, h8192 rfl (by decide),
    (hexact (by decide) (by decide)).trans (by decide)⟩

/-- The rewind of 8192 bytes takes the timestamp from 1100000 back by 46439
microseconds, not behind the clock at 1000000. -/
theorem process_rewind_not_behind_clock_witness :
    (0 < (ex_userdata 8192).sink.rewind_nbytes ∧
      (ex_userdata 8192).timestamp < 18446744073709551616) ∧
    ∃ u' w' calls, process_rewind ex_sink_env (ex_userdata 8192) 1000000 () =
        some (u', w', calls) ∧
      min (ex_userdata 8192).timestamp 1000000 ≤ u'.timestamp ∧
      u'.timestamp ≤ (ex_userdata 8192).timestamp ∧
      (1000000 < (ex_userdata 8192).timestamp → 1000000 ≤ u'.timestamp) ∧
      ∀ n, calls = [SinkCall.process_rewind n] →
        pa_bytes_to_usec n (ex_userdata 8192).sink.sample_spec ≤
          (ex_userdata 8192).timestamp - 1000000 ∧
        u'.timestamp = (ex_userdata 8192).timestamp -
          pa_bytes_to_usec n (ex_userdata 8192).sink.sample_spec :=
  ⟨⟨by decide, by decide⟩,
   process_rewind_not_behind_clock ex_sink_env (ex_userdata 8192) 1000000 ()
     (fun _ _ => rfl) (fun _ _ => rfl) (by decide) (by decide)⟩

/-- A rendering of a block of 8820 bytes in chunks of 4096 bytes: three
chunks, 12288 bytes, and the timestamp 69657 microseconds further. -/
theorem process_render_spec_witness :
    ((∀ w, 1 ≤ (ex_sink_env.pa_sink_render
          (ex_sink_env.pa_usec_to_bytes (ex_userdata 0).block_usec
            (ex_userdata 0).sink.sample_spec) w).1.length ∧
        (ex_sink_env.pa_sink_render
          (ex_sink_env.pa_usec_to_bytes (ex_userdata 0).block_usec
            (ex_userdata 0).sink.sample_spec) w).1.length ≤
          ex_sink_env.pa_usec_to_bytes (ex_userdata 0).block_usec
            (ex_userdata 0).sink.sample_spec) ∧
      ex_sink_env.pa_usec_to_bytes (ex_userdata 0).block_usec
        (ex_userdata 0).sink.sample_spec ≤ 8820 ∧
      (ex_userdata 0).timestamp < 18446744073709551616) ∧
    (∃ u' w' chunks, process_render ex_sink_env 8820 (ex_userdata 0) 1100000 () =
        some (u', chunks_bytes chunks, w', render_calls 8820 chunks) ∧
      chunks.length ≤ 8820 ∧ chunks_bytes chunks < 2 * 8820 ∧
      u'.timestamp = wrap64 (((ex_userdata 0).timestamp : Int) +
        (chunks_usec ex_sink_env (ex_userdata 0).sink.sample_spec chunks : Nat))) ∧
    (process_render ex_sink_env 8820 (ex_userdata 0) 1100000 ()).map
        (fun r => (r.1.timestamp, r.2.1, (rendered r.2.2.2).length,
          (released r.2.2.2).length)) = some (1169657, 12288, 3, 3) := by
  have hchunk : ∀ w, 1 ≤ (ex_sink_env.pa_sink_render
        (ex_sink_env.pa_usec_to_bytes (ex_userdata 0).block_usec
          (ex_userdata 0).sink.sample_spec) w).1.length ∧
      (ex_sink_env.pa_sink_render
        (ex_sink_env.pa_usec_to_bytes (ex_userdata 0).block_usec
          (ex_userdata 0).sink.sample_spec) w).1.length ≤
        ex_sink_env.pa_usec_to_bytes (ex_userdata 0).block_usec
          (ex_userdata 0).sink.sample_spec :=
    fun _ => ⟨show 1 ≤ 4096 by decide, show 4096 ≤ 8820 by decide⟩
  obtain ⟨u', w', chunks, h, _, hn, _, _, ht, _, ha, _⟩ :=
    process_render_spec ex_sink_env 8820 (ex_userdata 0) 1100000 () hchunk (by decide)
      (by decide)
  exact ⟨⟨hchunk, by decide, by decide⟩, ⟨u', w', chunks, h, hn, ha, ht⟩, by decide⟩

/-- The two messages on a sink whose timestamp is 100 ms ahead of the
clock. -/
theorem sink_process_msg_spec_witness :
    ex_sink_env.PA_SINK_MESSAGE_SET_STATE ≠ ex_sink_env.PA_SINK_MESSAGE_GET_LATENCY ∧
    (sink_process_msg ex_sink_env (ex_userdata 0) ex_sink_env.PA_SINK_MESSAGE_GET_LATENCY
      0 0 none ()).stored = some 100000 ∧
    (sink_process_msg ex_sink_env (ex_userdata 0) ex_sink_env.PA_SINK_MESSAGE_GET_LATENCY
      0 0 none ()).ret = 0 ∧
    (sink_process_msg ex_sink_env (ex_userdata 0) ex_sink_env.PA_SINK_MESSAGE_GET_LATENCY
      0 0 none ()).u = ex_userdata 0 ∧
    (sink_process_msg ex_sink_env (ex_userdata 0) ex_sink_env.PA_SINK_MESSAGE_SET_STATE
      ex_sink_env.PA_SINK_RUNNING 0 none ()).u.timestamp = 1000000 ∧
    (sink_process_msg ex_sink_env (ex_userdata 0) ex_sink_env.PA_SINK_MESSAGE_SET_STATE
      1 0 none ()).u.timestamp = 1100000 := by
  have h := sink_process_msg_spec ex_sink_env (ex_userdata 0) 0 0 none () (by decide)
  have h2 := sink_process_msg_spec ex_sink_env (ex_userdata 0) ex_sink_env.PA_SINK_RUNNING 0
    none () (by decide)
  have h1 := sink_process_msg_spec ex_sink_env (ex_userdata 0) 1 0 none () (by decide)
  exact ⟨by decide, h.1.1.trans (by decide), h.1.2.2.1, h.1.2.2.2.2.1,
    h2.2.2.1 rfl, (h1.2.1).trans (by decide)⟩

/-- The callbacks of `ex_env_eintr` make no API call. -/
theorem ex_env_eintr_safe : calls_safe ex_env_eintr := by
  intro fn id p w a ha
  simp [ex_env_eintr, ex_env] at ha

/-- The flag after a run whose poll is interrupted, after a run without wait
whose poll reports no event, and after a run that a `work_cb` ends early. -/
theorem pa_rtpoll_run_timer_elapsed_witness :
    (ex_rtpoll.running = false ∧ calls_safe ex_env_eintr ∧
      ex_rtpoll.n_pollfd_used = (ex_rtpoll.items.map (fun i => i.n_pollfd)).sum) ∧
    (∃ r p' w' trace, pa_rtpoll_run ex_env_eintr ex_rtpoll () true = some (r, p', w', trace) ∧
      (pa_rtpoll_timer_elapsed p' = true ↔
        (∃ e ∈ trace, e.is_poll = true) ∧
          ∃ res, poll_report ex_env_eintr ex_rtpoll () true = some res ∧ res.r = 0) ∧
      ((∃ e ∈ trace, e.is_poll = true) ↔
        (poll_report ex_env_eintr ex_rtpoll () true).isSome = true) ∧
      ((∀ e ∈ trace, e.is_poll = false) → pa_rtpoll_timer_elapsed p' = false) ∧
      (∀ res, poll_report ex_env_eintr ex_rtpoll () true = some res → res.r < 0 →
        pa_rtpoll_timer_elapsed p' = false ∧
        (res.errno = ex_env_eintr.EAGAIN ∨ res.errno = ex_env_eintr.EINTR →
          r = if p'.quit then 0 else 1)) ∧
      (∀ res, poll_report ex_env_eintr ex_rtpoll () true = some res → res.r = 0 →
        pa_rtpoll_timer_elapsed p' = true ∧ r = if p'.quit then 0 else 1)) ∧
    (pa_rtpoll_run ex_env_eintr ex_rtpoll () true).map
        (fun r => (r.1, pa_rtpoll_timer_elapsed r.2.1)) = some (1, false) ∧
    (pa_rtpoll_run ex_env ex_rtpoll () false).map
        (fun r => (r.1, pa_rtpoll_timer_elapsed r.2.1)) = some (1, true) ∧
    (pa_rtpoll_run ex_env_restart ex_rtpoll4 () true).map
        (fun r => (r.1, pa_rtpoll_timer_elapsed r.2.1)) = some (1, false) :=
  ⟨⟨rfl, ex_env_eintr_safe, by decide⟩,
   pa_rtpoll_run_timer_elapsed ex_env_eintr ex_rtpoll () true rfl ex_env_eintr_safe
     (by decide), by decide, by decide, by decide⟩

/-- The callback 100 of `ex_env_msgq` on the read item is the hook. -/
theorem ex_read_item_hook : is_read_work ex_env_msgq ex_msg_env 100 ex_read_item :=
  fun _ _ => rfl

/-- The read item with the request to shut down at the head of its queue: the
run calls the hook once, acknowledges with 0, and returns 0 with quit set. A
message to the object 3 with the code 42 is dispatched and acknowledged. -/
theorem asyncmsgq_read_work_spec_witness :
    is_read_work ex_env_msgq ex_msg_env 100 ex_read_item ∧
    shutdown_next ex_msg_env ex_read_item.userdata ([ex_shutdown], []) ∧
    (∃ p', pa_rtpoll_run ex_env_msgq ex_rtpoll_msgq ([ex_shutdown], []) true =
        some (0, p', ([], [0]), [Event.work 1 1]) ∧ p'.quit = true) ∧
    ((asyncmsgq_read_work ex_msg_env ex_read_item
        ([⟨some 3, 42, 0, 0, none⟩], [])).2.2.filter MsgCall.is_done).length = 1 ∧
    (asyncmsgq_read_work ex_msg_env ex_read_item ([⟨some 3, 42, 0, 0, none⟩], [])).2.1.2 =
      [1042] ∧
    ((asyncmsgq_read_work ex_msg_env ex_read_item ([], [])).2.2.filter
      MsgCall.is_done).length = 0 := by
  have h := asyncmsgq_read_work_spec ex_env_msgq ex_msg_env ex_read_item 100 ex_read_item_hook
  have hnext : shutdown_next ex_msg_env ex_read_item.userdata ([ex_shutdown], []) :=
    ⟨rfl, rfl, rfl⟩
  refine ⟨ex_read_item_hook, hnext, ?_, ?_, ?_, ?_⟩
  · exact h.2.2 ex_rtpoll_msgq ([ex_shutdown], []) true 0 rfl rfl rfl (by decide) rfl rfl
      (fun j hj => absurd hj (Nat.not_lt_zero j)) hnext
  · exact (h.1 ([⟨some 3, 42, 0, 0, none⟩], [])).1
  · have e := ((h.1 ([⟨some 3, 42, 0, 0, none⟩], [])).2.2.2 rfl (by decide)).1
    rw [e]
    rfl
  · exact (h.1 ([], [])).1

/-- The API call of the callbacks of `ex_env_free_refuse` has no assertion. -/
theorem ex_env_free_refuse_safe : calls_safe ex_env_free_refuse := by
  intro fn id p w a ha
  simp only [ex_env_free_refuse] at ha
  split at ha
  · simp only [List.mem_singleton] at ha
    rw [ha]; rfl
  · split at ha <;> simp at ha

/-- The `before_cb` of item 2 of `ex_rtpoll_free` frees item 3 whenever it is
called. -/
theorem ex_env_free_refuse_frees :
    frees ex_env_free_refuse ex_rtpoll_free.items 3 (Event.before 2 0) := by
  intro i hi hid fn hfn p w _
  have hi' : i = ⟨3, false, 1, none, 0, none, none, some 300, 0⟩ ∨
      i = ⟨2, false, 2, none, 0, none, some 200, none, 0⟩ ∨
      i = ⟨1, false, 3, none, 0, none, some 200, none, 0⟩ := by
    simpa [ex_rtpoll_free] using hi
  rcases hi' with h | h | h
  · rw [h] at hid; exact absurd hid (by decide)
  · rw [h] at hfn
    have e : fn = 200 := (Option.some.inj hfn).symm
    rw [e]
    simp [ex_env_free_refuse]
  · rw [h] at hid; exact absurd hid (by decide)

/-- Item 3 is freed by the `before_cb` of item 2, and the `before_cb` of item
1 refuses: the backward loop does not call the `after_cb` of item 3, and the
item is gone after the run. -/
theorem pa_rtpoll_item_free_silences_witness :
    (between_calls ex_rtpoll_free ∧ calls_safe ex_env_free_refuse) ∧
    frees ex_env_free_refuse ex_rtpoll_free.items 3 (Event.before 2 0) ∧
    (∃ out, pa_rtpoll_run ex_env_free_refuse ex_rtpoll_free () true = some out ∧
      ∀ T1 e T2, out.2.2.2 = T1 ++ e :: T2 →
        frees ex_env_free_refuse ex_rtpoll_free.items 3 e →
        (∀ e' ∈ T2, e'.item ≠ some 3) ∧ item_gone out.2.1 3 ∧
        ∀ ops p2 w2, (∀ op ∈ ops, op.keeps_gone 3 = true) →
          run_ops ex_env_free_refuse ops (out.2.1, out.2.2.1) = some (p2, w2) →
          item_gone p2 3 ∧
          ∀ wait2 out2, pa_rtpoll_run ex_env_free_refuse p2 w2 wait2 = some out2 →
            ∀ e' ∈ out2.2.2.2, e'.item ≠ some 3) ∧
    (pa_rtpoll_run ex_env_free_refuse ex_rtpoll_free () true).map
        (fun r => (r.1, r.2.2.2, r.2.1.items.map (fun i => i.id))) =
      some (1, [Event.before 2 0, Event.before 1 1], [2, 1]) ∧
    (pa_rtpoll_run ex_env ex_rtpoll_free () true).map (fun r => r.2.2.2) =
      some [Event.before 2 0, Event.before 1 0, Event.poll 0 none, Event.after 3] :=
  have hb : between_calls ex_rtpoll_free := ⟨rfl, by decide, by decide, by decide⟩
  ⟨⟨hb, ex_env_free_refuse_safe⟩, ex_env_free_refuse_frees,
   pa_rtpoll_item_free_silences ex_env_free_refuse ex_rtpoll_free () true 3 hb
     ex_env_free_refuse_safe, by decide, by decide⟩

end PA
